import Mathlib

/-!
The scmag magnitude engine (`apps/processing/scmag/magtool.cpp`).

Shallow embedding of `Seiscomp::Magnitudes::MagTool` and verification of its
specification.

Conventions of the embedding
* `double` values are rationals (`ℚ`) and their arithmetic is exact; the
  rounding of binary64 arithmetic is modelled for the sums of the summary
  magnitude in the section on double arithmetic. `Core::Time` is an integer
  time stamp.
* An optional attribute of the data model (an accessor that throws
  `ValueException` when the attribute is unset) is an `Option` field.
* `std::map` / `std::set` with string keys are association lists kept in
  ascending key order; `std::multimap` is a list in insertion order, and
  `equal_range` filters it.
* A pointer to a child object of an origin is the index of the child in the
  origin's child list (children are only ever appended).
-/

namespace Magnitudes

/-! ## Containers -/

/-- Key order of `std::string`: lexicographic on the characters. -/
def keyLess (a b : String) : Bool := decide (a.data < b.data)

/-- Ordered map with unique string keys, the embedding of `std::map<std::string, V>`. -/
abbrev StdMap (V : Type) := List (String × V)

/-- Lookup `m.find(key)`; `none` stands for `m.end()`. -/
def StdMap.find {V : Type} : StdMap V → String → Option V
  | [], _ => none
  | (k, v) :: rest, key => if k = key then some v else StdMap.find rest key

/-- Assignment `m[key] = v`: overwrites an existing entry, otherwise inserts at
the position that keeps the keys ascending. -/
def StdMap.assign {V : Type} : StdMap V → String → V → StdMap V
  | [], key, v => [(key, v)]
  | (k, w) :: rest, key, v =>
    if keyLess key k then (key, v) :: (k, w) :: rest
    else if key = k then (k, v) :: rest
    else (k, w) :: StdMap.assign rest key v

/-- Insertion `s.insert(key)` into a `std::set<std::string>`. -/
def setInsert : List String → String → List String
  | [], key => [key]
  | k :: rest, key =>
    if keyLess key k then key :: k :: rest
    else if key = k then k :: rest
    else k :: setInsert rest key

/-! ## Data model (the attributes the engine reads or writes) -/

inductive EvaluationMode where
  | MANUAL
  | AUTOMATIC
  deriving DecidableEq, Repr

inductive EvaluationStatus where
  | PRELIMINARY
  | CONFIRMED
  | REVIEWED
  | FINAL
  | REJECTED
  | REPORTED
  deriving DecidableEq, Repr

structure WaveformStreamID where
  networkCode : String
  stationCode : String
  locationCode : String
  channelCode : String
  deriving DecidableEq, Repr

structure CreationInfo where
  agencyID : String := ""
  author : String := ""
  creationTime : Option Int := none
  modificationTime : Option Int := none
  deriving DecidableEq, Repr

structure RealQuantity where
  value : ℚ
  uncertainty : Option ℚ := none
  lowerUncertainty : Option ℚ := none
  upperUncertainty : Option ℚ := none
  confidenceLevel : Option ℚ := none
  deriving DecidableEq, Repr

structure Pick where
  publicID : String
  time : Int
  waveformID : WaveformStreamID
  creationInfo : Option CreationInfo := none
  deriving DecidableEq, Repr

structure Amplitude where
  publicID : String
  type : String
  amplitude : Option ℚ := none
  period : Option ℚ := none
  pickID : String
  waveformID : WaveformStreamID
  evaluationMode : Option EvaluationMode := none
  creationInfo : Option CreationInfo := none
  deriving DecidableEq, Repr

structure Arrival where
  pickID : String
  phase : String := "P"
  distance : Option ℚ := none
  weight : Option ℚ := none
  deriving DecidableEq, Repr

structure StationMagnitude where
  publicID : String
  type : String := ""
  magnitude : RealQuantity := { value := 0 }
  amplitudeID : String := ""
  waveformID : WaveformStreamID := ⟨"", "", "", ""⟩
  creationInfo : Option CreationInfo := none
  deriving DecidableEq, Repr

structure StationMagnitudeContribution where
  stationMagnitudeID : String
  weight : Option ℚ := none
  deriving DecidableEq, Repr

/-- Network magnitude (`DataModel::Magnitude`, `NetMag` in the source). -/
structure Magnitude where
  publicID : String
  type : String := ""
  magnitude : RealQuantity := { value := 0 }
  methodID : String := ""
  stationCount : Option Int := none
  evaluationStatus : Option EvaluationStatus := none
  creationInfo : Option CreationInfo := none
  contributions : List StationMagnitudeContribution := []
  deriving DecidableEq, Repr

structure Origin where
  publicID : String
  depth : Option ℚ := none
  evaluationStatus : Option EvaluationStatus := none
  creationInfo : Option CreationInfo := none
  arrivals : List Arrival := []
  stationMagnitudes : List StationMagnitude := []
  magnitudes : List Magnitude := []
  deriving DecidableEq, Repr

/-! ## Amplitude priority (lines 72-96) and selection (lines 976-999) -/

/-- The creation time read by `a->creationInfo().creationTime()`; `none` when
either accessor throws. -/
def Amplitude.creationTime (a : Amplitude) : Option Int :=
  match a.creationInfo with
  | some ci => ci.creationTime
  | none => none

/-- Embedding of `hasHigherPriority(candidate, reference)`. -/
def hasHigherPriority (candidate reference : Amplitude) : Bool :=
  let cm := candidate.evaluationMode.getD EvaluationMode.AUTOMATIC
  let rm := reference.evaluationMode.getD EvaluationMode.AUTOMATIC
  if cm ≠ rm ∧ cm = EvaluationMode.MANUAL then true
  else
    match candidate.creationTime, reference.creationTime with
    | some c, some r => decide (c > r)
    | _, _ => false

/-- One iteration of the amplitude loop of `processOrigin` (lines 985-998). -/
def useAmplitude (usedAmplitudes : StdMap Amplitude) (ampl : Amplitude) : StdMap Amplitude :=
  match usedAmplitudes.find ampl.type with
  | none => usedAmplitudes.assign ampl.type ampl
  | some stored_ampl =>
    if hasHigherPriority ampl stored_ampl then usedAmplitudes.assign ampl.type ampl
    else usedAmplitudes

/-- The map `usedAmplitudes` built from the amplitudes of one pick, visited in
index order (lines 981-999). -/
def collectUsedAmplitudes (ampls : List Amplitude) : StdMap Amplitude :=
  ampls.foldl useAmplitude []

/-! ## Host application, libraries and configuration

The engine calls into the host application (`SCCoreApp`), into `dmutil.h`, into
the statistics library and into the magnitude processor plug-ins. None of these
is part of `magtool.cpp`; they are parameters of the embedding. -/

/-- A magnitude processor plug-in (interface of `Processing::MagnitudeProcessor`).
`setup` and `computeMagnitude` see the stream the amplitude was measured on (the
`Settings` object is built from its codes and the static station
configuration). `computeMagnitude` and `estimateMw` yield `some` exactly when
the status is `OK`. -/
structure MagnitudeProcessor where
  type : String
  amplitudeType : String
  typeMw : String
  setup : WaveformStreamID → Bool
  computeMagnitude : WaveformStreamID → ℚ → ℚ → ℚ → ℚ → Option ℚ
  estimateMw : ℚ → Option (ℚ × ℚ)

/-- The database archive handle `SCCoreApp->query()`. Every query is a function
of the public id it is asked about. -/
structure DatabaseQuery where
  getPicks : String → List Pick
  getAmplitudesForOrigin : String → List Amplitude
  getOriginsForAmplitude : String → List (Origin × Option Int)
  getPick : String → Option Pick
  getAmplitude : String → Option Amplitude
  loadArrivals : String → List Arrival
  loadMagnitudes : String → List Magnitude
  loadMagnitude : Magnitude → Magnitude
  loadStationMagnitudes : String → List StationMagnitude
  loadOrigin : Origin → Origin

/-- The host application and the library functions used by the engine. -/
structure App where
  agencyID : String
  author : String
  hasCustomPublicIDPattern : Bool
  generateID : List String → String
  isAgencyIDBlocked : String → Bool
  now : Int
  query : Option DatabaseQuery
  equivalent : WaveformStreamID → WaveformStreamID → Bool
  validArrival : Arrival → ℚ → Bool
  computeTrimmedMean : List ℚ → ℚ → ℚ × ℚ × List ℚ
  median : List ℚ → ℚ
  sqrt : ℚ → ℚ
  toString : ℚ → String

inductive AverageType where
  | Default
  | Mean
  | TrimmedMean
  | Median
  | TrimmedMedian
  deriving DecidableEq, Repr

structure AverageDescription where
  type : AverageType
  parameter : ℚ := 0
  deriving DecidableEq, Repr

structure SummaryMagnitudeCoefficients where
  a : Option ℚ := none
  b : Option ℚ := none
  deriving DecidableEq, Repr

/-- The default coefficients `_defaultCoefficients`: both fields are engaged by
the constructor (lines 117-118) and the setter never disengages one, so they
are plain values here. -/
structure DefaultCoefficients where
  a : ℚ
  b : ℚ
  deriving DecidableEq, Repr

/-- An object held by the expiring cache. Picks and amplitudes are never
modified by the engine and are stored by value; an origin is stored by its
address, its content lives in `MagTool.heap`. -/
inductive CachedObject where
  | pick (p : Pick)
  | amplitude (a : Amplitude)
  | origin (ptr : Nat)
  deriving DecidableEq, Repr

/-- The members of `MagTool`, together with the two pieces of process-wide
state its methods act on: the origin objects (`heap`, addressed by index) and
the public ids already taken in the `PublicObject` registry (`registry`). -/
structure MagTool where
  summaryMagnitudeEnabled : Bool := true
  summaryMagnitudeType : String := "M"
  summaryMagnitudeMinStationCount : Int := 1
  summaryMagnitudeBlacklist : List String := []
  summaryMagnitudeWhitelist : List String := []
  defaultCoefficients : DefaultCoefficients := ⟨0, 1⟩
  magnitudeCoefficients : StdMap SummaryMagnitudeCoefficients :=
    [("MLv", ⟨none, some 2⟩), ("Mw(Mwp)", ⟨some (2/5), some (-1)⟩),
     ("Mw(mB)", ⟨some (2/5), some (-1)⟩)]
  magnitudeAverageMethods : StdMap AverageDescription := []
  minimumArrivalWeight : ℚ := 1/2
  cacheSize : Int := 0
  processors : List MagnitudeProcessor := []
  dbAccesses : Nat := 0
  objectCache : List CachedObject := []
  ampl : List (String × Amplitude) := []
  orgs : List (String × List Nat) := []
  heap : List Origin := []
  registry : List String := []

/-- An origin being modified, with the registry of public ids in use. -/
structure OriginCtx where
  origin : Origin
  registry : List String

/-- Embedding of `setSummaryMagnitudeDefaultCoefficients` (lines 157-160). -/
def MagTool.setSummaryMagnitudeDefaultCoefficients (self : MagTool)
    (c : SummaryMagnitudeCoefficients) : MagTool :=
  { self with defaultCoefficients :=
      ⟨c.a.getD self.defaultCoefficients.a, c.b.getD self.defaultCoefficients.b⟩ }

/-! ## List helpers -/

/-- Apply `f` to the element at position `i`. -/
def modifyAt {α : Type} (f : α → α) : List α → Nat → List α
  | [], _ => []
  | x :: xs, 0 => f x :: xs
  | x :: xs, i + 1 => x :: modifyAt f xs i

/-- Position of the first element satisfying `p`. -/
def firstIndex {α : Type} (p : α → Bool) : List α → Option Nat
  | [] => none
  | x :: xs => if p x then some 0 else (firstIndex p xs).map (· + 1)

/-! ## Upserts (lines 282-446) -/

/-- The effect of `obj->creationInfo().setModificationTime(now)` with its
fallback to a fresh `CreationInfo` (lines 336-341, 432-437). -/
def setModificationTime (ci : Option CreationInfo) (now : Int) : Option CreationInfo :=
  match ci with
  | some c => some { c with modificationTime := some now }
  | none => some { modificationTime := some now }

/-- The public id given to a new station magnitude (lines 303-310). -/
def stationMagnitudeID (origin : Origin) (wfid : WaveformStreamID) (type : String) : String :=
  origin.publicID ++ "#staMag." ++ type ++ "#" ++ wfid.networkCode ++ "." ++ wfid.stationCode

/-- The public id given to a new network magnitude (line 385). -/
def magnitudeID (origin : Origin) (type : String) : String :=
  origin.publicID ++ "#netMag." ++ type

/-- The public id under which `Create` is called: generated by the host when a
custom id pattern is configured, otherwise the id built by the engine. -/
def App.objectID (app : App) (registry : List String) (id : String) : String :=
  if app.hasCustomPublicIDPattern then app.generateID registry else id

/-- The call `Create(id)` yields `NULL`: an object with that public id is
already registered. `Create()` with a generated id always yields an object. -/
def App.createFails (app : App) (registry : List String) (id : String) : Bool :=
  !app.hasCustomPublicIDPattern && decide (id ∈ registry)

/-- The station magnitude set up at lines 317-327 and 363. -/
def App.newStationMagnitude (app : App) (id : String) (wfid : WaveformStreamID)
    (type : String) (value : ℚ) : StationMagnitude :=
  { publicID := id,
    creationInfo := some { creationTime := some app.now, agencyID := app.agencyID,
                           author := app.author },
    type := type, waveformID := wfid, magnitude := { value := value } }

/-- The network magnitude set up at lines 394-402. -/
def App.newMagnitude (app : App) (id : String) (type : String) : Magnitude :=
  { publicID := id,
    creationInfo := some { creationTime := some app.now, agencyID := app.agencyID,
                           author := app.author },
    type := type }

/-- The update of an existing station magnitude (lines 335-345 and 363). -/
def App.updateStationMagnitude (app : App) (value : ℚ) (mag : StationMagnitude) :
    StationMagnitude :=
  { mag with
    creationInfo := setModificationTime mag.creationInfo app.now,
    magnitude := { value := value } }

/-- Embedding of `getStationMagnitude` (lines 282-366). The result is the
position of the returned station magnitude among the origin's station
magnitudes, `none` for `NULL`. -/
def getStationMagnitude (app : App) (c : OriginCtx) (wfid : WaveformStreamID)
    (type : String) (value : ℚ) (update : Bool) : Option Nat × OriginCtx :=
  match firstIndex (fun stamag => app.equivalent stamag.waveformID wfid && decide (stamag.type = type))
      c.origin.stationMagnitudes with
  | some i =>
    if !update then (none, c)
    else
      let stationMagnitudes := modifyAt (app.updateStationMagnitude value) c.origin.stationMagnitudes i
      (some i, { c with origin := { c.origin with stationMagnitudes := stationMagnitudes } })
  | none =>
    let id := app.objectID c.registry (stationMagnitudeID c.origin wfid type)
    if app.createFails c.registry id then (none, c)
    else
      (some c.origin.stationMagnitudes.length,
       { origin := { c.origin with stationMagnitudes :=
           c.origin.stationMagnitudes ++ [app.newStationMagnitude id wfid type value] },
         registry := id :: c.registry })

/-- Embedding of `getMagnitude(origin, type, newInstance)` (lines 369-419): the
position of the returned network magnitude and the `newInstance` flag, `none`
for `NULL`. -/
def getMagnitude (app : App) (c : OriginCtx) (type : String) :
    Option (Nat × Bool) × OriginCtx :=
  match firstIndex (fun nmag => decide (nmag.type = type)) c.origin.magnitudes with
  | none =>
    let id := app.objectID c.registry (magnitudeID c.origin type)
    if app.createFails c.registry id then (none, c)
    else
      (some (c.origin.magnitudes.length, true),
       { origin := { c.origin with magnitudes := c.origin.magnitudes ++ [app.newMagnitude id type] },
         registry := id :: c.registry })
  | some i =>
    match c.origin.magnitudes[i]? with
    | some mag => if mag.evaluationStatus.isSome then (none, c) else (some (i, false), c)
    | none => (none, c)

/-- Replace the network magnitude at position `i` of the origin. -/
def OriginCtx.modifyMagnitude (c : OriginCtx) (i : Nat) (f : Magnitude → Magnitude) : OriginCtx :=
  { c with origin := { c.origin with magnitudes := modifyAt f c.origin.magnitudes i } }

/-- Embedding of `getMagnitude(origin, type, value, newInstance)` (lines 422-446). -/
def getMagnitudeWithValue (app : App) (c : OriginCtx) (type : String) (value : ℚ) :
    Option (Nat × Bool) × OriginCtx :=
  match getMagnitude app c type with
  | (some (i, tmpNewInstance), c1) =>
    (some (i, tmpNewInstance),
     c1.modifyMagnitude i (fun mag =>
       { mag with
         magnitude := { value := value },
         creationInfo :=
           if tmpNewInstance then mag.creationInfo
           else setModificationTime mag.creationInfo app.now }))
  | (none, c1) => (none, c1)

/-! ## Station magnitudes (lines 449-530) -/

/-- One entry of `MagnitudeList`: the magnitude type and the value. -/
abbrev MagnitudeEntry := String × ℚ

/-- The processor loop of `computeStationMagnitude` (lines 498-527). `none` is
the `ValueException` of `ampl->amplitude()` on an amplitude without value. -/
def stationMagnitudeLoop (ampl : Amplitude) (period distance depth : ℚ) :
    List MagnitudeProcessor → List MagnitudeEntry → Option (List MagnitudeEntry)
  | [], mags => some mags
  | proc :: rest, mags =>
    if !proc.setup ampl.waveformID then
      stationMagnitudeLoop ampl period distance depth rest mags
    else
      match ampl.amplitude with
      | none => none
      | some value =>
        match proc.computeMagnitude ampl.waveformID value period distance depth with
        | none => stationMagnitudeLoop ampl period distance depth rest mags
        | some mag =>
          stationMagnitudeLoop ampl period distance depth rest (mags ++ [(proc.type, mag)])

/-- Embedding of `computeStationMagnitude`: the returned flag and the filled
`mags`; `none` when the exception escapes. The per-station parameter lookup
(lines 461-496) only feeds `setup` and is part of the processor parameter. -/
def MagTool.computeStationMagnitude (self : MagTool) (ampl : Amplitude)
    (distance depth : ℚ) : Option (Bool × List MagnitudeEntry) :=
  let period := ampl.period.getD 0
  match stationMagnitudeLoop ampl period distance depth
      (self.processors.filter (fun proc => decide (proc.amplitudeType = ampl.type))) [] with
  | none => none
  | some mags => some (!mags.isEmpty, mags)

/-! ## Network magnitude aggregation (lines 533-696) -/

/-- The outcome of the averaging step: `methodID`, `value`, `stdev`, `weights`. -/
structure Average where
  methodID : String
  value : ℚ
  stdev : ℚ
  weights : List ℚ
  deriving DecidableEq, Repr

/-- The weighted sum of squared deviations and the cumulated weight of the
`TrimmedMedian` branch (lines 616-621). -/
def weightedDeviation (value : ℚ) (weights : List ℚ) : List ℚ → Nat → ℚ × ℚ → ℚ × ℚ
  | [], _, acc => acc
  | m :: rest, i, acc =>
    weightedDeviation value weights rest (i + 1)
      (acc.1 + (m - value) * (m - value) * weights.getD i 0, acc.2 + weights.getD i 0)

/-- The averaging step of `computeMagnitude` for a non-empty `mv` (lines
575-629). `AverageType` has exactly the five alternatives tested by the source,
so its final `else return false` is not reachable. -/
def computeAverage (app : App) (averageMethod : AverageDescription) (mv : List ℚ) : Average :=
  let count := mv.length
  let weights : List ℚ := List.replicate mv.length 1
  match averageMethod.type with
  | AverageType.Default =>
    let trimPercentage : ℚ := if count > 3 then 25 else 0
    let methodID := if count > 3 then "trimmed mean(25)" else "mean"
    let r := app.computeTrimmedMean mv trimPercentage
    ⟨methodID, r.1, r.2.1, r.2.2⟩
  | AverageType.Mean =>
    let r := app.computeTrimmedMean mv 0
    ⟨"mean", r.1, r.2.1, r.2.2⟩
  | AverageType.TrimmedMean =>
    let r := app.computeTrimmedMean mv averageMethod.parameter
    ⟨"trimmed mean(" ++ app.toString averageMethod.parameter ++ ")", r.1, r.2.1, r.2.2⟩
  | AverageType.Median =>
    let value := app.median mv
    let stdev : ℚ :=
      if mv.length > 1 then
        app.sqrt ((mv.map (fun m => (m - value) * (m - value))).sum / ((mv.length : ℚ) - 1))
      else 0
    ⟨"median", value, stdev, weights⟩
  | AverageType.TrimmedMedian =>
    let r := app.computeTrimmedMean mv averageMethod.parameter
    let value := app.median mv
    let d := weightedDeviation value r.2.2 mv 0 (0, 0)
    let stdev : ℚ := if d.2 > 1 then app.sqrt (d.1 / (d.2 - 1)) else 0
    ⟨"trimmed median(" ++ app.toString averageMethod.parameter ++ ")", value, stdev, r.2.2⟩

/-- Upsert of one contribution (lines 641-660): the first contribution that
references `id` gets the weight `w` when its old weight (-1 when unset) differs;
without such a contribution a new one is appended. -/
def upsertContribution :
    List StationMagnitudeContribution → String → ℚ → List StationMagnitudeContribution
  | [], id, w => [{ stationMagnitudeID := id, weight := some w }]
  | magRef :: rest, id, w =>
    if magRef.stationMagnitudeID = id then
      (if magRef.weight.getD (-1) ≠ w then { magRef with weight := some w } else magRef) :: rest
    else magRef :: upsertContribution rest id w

/-- The contribution loop of `computeMagnitude` (lines 631-666): the
contributions of the target and `staCount` after visiting the station
magnitudes from position `weightIndex` on. -/
def reconcileContributions (weights : List ℚ) :
    List StationMagnitude → Nat → List StationMagnitudeContribution → Nat →
    List StationMagnitudeContribution × Nat
  | [], _, contributions, staCount => (contributions, staCount)
  | staMag :: rest, weightIndex, contributions, staCount =>
    reconcileContributions weights rest (weightIndex + 1)
      (upsertContribution contributions staMag.publicID (weights.getD weightIndex 0))
      (if weights.getD weightIndex 0 > 0 then staCount + 1 else staCount)

/-- The configured average method of a type (lines 567-572). -/
def MagTool.averageMethod (self : MagTool) (mtype : String) : AverageDescription :=
  match self.magnitudeAverageMethods.find mtype with
  | none => { type := AverageType.Default }
  | some desc => desc

/-- The station magnitudes `staMags` collected by `computeMagnitude` (lines
538-548). -/
def stationMagnitudesOfType (origin : Origin) (mtype : String) : List StationMagnitude :=
  origin.stationMagnitudes.filter (fun mag => decide (mag.type = mtype))

/-- The values `mv` of the collected station magnitudes (lines 551-563); the
loop tests the type again. -/
def stationMagnitudeValues (origin : Origin) (mtype : String) : List ℚ :=
  ((stationMagnitudesOfType origin mtype).filter (fun staMag => decide (staMag.type = mtype))).map
    (fun staMag => staMag.magnitude.value)

/-- The contributions of the target and `staCount` after the contribution loop
(lines 631-666); the loop tests the type again. -/
def MagTool.reconciled (app : App) (self : MagTool) (c : OriginCtx) (mtype : String)
    (netMag : Nat) : List StationMagnitudeContribution × Nat :=
  let avg := computeAverage app (self.averageMethod mtype) (stationMagnitudeValues c.origin mtype)
  let old : List StationMagnitudeContribution :=
    match c.origin.magnitudes[netMag]? with
    | some nm => nm.contributions
    | none => []
  reconcileContributions avg.weights
    ((stationMagnitudesOfType c.origin mtype).filter (fun staMag => decide (staMag.type = mtype)))
    0 old 0

/-- The origin after the aggregation part of `computeMagnitude` (lines 631-672)
for a non-empty `mv`: contributions, method id, value with standard deviation,
cleared evaluation status and station count of the target. -/
def MagTool.aggregate (app : App) (self : MagTool) (c : OriginCtx) (mtype : String)
    (netMag : Nat) : OriginCtx :=
  let avg := computeAverage app (self.averageMethod mtype) (stationMagnitudeValues c.origin mtype)
  let r := self.reconciled app c mtype netMag
  c.modifyMagnitude netMag (fun nm =>
    { nm with
      contributions := r.1,
      methodID := avg.methodID,
      magnitude := { value := avg.value, uncertainty := some avg.stdev },
      evaluationStatus := none,
      stationCount := some (r.2 : Int) })

/-- The Mw part of `computeMagnitude` (lines 674-696) with its return value. The
processor is looked up in `_processors`, which is keyed by amplitude type, under
the magnitude type. -/
def MagTool.deriveMw (app : App) (self : MagTool) (c1 : OriginCtx) (mtype : String)
    (value stdev : ℚ) (staCount : Nat) : Bool × OriginCtx :=
  match self.processors.find? (fun proc => decide (proc.amplitudeType = mtype)) with
  | none => (false, c1)
  | some proc =>
    match proc.estimateMw value with
    | some (Mw, stdError) =>
      let MwStdev : ℚ := if stdev > stdError then stdev else stdError
      match getMagnitudeWithValue app c1 proc.typeMw Mw with
      | (some (i, _), c2) =>
        (true, c2.modifyMagnitude i (fun nm =>
          { nm with
            stationCount := some (staCount : Int),
            evaluationStatus := none,
            magnitude := { value := nm.magnitude.value, uncertainty := some MwStdev } }))
      | (none, c2) => (true, c2)
    | none => (true, c1)

/-- Embedding of `computeMagnitude(origin, mtype, netMag)`; `netMag` is the
position of the target among the origin's network magnitudes. -/
def MagTool.computeMagnitude (app : App) (self : MagTool) (c : OriginCtx) (mtype : String)
    (netMag : Nat) : Bool × OriginCtx :=
  let mv := stationMagnitudeValues c.origin mtype
  if mv.length = 0 then (false, c)
  else
    let avg := computeAverage app (self.averageMethod mtype) mv
    self.deriveMw app (self.aggregate app c mtype netMag) mtype avg.value avg.stdev
      (self.reconciled app c mtype netMag).2

/-! ## Summary magnitude (lines 699-778, 897-900) -/

/-- Embedding of `isTypeEnabledForSummaryMagnitude`. -/
def MagTool.isTypeEnabledForSummaryMagnitude (self : MagTool) (type : String) : Bool :=
  (if self.summaryMagnitudeWhitelist.isEmpty then true
   else decide (type ∈ self.summaryMagnitudeWhitelist)) &&
  (if self.summaryMagnitudeBlacklist.isEmpty then true
   else decide (type ∉ self.summaryMagnitudeBlacklist))

/-- The running `value`, `totalWeight` and `count` of the summary loop. -/
structure SummaryAccumulator where
  value : ℚ
  totalWeight : ℚ
  count : Int
  deriving DecidableEq, Repr

/-- The coefficient `a` used for a type (lines 717-721). -/
def MagTool.coefficientA (self : MagTool) (type : String) : ℚ :=
  match self.magnitudeCoefficients.find type with
  | some c => c.a.getD self.defaultCoefficients.a
  | none => self.defaultCoefficients.a

/-- The coefficient `b` used for a type (lines 717-722). -/
def MagTool.coefficientB (self : MagTool) (type : String) : ℚ :=
  match self.magnitudeCoefficients.find type with
  | some c => c.b.getD self.defaultCoefficients.b
  | none => self.defaultCoefficients.b

/-- One iteration of the summary loop (lines 707-733); `none` is the
`ValueException` of `stationCount()` on a magnitude without station count. The
weight and the sums are computed in exact arithmetic; `summaryStepDouble` is the
same iteration with every result rounded to a double. -/
def MagTool.summaryStep (self : MagTool) (acc : SummaryAccumulator) (nmag : Magnitude) :
    Option SummaryAccumulator :=
  if nmag.type = self.summaryMagnitudeType then some acc
  else if !self.isTypeEnabledForSummaryMagnitude nmag.type then some acc
  else
    match nmag.stationCount with
    | none => none
    | some n =>
      if n < self.summaryMagnitudeMinStationCount then some acc
      else
        let weight : ℚ := self.coefficientA nmag.type * (n : ℚ) + self.coefficientB nmag.type
        if weight ≤ 0 then some acc
        else
          some { value := acc.value + weight * nmag.magnitude.value,
                 totalWeight := acc.totalWeight + weight,
                 count := if n > acc.count then n else acc.count }

/-- The summary loop over the network magnitudes of the origin (lines 706-734). -/
def MagTool.summaryLoop (self : MagTool) :
    List Magnitude → SummaryAccumulator → Option SummaryAccumulator
  | [], acc => some acc
  | nmag :: rest, acc =>
    match self.summaryStep acc nmag with
    | none => none
    | some acc1 => self.summaryLoop rest acc1

/-- Embedding of `computeSummaryMagnitude`; `none` when the exception of the
loop escapes (the origin is then untouched). -/
def MagTool.computeSummaryMagnitude (app : App) (self : MagTool) (c : OriginCtx) :
    Option (Bool × OriginCtx) :=
  if !self.summaryMagnitudeEnabled then some (false, c)
  else if self.summaryMagnitudeType = "" then some (false, c)
  else
    match self.summaryLoop c.origin.magnitudes ⟨0, 0, 0⟩ with
    | none => none
    | some acc =>
      if acc.totalWeight = 0 then some (false, c)
      else
        let value := acc.value / acc.totalWeight
        match getMagnitude app c self.summaryMagnitudeType with
        | (none, c1) => some (false, c1)
        | (some (i, newInstance), c1) =>
          let unchanged : Bool :=
            match c1.origin.magnitudes[i]? with
            | some mag =>
              !newInstance && decide (|mag.magnitude.value - value| < 1 / 10000) &&
                decide (mag.stationCount = some acc.count)
            | none => false
          if unchanged then some (false, c1)
          else
            some (true, c1.modifyMagnitude i (fun mag =>
              { mag with
                creationInfo :=
                  if newInstance then mag.creationInfo
                  else setModificationTime mag.creationInfo app.now,
                magnitude := { value := value },
                methodID := "weighted average",
                stationCount := some acc.count }))

/-! ## Cache and cross-reference indexes

The expiring cache (`_objectCache`, a `PublicObjectTimeSpanBuffer`) is library
code; it is modelled from the specification (section 4.1). Expiry is driven by
wall-clock time and is the separate transition `MagTool.expire`. -/

/-- The agency id of an object's creation info, empty when unset (`objectAgencyID`
of `dmutil.h`). -/
def objectAgencyID (ci : Option CreationInfo) : String :=
  match ci with
  | some c => c.agencyID
  | none => ""

/-- The public id of a cached object. -/
def MagTool.cachedPublicID (self : MagTool) : CachedObject → Option String
  | CachedObject.pick p => some p.publicID
  | CachedObject.amplitude a => some a.publicID
  | CachedObject.origin ptr => (self.heap[ptr]?).map (fun o => o.publicID)

/-- Modelled from the spec: the cache operation `feed(obj)` of section 4.1,
"insert or refresh": the cache is keyed by public id, an entry with the id of
`obj` is replaced. -/
def MagTool.cacheFeed (self : MagTool) (obj : CachedObject) : MagTool :=
  { self with objectCache :=
      self.objectCache.filter (fun o => decide (self.cachedPublicID o ≠ self.cachedPublicID obj))
        ++ [obj] }

/-- The cached pick with the given public id. -/
def MagTool.findPick (self : MagTool) (id : String) : Option Pick :=
  self.objectCache.findSome? (fun o =>
    match o with
    | CachedObject.pick p => if p.publicID = id then some p else none
    | _ => none)

/-- The cached amplitude with the given public id. -/
def MagTool.findAmplitude (self : MagTool) (id : String) : Option Amplitude :=
  self.objectCache.findSome? (fun o =>
    match o with
    | CachedObject.amplitude a => if a.publicID = id then some a else none
    | _ => none)

/-- The address of the cached origin with the given public id (the instance
`Origin::Find` returns). -/
def MagTool.findOrigin (self : MagTool) (id : String) : Option Nat :=
  self.objectCache.findSome? (fun o =>
    match o with
    | CachedObject.origin ptr =>
      if (self.heap[ptr]?).map (fun org => org.publicID) = some id then some ptr else none
    | _ => none)

/-- Modelled from the spec: the cache operation `get<Pick>(id)` of section 4.1,
"typed lookup; on miss, consult the external archive; if loaded, insert". -/
def MagTool.getPick (app : App) (self : MagTool) (id : String) : MagTool × Option Pick :=
  match self.findPick id with
  | some p => (self, some p)
  | none =>
    match app.query with
    | none => (self, none)
    | some q =>
      match q.getPick id with
      | none => (self, none)
      | some p => (self.cacheFeed (CachedObject.pick p), some p)

/-- Modelled from the spec: the cache operation `get<Amplitude>(id)` of section
4.1. -/
def MagTool.getAmplitude (app : App) (self : MagTool) (id : String) :
    MagTool × Option Amplitude :=
  match self.findAmplitude id with
  | some a => (self, some a)
  | none =>
    match app.query with
    | none => (self, none)
    | some q =>
      match q.getAmplitude id with
      | none => (self, none)
      | some a => (self.cacheFeed (CachedObject.amplitude a), some a)

/-- Embedding of `originsForPick` (lines 888-894). -/
def MagTool.originsForPick (self : MagTool) (pickID : String) : Option (List Nat) :=
  StdMap.find self.orgs pickID

/-- Embedding of `createBinding` (lines 871-876): `insert` keeps an existing list. -/
def MagTool.createBinding (self : MagTool) (pickID : String) : MagTool :=
  match self.originsForPick pickID with
  | some _ => self
  | none => { self with orgs := StdMap.assign self.orgs pickID [] }

/-- Embedding of `bind` (lines 879-885). -/
def MagTool.bind (self : MagTool) (pickID : String) (origin : Nat) : MagTool :=
  match self.originsForPick pickID with
  | some origins => { self with orgs := StdMap.assign self.orgs pickID (origins ++ [origin]) }
  | none => self

/-- The amplitudes `_ampl.equal_range(pickID)` in insertion order. -/
def MagTool.amplitudesForPick (self : MagTool) (pickID : String) : List Amplitude :=
  (self.ampl.filter (fun e => decide (e.1 = pickID))).map Prod.snd

/-- Embedding of `publicObjectRemoved` (lines 1339-1359) for an evicted object
with the given public id. -/
def MagTool.publicObjectRemoved (self : MagTool) (publicID : String) : MagTool :=
  { self with
    ampl := self.ampl.filter (fun e => decide (e.1 ≠ publicID)),
    orgs := self.orgs.filter (fun e => decide (e.1 ≠ publicID)) }

/-- Modelled from the spec: expiry of one cached object (section 4.1): the
eviction callback runs before the entry is dropped. -/
def MagTool.expire (self : MagTool) (obj : CachedObject) : MagTool :=
  match self.cachedPublicID obj with
  | none => self
  | some id =>
    let self1 := self.publicObjectRemoved id
    { self1 with objectCache := self1.objectCache.filter (fun o => decide (o ≠ obj)) }

/-- The origin at an address together with the registry. -/
def MagTool.ctx (self : MagTool) (origin : Nat) : Option OriginCtx :=
  (self.heap[origin]?).map (fun o => { origin := o, registry := self.registry })

/-- Write an origin and the registry back. -/
def MagTool.store (self : MagTool) (origin : Nat) (c : OriginCtx) : MagTool :=
  { self with heap := modifyAt (fun _ => c.origin) self.heap origin, registry := c.registry }

/-! ## Ingress of picks and amplitudes (lines 1322-1336, 1362-1403) -/

/-- Embedding of `feed(Pick*)`. -/
def MagTool.feedPick (app : App) (self : MagTool) (pick : Pick) : MagTool × Bool :=
  if app.isAgencyIDBlocked (objectAgencyID pick.creationInfo) then (self, false)
  else ((self.cacheFeed (CachedObject.pick pick)).createBinding pick.publicID, true)

/-- Embedding of `_feed(Amplitude*, update)`. -/
def MagTool._feed (app : App) (self : MagTool) (ampl : Amplitude) (update : Bool) :
    MagTool × Bool :=
  let pickID := ampl.pickID
  if pickID = "" then (self, false)
  else
    let (self1, cached_ampl) := self.getAmplitude app ampl.publicID
    let ampl1 := cached_ampl.getD ampl
    if (self1.amplitudesForPick pickID).any (fun existing => decide (ampl1.publicID = existing.publicID))
    then (self1, update)
    else
      let self2 := { self1 with ampl := self1.ampl ++ [(pickID, ampl1)] }
      ((self2.getPick app pickID).1, true)

/-! ## Origin processing (lines 781-868, 903-1051) -/

/-- The picks missing for an origin (lines 785-807): pick ids of valid arrivals
that are neither cached nor known to the amplitude index. -/
def MagTool.missingPicks (app : App) (self : MagTool) (arrivals : List Arrival) : List String :=
  arrivals.foldl (fun missing arr =>
    if !app.validArrival arr self.minimumArrivalWeight then missing
    else if (self.findPick arr.pickID).isSome then missing
    else if self.ampl.any (fun e => decide (e.1 = arr.pickID)) then missing
    else setInsert missing arr.pickID) []

/-- Embedding of `retrieveMissingPicksAndArrivalsFromDB` (the returned count is
only logged). -/
def MagTool.retrieveMissingPicksAndArrivalsFromDB (app : App) (self : MagTool) (origin : Nat) :
    MagTool :=
  match self.heap[origin]? with
  | none => self
  | some o =>
    let missing := self.missingPicks app o.arrivals
    if missing.length = 0 then self
    else
      match app.query with
      | none => self
      | some q =>
        let self1 := (q.getPicks o.publicID).foldl (fun (s : MagTool) pick =>
          if decide (pick.publicID ∈ missing) then (s.feedPick app pick).1 else s) self
        (q.getAmplitudesForOrigin o.publicID).foldl (fun (s : MagTool) ampl =>
          if decide (ampl.pickID ∈ missing) then (s._feed app ampl false).1 else s) self1

/-- The abstract stream of a pick: `net.sta.loc.` and the first two characters
of the channel code (lines 951-957). -/
def abstractStream (wfid : WaveformStreamID) : String :=
  wfid.networkCode ++ "." ++ wfid.stationCode ++ "." ++ wfid.locationCode ++ "." ++
    String.mk (wfid.channelCode.data.take 2)

/-- The map from abstract streams to the selected pick and its distance. -/
abbrev PickStreamMap := StdMap (Pick × ℚ)

/-- One iteration of the arrival loop of `processOrigin` (lines 926-967). The
second component is `none` when `arr->distance()` throws. -/
def MagTool.arrivalStep (app : App) (self : MagTool) (origin : Nat) (arr : Arrival)
    (pickStreamMap : PickStreamMap) : MagTool × Option PickStreamMap :=
  match self.getPick app arr.pickID with
  | (self1, none) => (self1, some pickStreamMap)
  | (self1, some pick) =>
    let self2 := self1.bind arr.pickID origin
    if !app.validArrival arr self.minimumArrivalWeight then (self2, some pickStreamMap)
    else
      let strStream := abstractStream pick.waveformID
      let earlier : Bool :=
        match StdMap.find pickStreamMap strStream with
        | some e => decide (e.1.time < pick.time)
        | none => false
      if earlier then (self2, some pickStreamMap)
      else
        match arr.distance with
        | none => (self2, none)
        | some distance => (self2, some (StdMap.assign pickStreamMap strStream (pick, distance)))

/-- The arrival loop of `processOrigin` (lines 923-968). -/
def MagTool.arrivalLoop (app : App) (origin : Nat) :
    List Arrival → MagTool → PickStreamMap → MagTool × Option PickStreamMap
  | [], self, pickStreamMap => (self, some pickStreamMap)
  | arr :: rest, self, pickStreamMap =>
    match self.arrivalStep app origin arr pickStreamMap with
    | (self1, none) => (self1, none)
    | (self1, some pickStreamMap1) => MagTool.arrivalLoop app origin rest self1 pickStreamMap1

/-- The effect of `staMag->setAmplitudeID(aid)` on the station magnitude at a
position. -/
def OriginCtx.setAmplitudeID (c : OriginCtx) (i : Nat) (aid : String) : OriginCtx :=
  let stationMagnitudes :=
    modifyAt (fun staMag => { staMag with amplitudeID := aid }) c.origin.stationMagnitudes i
  { c with origin := { c.origin with stationMagnitudes := stationMagnitudes } }

/-- The loop over the computed magnitudes of one amplitude in `processOrigin`
(lines 1012-1018): insert-only upsert, amplitude id, collected type. -/
def installStationMagnitudes (app : App) (ampl : Amplitude) :
    List MagnitudeEntry → OriginCtx → List String → OriginCtx × List String
  | [], c, magTypes => (c, magTypes)
  | (type, value) :: rest, c, magTypes =>
    match getStationMagnitude app c ampl.waveformID type value false with
    | (some i, c1) =>
      installStationMagnitudes app ampl rest (c1.setAmplitudeID i ampl.publicID)
        (setInsert magTypes type)
    | (none, c1) => installStationMagnitudes app ampl rest c1 magTypes

/-- The loop over the used amplitudes of one pick (lines 1003-1019). The second
component is `none` when `computeStationMagnitude` throws. -/
def MagTool.usedAmplitudeLoop (app : App) (self : MagTool) (distance depth : ℚ) :
    List (String × Amplitude) → OriginCtx → List String → OriginCtx × Option (List String)
  | [], c, magTypes => (c, some magTypes)
  | (_, ampl) :: rest, c, magTypes =>
    match self.computeStationMagnitude ampl distance depth with
    | none => (c, none)
    | some (false, _) => self.usedAmplitudeLoop app distance depth rest c magTypes
    | some (true, mags) =>
      let r := installStationMagnitudes app ampl mags c magTypes
      self.usedAmplitudeLoop app distance depth rest r.1 r.2

/-- The loop over the selected picks (lines 970-1020). -/
def MagTool.pickStreamLoop (app : App) (self : MagTool) (depth : ℚ) :
    List (String × (Pick × ℚ)) → OriginCtx → List String → OriginCtx × Option (List String)
  | [], c, magTypes => (c, some magTypes)
  | (_, (pick, distance)) :: rest, c, magTypes =>
    let usedAmplitudes := collectUsedAmplitudes (self.amplitudesForPick pick.publicID)
    match self.usedAmplitudeLoop app distance depth usedAmplitudes c magTypes with
    | (c1, none) => (c1, none)
    | (c1, some magTypes1) => self.pickStreamLoop app depth rest c1 magTypes1

/-- One iteration of the loop over the magnitude types found (lines 1026-1043). -/
def MagTool.networkMagnitudeStep (app : App) (self : MagTool) (c : OriginCtx) (mtype : String) :
    OriginCtx :=
  match getMagnitude app c mtype with
  | (some (netMag, newInstance), c1) =>
    let c2 := (self.computeMagnitude app c1 mtype netMag).2
    if newInstance then c2
    else c2.modifyMagnitude netMag (fun nm =>
      { nm with creationInfo := setModificationTime nm.creationInfo app.now })
  | (none, c1) => c1

/-- The part of `processOrigin` that works on the origin object once the picks
are selected (lines 970-1046). The second component is `none` when an exception
escapes; the origin then keeps what was done before. -/
def MagTool.processSelected (app : App) (self : MagTool) (depth : ℚ)
    (pickStreamMap : PickStreamMap) (c : OriginCtx) : OriginCtx × Option Bool :=
  match self.pickStreamLoop app depth pickStreamMap c [] with
  | (c1, none) => (c1, none)
  | (c1, some magTypes) =>
    let c2 := magTypes.foldl (self.networkMagnitudeStep app) c1
    match self.computeSummaryMagnitude app c2 with
    | none => (c2, none)
    | some (_, c3) => (c3, some true)

/-- Embedding of `processOrigin`; the origin is given by its address. The
second component is the returned flag, `none` when an exception escapes. -/
def MagTool.processOrigin (app : App) (self : MagTool) (origin : Nat) : MagTool × Option Bool :=
  let self1 := self.retrieveMissingPicksAndArrivalsFromDB app origin
  match self1.heap[origin]? with
  | none => (self1, some false)
  | some o =>
    match o.depth with
    | none => (self1, some false)
    | some depth =>
      match MagTool.arrivalLoop app origin o.arrivals self1 [] with
      | (self2, none) => (self2, none)
      | (self2, some pickStreamMap) =>
        match self2.ctx origin with
        | none => (self2, some false)
        | some c =>
          let r := self2.processSelected app depth pickStreamMap c
          (self2.store origin r.1, r.2)

/-! ## Retroactive update on a late amplitude (lines 1054-1261) -/

/-- One iteration of the arrival scan of `feed(Amplitude*)` (lines 1158-1199),
the "first P" rule. The state is `pPick` and `arr`; the flags `anotherFirst`
and `invalidWeightArrival` only choose a log message. Cached picks are unique
per public id, so the pointer test `pPick == p` compares public ids. -/
def MagTool.firstPStep (app : App) (self : MagTool) (ampl : Amplitude) (a : Arrival)
    (st : Option Pick × Option Arrival) : MagTool × (Option Pick × Option Arrival) :=
  match self.getPick app a.pickID with
  | (self1, none) => (self1, st)
  | (self1, some p) =>
    if ampl.waveformID.networkCode ≠ p.waveformID.networkCode ∨
        ampl.waveformID.stationCode ≠ p.waveformID.stationCode ∨
        ampl.waveformID.locationCode ≠ p.waveformID.locationCode then (self1, st)
    else if !app.validArrival a self.minimumArrivalWeight then (self1, st)
    else
      let st1 : Option Pick × Option Arrival :=
        match st.1 with
        | none => (some p, st.2)
        | some pPick => if p.time < pPick.time then (some p, none) else st
      if ampl.pickID = a.pickID then
        match st1.1 with
        | some pPick => if pPick.publicID = p.publicID then (self1, (st1.1, some a)) else (self1, st1)
        | none => (self1, st1)
      else (self1, st1)

/-- The arrival scan of `feed(Amplitude*)` (lines 1156-1200). -/
def MagTool.firstPLoop (app : App) (ampl : Amplitude) :
    List Arrival → MagTool → Option Pick × Option Arrival →
    MagTool × (Option Pick × Option Arrival)
  | [], self, st => (self, st)
  | a :: rest, self, st =>
    let r := self.firstPStep app ampl a st
    MagTool.firstPLoop app ampl rest r.1 r.2

/-- The loop over the computed magnitudes in `feed(Amplitude*)` (lines
1232-1252); the flag is `updateSummary`. -/
def MagTool.retroactiveLoop (app : App) (self : MagTool) (ampl : Amplitude) (update : Bool) :
    List MagnitudeEntry → OriginCtx → Bool → OriginCtx × Bool
  | [], c, updateSummary => (c, updateSummary)
  | (type, value) :: rest, c, updateSummary =>
    match getStationMagnitude app c ampl.waveformID type value update with
    | (some i, c1) =>
      let c2 := c1.setAmplitudeID i ampl.publicID
      let mtype : String :=
        match c2.origin.stationMagnitudes[i]? with
        | some staMag => staMag.type
        | none => type
      match getMagnitude app c2 mtype with
      | (some (netMag, _), c3) =>
        self.retroactiveLoop app ampl update rest (self.computeMagnitude app c3 mtype netMag).2 true
      | (none, c3) => self.retroactiveLoop app ampl update rest c3 updateSummary
    | (none, c1) => self.retroactiveLoop app ampl update rest c1 updateSummary

/-- The body of the loop over the bound origins in `feed(Amplitude*)` (lines
1143-1255). The flag is false when an exception escapes. -/
def MagTool.updateOrigin (app : App) (self : MagTool) (ampl : Amplitude) (update : Bool)
    (origin : Nat) : MagTool × Bool :=
  match self.heap[origin]? with
  | none => (self, true)
  | some o =>
    if app.isAgencyIDBlocked (objectAgencyID o.creationInfo) then (self, true)
    else
      let r := MagTool.firstPLoop app ampl o.arrivals self (none, none)
      match r.2.2 with
      | none => (r.1, true)
      | some arr =>
        match arr.distance, o.depth with
        | some del, some dep =>
          match r.1.computeStationMagnitude ampl del dep with
          | none => (r.1, false)
          | some (false, _) => (r.1, true)
          | some (true, mags) =>
            match r.1.ctx origin with
            | none => (r.1, true)
            | some c =>
              let u := r.1.retroactiveLoop app ampl update mags c false
              if u.2 then
                match r.1.computeSummaryMagnitude app u.1 with
                | none => (r.1.store origin u.1, false)
                | some (_, c1) => (r.1.store origin c1, true)
              else (r.1.store origin u.1, true)
        | _, _ => (r.1, true)

/-- The loop over the bound origins (lines 1142-1256); it stops when an
exception escapes. -/
def MagTool.updateLoop (app : App) (ampl : Amplitude) (update : Bool) :
    List Nat → MagTool → MagTool × Bool
  | [], self => (self, true)
  | origin :: rest, self =>
    match self.updateOrigin app ampl update origin with
    | (self1, false) => (self1, false)
    | (self1, true) => MagTool.updateLoop app ampl update rest self1

/-- One record of the archive query of `feed(Amplitude*)` (lines 1100-1126):
an origin already cached is bound; one read from the database is skipped when
it was modified within half the cache lifetime, otherwise it gets an address,
enters the cache and the reload list, and is bound. -/
def MagTool.fetchStep (app : App) (pickID : String) (st : MagTool × List Nat)
    (record : Origin × Option Int) : MagTool × List Nat :=
  match st.1.findOrigin record.1.publicID with
  | some ptr => (st.1.bind pickID ptr, st.2)
  | none =>
    let recent : Bool :=
      match record.2 with
      | some lastModified =>
        decide ((((app.now - lastModified : Int)) : ℚ) < (st.1.cacheSize : ℚ) * (1 / 2))
      | none => false
    if recent then st
    else
      let ptr := st.1.heap.length
      let self1 := ({ st.1 with heap := st.1.heap ++ [record.1] }).cacheFeed (CachedObject.origin ptr)
      (self1.bind pickID ptr, st.2 ++ [ptr])

/-- The archive block of `feed(Amplitude*)` (lines 1072-1135). -/
def MagTool.fetchOrigins (app : App) (self : MagTool) (q : DatabaseQuery) (ampl : Amplitude) :
    MagTool :=
  let self1 := ({ self with dbAccesses := self.dbAccesses + 1 }).createBinding ampl.pickID
  let r := (q.getOriginsForAmplitude ampl.publicID).foldl (MagTool.fetchStep app ampl.pickID)
    (self1, [])
  r.2.foldl (fun (s : MagTool) ptr => { s with heap := modifyAt q.loadOrigin s.heap ptr }) r.1

/-- Embedding of `feed(Amplitude*, update)`; `none` when an exception escapes. -/
def MagTool.feedAmplitude (app : App) (self : MagTool) (ampl : Amplitude) (update : Bool) :
    MagTool × Option Bool :=
  if app.isAgencyIDBlocked (objectAgencyID ampl.creationInfo) then (self, some false)
  else if (self.processors.find? (fun proc => decide (proc.amplitudeType = ampl.type))).isNone then
    (self, some false)
  else
    match self._feed app ampl update with
    | (self1, false) => (self1, some false)
    | (self1, true) =>
      let self2 : MagTool :=
        match self1.originsForPick ampl.pickID, app.query with
        | none, some q => self1.fetchOrigins app q ampl
        | _, _ => self1
      match self2.originsForPick ampl.pickID with
      | none => (self2, some true)
      | some origins =>
        match MagTool.updateLoop app ampl update origins self2 with
        | (self3, false) => (self3, none)
        | (self3, true) => (self3, some true)

/-! ## Ingress of origins (lines 1264-1319) -/

/-- The completion of an origin from the archive (lines 1291-1311); `none` when
the origin still has no arrivals. -/
def App.completeOrigin (app : App) (o : Origin) : Option Origin :=
  let o1 : Origin :=
    match app.query with
    | some q => if o.arrivals.length = 0 then { o with arrivals := q.loadArrivals o.publicID } else o
    | none => o
  if o1.arrivals.length = 0 then none
  else
    let o2 : Origin :=
      match app.query with
      | some q =>
        if o1.magnitudes.length = 0 then
          { o1 with magnitudes := (q.loadMagnitudes o1.publicID).map q.loadMagnitude }
        else o1
      | none => o1
    let o3 : Origin :=
      match app.query with
      | some q =>
        if o2.stationMagnitudes.length = 0 then
          { o2 with stationMagnitudes := q.loadStationMagnitudes o2.publicID }
        else o2
      | none => o2
    some o3

/-- Embedding of `feed(Origin*)`; the origin is given by its address. The
registered instance `Origin::Find` returns is the cached origin with the same
public id. -/
def MagTool.feedOrigin (app : App) (self : MagTool) (origin : Nat) : MagTool × Option Bool :=
  match self.heap[origin]? with
  | none => (self, some false)
  | some o =>
    if app.isAgencyIDBlocked (objectAgencyID o.creationInfo) then (self, some false)
    else
      let duplicate : Option Nat :=
        match self.findOrigin o.publicID with
        | some registered => if registered ≠ origin then some registered else none
        | none => none
      match duplicate with
      | some registered => self.processOrigin app registered
      | none =>
        if o.evaluationStatus = some EvaluationStatus.REJECTED then (self, some false)
        else
          match app.completeOrigin o with
          | none => (self, some false)
          | some o1 =>
            let self1 := { self with heap := modifyAt (fun _ => o1) self.heap origin }
            (self1.cacheFeed (CachedObject.origin origin)).processOrigin app origin

/-! ## Frozen magnitudes as the specification words them -/

/-- Every frozen network magnitude of `o` (evaluation status set) is found
unchanged, in all its attributes, at the same position of `o1`. -/
def frozenKept (o o1 : Origin) : Prop :=
  ∀ (idx : Nat) (mag : Magnitude), o.magnitudes[idx]? = some mag →
    mag.evaluationStatus ≠ none → o1.magnitudes[idx]? = some mag

/-- Every frozen network magnitude of every origin object of `s` is found
unchanged on the same origin object in `s1`. -/
def frozenRespected (s s1 : MagTool) : Prop :=
  ∀ (ptr : Nat) (o : Origin), s.heap[ptr]? = some o →
    ∃ o1, s1.heap[ptr]? = some o1 ∧ frozenKept o o1

/-! ## Auxiliary notions for the feed sequences -/

/-- The map part of one iteration of the arrival loop of `processOrigin`, as a
function of the cache lookup `find` (lines 930-967 without the binding). -/
def selectStep (app : App) (minWeight : ℚ) (find : String → Option Pick) (arr : Arrival)
    (pickStreamMap : PickStreamMap) : Option PickStreamMap :=
  match find arr.pickID with
  | none => some pickStreamMap
  | some pick =>
    if !app.validArrival arr minWeight then some pickStreamMap
    else
      let strStream := abstractStream pick.waveformID
      let earlier : Bool :=
        match StdMap.find pickStreamMap strStream with
        | some e => decide (e.1.time < pick.time)
        | none => false
      if earlier then some pickStreamMap
      else
        match arr.distance with
        | none => none
        | some distance => some (StdMap.assign pickStreamMap strStream (pick, distance))

/-- The map built by the arrival loop of `processOrigin`, as a function of the
cache lookup. -/
def selectPicks (app : App) (minWeight : ℚ) (find : String → Option Pick) :
    List Arrival → PickStreamMap → Option PickStreamMap
  | [], pickStreamMap => some pickStreamMap
  | arr :: rest, pickStreamMap =>
    match selectStep app minWeight find arr pickStreamMap with
    | none => none
    | some pickStreamMap1 => selectPicks app minWeight find rest pickStreamMap1

/-- Two engine states with the same configuration, processors and amplitude
index. -/
def MagTool.sameSetup (a b : MagTool) : Prop :=
  b.summaryMagnitudeEnabled = a.summaryMagnitudeEnabled ∧
  b.summaryMagnitudeType = a.summaryMagnitudeType ∧
  b.summaryMagnitudeMinStationCount = a.summaryMagnitudeMinStationCount ∧
  b.summaryMagnitudeBlacklist = a.summaryMagnitudeBlacklist ∧
  b.summaryMagnitudeWhitelist = a.summaryMagnitudeWhitelist ∧
  b.defaultCoefficients = a.defaultCoefficients ∧
  b.magnitudeCoefficients = a.magnitudeCoefficients ∧
  b.magnitudeAverageMethods = a.magnitudeAverageMethods ∧
  b.minimumArrivalWeight = a.minimumArrivalWeight ∧
  b.processors = a.processors ∧
  b.ampl = a.ampl

/-- The key under which `getStationMagnitude` looks a station magnitude up. -/
def stationKey (staMag : StationMagnitude) : WaveformStreamID × String :=
  (staMag.waveformID, staMag.type)

/-- The origin of `c1` is the origin of `c` with more station magnitudes and
other network magnitudes: the attributes of the origin itself are the same, the
keys of the station magnitudes of `c` are a prefix of those of `c1`, and every
public id in use stays in use. -/
def OriginCtx.grows (c c1 : OriginCtx) : Prop :=
  c1.origin.publicID = c.origin.publicID ∧
  c1.origin.depth = c.origin.depth ∧
  c1.origin.evaluationStatus = c.origin.evaluationStatus ∧
  c1.origin.creationInfo = c.origin.creationInfo ∧
  c1.origin.arrivals = c.origin.arrivals ∧
  (∃ extra, c1.origin.stationMagnitudes.map stationKey =
    c.origin.stationMagnitudes.map stationKey ++ extra) ∧
  (∀ id ∈ c.registry, id ∈ c1.registry)

/-- The call `getStationMagnitude(origin, wfid, type, value, false)` has nothing
to insert: a station magnitude of that stream and type is there, or `Create`
refuses the public id. -/
def settled (app : App) (c : OriginCtx) (wfid : WaveformStreamID) (type : String) : Prop :=
  (∃ staMag ∈ c.origin.stationMagnitudes,
    app.equivalent staMag.waveformID wfid = true ∧ staMag.type = type) ∨
  app.createFails c.registry (app.objectID c.registry (stationMagnitudeID c.origin wfid type)) = true

/-- The amplitude yields no new station magnitude on the origin: its station
magnitudes are computed without exception and each of them is settled. -/
def MagTool.amplitudeSettled (app : App) (self : MagTool) (distance depth : ℚ) (c : OriginCtx)
    (ampl : Amplitude) : Prop :=
  ∃ r, self.computeStationMagnitude ampl distance depth = some r ∧
    (r.1 = true → ∀ e ∈ r.2, settled app c ampl.waveformID e.1)

/-- Every used amplitude of every selected pick is settled on the origin. -/
def MagTool.allSettled (app : App) (self : MagTool) (depth : ℚ)
    (pickStreamMap : List (String × (Pick × ℚ))) (c : OriginCtx) : Prop :=
  ∀ e ∈ pickStreamMap, ∀ a ∈ collectUsedAmplitudes (self.amplitudesForPick e.2.1.publicID),
    self.amplitudeSettled app e.2.2 depth c a.2

/-- The flag returned by the call of `computeSummaryMagnitude` at line 1046
when the part of `processOrigin` after the pick selection runs on `c`; `none`
when the call is not reached or throws. -/
def MagTool.processSelectedSummary (app : App) (self : MagTool) (depth : ℚ)
    (pickStreamMap : PickStreamMap) (c : OriginCtx) : Option Bool :=
  match self.pickStreamLoop app depth pickStreamMap c [] with
  | (_, none) => none
  | (c1, some magTypes) =>
    match self.computeSummaryMagnitude app (magTypes.foldl (self.networkMagnitudeStep app) c1) with
    | none => none
    | some (updated, _) => some updated

/-- The flag returned by the call of `computeSummaryMagnitude` at line 1046
during `processOrigin`; `none` when the call is not reached or throws. -/
def MagTool.processOriginSummary (app : App) (self : MagTool) (origin : Nat) : Option Bool :=
  let self1 := self.retrieveMissingPicksAndArrivalsFromDB app origin
  match self1.heap[origin]? with
  | none => none
  | some o =>
    match o.depth with
    | none => none
    | some depth =>
      match MagTool.arrivalLoop app origin o.arrivals self1 [] with
      | (_, none) => none
      | (self2, some pickStreamMap) =>
        match self2.ctx origin with
        | none => none
        | some c => self2.processSelectedSummary app depth pickStreamMap c

/-- The flag returned by the call of `computeSummaryMagnitude` at line 1046
during `feed(Origin*)`; `none` when the call is not reached or throws. -/
def MagTool.feedOriginSummary (app : App) (self : MagTool) (origin : Nat) : Option Bool :=
  match self.heap[origin]? with
  | none => none
  | some o =>
    if app.isAgencyIDBlocked (objectAgencyID o.creationInfo) then none
    else
      let duplicate : Option Nat :=
        match self.findOrigin o.publicID with
        | some registered => if registered ≠ origin then some registered else none
        | none => none
      match duplicate with
      | some registered => self.processOriginSummary app registered
      | none =>
        if o.evaluationStatus = some EvaluationStatus.REJECTED then none
        else
          match app.completeOrigin o with
          | none => none
          | some o1 =>
            let self1 := { self with heap := modifyAt (fun _ => o1) self.heap origin }
            (self1.cacheFeed (CachedObject.origin origin)).processOriginSummary app origin

/-- Two streams on the same sensor location: network, station and location code
agree (the comparison of `feed(Amplitude*)`, lines 1169-1172). -/
def sameStation (a b : WaveformStreamID) : Prop :=
  a.networkCode = b.networkCode ∧ a.stationCode = b.stationCode ∧
    a.locationCode = b.locationCode

instance (a b : WaveformStreamID) : Decidable (sameStation a b) := by
  unfold sameStation
  infer_instance

/-- The arrival `a` counts for the first-P rule of `feed(Amplitude*)`, with the
pick `p`: its pick is the cached pick `p`, which has the network, station and
location codes of the amplitude, and the arrival is valid. -/
def MagTool.qualifies (app : App) (self : MagTool) (ampl : Amplitude) (a : Arrival)
    (p : Pick) : Prop :=
  self.findPick a.pickID = some p ∧ sameStation ampl.waveformID p.waveformID ∧
    app.validArrival a self.minimumArrivalWeight = true

/-! ## The uniqueness invariant as the specification words it -/

/-- At most one station magnitude per (equivalent stream id, type): no station
magnitude of the origin has a stream equivalent to that of a later one of the
same type. -/
def uniqueStationMagnitudes (app : App) (o : Origin) : Prop :=
  o.stationMagnitudes.Pairwise
    (fun a b => ¬ (app.equivalent a.waveformID b.waveformID = true ∧ a.type = b.type))

/-- At most one network magnitude per type. -/
def uniqueMagnitudes (o : Origin) : Prop :=
  o.magnitudes.Pairwise (fun a b => a.type ≠ b.type)

/-- The uniqueness invariant of an origin. -/
def uniquePerKey (app : App) (o : Origin) : Prop :=
  uniqueStationMagnitudes app o ∧ uniqueMagnitudes o

instance (o : Origin) : Decidable (uniqueMagnitudes o) := by
  unfold uniqueMagnitudes
  infer_instance

/-- The step from `o` to `o1` keeps each half of the uniqueness invariant. -/
def uniqueKept (app : App) (o o1 : Origin) : Prop :=
  (uniqueStationMagnitudes app o → uniqueStationMagnitudes app o1) ∧
  (uniqueMagnitudes o → uniqueMagnitudes o1)

/-- Every origin object of `s` is found in `s1`, with each half of the
uniqueness invariant kept. -/
def uniqueRespected (app : App) (s s1 : MagTool) : Prop :=
  ∀ (ptr : Nat) (o : Origin), s.heap[ptr]? = some o →
    ∃ o1, s1.heap[ptr]? = some o1 ∧ uniqueKept app o o1

/-- What the archive returns for an origin satisfies the uniqueness invariant:
the network magnitudes it loads have distinct types and the station magnitudes
it loads have distinct keys. -/
def archiveUnique (app : App) : Prop :=
  ∀ q, app.query = some q → ∀ id : String,
    ((q.loadMagnitudes id).map q.loadMagnitude).Pairwise (fun a b => a.type ≠ b.type) ∧
    (q.loadStationMagnitudes id).Pairwise
      (fun a b => ¬ (app.equivalent a.waveformID b.waveformID = true ∧ a.type = b.type))

/-! ## Auxiliary notions for the indexes -/

/-- No two amplitudes listed under one pick id have the same public id. -/
def MagTool.noDuplicateAmplitudes (self : MagTool) : Prop :=
  ∀ p : String, ((self.amplitudesForPick p).map (fun a => a.publicID)).Nodup

/-- One call of a sequence of amplitude ingress calls: `feed(Amplitude*, update)`
or `_feed(Amplitude*, update)`. -/
inductive AmplitudeCall where
  | feed (ampl : Amplitude) (update : Bool)
  | store (ampl : Amplitude) (update : Bool)

/-- The engine after a sequence of amplitude ingress calls. -/
def MagTool.runAmplitudeCalls (app : App) : List AmplitudeCall → MagTool → MagTool
  | [], self => self
  | AmplitudeCall.feed ampl update :: rest, self =>
    MagTool.runAmplitudeCalls app rest (self.feedAmplitude app ampl update).1
  | AmplitudeCall.store ampl update :: rest, self =>
    MagTool.runAmplitudeCalls app rest (self._feed app ampl update).1

/-- The pick `_objectCache.get<Pick>(id)` yields: the cached pick, or the one
the archive holds. -/
def MagTool.lookupPick (app : App) (self : MagTool) (id : String) : Option Pick :=
  (self.getPick app id).2

/-- The archive returns for a public id a pick with that public id. -/
def archivePickIds (app : App) : Prop :=
  ∀ q, app.query = some q → ∀ (id : String) (p : Pick), q.getPick id = some p → p.publicID = id

/-! ## The summary magnitude as the specification words it -/

/-- The per-type override of a type: the entry of the type in the configured
coefficients, if there is one. -/
def MagTool.specOverride (self : MagTool) (type : String) :
    Option SummaryMagnitudeCoefficients :=
  List.lookup type self.magnitudeCoefficients

/-- The coefficient `a` of a type: the field `a` of the per-type override when
that field is set and the default `a` otherwise. -/
def MagTool.specCoefficientA (self : MagTool) (type : String) : ℚ :=
  match (self.specOverride type).bind (fun o => o.a) with
  | some a => a
  | none => self.defaultCoefficients.a

/-- The coefficient `b` of a type: the field `b` of the per-type override when
that field is set and the default `b` otherwise. -/
def MagTool.specCoefficientB (self : MagTool) (type : String) : ℚ :=
  match (self.specOverride type).bind (fun o => o.b) with
  | some b => b
  | none => self.defaultCoefficients.b

/-- The weight `w = a * n + b` of a network magnitude in the summary, `a` and
`b` being the per-type override where that field is set and the default
otherwise (the station count of a magnitude without one reads 0). -/
def MagTool.specSummaryWeight (self : MagTool) (m : Magnitude) : ℚ :=
  self.specCoefficientA m.type * ((m.stationCount.getD 0 : Int) : ℚ) +
    self.specCoefficientB m.type

/-- A network magnitude qualifies for the summary: its type differs from the
summary type, passes the whitelist and is not blacklisted, its station count
reaches the minimum and its weight is positive. -/
def MagTool.specQualifies (self : MagTool) (m : Magnitude) : Bool :=
  decide (m.type ≠ self.summaryMagnitudeType) &&
  (decide (self.summaryMagnitudeWhitelist = []) || decide (m.type ∈ self.summaryMagnitudeWhitelist)) &&
  decide (m.type ∉ self.summaryMagnitudeBlacklist) &&
  decide (self.summaryMagnitudeMinStationCount ≤ m.stationCount.getD 0) &&
  decide (0 < self.specSummaryWeight m)

/-- The total weight of the qualifying network magnitudes. -/
def MagTool.specTotalWeight (self : MagTool) (origin : Origin) : ℚ :=
  ((origin.magnitudes.filter self.specQualifies).map self.specSummaryWeight).sum

/-- The weighted average of the qualifying network magnitudes. -/
def MagTool.specSummaryValue (self : MagTool) (origin : Origin) : ℚ :=
  ((origin.magnitudes.filter self.specQualifies).map
    (fun m => self.specSummaryWeight m * m.magnitude.value)).sum / self.specTotalWeight origin

/-- The largest station count among the qualifying network magnitudes. -/
def MagTool.specSummaryCount (self : MagTool) (origin : Origin) : Int :=
  (origin.magnitudes.filter self.specQualifies).foldl
    (fun k m => if m.stationCount.getD 0 > k then m.stationCount.getD 0 else k) 0

/-- The accumulator of the summary loop after a qualifying network magnitude. -/
def SummaryAccumulator.add (self : MagTool) (acc : SummaryAccumulator) (m : Magnitude) :
    SummaryAccumulator :=
  { value := acc.value + self.specSummaryWeight m * m.magnitude.value,
    totalWeight := acc.totalWeight + self.specSummaryWeight m,
    count := if m.stationCount.getD 0 > acc.count then m.stationCount.getD 0 else acc.count }

/-! ## Contributions as the specification words them -/

/-- A contribution whose weight is set and greater than 0. -/
def StationMagnitudeContribution.hasPositiveWeight (r : StationMagnitudeContribution) : Bool :=
  match r.weight with
  | some w => decide (0 < w)
  | none => false

/-- The public id of each station magnitude paired with its weight, the
`weightIndex`-th entry of `weights` counted from the given start. -/
def contributionWeights (weights : List ℚ) : List StationMagnitude → Nat → List (String × ℚ)
  | [], _ => []
  | staMag :: rest, weightIndex =>
    (staMag.publicID, weights.getD weightIndex 0) :: contributionWeights weights rest (weightIndex + 1)

/-! ## Scenario data -/

/-- Stream id shared by the scenario amplitudes. -/
def s3Stream : WaveformStreamID := ⟨"GE", "UGM", "", "BHZ"⟩

/-- Scenario S3: the automatic amplitude, created at t = 10. -/
def s3Auto : Amplitude :=
  { publicID := "A_auto", type := "MLv", pickID := "P1", waveformID := s3Stream,
    evaluationMode := some EvaluationMode.AUTOMATIC,
    creationInfo := some { creationTime := some 10 } }

/-- Scenario S3: the manual amplitude, created one second earlier, at t = 9. -/
def s3Manual : Amplitude :=
  { publicID := "A_manual", type := "MLv", pickID := "P1", waveformID := s3Stream,
    evaluationMode := some EvaluationMode.MANUAL,
    creationInfo := some { creationTime := some 9 } }

/-- Median of a list by sorting, for the evaluation host. -/
def sampleMedian (mv : List ℚ) : ℚ :=
  let sorted := mv.insertionSort (fun a b => a ≤ b)
  if mv.length % 2 = 1 then sorted.getD (mv.length / 2) 0
  else (sorted.getD (mv.length / 2 - 1) 0 + sorted.getD (mv.length / 2) 0) / 2

/-- A host application without database and without custom id pattern, used to
evaluate the engine on concrete inputs: stream ids are equivalent when their
network, station and channel codes agree, an arrival is valid when its weight
(1 when unset) reaches the minimum, and the trimmed-mean routine is the plain
mean with unit weights. -/
def evalApp : App :=
  { agencyID := "GFZ", author := "scmag", hasCustomPublicIDPattern := false,
    generateID := fun _ => "", isAgencyIDBlocked := fun _ => false, now := 0,
    query := none,
    equivalent := fun a b =>
      decide (a.networkCode = b.networkCode) && decide (a.stationCode = b.stationCode) &&
        decide (a.channelCode = b.channelCode),
    validArrival := fun arr minWeight => decide (minWeight ≤ arr.weight.getD 1),
    computeTrimmedMean := fun mv _ => (mv.sum / (mv.length : ℚ), 0, List.replicate mv.length 1),
    median := sampleMedian,
    sqrt := fun x => x,
    toString := fun _ => "p" }

/-- Scenario S6: the configuration (defaults a = 0, b = 1; the single override
for `Mw(mB)`; minimum station count 1; empty lists; summary type `M`). -/
def s6Tool : MagTool :=
  { summaryMagnitudeEnabled := true, summaryMagnitudeType := "M",
    summaryMagnitudeMinStationCount := 1,
    defaultCoefficients := ⟨0, 1⟩,
    magnitudeCoefficients := [("Mw(mB)", ⟨some (2/5), some (-1)⟩)] }

/-- Scenario S6: the origin with its two network magnitudes. -/
def s6Origin : Origin :=
  { publicID := "O6", depth := some 10,
    magnitudes :=
      [{ publicID := "O6#netMag.MLv", type := "MLv", magnitude := { value := 3 },
         stationCount := some 10 },
       { publicID := "O6#netMag.Mw(mB)", type := "Mw(mB)", magnitude := { value := 11/2 },
         stationCount := some 4 }] }

/-- Station magnitude of type `MLv` on the scenario origin `O1`. -/
def s1StationMagnitude (station : String) (value : ℚ) : StationMagnitude :=
  { publicID := "O1#staMag.MLv#GE." ++ station, type := "MLv", magnitude := { value := value },
    waveformID := ⟨"GE", station, "", "BHZ"⟩ }

/-- Scenario S1: three stations with `MLv` station magnitudes 3.0, 3.2, 3.4 and
the (still empty) network magnitude of type `MLv`. -/
def s1Origin : Origin :=
  { publicID := "O1", depth := some 10,
    stationMagnitudes :=
      [s1StationMagnitude "A" 3, s1StationMagnitude "B" (16/5), s1StationMagnitude "C" (17/5)],
    magnitudes := [{ publicID := "O1#netMag.MLv", type := "MLv" }] }

/-- The scenario origin whose network magnitude already carries a contribution
that references no station magnitude of the origin. -/
def staleOrigin : Origin :=
  { s1Origin with
    magnitudes := [{ publicID := "O1#netMag.MLv", type := "MLv",
                     contributions := [{ stationMagnitudeID := "elsewhere", weight := some (1/2) }] }] }

/-- A configuration that averages `MLv` with the median. -/
def medianTool : MagTool :=
  { magnitudeAverageMethods := [("MLv", { type := AverageType.Median })] }

/-- A processor of magnitude type `MN` that works on amplitudes of type `AMN`
and supports the Mw estimation. -/
def nuttliProcessor : MagnitudeProcessor :=
  { type := "MN", amplitudeType := "AMN", typeMw := "Mw(MN)",
    setup := fun _ => true,
    computeMagnitude := fun _ amplitude _ _ _ => some amplitude,
    estimateMw := fun m => some (m + 1, 2/5) }

/-- The engine with the single processor `nuttliProcessor`. -/
def nuttliTool : MagTool := { processors := [nuttliProcessor] }

/-- An origin with one station magnitude of type `MN` and the network magnitude
of that type. -/
def nuttliOrigin : Origin :=
  { publicID := "O2", depth := some 10,
    stationMagnitudes :=
      [{ publicID := "O2#staMag.MN#CN.A", type := "MN", magnitude := { value := 3 },
         waveformID := ⟨"CN", "A", "", "HHZ"⟩ }],
    magnitudes := [{ publicID := "O2#netMag.MN", type := "MN" }] }

/-- A processor for `MLv` whose Mw estimate is published under the type `MLv`
itself. -/
def selfMwProcessor : MagnitudeProcessor :=
  { type := "MLv", amplitudeType := "MLv", typeMw := "MLv",
    setup := fun _ => true,
    computeMagnitude := fun _ amplitude _ _ _ => some amplitude,
    estimateMw := fun m => some (m + 1, 0) }

/-- The median configuration with the processor `selfMwProcessor`. -/
def medianMwTool : MagTool :=
  { magnitudeAverageMethods := [("MLv", { type := AverageType.Median })],
    processors := [selfMwProcessor] }

/-- A processor of type `MLv` whose magnitude is the amplitude value and which
supports no Mw estimation. -/
def identityProcessor : MagnitudeProcessor :=
  { type := "MLv", amplitudeType := "MLv", typeMw := "Mw(MLv)",
    setup := fun _ => true,
    computeMagnitude := fun _ amplitude _ _ _ => some amplitude,
    estimateMw := fun _ => none }

/-- Scenario S5: the pick. -/
def s5Pick : Pick := { publicID := "P5", time := 0, waveformID := ⟨"GE", "A", "", "BHZ"⟩ }

/-- Scenario S5: the frozen network magnitude. -/
def s5Frozen : Magnitude :=
  { publicID := "O5#netMag.MLv", type := "MLv", magnitude := { value := 5 },
    stationCount := some 7, evaluationStatus := some EvaluationStatus.CONFIRMED }

/-- Scenario S5: the origin with one arrival and the frozen magnitude. -/
def s5Origin : Origin :=
  { publicID := "O5", depth := some 10,
    arrivals := [{ pickID := "P5", distance := some 1, weight := some 1 }],
    magnitudes := [s5Frozen] }

/-- Scenario S5: the engine after the pick and the origin were fed. -/
def s5Tool : MagTool :=
  { processors := [identityProcessor], heap := [s5Origin],
    objectCache := [CachedObject.pick s5Pick, CachedObject.origin 0],
    orgs := [("P5", [0])] }

/-- Scenario S5: an amplitude for the pick. -/
def s5Amplitude : Amplitude :=
  { publicID := "A5", type := "MLv", amplitude := some 3, pickID := "P5",
    waveformID := ⟨"GE", "A", "", "BHZ"⟩ }

/-- An origin with one arrival and no magnitudes yet. -/
def freshOrigin : Origin :=
  { publicID := "O5", depth := some 10,
    arrivals := [{ pickID := "P5", distance := some 1, weight := some 1 }] }

/-- The engine holding the pick of `freshOrigin`, an amplitude for it and the
origin object, which was not fed yet. -/
def freshTool : MagTool :=
  { processors := [identityProcessor], heap := [freshOrigin],
    objectCache := [CachedObject.pick s5Pick],
    orgs := [("P5", [])], ampl := [("P5", s5Amplitude)] }

/-- A pick on the `BH` channels of station `GE.A`, at time 10. -/
def bhPick : Pick := { publicID := "P1", time := 10, waveformID := ⟨"GE", "A", "", "BHZ"⟩ }

/-- A pick on the `HH` channels of the same station, at the earlier time 5. -/
def hhPick : Pick := { publicID := "P2", time := 5, waveformID := ⟨"GE", "A", "", "HHZ"⟩ }

/-- An origin with one arrival for each of the two picks and no magnitudes. -/
def twoBandOrigin : Origin :=
  { publicID := "O3", depth := some 10,
    arrivals := [{ pickID := "P1", distance := some 1, weight := some 1 },
                 { pickID := "P2", distance := some 1, weight := some 1 }] }

/-- The engine after both picks were fed, holding the origin object, which was
not fed yet; no amplitude was fed. -/
def twoBandTool : MagTool :=
  { processors := [identityProcessor], heap := [twoBandOrigin],
    objectCache := [CachedObject.pick bhPick, CachedObject.pick hhPick],
    orgs := [("P1", []), ("P2", [])] }

/-- An `MLv` amplitude measured on the `BH` pick. -/
def bhAmplitude : Amplitude :=
  { publicID := "A1", type := "MLv", amplitude := some 3, pickID := "P1",
    waveformID := ⟨"GE", "A", "", "BHZ"⟩ }

/-- Scenario S4: the engine after the pick was fed, holding the origin object
`freshOrigin`, which was not fed yet; no amplitude was fed. -/
def s4Tool : MagTool :=
  { processors := [identityProcessor], heap := [freshOrigin],
    objectCache := [CachedObject.pick s5Pick],
    orgs := [("P5", [])] }

/-- An archive without any record. -/
def emptyArchive : DatabaseQuery :=
  { getPicks := fun _ => [], getAmplitudesForOrigin := fun _ => [],
    getOriginsForAmplitude := fun _ => [], getPick := fun _ => none,
    getAmplitude := fun _ => none, loadArrivals := fun _ => [], loadMagnitudes := fun _ => [],
    loadMagnitude := fun m => m, loadStationMagnitudes := fun _ => [], loadOrigin := fun o => o }

/-- A pick on station `GE.B` that is only known to the archive. -/
def latePick : Pick := { publicID := "P6", time := 0, waveformID := ⟨"GE", "B", "", "BHZ"⟩ }

/-- An `MLv` amplitude of value 5 on `latePick` that is only known to the archive. -/
def lateAmplitude : Amplitude :=
  { publicID := "A6", type := "MLv", amplitude := some 5, pickID := "P6",
    waveformID := ⟨"GE", "B", "", "BHZ"⟩ }

/-- The archive after `latePick` and `lateAmplitude` were written to it for the
origin `O7`. -/
def laterArchive : DatabaseQuery :=
  { emptyArchive with
    getPicks := fun id => if id = "O7" then [latePick] else [],
    getAmplitudesForOrigin := fun id => if id = "O7" then [lateAmplitude] else [],
    getPick := fun id => if id = "P6" then some latePick else none,
    getAmplitude := fun id => if id = "A6" then some lateAmplitude else none }

/-- The host `evalApp` with an archive configured. -/
def archiveApp (q : DatabaseQuery) : App := { evalApp with query := some q }

/-- An origin with arrivals on the stations `GE.A` and `GE.B`. -/
def twoStationOrigin : Origin :=
  { publicID := "O7", depth := some 10,
    arrivals := [{ pickID := "P5", distance := some 1, weight := some 1 },
                 { pickID := "P6", distance := some 1, weight := some 1 }] }

/-- The engine holding the pick and the amplitude of station `GE.A` and the
origin object `twoStationOrigin`, which was not fed yet. -/
def archiveTool : MagTool :=
  { processors := [identityProcessor], heap := [twoStationOrigin],
    objectCache := [CachedObject.pick s5Pick],
    orgs := [("P5", [])], ampl := [("P5", s5Amplitude)] }

/-- Scenario S6 after the summary magnitude `M` was computed: value 3.9375,
station count 10. -/
def s6Summarised : Origin :=
  { s6Origin with
    magnitudes := s6Origin.magnitudes ++
      [{ publicID := "O6#netMag.M", type := "M", magnitude := { value := 63/16 },
         methodID := "weighted average", stationCount := some 10 }] }

/-- The `HH` stream of station `GE.A`. -/
def hhStream : WaveformStreamID := ⟨"GE", "A", "", "HHZ"⟩

/-- The `BH` stream of station `GE.A`. -/
def bhStream : WaveformStreamID := ⟨"GE", "A", "", "BHZ"⟩

/-- The host `evalApp` with a custom public id pattern configured; every
generated id is `smi:custom/1`. -/
def customIdApp : App :=
  { evalApp with hasCustomPublicIDPattern := true, generateID := fun _ => "smi:custom/1" }

/-- The origin `O5` carrying the station magnitude `MLv` of the stream
`GE.A..BHZ`, whose public id is registered. -/
def upsertCtx : OriginCtx :=
  ⟨{ freshOrigin with
     stationMagnitudes :=
       [{ publicID := "O5#staMag.MLv#GE.A", type := "MLv", waveformID := bhStream,
          magnitude := { value := 3 } }] },
   ["O5#staMag.MLv#GE.A"]⟩

/-- The origin `O5` carrying two network magnitudes of type `MLv`: the first
without evaluation status, the second with evaluation status. -/
def twoMLvCtx : OriginCtx :=
  ⟨{ freshOrigin with
     magnitudes :=
       [{ publicID := "O5#netMag.MLv", type := "MLv" },
        { publicID := "smi:other/MLv", type := "MLv", evaluationStatus := some .CONFIRMED }] },
   ["O5#netMag.MLv", "smi:other/MLv"]⟩

/-- The origin `O5` carrying one network magnitude of type `MLv` with
evaluation status. -/
def frozenMLvCtx : OriginCtx :=
  ⟨{ freshOrigin with
     magnitudes :=
       [{ publicID := "O5#netMag.MLv", type := "MLv", evaluationStatus := some .CONFIRMED }] },
   ["O5#netMag.MLv"]⟩


/-- An origin whose only arrival, valid and with a cached pick, has no
distance. -/
def noDistanceOrigin : Origin :=
  { publicID := "O8", depth := some 10,
    arrivals := [{ pickID := "P5", weight := some 1 }] }

/-- The engine holding the pick `P5` and the origin object `noDistanceOrigin`,
which was not fed yet. -/
def noDistanceTool : MagTool :=
  { processors := [identityProcessor], heap := [noDistanceOrigin],
    objectCache := [CachedObject.pick s5Pick],
    orgs := [("P5", [])] }

/-- An origin carrying a network magnitude of type `MLv` whose station count is
unset. -/
def noCountOrigin : Origin :=
  { publicID := "O9", depth := some 10,
    arrivals := [{ pickID := "P5", distance := some 1, weight := some 1 }],
    magnitudes := [{ publicID := "O9#netMag.MLv", type := "MLv", magnitude := { value := 3 } }] }

/-- The engine holding the pick `P5` and the origin object `noCountOrigin`,
which was not fed yet; the summary magnitude is enabled. -/
def noCountTool : MagTool :=
  { processors := [identityProcessor], heap := [noCountOrigin],
    objectCache := [CachedObject.pick s5Pick],
    orgs := [("P5", [])] }

/-- An amplitude for the pick `P5` whose amplitude value is unset. -/
def noValueAmplitude : Amplitude :=
  { publicID := "A8", type := "MLv", amplitude := none, pickID := "P5",
    waveformID := ⟨"GE", "A", "", "BHZ"⟩ }

/-- The engine after the pick `P5` and the origin `freshOrigin` were fed; no
amplitude was fed. -/
def boundTool : MagTool :=
  { processors := [identityProcessor], heap := [freshOrigin],
    objectCache := [CachedObject.pick s5Pick, CachedObject.origin 0],
    orgs := [("P5", [0])] }


/-- A second origin object with the public id `O5`: rejected, without arrivals
and without depth. -/
def rejectedCopy : Origin :=
  { publicID := "O5", evaluationStatus := some EvaluationStatus.REJECTED }

/-- An amplitude for the pick `P5` measured on location code `00`, while the
pick has the empty location code. -/
def locAmplitude : Amplitude :=
  { publicID := "A5", type := "MLv", amplitude := some 3, pickID := "P5",
    waveformID := ⟨"GE", "A", "00", "BHZ"⟩ }

/-- The engine holding the two origin objects `freshOrigin` and `rejectedCopy`,
after the pick `P5`, the origin `freshOrigin` and the amplitude `locAmplitude`
were fed in this order. -/
def duplicateTool : MagTool :=
  (((((
    { processors := [identityProcessor], heap := [freshOrigin, rejectedCopy] } : MagTool).feedPick
      evalApp s5Pick).1.feedOrigin evalApp 0).1).feedAmplitude evalApp locAmplitude false).1


/-- The engine holding the pick `P5`, an amplitude for it and an origin object
like `freshOrigin` but without depth, which was not fed yet. -/
def noDepthTool : MagTool :=
  { processors := [identityProcessor], heap := [{ freshOrigin with depth := none }],
    objectCache := [CachedObject.pick s5Pick],
    orgs := [("P5", [])], ampl := [("P5", s5Amplitude)] }


/-- A pick on the `HH` channels of station `GE.A` at time 10, the time of
`bhPick`. -/
def tiePick : Pick := { publicID := "P2", time := 10, waveformID := ⟨"GE", "A", "", "HHZ"⟩ }

/-- An origin with the arrival of `bhPick` before the arrival of `tiePick`. -/
def tieOrigin : Origin :=
  { publicID := "O3", depth := some 10,
    arrivals := [{ pickID := "P1", distance := some 1, weight := some 1 },
                 { pickID := "P2", distance := some 1, weight := some 1 }] }

/-- The engine after both picks and the origin `o` were fed; no amplitude was
fed. -/
def tieTool (o : Origin) : MagTool :=
  { processors := [identityProcessor], heap := [o],
    objectCache := [CachedObject.pick bhPick, CachedObject.pick tiePick, CachedObject.origin 0],
    orgs := [("P1", [0]), ("P2", [0])] }


/-- An archive that holds two network magnitudes of type `MLv` for every
origin, and nothing else. -/
def duplicateArchive : DatabaseQuery :=
  { emptyArchive with
    loadMagnitudes := fun _ =>
      [{ publicID := "smi:a/MLv", type := "MLv", magnitude := { value := 3 },
         stationCount := some 1 },
       { publicID := "smi:b/MLv", type := "MLv", magnitude := { value := 4 },
         stationCount := some 2 }] }


/-- The host `evalApp` with the agency `XX` blocked. -/
def blockingApp : App := { evalApp with isAgencyIDBlocked := fun id => decide (id = "XX") }

/-- The amplitude `s5Amplitude` reported by the blocked agency `XX`. -/
def blockedAmplitude : Amplitude :=
  { s5Amplitude with creationInfo := some { agencyID := "XX" } }

/-- An amplitude for the pick `P5` of the type `mb`, for which no processor is
registered. -/
def unknownTypeAmplitude : Amplitude := { s5Amplitude with type := "mb" }


/-- The engine holding the pick `P5` and the origin object `twoStationOrigin`,
whose second arrival references the pick `P6`, which was never fed. -/
def unknownPickTool : MagTool :=
  { processors := [identityProcessor], heap := [twoStationOrigin],
    objectCache := [CachedObject.pick s5Pick],
    orgs := [("P5", [])] }

/-- An origin whose second arrival has a weight below the minimum arrival
weight. -/
def lowWeightOrigin : Origin :=
  { publicID := "O4", depth := some 10,
    arrivals := [{ pickID := "P1", distance := some 1, weight := some 1 },
                 { pickID := "P2", distance := some 1, weight := some (1/10) }] }

/-- The engine after the picks `P1` and `P2` were fed, holding the origin object
`lowWeightOrigin`. -/
def lowWeightTool : MagTool :=
  { processors := [identityProcessor], heap := [lowWeightOrigin],
    objectCache := [CachedObject.pick bhPick, CachedObject.pick hhPick],
    orgs := [("P1", []), ("P2", [])] }


/-- The engine at start, with the processor `identityProcessor`, holding the
origin object `freshOrigin`; nothing was fed. -/
def startTool : MagTool := { processors := [identityProcessor], heap := [freshOrigin] }


/-! ## The trimmed mean as the specification words it -/

/-- The rank of the sample at position `i`: how many samples come before it when
the samples are ordered by value, equal values by position. -/
def sampleRank (mv : List ℚ) (i : Nat) : Nat :=
  ((List.range mv.length).filter (fun j =>
    decide (mv.getD j 0 < mv.getD i 0 ∨ (mv.getD j 0 = mv.getD i 0 ∧ j < i)))).length

/-- Modelled from the spec: `Math::Statistics::computeTrimmedMean` is a library
routine outside the engine's source. The specification calls it the trimmed
mean at `p` percent, gives trimmed samples the weight 0, and in scenario S2
(five values at 25 percent) trims the lowest and the highest value and takes
the mean of the other three. Here the `⌊n·p/100⌋` lowest and as many highest
samples are trimmed (weight 0), the others have weight 1, and the value is the
mean of the samples of weight 1; the result is the value with the weights in
the order of the samples. -/
def trimmedMeanSpec (mv : List ℚ) (p : ℚ) : ℚ × List ℚ :=
  let n := mv.length
  let k := Int.toNat ⌊(n : ℚ) * p / 100⌋
  let weights : List ℚ := (List.range n).map (fun i =>
    if k ≤ sampleRank mv i ∧ sampleRank mv i + k < n then 1 else 0)
  let kept := (List.range n).filter (fun i =>
    decide (k ≤ sampleRank mv i ∧ sampleRank mv i + k < n))
  ((kept.map (fun i => mv.getD i 0)).sum / (kept.length : ℚ), weights)

/-- The evaluation host with the trimmed mean as the specification words it
(standard deviation 0). -/
def trimmingApp : App :=
  { evalApp with
    computeTrimmedMean := fun mv p => ((trimmedMeanSpec mv p).1, 0, (trimmedMeanSpec mv p).2) }

/-- Scenario S2: five stations with `MLv` station magnitudes 2.0, 3.0, 3.1, 3.2
and 9.0 and the (still empty) network magnitude of type `MLv`. -/
def s2Origin : Origin :=
  { publicID := "O1", depth := some 10,
    stationMagnitudes :=
      [s1StationMagnitude "A" 2, s1StationMagnitude "B" 3, s1StationMagnitude "C" (31/10),
       s1StationMagnitude "D" (16/5), s1StationMagnitude "E" 9],
    magnitudes := [{ publicID := "O1#netMag.MLv", type := "MLv" }] }


/-- A manual amplitude for the pick `P5`, created at t = 99. -/
def priorAmplitude : Amplitude :=
  { publicID := "A_manual", type := "MLv", amplitude := some 5, pickID := "P5",
    waveformID := ⟨"GE", "A", "", "BHZ"⟩, evaluationMode := some EvaluationMode.MANUAL,
    creationInfo := some { creationTime := some 99 } }

/-- The station magnitude `MLv` of the stream `GE.A..BHZ` on the origin `O5`,
with value 5, derived from `priorAmplitude`. -/
def priorStationMagnitude : StationMagnitude :=
  { publicID := "O5#staMag.MLv#GE.A", type := "MLv", waveformID := ⟨"GE", "A", "", "BHZ"⟩,
    magnitude := { value := 5 }, amplitudeID := "A_manual" }

/-- The origin `O5` carrying `priorStationMagnitude`. -/
def overwriteOrigin : Origin :=
  { freshOrigin with stationMagnitudes := [priorStationMagnitude] }

/-- The engine after the pick `P5`, the amplitude `priorAmplitude` and the origin
`overwriteOrigin` were fed. -/
def overwriteTool : MagTool :=
  { processors := [identityProcessor], heap := [overwriteOrigin],
    objectCache := [CachedObject.pick s5Pick, CachedObject.origin 0],
    orgs := [("P5", [0])], ampl := [("P5", priorAmplitude)],
    registry := ["O5#staMag.MLv#GE.A"] }


/-- The origin `o`, without station and network magnitudes, after the loop of
`feed(Amplitude*)` installed the station magnitude of the computed magnitude
`(type, value)` with the amplitude id and created the network magnitude of the
type (lines 1232-1241), with the registry of public ids. -/
def installedCtx (app : App) (registry : List String) (o : Origin) (ampl : Amplitude)
    (type : String) (value : ℚ) : OriginCtx :=
  let id1 := app.objectID registry (stationMagnitudeID o ampl.waveformID type)
  let staMag : StationMagnitude :=
    { app.newStationMagnitude id1 ampl.waveformID type value with amplitudeID := ampl.publicID }
  let id2 := app.objectID (id1 :: registry) (magnitudeID o type)
  ⟨{ o with stationMagnitudes := [staMag], magnitudes := [app.newMagnitude id2 type] },
   id2 :: id1 :: registry⟩

/-- The engine at start holding the origin object `s5Origin`, whose network
magnitude of type `MLv` has an evaluation status; nothing was fed. -/
def frozenStartTool : MagTool := { processors := [identityProcessor], heap := [s5Origin] }

/-- The engine at start holding the origin object `overwriteOrigin`, which
carries a station magnitude of type `MLv` on the stream `GE.A..BHZ`; nothing was
fed. -/
def overwriteStartTool : MagTool :=
  { processors := [identityProcessor], heap := [overwriteOrigin],
    registry := ["O5#staMag.MLv#GE.A"] }


/-! ## The terms of the summary sums (lines 706-734) -/

/-- The network magnitudes that pass every test of the summary loop (lines
709-727) and enter the sums at lines 729-730, each paired with its weight
`a*n+b`, in the order of the loop; `none` is the `ValueException` of
`stationCount()`. -/
def MagTool.summaryContributors (self : MagTool) : List Magnitude → Option (List (ℚ × Magnitude))
  | [] => some []
  | nmag :: rest =>
    if nmag.type = self.summaryMagnitudeType then self.summaryContributors rest
    else if !self.isTypeEnabledForSummaryMagnitude nmag.type then self.summaryContributors rest
    else
      match nmag.stationCount with
      | none => none
      | some n =>
        if n < self.summaryMagnitudeMinStationCount then self.summaryContributors rest
        else
          let weight : ℚ := self.coefficientA nmag.type * (n : ℚ) + self.coefficientB nmag.type
          if weight ≤ 0 then self.summaryContributors rest
          else (self.summaryContributors rest).map (fun l => (weight, nmag) :: l)


/-- A configuration whose entry for `MLv` is the method `d`, behind an entry
for another type. -/
def methodTool (d : AverageDescription) : MagTool :=
  { magnitudeAverageMethods := [("ML", { type := AverageType.Median }), ("MLv", d)] }


/-! ## Double arithmetic

The sums of the summary loop are C++ `double`s. The definitions above compute
them in exact rational arithmetic. The definitions of this section round the
result of every arithmetic operation to the nearest binary64 number, ties to
the even significand (the default rounding of IEEE 754); the exponent range is
not limited, so overflow and subnormal numbers, which the magnitudes and
weights of the engine stay far from, are left out. -/

/-- The number of halvings that take `n` below 2, with `fuel` as the bound of
the recursion. -/
def log2Fuel : Nat → Nat → Nat
  | 0, _ => 0
  | fuel + 1, n => if n < 2 then 0 else log2Fuel fuel (n / 2) + 1

/-- The position of the leading bit of a positive natural number. -/
def floorLog2 (n : Nat) : Nat := log2Fuel n n

/-- The binary exponent of a positive rational `x`: the `e` with
`2 ^ e ≤ x < 2 ^ (e + 1)`. -/
def binaryExponent (x : ℚ) : Int :=
  let e : Int := (floorLog2 x.num.natAbs : Int) - (floorLog2 x.den : Int)
  if x < (2 : ℚ) ^ e then e - 1 else e

/-- Rounding to the nearest integer, ties to the even one. -/
def roundHalfEven (x : ℚ) : Int :=
  let f := Int.floor x
  if x - f < 1 / 2 then f
  else if 1 / 2 < x - f then f + 1
  else if f % 2 = 0 then f else f + 1

/-- Rounding of a positive rational to 53 significant bits. -/
def roundPositive (x : ℚ) : ℚ :=
  let ulp := (2 : ℚ) ^ (binaryExponent x - 52)
  (roundHalfEven (x / ulp) : ℚ) * ulp

/-- The binary64 number nearest to `x`, ties to even. -/
def roundDouble (x : ℚ) : ℚ :=
  if x = 0 then 0 else if x < 0 then - roundPositive (-x) else roundPositive x

/-- One iteration of the summary loop (lines 707-733) in double arithmetic: the
coefficients and the magnitude value are doubles, and the product `a*n`, the
sum `a*n+b`, the product `weight*value` and the two running sums are each
rounded. -/
def MagTool.summaryStepDouble (self : MagTool) (acc : SummaryAccumulator) (nmag : Magnitude) :
    Option SummaryAccumulator :=
  if nmag.type = self.summaryMagnitudeType then some acc
  else if !self.isTypeEnabledForSummaryMagnitude nmag.type then some acc
  else
    match nmag.stationCount with
    | none => none
    | some n =>
      if n < self.summaryMagnitudeMinStationCount then some acc
      else
        let a : ℚ := roundDouble (self.coefficientA nmag.type)
        let b : ℚ := roundDouble (self.coefficientB nmag.type)
        let weight : ℚ := roundDouble (roundDouble (a * (n : ℚ)) + b)
        if weight ≤ 0 then some acc
        else
          some { value := roundDouble
                   (acc.value + roundDouble (weight * roundDouble nmag.magnitude.value)),
                 totalWeight := roundDouble (acc.totalWeight + weight),
                 count := if n > acc.count then n else acc.count }

/-- The summary loop (lines 706-734) in double arithmetic. -/
def MagTool.summaryLoopDouble (self : MagTool) :
    List Magnitude → SummaryAccumulator → Option SummaryAccumulator
  | [], acc => some acc
  | nmag :: rest, acc =>
    match self.summaryStepDouble acc nmag with
    | none => none
    | some acc1 => self.summaryLoopDouble rest acc1

/-- The summary value `computeSummaryMagnitude` computes at line 741, in double
arithmetic: `none` when the exception of the loop escapes, `some none` when the
call returns before the division (summary disabled, empty summary type, total
weight 0). -/
def MagTool.summaryValueDouble (self : MagTool) (origin : Origin) : Option (Option ℚ) :=
  if !self.summaryMagnitudeEnabled then some none
  else if self.summaryMagnitudeType = "" then some none
  else
    match self.summaryLoopDouble origin.magnitudes ⟨0, 0, 0⟩ with
    | none => none
    | some acc =>
      if acc.totalWeight = 0 then some none
      else some (some (roundDouble (acc.value / acc.totalWeight)))

/-- An origin whose only network magnitude has the type `Mw(mB)`, the value 3.5
and the station count 4. -/
def roundingOrigin : Origin :=
  { publicID := "O7", depth := some 10,
    magnitudes :=
      [{ publicID := "O7#netMag.Mw(mB)", type := "Mw(mB)", magnitude := { value := 7/2 },
         stationCount := some 4 }] }


/-! ## Auxiliary notions for feeding an origin again -/

/-- Public ids identify one object: no arrival of the origin names, as its
pick, the public id of the origin itself or of an amplitude the archive holds,
and no amplitude the archive holds has the public id of the origin. -/
def distinctPublicIDs (app : App) (o : Origin) : Prop :=
  ∀ q, app.query = some q →
    (∀ arr ∈ o.arrivals, arr.pickID ≠ o.publicID) ∧
    (∀ (x : String) (a : Amplitude), q.getAmplitude x = some a →
      a.publicID ≠ o.publicID ∧ ∀ arr ∈ o.arrivals, a.publicID ≠ arr.pickID)

/-- What a step of the engine keeps of the cache and the amplitude index, as far
as the processing of an origin with the pick ids `ids` and the public id `oid`
reads them: the origin objects, the minimum arrival weight, the presence of a
cached pick for each of the ids, the registered origin of `oid`, and the pick
ids known to the amplitude index. -/
def MagTool.cacheKeeps (ids : List String) (oid : String) (a b : MagTool) : Prop :=
  b.heap = a.heap ∧
  b.minimumArrivalWeight = a.minimumArrivalWeight ∧
  (∀ id ∈ ids, (a.findPick id).isSome = true → (b.findPick id).isSome = true) ∧
  b.findOrigin oid = a.findOrigin oid ∧
  (∀ k : String, a.ampl.any (fun e => decide (e.1 = k)) = true →
    b.ampl.any (fun e => decide (e.1 = k)) = true)

/-! ## Theorems -/

/-- C1 (code bug): with the manual amplitude listed first, the selection fold
replaces it by the later-created automatic one, so the retained amplitude of the
type is not manual; with the manual amplitude listed second it is retained. The
creation-time comparison runs even when the modes differ and the candidate is
the automatic one. -/
theorem collectUsedAmplitudes_manual_first_lost :
    (collectUsedAmplitudes [s3Manual, s3Auto]).find "MLv" = some s3Auto ∧
    (collectUsedAmplitudes [s3Auto, s3Manual]).find "MLv" = some s3Manual ∧
    hasHigherPriority s3Auto s3Manual = true := by
  decide

/-! ### Lists -/

theorem firstIndex_none_iff {α : Type} (p : α → Bool) (l : List α) :
    firstIndex p l = none ↔ ∀ x ∈ l, p x = false := by
  induction l with
  | nil => simp [firstIndex]
  | cons x xs ih =>
    by_cases h : p x = true
    · simp [firstIndex, h]
    · simp [firstIndex, h, ih]

theorem firstIndex_some {α : Type} (p : α → Bool) (l : List α) (i : Nat)
    (h : firstIndex p l = some i) :
    ∃ x, l[i]? = some x ∧ p x = true ∧ ∀ j y, j < i → l[j]? = some y → p y = false := by
  induction l generalizing i with
  | nil => simp [firstIndex] at h
  | cons a as ih =>
    by_cases ha : p a = true
    · simp [firstIndex, ha] at h
      subst h
      exact ⟨a, by simp, ha, by intro j y hj; omega⟩
    · simp [firstIndex, ha] at h
      obtain ⟨k, hk, rfl⟩ := h
      obtain ⟨x, hx, hpx, hlt⟩ := ih k hk
      refine ⟨x, by simpa using hx, hpx, ?_⟩
      intro j y hj hy
      cases j with
      | zero => simp at hy; subst hy; simpa using ha
      | succ j => exact hlt j y (by omega) (by simpa using hy)

theorem firstIndex_lt {α : Type} (p : α → Bool) (l : List α) (i : Nat)
    (h : firstIndex p l = some i) : i < l.length := by
  obtain ⟨x, hx, _⟩ := firstIndex_some p l i h
  exact (List.getElem?_eq_some_iff.mp hx).1

theorem modifyAt_length {α : Type} (f : α → α) (l : List α) (i : Nat) :
    (modifyAt f l i).length = l.length := by
  induction l generalizing i with
  | nil => simp [modifyAt]
  | cons x xs ih => cases i <;> simp [modifyAt, ih]

theorem modifyAt_get?_eq {α : Type} (f : α → α) (l : List α) (i : Nat) :
    (modifyAt f l i)[i]? = (l[i]?).map f := by
  induction l generalizing i with
  | nil => simp [modifyAt]
  | cons x xs ih => cases i <;> simp [modifyAt] ; simpa using ih _

theorem modifyAt_get?_ne {α : Type} (f : α → α) (l : List α) (i j : Nat) (h : i ≠ j) :
    (modifyAt f l i)[j]? = l[j]? := by
  induction l generalizing i j with
  | nil => simp [modifyAt]
  | cons x xs ih =>
    cases i with
    | zero =>
      cases j with
      | zero => exact absurd rfl h
      | succ j => simp [modifyAt]
    | succ i =>
      cases j with
      | zero => simp [modifyAt]
      | succ j => simpa [modifyAt] using ih i j (by omega)

theorem modifyAt_of_length_le {α : Type} (f : α → α) (l : List α) (i : Nat)
    (h : l.length ≤ i) : modifyAt f l i = l := by
  induction l generalizing i with
  | nil => simp [modifyAt]
  | cons x xs ih =>
    cases i with
    | zero => simp at h
    | succ i => simp [modifyAt, ih i (by simpa using h)]

theorem modifyAt_append_left {α : Type} (f : α → α) (l k : List α) (i : Nat)
    (h : i < l.length) : modifyAt f (l ++ k) i = modifyAt f l i ++ k := by
  induction l generalizing i with
  | nil => simp at h
  | cons x xs ih =>
    cases i with
    | zero => simp [modifyAt]
    | succ i => simp [modifyAt, ih i (by simpa using h)]

theorem modifyAt_append_length {α : Type} (f : α → α) (l : List α) (x : α) :
    modifyAt f (l ++ [x]) l.length = l ++ [f x] := by
  induction l with
  | nil => simp [modifyAt]
  | cons a as ih => simp [modifyAt, ih]

/-! ### Upserts -/

theorem getMagnitude_create (app : App) (c : OriginCtx) (type : String)
    (hnone : firstIndex (fun nmag : Magnitude => decide (nmag.type = type)) c.origin.magnitudes = none)
    (hcreate : app.createFails c.registry (app.objectID c.registry (magnitudeID c.origin type)) = false) :
    getMagnitude app c type =
      (some (c.origin.magnitudes.length, true),
       { origin := { c.origin with magnitudes := c.origin.magnitudes ++
           [app.newMagnitude (app.objectID c.registry (magnitudeID c.origin type)) type] },
         registry := app.objectID c.registry (magnitudeID c.origin type) :: c.registry }) := by
  simp [getMagnitude, hnone, hcreate]

theorem getMagnitude_create_fails (app : App) (c : OriginCtx) (type : String)
    (hnone : firstIndex (fun nmag : Magnitude => decide (nmag.type = type)) c.origin.magnitudes = none)
    (hcreate : app.createFails c.registry (app.objectID c.registry (magnitudeID c.origin type)) = true) :
    getMagnitude app c type = (none, c) := by
  simp [getMagnitude, hnone, hcreate]

theorem getMagnitude_existing (app : App) (c : OriginCtx) (type : String) (i : Nat)
    (mag : Magnitude)
    (hidx : firstIndex (fun nmag : Magnitude => decide (nmag.type = type)) c.origin.magnitudes = some i)
    (hget : c.origin.magnitudes[i]? = some mag) :
    getMagnitude app c type =
      (if mag.evaluationStatus.isSome then none else some (i, false), c) := by
  simp only [getMagnitude, hidx, hget]
  split <;> rfl

theorem createFails_eq_false_of (app : App) (registry : List String) (id : String)
    (h : app.hasCustomPublicIDPattern = true ∨ id ∉ registry) :
    app.createFails registry (app.objectID registry id) = false := by
  unfold App.createFails App.objectID
  rcases h with h | h
  · simp [h]
  · cases hc : app.hasCustomPublicIDPattern <;> simp [h]

/-! ### Summary magnitude -/

theorem isTypeEnabledForSummaryMagnitude_eq (self : MagTool) (type : String) :
    self.isTypeEnabledForSummaryMagnitude type =
      ((decide (self.summaryMagnitudeWhitelist = []) || decide (type ∈ self.summaryMagnitudeWhitelist)) &&
        decide (type ∉ self.summaryMagnitudeBlacklist)) := by
  unfold MagTool.isTypeEnabledForSummaryMagnitude
  cases hw : self.summaryMagnitudeWhitelist <;> cases hb : self.summaryMagnitudeBlacklist <;> simp

theorem isTypeEnabledForSummaryMagnitude_iff (self : MagTool) (type : String) :
    self.isTypeEnabledForSummaryMagnitude type = true ↔
      (self.summaryMagnitudeWhitelist = [] ∨ type ∈ self.summaryMagnitudeWhitelist) ∧
        type ∉ self.summaryMagnitudeBlacklist := by
  rw [isTypeEnabledForSummaryMagnitude_eq]
  simp

/-- The library lookup of an association list agrees with `StdMap.find`. -/
theorem StdMap.lookup_eq_find {V : Type} (m : StdMap V) (key : String) :
    List.lookup key m = StdMap.find m key := by
  induction m with
  | nil => rfl
  | cons hd tl ih =>
    obtain ⟨k, v⟩ := hd
    by_cases hk : k = key
    · subst hk
      simp [List.lookup, StdMap.find]
    · have hk2 : (key == k) = false := by
        rw [beq_eq_false_iff_ne]
        exact fun h => hk h.symm
      simp only [List.lookup, hk2, StdMap.find, if_neg hk]
      exact ih

/-- The coefficient `a` read by the summary loop is the per-type override when
that field is set and the default otherwise. -/
theorem specCoefficientA_eq (self : MagTool) (type : String) :
    self.specCoefficientA type = self.coefficientA type := by
  unfold MagTool.specCoefficientA MagTool.specOverride MagTool.coefficientA
  rw [StdMap.lookup_eq_find]
  cases hf : StdMap.find self.magnitudeCoefficients type with
  | none => rfl
  | some o => cases ha : o.a <;> simp [ha]

/-- The coefficient `b` read by the summary loop is the per-type override when
that field is set and the default otherwise. -/
theorem specCoefficientB_eq (self : MagTool) (type : String) :
    self.specCoefficientB type = self.coefficientB type := by
  unfold MagTool.specCoefficientB MagTool.specOverride MagTool.coefficientB
  rw [StdMap.lookup_eq_find]
  cases hf : StdMap.find self.magnitudeCoefficients type with
  | none => rfl
  | some o => cases hb : o.b <;> simp [hb]

/-- The weight of the specification in terms of the coefficients the summary
loop reads. -/
theorem specSummaryWeight_eq (self : MagTool) (m : Magnitude) :
    self.specSummaryWeight m =
      self.coefficientA m.type * ((m.stationCount.getD 0 : Int) : ℚ) +
        self.coefficientB m.type := by
  unfold MagTool.specSummaryWeight
  rw [specCoefficientA_eq, specCoefficientB_eq]

theorem specQualifies_iff (self : MagTool) (m : Magnitude) :
    self.specQualifies m = true ↔
      m.type ≠ self.summaryMagnitudeType ∧
      self.isTypeEnabledForSummaryMagnitude m.type = true ∧
      self.summaryMagnitudeMinStationCount ≤ m.stationCount.getD 0 ∧
      0 < self.specSummaryWeight m := by
  rw [isTypeEnabledForSummaryMagnitude_iff]
  unfold MagTool.specQualifies
  simp only [Bool.and_eq_true, Bool.or_eq_true, decide_eq_true_eq]
  tauto

theorem summaryStep_some (self : MagTool) (acc acc1 : SummaryAccumulator) (m : Magnitude)
    (h : self.summaryStep acc m = some acc1) :
    acc1 = if self.specQualifies m then acc.add self m else acc := by
  unfold MagTool.summaryStep at h
  by_cases h1 : m.type = self.summaryMagnitudeType
  · rw [if_pos h1] at h
    rw [if_neg (fun hq => ((specQualifies_iff self m).mp hq).1 h1)]
    exact (Option.some.inj h).symm
  rw [if_neg h1] at h
  by_cases h2 : self.isTypeEnabledForSummaryMagnitude m.type = true
  swap
  · rw [if_pos (by simpa using h2)] at h
    rw [if_neg (fun hq => h2 ((specQualifies_iff self m).mp hq).2.1)]
    exact (Option.some.inj h).symm
  rw [if_neg (by simp [h2])] at h
  rcases Option.eq_none_or_eq_some m.stationCount with hn | ⟨n, hn⟩
  · rw [hn] at h; exact absurd h (by simp)
  rw [hn] at h
  simp only at h
  by_cases h3 : n < self.summaryMagnitudeMinStationCount
  · rw [if_pos h3] at h
    rw [if_neg]
    · exact (Option.some.inj h).symm
    · intro hq
      have := ((specQualifies_iff self m).mp hq).2.2.1
      rw [hn] at this
      simp only [Option.getD_some] at this
      omega
  rw [if_neg h3] at h
  have hw : self.specSummaryWeight m =
      self.coefficientA m.type * (n : ℚ) + self.coefficientB m.type := by
    rw [specSummaryWeight_eq]
    simp [hn]
  by_cases h4 : self.coefficientA m.type * (n : ℚ) + self.coefficientB m.type ≤ 0
  · rw [if_pos h4] at h
    rw [if_neg]
    · exact (Option.some.inj h).symm
    · intro hq
      have := ((specQualifies_iff self m).mp hq).2.2.2
      rw [hw] at this
      exact absurd h4 (not_le.mpr this)
  rw [if_neg h4] at h
  have hq : self.specQualifies m = true := by
    rw [specQualifies_iff]
    refine ⟨h1, h2, ?_, ?_⟩
    · rw [hn]; simp only [Option.getD_some]; omega
    · rw [hw]; exact not_le.mp h4
  rw [if_pos hq]
  rw [← Option.some.inj h]
  simp [SummaryAccumulator.add, hw, hn]

theorem summaryStep_none (self : MagTool) (acc : SummaryAccumulator) (m : Magnitude)
    (h : self.summaryStep acc m = none) : m.stationCount = none := by
  unfold MagTool.summaryStep at h
  rcases Option.eq_none_or_eq_some m.stationCount with hn | ⟨n, hn⟩
  · exact hn
  · simp only [hn] at h
    split_ifs at h

theorem firstIndex_modifyAt {α : Type} (p : α → Bool) (f : α → α) (l : List α) (i : Nat)
    (hf : ∀ x, p (f x) = p x) : firstIndex p (modifyAt f l i) = firstIndex p l := by
  induction l generalizing i with
  | nil => simp [modifyAt]
  | cons x xs ih =>
    cases i with
    | zero => simp [modifyAt, firstIndex, hf]
    | succ i => simp [modifyAt, firstIndex, ih]

theorem firstIndex_append_of_none {α : Type} (p : α → Bool) (l : List α) (x : α)
    (h : firstIndex p l = none) (hx : p x = true) :
    firstIndex p (l ++ [x]) = some l.length := by
  induction l with
  | nil => simp [firstIndex, hx]
  | cons a as ih =>
    by_cases ha : p a = true
    · simp [firstIndex, ha] at h
    · simp [firstIndex, ha] at h ⊢
      exact ih h

theorem firstIndex_append_of_some {α : Type} (p : α → Bool) (l k : List α) (i : Nat)
    (h : firstIndex p l = some i) : firstIndex p (l ++ k) = some i := by
  induction l generalizing i with
  | nil => simp [firstIndex] at h
  | cons a as ih =>
    by_cases ha : p a = true
    · simp [firstIndex, ha] at h ⊢; exact h
    · simp [firstIndex, ha] at h ⊢
      obtain ⟨j, hj, rfl⟩ := h
      exact ⟨j, ih j hj, rfl⟩

theorem summaryLoop_some (self : MagTool) (mags : List Magnitude)
    (acc acc1 : SummaryAccumulator) (h : self.summaryLoop mags acc = some acc1) :
    acc1 = (mags.filter self.specQualifies).foldl (fun a m => a.add self m) acc := by
  induction mags generalizing acc with
  | nil => simp [MagTool.summaryLoop] at h; simp [h]
  | cons m rest ih =>
    unfold MagTool.summaryLoop at h
    cases hs : self.summaryStep acc m with
    | none => rw [hs] at h; exact absurd h (by simp)
    | some a1 =>
      rw [hs] at h
      have h1 := summaryStep_some self acc a1 m hs
      have h2 := ih a1 h
      rw [h2, h1]
      by_cases hq : self.specQualifies m = true
      · simp [List.filter, hq]
      · simp [List.filter, hq]

theorem summaryLoop_none (self : MagTool) (mags : List Magnitude)
    (acc : SummaryAccumulator) (h : self.summaryLoop mags acc = none) :
    ∃ m ∈ mags, m.stationCount = none := by
  induction mags generalizing acc with
  | nil => simp [MagTool.summaryLoop] at h
  | cons m rest ih =>
    unfold MagTool.summaryLoop at h
    cases hs : self.summaryStep acc m with
    | none => exact ⟨m, by simp, summaryStep_none self acc m hs⟩
    | some a1 =>
      rw [hs] at h
      obtain ⟨x, hx, hx2⟩ := ih a1 h
      exact ⟨x, by simp [hx], hx2⟩

theorem foldl_add_value (self : MagTool) (l : List Magnitude) (acc : SummaryAccumulator) :
    (l.foldl (fun a m => a.add self m) acc).value =
      acc.value + (l.map (fun m => self.specSummaryWeight m * m.magnitude.value)).sum := by
  induction l generalizing acc with
  | nil => simp
  | cons m rest ih =>
    simp only [List.foldl_cons, List.map_cons, List.sum_cons]
    rw [ih]
    simp only [SummaryAccumulator.add]
    ring

theorem foldl_add_totalWeight (self : MagTool) (l : List Magnitude) (acc : SummaryAccumulator) :
    (l.foldl (fun a m => a.add self m) acc).totalWeight =
      acc.totalWeight + (l.map self.specSummaryWeight).sum := by
  induction l generalizing acc with
  | nil => simp
  | cons m rest ih =>
    simp only [List.foldl_cons, List.map_cons, List.sum_cons]
    rw [ih]
    simp only [SummaryAccumulator.add]
    ring

theorem foldl_add_count (self : MagTool) (l : List Magnitude) (acc : SummaryAccumulator) :
    (l.foldl (fun a m => a.add self m) acc).count =
      l.foldl (fun k m => if m.stationCount.getD 0 > k then m.stationCount.getD 0 else k)
        acc.count := by
  induction l generalizing acc with
  | nil => simp
  | cons m rest ih =>
    simp only [List.foldl_cons]
    rw [ih]
    simp only [SummaryAccumulator.add]

theorem sum_specSummaryWeight_pos (self : MagTool) (l : List Magnitude)
    (hl : ∀ m ∈ l, self.specQualifies m = true) (hne : l ≠ []) :
    0 < (l.map self.specSummaryWeight).sum := by
  induction l with
  | nil => exact absurd rfl hne
  | cons m rest ih =>
    have hm : 0 < self.specSummaryWeight m :=
      ((specQualifies_iff self m).mp (hl m (by simp))).2.2.2
    by_cases hr : rest = []
    · simp [hr, hm]
    · have := ih (fun x hx => hl x (by simp [hx])) hr
      simp only [List.map_cons, List.sum_cons]
      linarith

theorem specTotalWeight_pos (self : MagTool) (origin : Origin)
    (hne : origin.magnitudes.filter self.specQualifies ≠ []) :
    0 < self.specTotalWeight origin :=
  sum_specSummaryWeight_pos self _ (fun m hm => (List.mem_filter.mp hm).2) hne

/-- The summary loop computes the sums and the count of the specification. -/
theorem summaryLoop_spec (self : MagTool) (origin : Origin) (acc : SummaryAccumulator)
    (h : self.summaryLoop origin.magnitudes ⟨0, 0, 0⟩ = some acc) :
    acc.totalWeight = self.specTotalWeight origin ∧
    acc.value / acc.totalWeight = self.specSummaryValue origin ∧
    acc.count = self.specSummaryCount origin := by
  have h1 := summaryLoop_some self _ _ _ h
  subst h1
  rw [foldl_add_value, foldl_add_totalWeight, foldl_add_count]
  simp [MagTool.specTotalWeight, MagTool.specSummaryValue, MagTool.specSummaryCount]

theorem modifyMagnitude_get? (c : OriginCtx) (i : Nat) (f : Magnitude → Magnitude)
    (mag : Magnitude) (h : c.origin.magnitudes[i]? = some mag) :
    (c.modifyMagnitude i f).origin.magnitudes[i]? = some (f mag) := by
  simp only [OriginCtx.modifyMagnitude]
  rw [modifyAt_get?_eq, h]
  rfl

theorem modifyMagnitude_get?_ne (c : OriginCtx) (i j : Nat) (f : Magnitude → Magnitude)
    (h : i ≠ j) :
    (c.modifyMagnitude i f).origin.magnitudes[j]? = c.origin.magnitudes[j]? := by
  simp only [OriginCtx.modifyMagnitude]
  exact modifyAt_get?_ne f _ i j h

theorem modifyMagnitude_firstIndex (c : OriginCtx) (i : Nat) (f : Magnitude → Magnitude)
    (p : Magnitude → Bool) (hf : ∀ x, p (f x) = p x) :
    firstIndex p (c.modifyMagnitude i f).origin.magnitudes = firstIndex p c.origin.magnitudes := by
  simp only [OriginCtx.modifyMagnitude]
  exact firstIndex_modifyAt p f _ i hf

/-- The behaviour of `computeSummaryMagnitude` on an origin with summary
enabled, non-empty summary type and no frozen magnitude of that type, in terms
of the specification's sums (shared by the claims on the summary). -/
theorem computeSummaryMagnitude_cases (app : App) (self : MagTool) (c : OriginCtx)
    (hen : self.summaryMagnitudeEnabled = true)
    (hS : self.summaryMagnitudeType ≠ "")
    (hfrozen : ∀ m ∈ c.origin.magnitudes, m.type = self.summaryMagnitudeType →
      m.evaluationStatus = none) :
    match self.computeSummaryMagnitude app c with
    | none => ∃ m ∈ c.origin.magnitudes, m.stationCount = none
    | some (true, c1) =>
      c.origin.magnitudes.filter self.specQualifies ≠ [] ∧
      0 < self.specTotalWeight c.origin ∧
      ∃ i mag,
        firstIndex (fun nmag : Magnitude => decide (nmag.type = self.summaryMagnitudeType))
          c1.origin.magnitudes = some i ∧
        c1.origin.magnitudes[i]? = some mag ∧
        mag.magnitude.value = self.specSummaryValue c.origin ∧
        mag.methodID = "weighted average" ∧
        mag.stationCount = some (self.specSummaryCount c.origin)
    | some (false, c1) =>
      c1 = c ∧
      (c.origin.magnitudes.filter self.specQualifies = [] ∨
       (∃ i mag,
          firstIndex (fun nmag : Magnitude => decide (nmag.type = self.summaryMagnitudeType))
            c.origin.magnitudes = some i ∧
          c.origin.magnitudes[i]? = some mag ∧
          |mag.magnitude.value - self.specSummaryValue c.origin| < 1 / 10000 ∧
          mag.stationCount = some (self.specSummaryCount c.origin)) ∨
       (firstIndex (fun nmag : Magnitude => decide (nmag.type = self.summaryMagnitudeType))
            c.origin.magnitudes = none ∧
        app.createFails c.registry
          (app.objectID c.registry (magnitudeID c.origin self.summaryMagnitudeType)) = true)) := by
  unfold MagTool.computeSummaryMagnitude
  simp only [hen, Bool.not_true, Bool.false_eq_true, if_false, hS]
  cases hloop : self.summaryLoop c.origin.magnitudes ⟨0, 0, 0⟩ with
  | none => exact summaryLoop_none self _ _ hloop
  | some acc =>
    obtain ⟨hW, hV, hC⟩ := summaryLoop_spec self c.origin acc hloop
    simp only
    by_cases hz : acc.totalWeight = 0
    · rw [if_pos hz]
      refine ⟨rfl, Or.inl ?_⟩
      by_contra hne
      have := specTotalWeight_pos self c.origin hne
      rw [← hW, hz] at this
      exact lt_irrefl _ this
    rw [if_neg hz]
    have hne : c.origin.magnitudes.filter self.specQualifies ≠ [] := by
      intro he
      apply hz
      rw [hW]
      simp [MagTool.specTotalWeight, he]
    have hpos := specTotalWeight_pos self c.origin hne
    rw [hV, hC]
    cases hidx : firstIndex (fun nmag : Magnitude => decide (nmag.type = self.summaryMagnitudeType))
        c.origin.magnitudes with
    | none =>
      cases hcf : app.createFails c.registry
          (app.objectID c.registry (magnitudeID c.origin self.summaryMagnitudeType)) with
      | true =>
        rw [getMagnitude_create_fails app c _ hidx hcf]
        exact ⟨rfl, Or.inr (Or.inr ⟨rfl, rfl⟩)⟩
      | false =>
        rw [getMagnitude_create app c _ hidx hcf]
        simp only [List.getElem?_concat_length, Bool.not_true,
          Bool.false_and, Bool.false_eq_true, if_false]
        refine ⟨hne, hpos, c.origin.magnitudes.length, _, ?_,
          modifyMagnitude_get? _ _ _ _ (List.getElem?_concat_length _ _), rfl, rfl, rfl⟩
        rw [modifyMagnitude_firstIndex]
        · apply firstIndex_append_of_none _ _ _ hidx
          simp [App.newMagnitude]
        · intro x; rfl
    | some i =>
      obtain ⟨mag, hget, hty, _⟩ := firstIndex_some _ _ _ hidx
      have hme : mag ∈ c.origin.magnitudes := List.getElem?_mem hget
      have hfz : mag.evaluationStatus = none := hfrozen mag hme (by simpa using hty)
      rw [getMagnitude_existing app c _ i mag hidx hget]
      simp only [hfz, Option.isSome_none, Bool.false_eq_true, if_false, hget, Bool.not_false,
        Bool.true_and]
      by_cases hun : (decide (|mag.magnitude.value - self.specSummaryValue c.origin| < 1 / 10000) &&
          decide (mag.stationCount = some (self.specSummaryCount c.origin))) = true
      · rw [if_pos hun]
        simp only [Bool.and_eq_true, decide_eq_true_eq] at hun
        exact ⟨rfl, Or.inr (Or.inl ⟨i, mag, rfl, hget, hun.1, hun.2⟩)⟩
      · rw [if_neg hun]
        refine ⟨hne, hpos, i, _, ?_, modifyMagnitude_get? _ _ _ _ hget, rfl, rfl, rfl⟩
        rw [modifyMagnitude_firstIndex]
        · exact hidx
        · intro x; rfl

/-- Scenario S6 for any host and summary type: the two network magnitudes get
the weights 1 and 3/5 and the new summary magnitude the value 63/16. -/
theorem summary_of_scenario_S6 (app : App) (self : MagTool) (c : OriginCtx) (m1 m2 : Magnitude)
    (hen : self.summaryMagnitudeEnabled = true)
    (hS : self.summaryMagnitudeType ≠ "")
    (hS1 : self.summaryMagnitudeType ≠ "MLv") (hS2 : self.summaryMagnitudeType ≠ "Mw(mB)")
    (hwl : self.summaryMagnitudeWhitelist = []) (hbl : self.summaryMagnitudeBlacklist = [])
    (hmin : self.summaryMagnitudeMinStationCount = 1)
    (hdef : self.defaultCoefficients = ⟨0, 1⟩)
    (hco : self.magnitudeCoefficients = [("Mw(mB)", ⟨some (2/5), some (-1)⟩)])
    (hmags : c.origin.magnitudes = [m1, m2])
    (ht1 : m1.type = "MLv") (hv1 : m1.magnitude.value = 3) (hn1 : m1.stationCount = some 10)
    (ht2 : m2.type = "Mw(mB)") (hv2 : m2.magnitude.value = 11/2) (hn2 : m2.stationCount = some 4)
    (hcreate : app.createFails c.registry
      (app.objectID c.registry (magnitudeID c.origin self.summaryMagnitudeType)) = false) :
    self.specSummaryWeight m1 = 1 ∧ self.specSummaryWeight m2 = 3/5 ∧
    ∃ c1 mag, self.computeSummaryMagnitude app c = some (true, c1) ∧
      c1.origin.magnitudes = [m1, m2, mag] ∧
      mag.type = self.summaryMagnitudeType ∧ mag.magnitude.value = 63/16 ∧
      mag.stationCount = some 10 ∧ mag.methodID = "weighted average" := by
  have hS1b : ¬ ("MLv" = self.summaryMagnitudeType) := fun h => hS1 h.symm
  have hS2b : ¬ ("Mw(mB)" = self.summaryMagnitudeType) := fun h => hS2 h.symm
  have hf : firstIndex (fun nmag : Magnitude => decide (nmag.type = self.summaryMagnitudeType))
      [m1, m2] = none := by
    simp [firstIndex, ht1, ht2, hS1b, hS2b]
  have h1 : ¬ ((1:ℚ) ≤ 0) := by norm_num
  have h2 : ¬ ((2:ℚ) / 5 * 4 ≤ 1) := by norm_num
  refine ⟨?_, ?_, ?_⟩
  · rw [specSummaryWeight_eq]
    simp [MagTool.coefficientA, MagTool.coefficientB, hco, hdef, StdMap.find, ht1, hn1]
  · rw [specSummaryWeight_eq]
    simp [MagTool.coefficientA, MagTool.coefficientB, hco, hdef, StdMap.find, ht2, hn2]
    norm_num
  · simp [MagTool.computeSummaryMagnitude, hen, hS, hmags, MagTool.summaryLoop,
      MagTool.summaryStep, ht1, ht2, hv1, hv2, hn1, hn2, hS1b, hS2b,
      MagTool.isTypeEnabledForSummaryMagnitude, hwl, hbl, hmin, MagTool.coefficientA,
      MagTool.coefficientB, hco, hdef, StdMap.find, getMagnitude, hf, h1, h2,
      OriginCtx.modifyMagnitude, modifyAt, hcreate, App.newMagnitude]
    norm_num

/-! ## Claims -/

/-- C5 (summary value). With the summary enabled, a non-empty summary type and no
frozen magnitude of that type on the origin, `computeSummaryMagnitude` either
throws (only when a network magnitude has no station count), or returns true
having written to the magnitude of the summary type the value
`(sum of w_i * m_i) / (sum of w_i)` over the qualifying network magnitudes (with
method id and the largest station count), or returns false leaving the origin
untouched: that happens when no magnitude qualifies, when the trivial-delta
suppression applies, or when the summary magnitude cannot be created. With all
station counts set the call does not throw. -/
theorem computeSummaryMagnitude_weighted_average (app : App) (self : MagTool) (c : OriginCtx)
    (hen : self.summaryMagnitudeEnabled = true)
    (hS : self.summaryMagnitudeType ≠ "")
    (hfrozen : ∀ m ∈ c.origin.magnitudes, m.type = self.summaryMagnitudeType →
      m.evaluationStatus = none) :
    (match self.computeSummaryMagnitude app c with
    | none => ∃ m ∈ c.origin.magnitudes, m.stationCount = none
    | some (true, c1) =>
      c.origin.magnitudes.filter self.specQualifies ≠ [] ∧
      0 < self.specTotalWeight c.origin ∧
      ∃ i mag,
        firstIndex (fun nmag : Magnitude => decide (nmag.type = self.summaryMagnitudeType))
          c1.origin.magnitudes = some i ∧
        c1.origin.magnitudes[i]? = some mag ∧
        mag.magnitude.value = self.specSummaryValue c.origin ∧
        mag.methodID = "weighted average" ∧
        mag.stationCount = some (self.specSummaryCount c.origin)
    | some (false, c1) =>
      c1 = c ∧
      (c.origin.magnitudes.filter self.specQualifies = [] ∨
       (∃ i mag,
          firstIndex (fun nmag : Magnitude => decide (nmag.type = self.summaryMagnitudeType))
            c.origin.magnitudes = some i ∧
          c.origin.magnitudes[i]? = some mag ∧
          |mag.magnitude.value - self.specSummaryValue c.origin| < 1 / 10000 ∧
          mag.stationCount = some (self.specSummaryCount c.origin)) ∨
       (firstIndex (fun nmag : Magnitude => decide (nmag.type = self.summaryMagnitudeType))
            c.origin.magnitudes = none ∧
        app.createFails c.registry
          (app.objectID c.registry (magnitudeID c.origin self.summaryMagnitudeType)) = true))) ∧
    ((∀ m ∈ c.origin.magnitudes, m.stationCount ≠ none) →
      self.computeSummaryMagnitude app c ≠ none) := by
  have h := computeSummaryMagnitude_cases app self c hen hS hfrozen
  refine ⟨h, ?_⟩
  intro hall hnone
  rw [hnone] at h
  obtain ⟨m, hm, hm2⟩ := h
  exact hall m hm hm2

/-- C5, witness: scenario S6 satisfies the hypotheses; the call returns true and
the summary magnitude carries the weighted average of the two magnitudes, which
is (1 * 3.0 + 0.6 * 5.5) / 1.6 with the override of `Mw(mB)` and the default
coefficients for `MLv`. -/
theorem computeSummaryMagnitude_weighted_average_witness :
    s6Tool.specSummaryValue s6Origin = 63/16 ∧
    ∃ c1 mag, s6Tool.computeSummaryMagnitude evalApp ⟨s6Origin, []⟩ = some (true, c1) ∧
      mag ∈ c1.origin.magnitudes ∧ mag.type = "M" ∧
      mag.magnitude.value = s6Tool.specSummaryValue s6Origin := by
  refine ⟨by decide!, ?_⟩
  have hw := (computeSummaryMagnitude_weighted_average evalApp s6Tool ⟨s6Origin, []⟩
    (by decide) (by decide) (by decide)).1
  obtain ⟨_, _, c1, mag, hr, hm, ht, _⟩ := summary_of_scenario_S6 evalApp s6Tool ⟨s6Origin, []⟩
    _ _ (by decide) (by decide) (by decide) (by decide) rfl rfl rfl rfl rfl rfl rfl rfl rfl rfl
    rfl rfl (by decide)
  rw [hr] at hw
  obtain ⟨_, _, i, mag1, hi, hg, hv, _⟩ := hw
  obtain ⟨x, hx, hpx, _⟩ := firstIndex_some _ _ _ hi
  rw [hg] at hx
  cases hx
  exact ⟨c1, mag1, hr, List.getElem?_mem hg, by simpa using hpx, hv⟩

theorem filter_stationMagnitudesOfType (origin : Origin) (mtype : String) :
    (stationMagnitudesOfType origin mtype).filter (fun staMag => decide (staMag.type = mtype)) =
      stationMagnitudesOfType origin mtype := by
  unfold stationMagnitudesOfType
  rw [List.filter_filter]
  simp

theorem stationMagnitudeValues_eq (origin : Origin) (mtype : String) :
    stationMagnitudeValues origin mtype =
      (stationMagnitudesOfType origin mtype).map (fun staMag => staMag.magnitude.value) := by
  unfold stationMagnitudeValues
  rw [filter_stationMagnitudesOfType]

theorem stationMagnitudeValues_length (origin : Origin) (mtype : String) :
    (stationMagnitudeValues origin mtype).length = (stationMagnitudesOfType origin mtype).length := by
  rw [stationMagnitudeValues_eq, List.length_map]

/-- What `getMagnitude` does to the origin: nothing, or it appends one new
unfrozen magnitude of the requested type; a returned position holds an unfrozen
magnitude of the requested type. -/
theorem getMagnitude_spec (app : App) (c : OriginCtx) (type : String) :
    match getMagnitude app c type with
    | (none, c1) => c1 = c
    | (some (i, isNew), c1) =>
      c1.origin.stationMagnitudes = c.origin.stationMagnitudes ∧
      c1.origin.arrivals = c.origin.arrivals ∧
      c1.origin.publicID = c.origin.publicID ∧
      c1.origin.depth = c.origin.depth ∧
      c1.origin.evaluationStatus = c.origin.evaluationStatus ∧
      c1.origin.creationInfo = c.origin.creationInfo ∧
      (∃ mag, c1.origin.magnitudes[i]? = some mag ∧ mag.type = type ∧
        mag.evaluationStatus = none) ∧
      ((isNew = false ∧ c1 = c ∧
          firstIndex (fun nmag : Magnitude => decide (nmag.type = type)) c.origin.magnitudes = some i) ∨
       (isNew = true ∧ i = c.origin.magnitudes.length ∧
          firstIndex (fun nmag : Magnitude => decide (nmag.type = type)) c.origin.magnitudes = none ∧
          c1.origin.magnitudes = c.origin.magnitudes ++
            [app.newMagnitude (app.objectID c.registry (magnitudeID c.origin type)) type] ∧
          c1.registry = app.objectID c.registry (magnitudeID c.origin type) :: c.registry)) := by
  cases hidx : firstIndex (fun nmag : Magnitude => decide (nmag.type = type)) c.origin.magnitudes with
  | none =>
    cases hcf : app.createFails c.registry (app.objectID c.registry (magnitudeID c.origin type)) with
    | true => rw [getMagnitude_create_fails app c _ hidx hcf]
    | false =>
      rw [getMagnitude_create app c _ hidx hcf]
      refine ⟨rfl, rfl, rfl, rfl, rfl, rfl, ⟨_, List.getElem?_concat_length _ _, rfl, rfl⟩,
        Or.inr ⟨rfl, rfl, rfl, rfl, rfl⟩⟩
  | some i =>
    obtain ⟨mag, hget, hty, _⟩ := firstIndex_some _ _ _ hidx
    rw [getMagnitude_existing app c _ i mag hidx hget]
    cases hfz : mag.evaluationStatus with
    | some st => simp
    | none =>
      rw [if_neg (by simp)]
      exact ⟨rfl, rfl, rfl, rfl, rfl, rfl, ⟨mag, hget, by simpa using hty, hfz⟩,
        Or.inl ⟨rfl, rfl, rfl⟩⟩

/-- Positions below the old length keep their magnitude under `getMagnitude`. -/
theorem getMagnitude_getElem? (app : App) (c : OriginCtx) (type : String) (j : Nat)
    (x : Magnitude) (hx : c.origin.magnitudes[j]? = some x) :
    (getMagnitude app c type).2.origin.magnitudes[j]? = some x := by
  have h := getMagnitude_spec app c type
  rcases hr : getMagnitude app c type with ⟨_ | ⟨i, isNew⟩, c1⟩
  · rw [hr] at h; simp only at h; rw [h]; exact hx
  · rw [hr] at h
    simp only at h
    obtain ⟨_, _, _, _, _, _, _, h8⟩ := h
    rcases h8 with ⟨_, rfl, _⟩ | ⟨_, _, _, hm, _⟩
    · exact hx
    · simp only
      rw [hm, List.getElem?_append_left (List.getElem?_eq_some_iff.mp hx).1]
      exact hx

/-- What `getMagnitude` with a value does to the magnitude at a position of the
origin: only the magnitude it returns is touched, in value and creation info,
and that magnitude is unfrozen and of the requested type. -/
theorem getMagnitudeWithValue_getElem? (app : App) (c : OriginCtx) (type : String) (value : ℚ)
    (j : Nat) (x : Magnitude) (hx : c.origin.magnitudes[j]? = some x) :
    ∃ y, (getMagnitudeWithValue app c type value).2.origin.magnitudes[j]? = some y ∧
      y.publicID = x.publicID ∧ y.type = x.type ∧ y.methodID = x.methodID ∧
      y.contributions = x.contributions ∧ y.stationCount = x.stationCount ∧
      y.evaluationStatus = x.evaluationStatus ∧
      (x.evaluationStatus ≠ none → y = x) ∧ (x.type ≠ type → y = x) ∧
      ((getMagnitudeWithValue app c type value).1.map Prod.fst ≠ some j → y = x) := by
  have h := getMagnitude_spec app c type
  have hj := getMagnitude_getElem? app c type j x hx
  unfold getMagnitudeWithValue
  rcases hr : getMagnitude app c type with ⟨_ | ⟨i, isNew⟩, c1⟩
  · rw [hr] at h
    simp only at h
    subst h
    exact ⟨x, hx, rfl, rfl, rfl, rfl, rfl, rfl, fun _ => rfl, fun _ => rfl, fun _ => rfl⟩
  · rw [hr] at h hj
    simp only at h hj ⊢
    obtain ⟨_, _, _, _, _, _, ⟨mag, hmag, hty, hfz⟩, _⟩ := h
    by_cases hij : i = j
    · subst hij
      rw [hmag] at hj
      have hmx : mag = x := Option.some.inj hj
      subst hmx
      refine ⟨_, modifyMagnitude_get? c1 i _ mag hmag, rfl, rfl, rfl, rfl, rfl, rfl, ?_, ?_, ?_⟩
      · intro hne; exact absurd hfz hne
      · intro hne; exact absurd hty hne
      · intro hne; exact absurd rfl hne
    · refine ⟨x, ?_, rfl, rfl, rfl, rfl, rfl, rfl, fun _ => rfl, fun _ => rfl, fun _ => rfl⟩
      rw [modifyMagnitude_get?_ne c1 i j _ hij]
      exact hj

theorem getMagnitudeWithValue_returned (app : App) (c : OriginCtx) (type : String) (value : ℚ)
    (i : Nat) (isNew : Bool) (c1 : OriginCtx)
    (h : getMagnitudeWithValue app c type value = (some (i, isNew), c1)) :
    ∃ mag, c1.origin.magnitudes[i]? = some mag ∧ mag.type = type ∧
      mag.evaluationStatus = none ∧ mag.magnitude = { value := value } ∧ mag.contributions =
        (match c.origin.magnitudes[i]? with
         | some old => old.contributions
         | none => []) := by
  have hs := getMagnitude_spec app c type
  unfold getMagnitudeWithValue at h
  rcases hr : getMagnitude app c type with ⟨_ | ⟨i0, isNew0⟩, c0⟩
  · rw [hr] at h; simp at h
  · rw [hr] at h hs
    simp only [Prod.mk.injEq, Option.some.injEq] at h hs
    obtain ⟨⟨rfl, rfl⟩, rfl⟩ := h
    obtain ⟨_, _, _, _, _, _, ⟨mag, hmag, hty, hfz⟩, hcase⟩ := hs
    refine ⟨_, modifyMagnitude_get? c0 i0 _ mag hmag, hty, hfz, rfl, ?_⟩
    rcases hcase with ⟨_, rfl, _⟩ | ⟨_, rfl, _, hm, _⟩
    · rw [hmag]
    · rw [hm, List.getElem?_concat_length] at hmag
      cases hmag
      simp [App.newMagnitude]

/-- What the Mw part of `computeMagnitude` does to the magnitude at a position
of the origin. -/
theorem deriveMw_getElem? (app : App) (self : MagTool) (c : OriginCtx) (mtype : String)
    (value stdev : ℚ) (staCount : Nat) (j : Nat) (x : Magnitude)
    (hx : c.origin.magnitudes[j]? = some x) :
    ∃ y, (self.deriveMw app c mtype value stdev staCount).2.origin.magnitudes[j]? = some y ∧
      y.publicID = x.publicID ∧ y.type = x.type ∧ y.methodID = x.methodID ∧
      y.contributions = x.contributions ∧
      (y.stationCount = x.stationCount ∨ y.stationCount = some (staCount : Int)) ∧
      (y.evaluationStatus = x.evaluationStatus ∨ y.evaluationStatus = none) ∧
      (x.evaluationStatus ≠ none → y = x) ∧
      ((∀ proc, self.processors.find? (fun proc => decide (proc.amplitudeType = mtype)) = some proc →
          proc.typeMw ≠ x.type) → y = x) := by
  unfold MagTool.deriveMw
  cases hp : self.processors.find? (fun proc => decide (proc.amplitudeType = mtype)) with
  | none =>
    exact ⟨x, hx, rfl, rfl, rfl, rfl, Or.inl rfl, Or.inl rfl, fun _ => rfl, fun _ => rfl⟩
  | some proc =>
    simp only
    cases he : proc.estimateMw value with
    | none =>
      exact ⟨x, hx, rfl, rfl, rfl, rfl, Or.inl rfl, Or.inl rfl, fun _ => rfl, fun _ => rfl⟩
    | some r =>
      obtain ⟨Mw, stdError⟩ := r
      simp only
      obtain ⟨y, hy, h1, h2, h3, h4, h5, h6, h7, h8, h9⟩ :=
        getMagnitudeWithValue_getElem? app c proc.typeMw Mw j x hx
      rcases hr : getMagnitudeWithValue app c proc.typeMw Mw with ⟨_ | ⟨i, isNew⟩, c2⟩
      · rw [hr] at hy h9
        have hyx : y = x := h9 (by simp)
        subst hyx
        exact ⟨y, hy, rfl, rfl, rfl, rfl, Or.inl rfl, Or.inl rfl, fun _ => rfl, fun _ => rfl⟩
      · rw [hr] at hy h9
        simp only at hy ⊢
        by_cases hij : i = j
        · subst hij
          obtain ⟨mag, hmag, hty, hfz, _⟩ := getMagnitudeWithValue_returned app c _ _ _ _ _ hr
          rw [hmag] at hy
          have hmy : mag = y := Option.some.inj hy
          subst hmy
          refine ⟨_, modifyMagnitude_get? c2 i _ mag hmag, h1, h2, h3, h4, Or.inr rfl,
            Or.inr rfl, ?_, ?_⟩
          · intro hne
            rw [← h6] at hne
            exact absurd hfz hne
          · intro hall
            exact absurd (hty.symm.trans h2).symm (by simpa using (hall proc rfl).symm)
        · have hyx : y = x := h9 (by simpa using hij)
          subst hyx
          refine ⟨y, ?_, rfl, rfl, rfl, rfl, Or.inl rfl, Or.inl rfl, fun _ => rfl, fun _ => rfl⟩
          rw [modifyMagnitude_get?_ne c2 i j _ hij]
          exact hy

/-! ### Contributions -/

theorem reconcileContributions_eq (weights : List ℚ) (staMags : List StationMagnitude)
    (i : Nat) (cs : List StationMagnitudeContribution) (k : Nat) :
    reconcileContributions weights staMags i cs k =
      ((contributionWeights weights staMags i).foldl
          (fun acc p => upsertContribution acc p.1 p.2) cs,
       k + ((contributionWeights weights staMags i).filter (fun p => decide (0 < p.2))).length) := by
  induction staMags generalizing i cs k with
  | nil => simp [reconcileContributions, contributionWeights]
  | cons s rest ih =>
    simp only [reconcileContributions, contributionWeights, List.foldl_cons, List.filter_cons]
    rw [ih]
    by_cases hw : 0 < weights.getD i 0
    · simp only [hw, if_true, decide_True, List.length_cons, gt_iff_lt]
      congr 1
      omega
    · simp only [hw, if_false, decide_False, Bool.false_eq_true, gt_iff_lt]

theorem contributionWeights_keys (weights : List ℚ) (staMags : List StationMagnitude) (i : Nat) :
    (contributionWeights weights staMags i).map Prod.fst = staMags.map (fun s => s.publicID) := by
  induction staMags generalizing i with
  | nil => simp [contributionWeights]
  | cons s rest ih => simp [contributionWeights, ih]

theorem upsertContribution_ids (cs : List StationMagnitudeContribution) (id : String) (w : ℚ) :
    (upsertContribution cs id w).map (fun r => r.stationMagnitudeID) =
      if id ∈ cs.map (fun r => r.stationMagnitudeID) then cs.map (fun r => r.stationMagnitudeID)
      else cs.map (fun r => r.stationMagnitudeID) ++ [id] := by
  induction cs with
  | nil => simp [upsertContribution]
  | cons r rest ih =>
    by_cases h : r.stationMagnitudeID = id
    · simp only [upsertContribution, h, if_true, List.map_cons, List.mem_cons, true_or]
      split <;> simp [h]
    · have h' : ¬ id = r.stationMagnitudeID := fun e => h e.symm
      simp only [upsertContribution, h, if_false, List.map_cons, List.mem_cons, h', false_or, ih]
      split <;> simp

theorem upsertContribution_nodup (cs : List StationMagnitudeContribution) (id : String) (w : ℚ)
    (h : (cs.map (fun r => r.stationMagnitudeID)).Nodup) :
    ((upsertContribution cs id w).map (fun r => r.stationMagnitudeID)).Nodup := by
  rw [upsertContribution_ids]
  split
  · exact h
  · rename_i hni
    exact List.Nodup.append h (List.nodup_singleton _) (by simpa using hni)

/-- With pairwise distinct ids, an upsert leaves one contribution for the id,
positive exactly when the weight is, and the other contributions as they were. -/
theorem upsertContribution_perm (cs : List StationMagnitudeContribution) (id : String) (w : ℚ)
    (h : (cs.map (fun r => r.stationMagnitudeID)).Nodup) :
    ∃ r : StationMagnitudeContribution, r.stationMagnitudeID = id ∧
      (r.hasPositiveWeight = true ↔ 0 < w) ∧
      (w ≠ -1 → r.weight = some w) ∧
      List.Perm (upsertContribution cs id w)
        (r :: cs.filter (fun x => decide (x.stationMagnitudeID ≠ id))) := by
  induction cs with
  | nil =>
    refine ⟨{ stationMagnitudeID := id, weight := some w }, rfl, ?_, fun _ => rfl, ?_⟩
    · simp [StationMagnitudeContribution.hasPositiveWeight]
    · simp [upsertContribution]
  | cons x rest ih =>
    rw [List.map_cons] at h
    have hnd := List.nodup_cons.mp h
    by_cases hx : x.stationMagnitudeID = id
    · have hrest : rest.filter (fun y => decide (y.stationMagnitudeID ≠ id)) = rest := by
        apply List.filter_eq_self.mpr
        intro y hy
        simp only [ne_eq, decide_not, Bool.not_eq_true', decide_eq_false_iff_not]
        intro hyid
        apply hnd.1
        rw [hx, ← hyid]
        exact List.mem_map_of_mem _ hy
      by_cases hw : x.weight.getD (-1) ≠ w
      · refine ⟨{ x with weight := some w }, hx, ?_, fun _ => rfl, ?_⟩
        · simp [StationMagnitudeContribution.hasPositiveWeight]
        · simp only [upsertContribution, hx, if_true, hw, List.filter_cons, ne_eq,
            not_true_eq_false, decide_False, Bool.false_eq_true, if_false, hrest]
          exact List.Perm.refl _
      · have hw' : x.weight.getD (-1) = w := by simpa using hw
        refine ⟨x, hx, ?_, ?_, ?_⟩
        · cases hxw : x.weight with
          | none =>
            rw [hxw] at hw'
            simp only [Option.getD_none] at hw'
            simp [StationMagnitudeContribution.hasPositiveWeight, hxw, ← hw']
          | some v =>
            rw [hxw] at hw'
            simp only [Option.getD_some] at hw'
            simp [StationMagnitudeContribution.hasPositiveWeight, hxw, hw']
        · intro hne
          cases hxw : x.weight with
          | none =>
            rw [hxw] at hw'
            simp only [Option.getD_none] at hw'
            exact absurd hw'.symm hne
          | some v =>
            rw [hxw] at hw'
            simp only [Option.getD_some] at hw'
            rw [hw']
        · simp only [upsertContribution, hx, if_true, hw, List.filter_cons, ne_eq,
            not_true_eq_false, decide_False, Bool.false_eq_true, if_false, hrest]
          exact List.Perm.refl _
    · obtain ⟨r, hr1, hr2, hr3, hr4⟩ := ih hnd.2
      refine ⟨r, hr1, hr2, hr3, ?_⟩
      simp only [upsertContribution, hx, if_false, List.filter_cons, ne_eq, not_false_eq_true,
        decide_True, if_true]
      exact (List.Perm.cons x hr4).trans (List.Perm.swap r x _)

/-- The contributions after upserting pairwise distinct ids: one contribution
per id, in the relation of `upsertContribution_perm` to its weight, and the
contributions of other ids untouched. -/
theorem foldl_upsertContribution_perm (ps : List (String × ℚ))
    (cs : List StationMagnitudeContribution)
    (hps : (ps.map Prod.fst).Nodup)
    (hcs : (cs.map (fun r => r.stationMagnitudeID)).Nodup) :
    ∃ rs : List StationMagnitudeContribution,
      List.Forall₂ (fun (r : StationMagnitudeContribution) (p : String × ℚ) =>
        r.stationMagnitudeID = p.1 ∧ (r.hasPositiveWeight = true ↔ 0 < p.2) ∧
        (p.2 ≠ -1 → r.weight = some p.2)) rs ps ∧
      List.Perm (ps.foldl (fun acc p => upsertContribution acc p.1 p.2) cs)
        (rs ++ cs.filter (fun x => decide (x.stationMagnitudeID ∉ ps.map Prod.fst))) := by
  induction ps generalizing cs with
  | nil => exact ⟨[], List.Forall₂.nil, by simp⟩
  | cons p rest ih =>
    rw [List.map_cons] at hps
    have hnd := List.nodup_cons.mp hps
    obtain ⟨r, hr1, hr2, hr3, hr4⟩ := upsertContribution_perm cs p.1 p.2 hcs
    obtain ⟨rs, hrs1, hrs2⟩ := ih (upsertContribution cs p.1 p.2) hnd.2
      (upsertContribution_nodup cs p.1 p.2 hcs)
    refine ⟨r :: rs, List.Forall₂.cons ⟨hr1, hr2, hr3⟩ hrs1, ?_⟩
    simp only [List.foldl_cons]
    refine hrs2.trans ?_
    have h1 : List.Perm
        ((upsertContribution cs p.1 p.2).filter
          (fun x => decide (x.stationMagnitudeID ∉ rest.map Prod.fst)))
        ((r :: cs.filter (fun x => decide (x.stationMagnitudeID ≠ p.1))).filter
          (fun x => decide (x.stationMagnitudeID ∉ rest.map Prod.fst))) :=
      List.Perm.filter _ hr4
    have h2 : (r :: cs.filter (fun x => decide (x.stationMagnitudeID ≠ p.1))).filter
          (fun x => decide (x.stationMagnitudeID ∉ rest.map Prod.fst)) =
        r :: cs.filter (fun x => decide (x.stationMagnitudeID ∉ (p :: rest).map Prod.fst)) := by
      rw [List.filter_cons, if_pos (by rw [hr1]; simpa using hnd.1), List.filter_filter]
      congr 1
      apply List.filter_congr
      intro x _
      simp only [List.map_cons, List.mem_cons, not_or, ne_eq, decide_not, Bool.and_eq_true,
        Bool.not_eq_true', decide_eq_false_iff_not, Bool.decide_and, decide_eq_true_eq]
      by_cases ha : x.stationMagnitudeID = p.1 <;> by_cases hb : x.stationMagnitudeID ∈ rest.map Prod.fst <;>
        simp [ha, hb]
    rw [h2] at h1
    exact (List.Perm.append_left rs h1).trans (List.perm_middle)

theorem countP_hasPositiveWeight_of_forall₂ (rs : List StationMagnitudeContribution)
    (ps : List (String × ℚ))
    (h : List.Forall₂ (fun (r : StationMagnitudeContribution) (p : String × ℚ) =>
        r.stationMagnitudeID = p.1 ∧ (r.hasPositiveWeight = true ↔ 0 < p.2) ∧
        (p.2 ≠ -1 → r.weight = some p.2)) rs ps) :
    rs.countP (fun r => r.hasPositiveWeight) = (ps.filter (fun p => decide (0 < p.2))).length := by
  induction h with
  | nil => simp
  | @cons r p rs' ps' hrp _ ih =>
    rw [List.countP_cons, ih, List.filter_cons]
    by_cases hp : 0 < p.2
    · simp [hp, hrp.2.1.mpr hp]
    · have : r.hasPositiveWeight = false := by
        cases hh : r.hasPositiveWeight with
        | false => rfl
        | true => exact absurd (hrp.2.1.mp hh) hp
      simp [hp, this]

/-- The number of contributions with positive weight after the contribution
loop, when ids are pairwise distinct and every earlier contribution references
one of the visited station magnitudes. -/
theorem countP_hasPositiveWeight_foldl (ps : List (String × ℚ))
    (cs : List StationMagnitudeContribution)
    (hps : (ps.map Prod.fst).Nodup)
    (hcs : (cs.map (fun r => r.stationMagnitudeID)).Nodup)
    (hsub : ∀ r ∈ cs, r.stationMagnitudeID ∈ ps.map Prod.fst) :
    (ps.foldl (fun acc p => upsertContribution acc p.1 p.2) cs).countP
        (fun r => r.hasPositiveWeight) =
      (ps.filter (fun p => decide (0 < p.2))).length := by
  obtain ⟨rs, hrs1, hrs2⟩ := foldl_upsertContribution_perm ps cs hps hcs
  have hempty : cs.filter (fun x => decide (x.stationMagnitudeID ∉ ps.map Prod.fst)) = [] := by
    apply List.filter_eq_nil_iff.mpr
    intro x hx
    simpa using hsub x hx
  rw [hempty, List.append_nil] at hrs2
  rw [hrs2.countP_eq, countP_hasPositiveWeight_of_forall₂ rs ps hrs1]

/-- The weight of every contribution after the contribution loop when all
weights are 1, under the same conditions. -/
theorem weight_one_foldl (ps : List (String × ℚ))
    (cs : List StationMagnitudeContribution)
    (hps : (ps.map Prod.fst).Nodup)
    (hcs : (cs.map (fun r => r.stationMagnitudeID)).Nodup)
    (hsub : ∀ r ∈ cs, r.stationMagnitudeID ∈ ps.map Prod.fst)
    (hone : ∀ p ∈ ps, p.2 = 1) :
    ∀ r ∈ ps.foldl (fun acc p => upsertContribution acc p.1 p.2) cs, r.weight = some 1 := by
  obtain ⟨rs, hrs1, hrs2⟩ := foldl_upsertContribution_perm ps cs hps hcs
  have hempty : cs.filter (fun x => decide (x.stationMagnitudeID ∉ ps.map Prod.fst)) = [] := by
    apply List.filter_eq_nil_iff.mpr
    intro x hx
    simpa using hsub x hx
  rw [hempty, List.append_nil] at hrs2
  intro r hr
  have hr' : r ∈ rs := hrs2.mem_iff.mp hr
  clear hrs2 hr hempty hsub hps hcs
  induction hrs1 with
  | nil => simp at hr'
  | @cons r0 p rs' ps' hrp _ ih =>
    rcases List.mem_cons.mp hr' with rfl | hmem
    · have hp1 : p.2 = 1 := hone p (by simp)
      have := hrp.2.2 (by rw [hp1]; norm_num)
      rw [this, hp1]
    · exact ih (fun q hq => hone q (by simp [hq])) hmem

/-- The target network magnitude after `computeMagnitude` on a non-empty set of
station magnitudes (shared by the claims on the aggregation). -/
theorem computeMagnitude_target (app : App) (self : MagTool) (c : OriginCtx) (mtype : String)
    (netMag : Nat) (nm0 : Magnitude)
    (hne : stationMagnitudesOfType c.origin mtype ≠ [])
    (hget : c.origin.magnitudes[netMag]? = some nm0) :
    ∃ nm, (self.computeMagnitude app c mtype netMag).2.origin.magnitudes[netMag]? = some nm ∧
      nm.publicID = nm0.publicID ∧ nm.type = nm0.type ∧
      nm.methodID = (computeAverage app (self.averageMethod mtype)
        (stationMagnitudeValues c.origin mtype)).methodID ∧
      nm.contributions = (reconcileContributions
        (computeAverage app (self.averageMethod mtype)
          (stationMagnitudeValues c.origin mtype)).weights
        (stationMagnitudesOfType c.origin mtype) 0 nm0.contributions 0).1 ∧
      nm.stationCount = some (((reconcileContributions
        (computeAverage app (self.averageMethod mtype)
          (stationMagnitudeValues c.origin mtype)).weights
        (stationMagnitudesOfType c.origin mtype) 0 nm0.contributions 0).2 : Nat) : Int) ∧
      nm.evaluationStatus = none ∧
      ((∀ proc, self.processors.find? (fun proc => decide (proc.amplitudeType = mtype)) = some proc →
          proc.typeMw ≠ nm0.type) →
        nm.magnitude =
          { value := (computeAverage app (self.averageMethod mtype)
              (stationMagnitudeValues c.origin mtype)).value,
            uncertainty := some (computeAverage app (self.averageMethod mtype)
              (stationMagnitudeValues c.origin mtype)).stdev }) := by
  have hlen : (stationMagnitudeValues c.origin mtype).length ≠ 0 := by
    rw [stationMagnitudeValues_length]
    exact fun h => hne (List.length_eq_zero.mp h)
  unfold MagTool.computeMagnitude
  simp only [hlen, if_false]
  have hagg := modifyMagnitude_get? c netMag
    (fun nm => ({ nm with
      contributions := (self.reconciled app c mtype netMag).1,
      methodID := (computeAverage app (self.averageMethod mtype)
        (stationMagnitudeValues c.origin mtype)).methodID,
      magnitude :=
        { value := (computeAverage app (self.averageMethod mtype)
            (stationMagnitudeValues c.origin mtype)).value,
          uncertainty := some (computeAverage app (self.averageMethod mtype)
            (stationMagnitudeValues c.origin mtype)).stdev },
      evaluationStatus := none,
      stationCount := some ((self.reconciled app c mtype netMag).2 : Int) } : Magnitude)) nm0 hget
  have hrec : self.reconciled app c mtype netMag = reconcileContributions
        (computeAverage app (self.averageMethod mtype)
          (stationMagnitudeValues c.origin mtype)).weights
        (stationMagnitudesOfType c.origin mtype) 0 nm0.contributions 0 := by
    unfold MagTool.reconciled
    simp only [hget, filter_stationMagnitudesOfType]
  obtain ⟨y, hy, h1, h2, h3, h4, h5, h6, _, h8⟩ := deriveMw_getElem? app self
    (self.aggregate app c mtype netMag) mtype
    (computeAverage app (self.averageMethod mtype) (stationMagnitudeValues c.origin mtype)).value
    (computeAverage app (self.averageMethod mtype) (stationMagnitudeValues c.origin mtype)).stdev
    (self.reconciled app c mtype netMag).2 netMag _ hagg
  refine ⟨y, hy, h1, h2, h3, ?_, ?_, ?_, ?_⟩
  · rw [h4, hrec]
  · rw [← hrec]
    rcases h5 with h5 | h5 <;> rw [h5]
  · rcases h6 with h6 | h6 <;> rw [h6]
  · intro hall
    rw [h8 hall]

/-- A map without an entry for the key finds nothing. -/
theorem StdMap.find_none_of_forall_ne {V : Type} (m : StdMap V) (key : String)
    (h : ∀ e ∈ m, e.1 ≠ key) : StdMap.find m key = none := by
  induction m with
  | nil => rfl
  | cons hd tl ih =>
    obtain ⟨k, v⟩ := hd
    have hk : ¬ k = key := h (k, v) (List.mem_cons_self _ _)
    simp only [StdMap.find, if_neg hk]
    exact ih (fun e he => h e (List.mem_cons_of_mem _ he))

/-- A map finds the first entry with the key. -/
theorem StdMap.find_first {V : Type} (pre post : StdMap V) (key : String) (v : V)
    (h : ∀ e ∈ pre, e.1 ≠ key) : StdMap.find (pre ++ (key, v) :: post) key = some v := by
  induction pre with
  | nil => simp [StdMap.find]
  | cons hd tl ih =>
    obtain ⟨k, w⟩ := hd
    have hk : ¬ k = key := h (k, w) (List.mem_cons_self _ _)
    simp only [List.cons_append, StdMap.find, if_neg hk]
    exact ih (fun e he => h e (List.mem_cons_of_mem _ he))

/-- C7 (estimator selection). For a non-empty set of station magnitudes of the
type `mtype`, with `mv` their values, `computeMagnitude` writes the target
`nm` such that: when the configured methods hold no entry for `mtype`, the
method id is "trimmed mean(25)" for more than three values and "mean"
otherwise, and the value and standard deviation written are those of the
trimmed mean at 25 percent, respectively at 0 percent; when the entry of
`mtype` in the configured methods is `d`, the method id is the one of `Default`
just described, "mean", "trimmed mean(p)", "median" or "trimmed median(p)" as
`d` says, with `p` the text of the parameter of `d`, under `Default` the value
and standard deviation are again those of the trimmed mean at 25 or 0 percent,
under `Mean` those of the trimmed mean at 0 percent, under `TrimmedMean` those
of the trimmed mean at `p` percent and under `Median` and `TrimmedMedian` the
value is the median. The values are stated for a target that the Mw derivation
does not rewrite. -/
theorem computeMagnitude_estimator_selection (app : App) (self : MagTool) (c : OriginCtx)
    (mtype : String) (netMag : Nat) (nm0 : Magnitude) (mv : List ℚ)
    (hne : stationMagnitudesOfType c.origin mtype ≠ [])
    (hget : c.origin.magnitudes[netMag]? = some nm0)
    (hmv : mv = (stationMagnitudesOfType c.origin mtype).map (fun s => s.magnitude.value)) :
    ∃ nm, (self.computeMagnitude app c mtype netMag).2.origin.magnitudes[netMag]? = some nm ∧
      ((∀ e ∈ self.magnitudeAverageMethods, e.1 ≠ mtype) →
        nm.methodID = (if 3 < mv.length then "trimmed mean(25)" else "mean") ∧
        ((∀ proc, self.processors.find? (fun proc => decide (proc.amplitudeType = mtype))
              = some proc → proc.typeMw ≠ nm0.type) →
          nm.magnitude =
            { value := (app.computeTrimmedMean mv (if 3 < mv.length then 25 else 0)).1,
              uncertainty :=
                some (app.computeTrimmedMean mv (if 3 < mv.length then 25 else 0)).2.1 })) ∧
      (∀ (pre : StdMap AverageDescription) (d : AverageDescription)
          (post : StdMap AverageDescription),
        self.magnitudeAverageMethods = pre ++ (mtype, d) :: post →
        (∀ e ∈ pre, e.1 ≠ mtype) →
        nm.methodID =
          (match d.type with
           | AverageType.Default => if 3 < mv.length then "trimmed mean(25)" else "mean"
           | AverageType.Mean => "mean"
           | AverageType.TrimmedMean => "trimmed mean(" ++ app.toString d.parameter ++ ")"
           | AverageType.Median => "median"
           | AverageType.TrimmedMedian => "trimmed median(" ++ app.toString d.parameter ++ ")") ∧
        ((∀ proc, self.processors.find? (fun proc => decide (proc.amplitudeType = mtype))
              = some proc → proc.typeMw ≠ nm0.type) →
          (match d.type with
           | AverageType.Default =>
             nm.magnitude =
               { value := (app.computeTrimmedMean mv (if 3 < mv.length then 25 else 0)).1,
                 uncertainty :=
                   some (app.computeTrimmedMean mv (if 3 < mv.length then 25 else 0)).2.1 }
           | AverageType.Mean =>
             nm.magnitude = { value := (app.computeTrimmedMean mv 0).1,
                              uncertainty := some (app.computeTrimmedMean mv 0).2.1 }
           | AverageType.TrimmedMean =>
             nm.magnitude = { value := (app.computeTrimmedMean mv d.parameter).1,
                              uncertainty := some (app.computeTrimmedMean mv d.parameter).2.1 }
           | AverageType.Median => nm.magnitude.value = app.median mv
           | AverageType.TrimmedMedian => nm.magnitude.value = app.median mv))) := by
  obtain ⟨nm, h1, _, _, h4, _, _, _, h8⟩ :=
    computeMagnitude_target app self c mtype netMag nm0 hne hget
  rw [stationMagnitudeValues_eq, ← hmv] at h4 h8
  refine ⟨nm, h1, ?_, ?_⟩
  · intro hnone
    have hd : self.averageMethod mtype = { type := AverageType.Default } := by
      unfold MagTool.averageMethod
      rw [StdMap.find_none_of_forall_ne _ _ hnone]
    rw [hd] at h4 h8
    refine ⟨?_, ?_⟩
    · rw [h4]
      by_cases hlen : 3 < mv.length <;> simp [computeAverage, hlen]
    · intro hmw
      rw [h8 hmw]
      by_cases hlen : 3 < mv.length <;> simp [computeAverage, hlen]
  · intro pre d post hcfg hpre
    have hd : self.averageMethod mtype = d := by
      unfold MagTool.averageMethod
      rw [hcfg, StdMap.find_first _ _ _ _ hpre]
    rw [hd] at h4 h8
    refine ⟨?_, ?_⟩
    · rw [h4]
      unfold computeAverage
      cases d.type <;> simp only
    · intro hmw
      rw [h8 hmw]
      unfold computeAverage
      by_cases hlen : 3 < mv.length <;> cases d.type <;> simp [hlen]

/-- C7, witness: scenario S1 (three `MLv` station magnitudes) gets the method
id "mean" without a configured method, and "mean", "trimmed mean(p)", "median"
and "trimmed median(p)" when the entry of `MLv` is `Mean`, `TrimmedMean`,
`Median` and `TrimmedMedian` (the evaluation host writes every parameter as
"p"); scenario S2 (five station magnitudes) without a configured method gets
"trimmed mean(25)" and the value 3.1. -/
theorem computeMagnitude_estimator_selection_witness :
    (∃ nm, (({} : MagTool).computeMagnitude evalApp ⟨s1Origin, []⟩ "MLv" 0).2.origin.magnitudes[0]?
        = some nm ∧ nm.methodID = "mean") ∧
    (∃ nm, (({} : MagTool).computeMagnitude trimmingApp ⟨s2Origin, []⟩ "MLv"
        0).2.origin.magnitudes[0]? = some nm ∧ nm.methodID = "trimmed mean(25)" ∧
        nm.magnitude.value = 31/10) ∧
    (∃ nm, ((methodTool { type := AverageType.Mean }).computeMagnitude trimmingApp
        ⟨s2Origin, []⟩ "MLv" 0).2.origin.magnitudes[0]? = some nm ∧ nm.methodID = "mean") ∧
    (∃ nm, ((methodTool { type := AverageType.TrimmedMean, parameter := 10 }).computeMagnitude
        evalApp ⟨s1Origin, []⟩ "MLv" 0).2.origin.magnitudes[0]? = some nm ∧
        nm.methodID = "trimmed mean(p)") ∧
    (∃ nm, ((methodTool { type := AverageType.Median }).computeMagnitude evalApp
        ⟨s1Origin, []⟩ "MLv" 0).2.origin.magnitudes[0]? = some nm ∧ nm.methodID = "median" ∧
        nm.magnitude.value = 16/5) ∧
    (∃ nm, ((methodTool { type := AverageType.TrimmedMedian, parameter := 10 }).computeMagnitude
        evalApp ⟨s1Origin, []⟩ "MLv" 0).2.origin.magnitudes[0]? = some nm ∧
        nm.methodID = "trimmed median(p)") := by
  refine ⟨?_, ?_, ?_, ?_, ?_, ?_⟩
  · obtain ⟨nm, h1, h2, _⟩ := computeMagnitude_estimator_selection evalApp {}
      ⟨s1Origin, []⟩ "MLv" 0 _ _ (by decide) rfl rfl
    exact ⟨nm, h1, (h2 (by simp)).1⟩
  · obtain ⟨nm, h1, h2, _⟩ := computeMagnitude_estimator_selection trimmingApp {}
      ⟨s2Origin, []⟩ "MLv" 0 _ _ (by decide) rfl rfl
    refine ⟨nm, h1, (h2 (by simp)).1, ?_⟩
    have h := (h2 (by simp)).2 (by simp)
    rw [h]
    decide!
  · obtain ⟨nm, h1, _, h3⟩ := computeMagnitude_estimator_selection trimmingApp
      (methodTool { type := AverageType.Mean }) ⟨s2Origin, []⟩ "MLv" 0 _ _ (by decide) rfl rfl
    exact ⟨nm, h1, (h3 [("ML", { type := AverageType.Median })] _ [] rfl (by simp)).1⟩
  · obtain ⟨nm, h1, _, h3⟩ := computeMagnitude_estimator_selection evalApp
      (methodTool { type := AverageType.TrimmedMean, parameter := 10 }) ⟨s1Origin, []⟩ "MLv" 0
      _ _ (by decide) rfl rfl
    exact ⟨nm, h1, (h3 [("ML", { type := AverageType.Median })] _ [] rfl (by simp)).1⟩
  · obtain ⟨nm, h1, _, h3⟩ := computeMagnitude_estimator_selection evalApp
      (methodTool { type := AverageType.Median }) ⟨s1Origin, []⟩ "MLv" 0 _ _ (by decide) rfl rfl
    have h := h3 [("ML", { type := AverageType.Median })] _ [] rfl (by simp)
    refine ⟨nm, h1, h.1, ?_⟩
    have hv := h.2 (by simp [methodTool])
    simp only at hv
    rw [hv]
    decide!
  · obtain ⟨nm, h1, _, h3⟩ := computeMagnitude_estimator_selection evalApp
      (methodTool { type := AverageType.TrimmedMedian, parameter := 10 }) ⟨s1Origin, []⟩ "MLv" 0
      _ _ (by decide) rfl rfl
    exact ⟨nm, h1, (h3 [("ML", { type := AverageType.Median })] _ [] rfl (by simp)).1⟩

/-- C8 (corrected): after `computeMagnitude` on a non-empty set of station
magnitudes of the type, the target's station count is the number of those
station magnitudes whose weight is greater than 0; it is the number of the
target's contributions with weight greater than 0 when the station magnitudes
of the type have pairwise distinct public ids and the contributions the target
had before have pairwise distinct ids that each reference one of them. -/
theorem computeMagnitude_stationCount (app : App) (self : MagTool) (c : OriginCtx)
    (mtype : String) (netMag : Nat) (nm0 : Magnitude)
    (hne : stationMagnitudesOfType c.origin mtype ≠ [])
    (hget : c.origin.magnitudes[netMag]? = some nm0) :
    ∃ nm, (self.computeMagnitude app c mtype netMag).2.origin.magnitudes[netMag]? = some nm ∧
      nm.stationCount = some (((contributionWeights
        (computeAverage app (self.averageMethod mtype)
          (stationMagnitudeValues c.origin mtype)).weights
        (stationMagnitudesOfType c.origin mtype) 0).filter
          (fun p => decide (0 < p.2))).length : Int) ∧
      (((stationMagnitudesOfType c.origin mtype).map (fun s => s.publicID)).Nodup →
        (nm0.contributions.map (fun r => r.stationMagnitudeID)).Nodup →
        (∀ r ∈ nm0.contributions, r.stationMagnitudeID ∈
          (stationMagnitudesOfType c.origin mtype).map (fun s => s.publicID)) →
        nm.stationCount =
          some ((nm.contributions.countP (fun r => r.hasPositiveWeight) : Nat) : Int)) := by
  obtain ⟨nm, h1, _, _, _, h5, h6, _, _⟩ :=
    computeMagnitude_target app self c mtype netMag nm0 hne hget
  rw [reconcileContributions_eq] at h5 h6
  simp only [Nat.zero_add] at h6
  refine ⟨nm, h1, h6, ?_⟩
  intro hids hprior hsub
  rw [h6, h5]
  simp only
  rw [countP_hasPositiveWeight_foldl _ _ (by rw [contributionWeights_keys]; exact hids) hprior
    (by rw [contributionWeights_keys]; exact hsub)]

/-- C8, witness: scenario S1 with its empty target: station count 3, the number
of its contributions with positive weight. -/
theorem computeMagnitude_stationCount_witness :
    ∃ nm, (({} : MagTool).computeMagnitude evalApp ⟨s1Origin, []⟩ "MLv" 0).2.origin.magnitudes[0]?
        = some nm ∧
      nm.stationCount = some ((nm.contributions.countP (fun r => r.hasPositiveWeight) : Nat) : Int) := by
  obtain ⟨nm, h1, _, h3⟩ := computeMagnitude_stationCount evalApp {} ⟨s1Origin, []⟩ "MLv" 0 _
    (by decide) rfl
  exact ⟨nm, h1, h3 (by decide) (by decide) (by simp [s1Origin])⟩

/-- C8, counterexample: the target of scenario S1 carries beforehand a
contribution (weight 1/2) that references no station magnitude of the origin;
afterwards its station count is 3 while four of its contributions have a
weight greater than 0. -/
theorem computeMagnitude_stationCount_stale :
    ∃ nm, (({} : MagTool).computeMagnitude evalApp ⟨staleOrigin, []⟩ "MLv" 0).2.origin.magnitudes[0]?
        = some nm ∧
      nm.stationCount = some 3 ∧ nm.contributions.countP (fun r => r.hasPositiveWeight) = 4 := by
  obtain ⟨nm, h1, _, _, _, h5, h6, _, _⟩ :=
    computeMagnitude_target evalApp {} ⟨staleOrigin, []⟩ "MLv" 0 _ (by decide) rfl
  have hw : (computeAverage evalApp (({} : MagTool).averageMethod "MLv")
      (stationMagnitudeValues staleOrigin "MLv")).weights = [1, 1, 1] := by
    simp [computeAverage, MagTool.averageMethod, StdMap.find, stationMagnitudeValues,
      stationMagnitudesOfType, staleOrigin, s1Origin, s1StationMagnitude, evalApp]
  simp only at h5 h6
  rw [hw] at h5 h6
  refine ⟨nm, h1, ?_, ?_⟩
  · rw [h6]
    simp [reconcileContributions, stationMagnitudesOfType, staleOrigin, s1Origin,
      s1StationMagnitude]
  · rw [h5]
    simp [reconcileContributions, upsertContribution, stationMagnitudesOfType, staleOrigin,
      s1Origin, s1StationMagnitude, StationMagnitudeContribution.hasPositiveWeight,
      List.countP_cons]

theorem contributionWeights_replicate (n : Nat) (l : List StationMagnitude) (i : Nat)
    (h : i + l.length ≤ n) :
    ∀ p ∈ contributionWeights (List.replicate n (1 : ℚ)) l i, p.2 = 1 := by
  induction l generalizing i with
  | nil => intro p hp; simp [contributionWeights] at hp
  | cons s rest ih =>
    intro p hp
    simp only [contributionWeights, List.mem_cons] at hp
    simp only [List.length_cons] at h
    rcases hp with rfl | hp
    · have hi : i < n := by omega
      simp [List.getD_eq_getElem?_getD, List.getElem?_replicate, hi]
    · exact ih (i + 1) (by omega) p hp

/-- C9 (corrected): under `Median`, after `computeMagnitude` on a non-empty set
of station magnitudes of the type, the target's value is their median unless
the Mw derivation rewrites the target itself (the processor found for the type
publishes its Mw under the target's type), and every contribution of the target
has weight 1 when the station magnitudes of the type have pairwise distinct
public ids and the contributions the target had before have pairwise distinct
ids that each reference one of them. -/
theorem computeMagnitude_median (app : App) (self : MagTool) (c : OriginCtx)
    (mtype : String) (netMag : Nat) (nm0 : Magnitude)
    (hne : stationMagnitudesOfType c.origin mtype ≠ [])
    (hget : c.origin.magnitudes[netMag]? = some nm0)
    (hmed : (self.averageMethod mtype).type = AverageType.Median) :
    ∃ nm, (self.computeMagnitude app c mtype netMag).2.origin.magnitudes[netMag]? = some nm ∧
      nm.methodID = "median" ∧
      ((∀ proc, self.processors.find? (fun proc => decide (proc.amplitudeType = mtype)) = some proc →
          proc.typeMw ≠ nm0.type) →
        nm.magnitude.value = app.median
          ((stationMagnitudesOfType c.origin mtype).map (fun s => s.magnitude.value))) ∧
      (((stationMagnitudesOfType c.origin mtype).map (fun s => s.publicID)).Nodup →
        (nm0.contributions.map (fun r => r.stationMagnitudeID)).Nodup →
        (∀ r ∈ nm0.contributions, r.stationMagnitudeID ∈
          (stationMagnitudesOfType c.origin mtype).map (fun s => s.publicID)) →
        ∀ r ∈ nm.contributions, r.weight = some 1) := by
  obtain ⟨nm, h1, _, _, h4, h5, _, _, h8⟩ :=
    computeMagnitude_target app self c mtype netMag nm0 hne hget
  have hw : (computeAverage app (self.averageMethod mtype)
      (stationMagnitudeValues c.origin mtype)).weights =
        List.replicate (stationMagnitudeValues c.origin mtype).length 1 := by
    simp [computeAverage, hmed]
  refine ⟨nm, h1, ?_, ?_, ?_⟩
  · rw [h4]; simp [computeAverage, hmed]
  · intro hall
    rw [h8 hall, stationMagnitudeValues_eq]
    simp [computeAverage, hmed]
  · intro hids hprior hsub
    rw [h5, reconcileContributions_eq]
    simp only
    apply weight_one_foldl _ _ (by rw [contributionWeights_keys]; exact hids) hprior
      (by rw [contributionWeights_keys]; exact hsub)
    rw [hw, stationMagnitudeValues_length]
    exact contributionWeights_replicate _ _ 0 (by omega)

/-- C9, witness: scenario S1 under `Median` with its empty target: the value is
the median and the contributions of the target have weight 1. -/
theorem computeMagnitude_median_witness :
    ∃ nm, (medianTool.computeMagnitude evalApp ⟨s1Origin, []⟩ "MLv" 0).2.origin.magnitudes[0]?
        = some nm ∧
      nm.magnitude.value = evalApp.median
        ((stationMagnitudesOfType s1Origin "MLv").map (fun s => s.magnitude.value)) ∧
      ∀ r ∈ nm.contributions, r.weight = some 1 := by
  obtain ⟨nm, h1, _, h3, h4⟩ := computeMagnitude_median evalApp medianTool ⟨s1Origin, []⟩ "MLv" 0 _
    (by decide) rfl rfl
  exact ⟨nm, h1, h3 (by simp [medianTool]), h4 (by decide) (by decide) (by simp [s1Origin])⟩

/-- C9, counterexample: under `Median`, with a target that carries beforehand a
contribution of weight 1/2 referencing no station magnitude of the origin, and
a processor that publishes its Mw estimate (median + 1) under the target's
type, the target's value is not the median and one of its contributions has a
weight other than 1. -/
theorem computeMagnitude_median_stale :
    ∃ nm, (medianMwTool.computeMagnitude evalApp ⟨staleOrigin, []⟩ "MLv" 0).2.origin.magnitudes[0]?
        = some nm ∧
      nm.magnitude.value ≠ evalApp.median
        ((stationMagnitudesOfType staleOrigin "MLv").map (fun s => s.magnitude.value)) ∧
      ∃ r ∈ nm.contributions, r.weight ≠ some 1 := by
  obtain ⟨nm, h1, _, _, _, h5, _, _, _⟩ :=
    computeMagnitude_target evalApp medianMwTool ⟨staleOrigin, []⟩ "MLv" 0 _ (by decide) rfl
  have hv : ∃ nm1, (medianMwTool.computeMagnitude evalApp ⟨staleOrigin, []⟩ "MLv" 0).2.origin.magnitudes[0]?
      = some nm1 ∧ nm1.magnitude.value = evalApp.median
        ((stationMagnitudesOfType staleOrigin "MLv").map (fun s => s.magnitude.value)) + 1 := by
    simp [MagTool.computeMagnitude, MagTool.deriveMw, MagTool.aggregate, getMagnitudeWithValue,
      getMagnitude, firstIndex, OriginCtx.modifyMagnitude, modifyAt, medianMwTool,
      selfMwProcessor, staleOrigin, s1Origin, stationMagnitudeValues, stationMagnitudesOfType,
      s1StationMagnitude, computeAverage, MagTool.averageMethod, StdMap.find]
  obtain ⟨nm1, hnm1, hval⟩ := hv
  rw [h1] at hnm1
  have hnm : nm = nm1 := Option.some.inj hnm1
  subst hnm
  refine ⟨nm, h1, ?_, ⟨{ stationMagnitudeID := "elsewhere", weight := some (1/2) }, ?_, ?_⟩⟩
  · rw [hval]
    intro h
    linarith
  · rw [h5]
    simp [reconcileContributions, upsertContribution, stationMagnitudesOfType, staleOrigin,
      s1Origin, s1StationMagnitude]
  · simp

/-- C10 (code bug): the engine holds the processor of magnitude type `MN`, which
supports the Mw estimation and works on amplitudes of type `AMN`. Aggregating
the station magnitudes of type `MN` looks the processor up under `MN` in the
table keyed by amplitude type, finds none, returns false and derives no
magnitude of type `Mw(MN)`: the origin keeps its single network magnitude. -/
theorem computeMagnitude_mw_lookup_misses :
    nuttliProcessor.estimateMw 3 = some (4, 2/5) ∧
    (nuttliTool.computeMagnitude evalApp ⟨nuttliOrigin, []⟩ "MN" 0).1 = false ∧
    (nuttliTool.computeMagnitude evalApp ⟨nuttliOrigin, []⟩ "MN" 0).2.origin.magnitudes.map
      (fun m => (m.type, m.magnitude.value, m.stationCount)) = [("MN", 3, some 1)] := by
  refine ⟨?_, ?_, ?_⟩
  · simp [nuttliProcessor]; norm_num
  · simp [MagTool.computeMagnitude, MagTool.deriveMw, nuttliTool, nuttliProcessor,
      stationMagnitudeValues, stationMagnitudesOfType, nuttliOrigin]
  · simp [MagTool.computeMagnitude, MagTool.deriveMw, MagTool.aggregate, MagTool.reconciled,
      nuttliTool, nuttliProcessor, stationMagnitudeValues, stationMagnitudesOfType, nuttliOrigin,
      OriginCtx.modifyMagnitude, modifyAt, computeAverage, MagTool.averageMethod, StdMap.find,
      evalApp, reconcileContributions]

/-! ### Frozen magnitudes: the origin-level operations -/

theorem frozenKept_refl (o : Origin) : frozenKept o o := fun _ _ h _ => h

theorem frozenKept_trans {o1 o2 o3 : Origin} (h12 : frozenKept o1 o2) (h23 : frozenKept o2 o3) :
    frozenKept o1 o3 := fun idx mag h hf => h23 idx mag (h12 idx mag h hf) hf

theorem frozenKept_of_magnitudes_eq {o o1 : Origin} (h : o1.magnitudes = o.magnitudes) :
    frozenKept o o1 := fun idx mag hm _ => by rw [h]; exact hm

/-- Modifying a position that does not hold a frozen magnitude keeps the frozen
ones. -/
theorem frozenKept_modifyMagnitude (c : OriginCtx) (i : Nat) (f : Magnitude → Magnitude)
    (hi : ∀ x, c.origin.magnitudes[i]? = some x → x.evaluationStatus = none) :
    frozenKept c.origin (c.modifyMagnitude i f).origin := by
  intro idx mag hm hf
  by_cases hidx : i = idx
  · subst hidx
    exact absurd (hi mag hm) hf
  · rw [modifyMagnitude_get?_ne c i idx f hidx]
    exact hm

theorem getStationMagnitude_magnitudes (app : App) (c : OriginCtx) (wfid : WaveformStreamID)
    (type : String) (value : ℚ) (update : Bool) :
    (getStationMagnitude app c wfid type value update).2.origin.magnitudes = c.origin.magnitudes := by
  unfold getStationMagnitude
  split
  · split <;> rfl
  · simp only
    split <;> rfl

theorem setAmplitudeID_magnitudes (c : OriginCtx) (i : Nat) (aid : String) :
    (c.setAmplitudeID i aid).origin.magnitudes = c.origin.magnitudes := rfl

theorem getMagnitude_frozenKept (app : App) (c : OriginCtx) (type : String) :
    frozenKept c.origin (getMagnitude app c type).2.origin :=
  fun idx mag hm _ => getMagnitude_getElem? app c type idx mag hm

/-- The magnitude `getMagnitude` returns is not frozen. -/
theorem getMagnitude_returned_unfrozen (app : App) (c c1 : OriginCtx) (type : String)
    (i : Nat) (isNew : Bool) (h : getMagnitude app c type = (some (i, isNew), c1)) :
    ∀ x, c1.origin.magnitudes[i]? = some x → x.evaluationStatus = none := by
  have hs := getMagnitude_spec app c type
  rw [h] at hs
  simp only at hs
  obtain ⟨_, _, _, _, _, _, ⟨mag, hmag, _, hfz⟩, _⟩ := hs
  intro x hx
  rw [hmag] at hx
  rw [← Option.some.inj hx]
  exact hfz

theorem deriveMw_frozenKept (app : App) (self : MagTool) (c : OriginCtx) (mtype : String)
    (value stdev : ℚ) (staCount : Nat) :
    frozenKept c.origin (self.deriveMw app c mtype value stdev staCount).2.origin := by
  intro idx mag hm hf
  obtain ⟨y, hy, _, _, _, _, _, _, h7, _⟩ :=
    deriveMw_getElem? app self c mtype value stdev staCount idx mag hm
  rw [hy, h7 hf]

/-- `computeMagnitude` on an unfrozen target keeps the frozen magnitudes. -/
theorem computeMagnitude_frozenKept (app : App) (self : MagTool) (c : OriginCtx) (mtype : String)
    (netMag : Nat)
    (hi : ∀ x, c.origin.magnitudes[netMag]? = some x → x.evaluationStatus = none) :
    frozenKept c.origin (self.computeMagnitude app c mtype netMag).2.origin := by
  unfold MagTool.computeMagnitude
  simp only
  split
  · exact frozenKept_refl _
  · exact frozenKept_trans (frozenKept_modifyMagnitude c netMag _ hi) (deriveMw_frozenKept _ _ _ _ _ _ _)

theorem networkMagnitudeStep_frozenKept (app : App) (self : MagTool) (c : OriginCtx)
    (mtype : String) : frozenKept c.origin (self.networkMagnitudeStep app c mtype).origin := by
  unfold MagTool.networkMagnitudeStep
  have hk := getMagnitude_frozenKept app c mtype
  rcases hr : getMagnitude app c mtype with ⟨_ | ⟨netMag, isNew⟩, c1⟩
  · rw [hr] at hk; exact hk
  · rw [hr] at hk
    simp only at hk ⊢
    have hun := getMagnitude_returned_unfrozen app c c1 mtype netMag isNew hr
    have hc := computeMagnitude_frozenKept app self c1 mtype netMag hun
    cases isNew with
    | true => exact frozenKept_trans hk hc
    | false =>
      simp only [Bool.false_eq_true, if_false]
      refine frozenKept_trans hk ?_
      intro idx mag hm hf
      have hidx : netMag ≠ idx := by
        intro he
        subst he
        exact hf (hun mag hm)
      rw [modifyMagnitude_get?_ne _ netMag idx _ hidx]
      exact hc idx mag hm hf

theorem computeSummaryMagnitude_frozenKept (app : App) (self : MagTool) (c c1 : OriginCtx)
    (b : Bool) (h : self.computeSummaryMagnitude app c = some (b, c1)) :
    frozenKept c.origin c1.origin := by
  unfold MagTool.computeSummaryMagnitude at h
  split at h
  · cases h; exact frozenKept_refl _
  split at h
  · cases h; exact frozenKept_refl _
  split at h
  · exact absurd h (by simp)
  split at h
  · cases h; exact frozenKept_refl _
  rename_i acc _ _
  have hk := getMagnitude_frozenKept app c self.summaryMagnitudeType
  rcases hr : getMagnitude app c self.summaryMagnitudeType with ⟨_ | ⟨i, isNew⟩, c2⟩
  · rw [hr] at h hk
    simp only [Option.some.injEq, Prod.mk.injEq] at h
    rw [← h.2]; exact hk
  · rw [hr] at h hk
    simp only at h hk
    have hun := getMagnitude_returned_unfrozen app c c2 _ i isNew hr
    split at h
    · simp only [Option.some.injEq, Prod.mk.injEq] at h
      rw [← h.2]; exact hk
    · simp only [Option.some.injEq, Prod.mk.injEq] at h
      rw [← h.2]
      exact frozenKept_trans hk (frozenKept_modifyMagnitude c2 i _ hun)

theorem installStationMagnitudes_magnitudes (app : App) (ampl : Amplitude)
    (mags : List MagnitudeEntry) (c : OriginCtx) (magTypes : List String) :
    (installStationMagnitudes app ampl mags c magTypes).1.origin.magnitudes =
      c.origin.magnitudes := by
  induction mags generalizing c magTypes with
  | nil => rfl
  | cons e rest ih =>
    obtain ⟨type, value⟩ := e
    unfold installStationMagnitudes
    have hg := getStationMagnitude_magnitudes app c ampl.waveformID type value false
    rcases hr : getStationMagnitude app c ampl.waveformID type value false with ⟨_ | i, c1⟩
    · rw [hr] at hg; simp only at hg ⊢; rw [ih, hg]
    · rw [hr] at hg; simp only at hg ⊢; rw [ih, setAmplitudeID_magnitudes, hg]

theorem usedAmplitudeLoop_magnitudes (app : App) (self : MagTool) (distance depth : ℚ)
    (used : List (String × Amplitude)) (c : OriginCtx) (magTypes : List String) :
    (self.usedAmplitudeLoop app distance depth used c magTypes).1.origin.magnitudes =
      c.origin.magnitudes := by
  induction used generalizing c magTypes with
  | nil => rfl
  | cons e rest ih =>
    obtain ⟨key, ampl⟩ := e
    unfold MagTool.usedAmplitudeLoop
    rcases hr : self.computeStationMagnitude ampl distance depth with _ | ⟨b, mags⟩
    · rfl
    · cases b with
      | false => simp only; exact ih c magTypes
      | true => simp only; rw [ih, installStationMagnitudes_magnitudes]

theorem pickStreamLoop_magnitudes (app : App) (self : MagTool) (depth : ℚ)
    (streams : List (String × (Pick × ℚ))) (c : OriginCtx) (magTypes : List String) :
    (self.pickStreamLoop app depth streams c magTypes).1.origin.magnitudes =
      c.origin.magnitudes := by
  induction streams generalizing c magTypes with
  | nil => rfl
  | cons e rest ih =>
    obtain ⟨key, pick, distance⟩ := e
    unfold MagTool.pickStreamLoop
    simp only
    have hu := usedAmplitudeLoop_magnitudes app self distance depth
      (collectUsedAmplitudes (self.amplitudesForPick pick.publicID)) c magTypes
    rcases hr : self.usedAmplitudeLoop app distance depth
      (collectUsedAmplitudes (self.amplitudesForPick pick.publicID)) c magTypes with ⟨c1, _ | mt⟩
    · rw [hr] at hu; exact hu
    · rw [hr] at hu; simp only at hu ⊢; rw [ih, hu]

theorem foldl_networkMagnitudeStep_frozenKept (app : App) (self : MagTool)
    (magTypes : List String) (c : OriginCtx) :
    frozenKept c.origin (magTypes.foldl (self.networkMagnitudeStep app) c).origin := by
  induction magTypes generalizing c with
  | nil => exact frozenKept_refl _
  | cons t rest ih =>
    simp only [List.foldl_cons]
    exact frozenKept_trans (networkMagnitudeStep_frozenKept app self c t) (ih _)

theorem processSelected_frozenKept (app : App) (self : MagTool) (depth : ℚ)
    (pickStreamMap : PickStreamMap) (c : OriginCtx) :
    frozenKept c.origin (self.processSelected app depth pickStreamMap c).1.origin := by
  unfold MagTool.processSelected
  have hp := pickStreamLoop_magnitudes app self depth pickStreamMap c []
  rcases hr : self.pickStreamLoop app depth pickStreamMap c [] with ⟨c1, _ | magTypes⟩
  · rw [hr] at hp; exact frozenKept_of_magnitudes_eq hp
  · rw [hr] at hp
    simp only at hp ⊢
    have h1 : frozenKept c.origin c1.origin := frozenKept_of_magnitudes_eq hp
    have h2 := foldl_networkMagnitudeStep_frozenKept app self magTypes c1
    rcases hs : self.computeSummaryMagnitude app
      (magTypes.foldl (self.networkMagnitudeStep app) c1) with _ | ⟨b, c3⟩
    · exact frozenKept_trans h1 h2
    · exact frozenKept_trans h1 (frozenKept_trans h2
        (computeSummaryMagnitude_frozenKept app self _ c3 b hs))

theorem retroactiveLoop_frozenKept (app : App) (self : MagTool) (ampl : Amplitude)
    (update : Bool) (mags : List MagnitudeEntry) (c : OriginCtx) (u : Bool) :
    frozenKept c.origin (self.retroactiveLoop app ampl update mags c u).1.origin := by
  induction mags generalizing c u with
  | nil => exact frozenKept_refl _
  | cons e rest ih =>
    obtain ⟨type, value⟩ := e
    unfold MagTool.retroactiveLoop
    have hg := getStationMagnitude_magnitudes app c ampl.waveformID type value update
    rcases hr : getStationMagnitude app c ampl.waveformID type value update with ⟨_ | i, c1⟩
    · rw [hr] at hg
      simp only at hg ⊢
      exact frozenKept_trans (frozenKept_of_magnitudes_eq hg) (ih c1 u)
    · rw [hr] at hg
      simp only at hg ⊢
      have h1 : frozenKept c.origin (c1.setAmplitudeID i ampl.publicID).origin :=
        frozenKept_of_magnitudes_eq (by rw [setAmplitudeID_magnitudes, hg])
      generalize hmt : (match (c1.setAmplitudeID i ampl.publicID).origin.stationMagnitudes[i]? with
        | some staMag => staMag.type
        | none => type) = mtype
      have hk := getMagnitude_frozenKept app (c1.setAmplitudeID i ampl.publicID) mtype
      rcases hm : getMagnitude app (c1.setAmplitudeID i ampl.publicID) mtype with
        ⟨_ | ⟨netMag, isNew⟩, c3⟩
      · rw [hm] at hk
        simp only at hk ⊢
        exact frozenKept_trans h1 (frozenKept_trans hk (ih c3 u))
      · rw [hm] at hk
        simp only at hk ⊢
        have hun := getMagnitude_returned_unfrozen app _ c3 mtype netMag isNew hm
        exact frozenKept_trans h1 (frozenKept_trans hk (frozenKept_trans
          (computeMagnitude_frozenKept app self c3 mtype netMag hun) (ih _ true)))

/-! ### Frozen magnitudes: the engine -/

theorem frozenRespected_refl (s : MagTool) : frozenRespected s s :=
  fun _ o h => ⟨o, h, frozenKept_refl o⟩

theorem frozenRespected_trans {s1 s2 s3 : MagTool} (h12 : frozenRespected s1 s2)
    (h23 : frozenRespected s2 s3) : frozenRespected s1 s3 := by
  intro ptr o h
  obtain ⟨o2, ho2, hk2⟩ := h12 ptr o h
  obtain ⟨o3, ho3, hk3⟩ := h23 ptr o2 ho2
  exact ⟨o3, ho3, frozenKept_trans hk2 hk3⟩

theorem frozenRespected_of_heap_eq {s s1 : MagTool} (h : s1.heap = s.heap) :
    frozenRespected s s1 := fun _ o ho => ⟨o, by rw [h]; exact ho, frozenKept_refl o⟩

theorem cacheFeed_heap (self : MagTool) (obj : CachedObject) :
    (self.cacheFeed obj).heap = self.heap := rfl

theorem createBinding_heap (self : MagTool) (pickID : String) :
    (self.createBinding pickID).heap = self.heap := by
  unfold MagTool.createBinding
  split <;> rfl

theorem bind_heap (self : MagTool) (pickID : String) (origin : Nat) :
    (self.bind pickID origin).heap = self.heap := by
  unfold MagTool.bind
  split <;> rfl

theorem getPick_heap (app : App) (self : MagTool) (id : String) :
    (self.getPick app id).1.heap = self.heap := by
  unfold MagTool.getPick
  split
  · rfl
  · split
    · rfl
    · split <;> rfl

theorem getAmplitude_heap (app : App) (self : MagTool) (id : String) :
    (self.getAmplitude app id).1.heap = self.heap := by
  unfold MagTool.getAmplitude
  split
  · rfl
  · split
    · rfl
    · split <;> rfl

theorem feedPick_heap (app : App) (self : MagTool) (pick : Pick) :
    (self.feedPick app pick).1.heap = self.heap := by
  unfold MagTool.feedPick
  split
  · rfl
  · simp only [createBinding_heap, cacheFeed_heap]

theorem _feed_heap (app : App) (self : MagTool) (ampl : Amplitude) (update : Bool) :
    (self._feed app ampl update).1.heap = self.heap := by
  unfold MagTool._feed
  simp only
  split
  · rfl
  · split
    · exact getAmplitude_heap app self _
    · simp only [getPick_heap]
      exact getAmplitude_heap app self _

theorem retrieveMissingPicksAndArrivalsFromDB_heap (app : App) (self : MagTool) (origin : Nat) :
    (self.retrieveMissingPicksAndArrivalsFromDB app origin).heap = self.heap := by
  unfold MagTool.retrieveMissingPicksAndArrivalsFromDB
  split
  · rfl
  · simp only
    split
    · rfl
    · split
      · rfl
      · rename_i o _ _ q _
        have h1 : ∀ (l : List Pick) (s : MagTool) (missing : List String),
            (l.foldl (fun (s : MagTool) pick =>
              if decide (pick.publicID ∈ missing) then (s.feedPick app pick).1 else s) s).heap
              = s.heap := by
          intro l
          induction l with
          | nil => intro s _; rfl
          | cons p rest ih =>
            intro s missing
            simp only [List.foldl_cons]
            rw [ih]
            split
            · exact feedPick_heap app s p
            · rfl
        have h2 : ∀ (l : List Amplitude) (s : MagTool) (missing : List String),
            (l.foldl (fun (s : MagTool) ampl =>
              if decide (ampl.pickID ∈ missing) then (s._feed app ampl false).1 else s) s).heap
              = s.heap := by
          intro l
          induction l with
          | nil => intro s _; rfl
          | cons a rest ih =>
            intro s missing
            simp only [List.foldl_cons]
            rw [ih]
            split
            · exact _feed_heap app s a false
            · rfl
        rw [h2, h1]

theorem arrivalStep_heap (app : App) (self : MagTool) (origin : Nat) (arr : Arrival)
    (m : PickStreamMap) : (self.arrivalStep app origin arr m).1.heap = self.heap := by
  unfold MagTool.arrivalStep
  have hg := getPick_heap app self arr.pickID
  rcases hr : self.getPick app arr.pickID with ⟨self1, _ | pick⟩
  · rw [hr] at hg; exact hg
  · rw [hr] at hg
    simp only at hg ⊢
    split
    · rw [bind_heap, hg]
    · split
      · rw [bind_heap, hg]
      · split <;> simp only [bind_heap, hg]

theorem arrivalLoop_heap (app : App) (origin : Nat) (arrivals : List Arrival) (self : MagTool)
    (m : PickStreamMap) : (MagTool.arrivalLoop app origin arrivals self m).1.heap = self.heap := by
  induction arrivals generalizing self m with
  | nil => rfl
  | cons arr rest ih =>
    unfold MagTool.arrivalLoop
    have hs := arrivalStep_heap app self origin arr m
    rcases hr : self.arrivalStep app origin arr m with ⟨self1, _ | m1⟩
    · rw [hr] at hs; exact hs
    · rw [hr] at hs; simp only at hs ⊢; rw [ih, hs]

theorem getPick_registry (app : App) (self : MagTool) (id : String) :
    (self.getPick app id).1.registry = self.registry := by
  unfold MagTool.getPick
  split
  · rfl
  · split
    · rfl
    · split <;> rfl

theorem bind_registry (self : MagTool) (pickID : String) (origin : Nat) :
    (self.bind pickID origin).registry = self.registry := by
  unfold MagTool.bind
  split <;> rfl

theorem arrivalStep_registry (app : App) (self : MagTool) (origin : Nat) (arr : Arrival)
    (m : PickStreamMap) : (self.arrivalStep app origin arr m).1.registry = self.registry := by
  unfold MagTool.arrivalStep
  have hg := getPick_registry app self arr.pickID
  rcases hr : self.getPick app arr.pickID with ⟨self1, _ | pick⟩
  · rw [hr] at hg; exact hg
  · rw [hr] at hg
    simp only at hg ⊢
    split
    · rw [bind_registry, hg]
    · split
      · rw [bind_registry, hg]
      · split <;> simp only [bind_registry, hg]

theorem arrivalLoop_registry (app : App) (origin : Nat) (arrivals : List Arrival) (self : MagTool)
    (m : PickStreamMap) :
    (MagTool.arrivalLoop app origin arrivals self m).1.registry = self.registry := by
  induction arrivals generalizing self m with
  | nil => rfl
  | cons arr rest ih =>
    unfold MagTool.arrivalLoop
    have hs := arrivalStep_registry app self origin arr m
    rcases hr : self.arrivalStep app origin arr m with ⟨self1, _ | m1⟩
    · rw [hr] at hs; exact hs
    · rw [hr] at hs; simp only at hs ⊢; rw [ih, hs]

theorem firstPLoop_heap (app : App) (ampl : Amplitude) (arrivals : List Arrival) (self : MagTool)
    (st : Option Pick × Option Arrival) :
    (MagTool.firstPLoop app ampl arrivals self st).1.heap = self.heap := by
  induction arrivals generalizing self st with
  | nil => rfl
  | cons a rest ih =>
    unfold MagTool.firstPLoop
    simp only
    rw [ih]
    unfold MagTool.firstPStep
    have hg := getPick_heap app self a.pickID
    rcases hr : self.getPick app a.pickID with ⟨self1, _ | p⟩
    · rw [hr] at hg; exact hg
    · rw [hr] at hg
      simp only at hg ⊢
      repeat' split
      all_goals exact hg

/-- Writing back an origin that keeps the frozen magnitudes of the stored one. -/
theorem store_frozenRespected (self : MagTool) (origin : Nat) (c : OriginCtx) (o : Origin)
    (ho : self.heap[origin]? = some o) (hk : frozenKept o c.origin) :
    frozenRespected self (self.store origin c) := by
  intro ptr o1 h1
  by_cases hp : origin = ptr
  · subst hp
    rw [ho] at h1
    have : o = o1 := Option.some.inj h1
    subst this
    refine ⟨c.origin, ?_, hk⟩
    simp only [MagTool.store]
    rw [modifyAt_get?_eq, ho]
    rfl
  · refine ⟨o1, ?_, frozenKept_refl o1⟩
    simp only [MagTool.store]
    rw [modifyAt_get?_ne _ _ _ _ hp]
    exact h1

theorem ctx_eq_some (self : MagTool) (origin : Nat) (c : OriginCtx)
    (h : self.ctx origin = some c) : self.heap[origin]? = some c.origin ∧ c.registry = self.registry := by
  unfold MagTool.ctx at h
  cases ho : self.heap[origin]? with
  | none => rw [ho] at h; simp at h
  | some o =>
    rw [ho] at h
    simp only [Option.map_some', Option.some.injEq] at h
    subst h
    exact ⟨rfl, rfl⟩

theorem processOrigin_frozenRespected (app : App) (self : MagTool) (origin : Nat) :
    frozenRespected self (self.processOrigin app origin).1 := by
  unfold MagTool.processOrigin
  simp only
  have h1 := retrieveMissingPicksAndArrivalsFromDB_heap app self origin
  generalize self.retrieveMissingPicksAndArrivalsFromDB app origin = self1 at h1 ⊢
  split
  · exact frozenRespected_of_heap_eq h1
  · rename_i o ho
    split
    · exact frozenRespected_of_heap_eq h1
    · rename_i depth hd
      have h2 := arrivalLoop_heap app origin o.arrivals self1 []
      rcases hr : MagTool.arrivalLoop app origin o.arrivals self1 [] with ⟨self2, _ | m⟩
      · rw [hr] at h2
        exact frozenRespected_of_heap_eq (h2.trans h1)
      · rw [hr] at h2
        simp only at h2 ⊢
        have h12 : frozenRespected self self2 := frozenRespected_of_heap_eq (h2.trans h1)
        cases hc : self2.ctx origin with
        | none => exact h12
        | some c =>
          simp only
          obtain ⟨hco, _⟩ := ctx_eq_some self2 origin c hc
          exact frozenRespected_trans h12 (store_frozenRespected self2 origin _ c.origin hco
            (processSelected_frozenKept app self2 depth m c))

theorem updateOrigin_frozenRespected (app : App) (self : MagTool) (ampl : Amplitude)
    (update : Bool) (origin : Nat) :
    frozenRespected self (self.updateOrigin app ampl update origin).1 := by
  unfold MagTool.updateOrigin
  split
  · exact frozenRespected_refl _
  · rename_i o ho
    split
    · exact frozenRespected_refl _
    · simp only
      have h1 := firstPLoop_heap app ampl o.arrivals self (none, none)
      generalize MagTool.firstPLoop app ampl o.arrivals self (none, none) = r at h1 ⊢
      have h01 : frozenRespected self r.1 := frozenRespected_of_heap_eq h1
      split
      · exact h01
      · split
        · split
          · exact h01
          · exact h01
          · rename_i mags _
            split
            · exact h01
            · rename_i c hc
              obtain ⟨hco, _⟩ := ctx_eq_some r.1 origin c hc
              have hk := retroactiveLoop_frozenKept app r.1 ampl update mags c false
              split
              · split
                · exact frozenRespected_trans h01 (store_frozenRespected r.1 origin _ c.origin hco hk)
                · rename_i b c1 hs
                  exact frozenRespected_trans h01 (store_frozenRespected r.1 origin _ c.origin hco
                    (frozenKept_trans hk (computeSummaryMagnitude_frozenKept app r.1 _ c1 b hs)))
              · exact frozenRespected_trans h01 (store_frozenRespected r.1 origin _ c.origin hco hk)
        · exact h01

theorem updateLoop_frozenRespected (app : App) (ampl : Amplitude) (update : Bool)
    (origins : List Nat) (self : MagTool) :
    frozenRespected self (MagTool.updateLoop app ampl update origins self).1 := by
  induction origins generalizing self with
  | nil => exact frozenRespected_refl _
  | cons origin rest ih =>
    unfold MagTool.updateLoop
    have h := updateOrigin_frozenRespected app self ampl update origin
    rcases hr : self.updateOrigin app ampl update origin with ⟨self1, _ | _⟩
    · rw [hr] at h; exact h
    · rw [hr] at h; exact frozenRespected_trans h (ih self1)

theorem fetchStep_heap (app : App) (pickID : String) (st : MagTool × List Nat)
    (record : Origin × Option Int) (base : List Origin)
    (h1 : ∃ extra, st.1.heap = base ++ extra) (h2 : ∀ p ∈ st.2, base.length ≤ p) :
    (∃ extra, (MagTool.fetchStep app pickID st record).1.heap = base ++ extra) ∧
    ∀ p ∈ (MagTool.fetchStep app pickID st record).2, base.length ≤ p := by
  unfold MagTool.fetchStep
  split
  · simp only [bind_heap]
    exact ⟨h1, h2⟩
  · simp only
    split
    · exact ⟨h1, h2⟩
    · obtain ⟨extra, he⟩ := h1
      refine ⟨⟨extra ++ [record.1], ?_⟩, ?_⟩
      · simp only [bind_heap, cacheFeed_heap, he, List.append_assoc]
      · intro p hp
        rcases List.mem_append.mp hp with hp | hp
        · exact h2 p hp
        · simp only [List.mem_singleton] at hp
          rw [hp, he, List.length_append]
          omega

theorem foldl_fetchStep_heap (app : App) (pickID : String)
    (records : List (Origin × Option Int)) (st : MagTool × List Nat) (base : List Origin)
    (h1 : ∃ extra, st.1.heap = base ++ extra) (h2 : ∀ p ∈ st.2, base.length ≤ p) :
    (∃ extra, (records.foldl (MagTool.fetchStep app pickID) st).1.heap = base ++ extra) ∧
    ∀ p ∈ (records.foldl (MagTool.fetchStep app pickID) st).2, base.length ≤ p := by
  induction records generalizing st with
  | nil => exact ⟨h1, h2⟩
  | cons r rest ih =>
    simp only [List.foldl_cons]
    obtain ⟨h3, h4⟩ := fetchStep_heap app pickID st r base h1 h2
    exact ih _ h3 h4

theorem foldl_loadOrigin_heap (q : DatabaseQuery) (reload : List Nat) (s : MagTool)
    (ptr : Nat) (hp : ∀ p ∈ reload, p ≠ ptr) :
    (reload.foldl (fun (s : MagTool) p => { s with heap := modifyAt q.loadOrigin s.heap p }) s).heap[ptr]?
      = s.heap[ptr]? := by
  induction reload generalizing s with
  | nil => rfl
  | cons p rest ih =>
    simp only [List.foldl_cons]
    rw [ih _ (fun x hx => hp x (by simp [hx]))]
    exact modifyAt_get?_ne _ _ _ _ (hp p (by simp))

theorem fetchOrigins_frozenRespected (app : App) (self : MagTool) (q : DatabaseQuery)
    (ampl : Amplitude) : frozenRespected self (self.fetchOrigins app q ampl) := by
  intro ptr o ho
  refine ⟨o, ?_, frozenKept_refl o⟩
  unfold MagTool.fetchOrigins
  simp only
  have hlt : ptr < self.heap.length := (List.getElem?_eq_some_iff.mp ho).1
  obtain ⟨⟨extra, he⟩, hre⟩ := foldl_fetchStep_heap app ampl.pickID
    (q.getOriginsForAmplitude ampl.publicID)
    (({ self with dbAccesses := self.dbAccesses + 1 }).createBinding ampl.pickID, [])
    self.heap ⟨[], by simp [createBinding_heap]⟩ (by simp)
  rw [foldl_loadOrigin_heap q _ _ ptr (fun p hp => by have := hre p hp; omega), he,
    List.getElem?_append_left hlt]
  exact ho

theorem feedPick_frozenRespected (app : App) (self : MagTool) (pick : Pick) :
    frozenRespected self (self.feedPick app pick).1 :=
  frozenRespected_of_heap_eq (feedPick_heap app self pick)

theorem feedAmplitude_frozenRespected (app : App) (self : MagTool) (ampl : Amplitude)
    (update : Bool) : frozenRespected self (self.feedAmplitude app ampl update).1 := by
  unfold MagTool.feedAmplitude
  split
  · exact frozenRespected_refl _
  split
  · exact frozenRespected_refl _
  have h1 := _feed_heap app self ampl update
  rcases hr : self._feed app ampl update with ⟨self1, _ | _⟩
  · rw [hr] at h1; exact frozenRespected_of_heap_eq h1
  · rw [hr] at h1
    simp only at h1 ⊢
    have h01 : frozenRespected self self1 := frozenRespected_of_heap_eq h1
    have h12 : frozenRespected self1
        (match self1.originsForPick ampl.pickID, app.query with
          | none, some q => self1.fetchOrigins app q ampl
          | _, _ => self1) := by
      split
      · exact fetchOrigins_frozenRespected app self1 _ ampl
      · exact frozenRespected_refl _
    generalize (match self1.originsForPick ampl.pickID, app.query with
          | none, some q => self1.fetchOrigins app q ampl
          | _, _ => self1) = self2 at h12 ⊢
    have h02 := frozenRespected_trans h01 h12
    split
    · exact h02
    · rename_i origins _
      have h23 := updateLoop_frozenRespected app ampl update origins self2
      rcases hu : MagTool.updateLoop app ampl update origins self2 with ⟨self3, _ | _⟩
      · rw [hu] at h23; exact frozenRespected_trans h02 h23
      · rw [hu] at h23; exact frozenRespected_trans h02 h23

theorem completeOrigin_magnitudes (app : App) (o o1 : Origin)
    (h : app.completeOrigin o = some o1) (hne : o.magnitudes.length ≠ 0) :
    o1.magnitudes = o.magnitudes := by
  unfold App.completeOrigin at h
  cases hq : app.query with
  | none =>
    simp only [hq] at h
    split at h
    · exact absurd h (by simp)
    · rw [← Option.some.inj h]
  | some q =>
    simp only [hq] at h
    by_cases ha : o.arrivals.length = 0
    · simp only [ha, if_true, hne, if_false] at h
      split at h
      · exact absurd h (by simp)
      · rw [← Option.some.inj h]
        split <;> rfl
    · simp only [ha, if_false, hne] at h
      rw [← Option.some.inj h]
      split <;> rfl

theorem completeOrigin_frozenKept (app : App) (o o1 : Origin)
    (h : app.completeOrigin o = some o1) : frozenKept o o1 := by
  intro idx mag hm _
  have hne : o.magnitudes.length ≠ 0 := by
    intro h0
    rw [List.length_eq_zero.mp h0] at hm
    simp at hm
  rw [completeOrigin_magnitudes app o o1 h hne]
  exact hm

theorem feedOrigin_frozenRespected (app : App) (self : MagTool) (origin : Nat) :
    frozenRespected self (self.feedOrigin app origin).1 := by
  unfold MagTool.feedOrigin
  split
  · exact frozenRespected_refl _
  · rename_i o ho
    split
    · exact frozenRespected_refl _
    · simp only
      split
      · exact processOrigin_frozenRespected app self _
      · split
        · exact frozenRespected_refl _
        · split
          · exact frozenRespected_refl _
          · rename_i o1 hc
            have hk := completeOrigin_frozenKept app o o1 hc
            have h1 : frozenRespected self
                ({ self with heap := modifyAt (fun _ => o1) self.heap origin }) := by
              have := store_frozenRespected self origin ⟨o1, self.registry⟩ o ho hk
              exact this
            exact frozenRespected_trans h1 (frozenRespected_trans
              (frozenRespected_of_heap_eq (cacheFeed_heap _ _))
              (processOrigin_frozenRespected app _ origin))

/-- C2 (frozen respect). If the origin object at an address carries at some
position a network magnitude whose evaluation status is set, then after any
call of `feed(Pick)`, `feed(Amplitude, update)` or `feed(Origin)`, whether it
returns or throws, the same origin object carries at the same position the
same magnitude, unchanged in every attribute (value, uncertainty, station
count, method id, evaluation status, contributions). -/
theorem feed_frozen_respect (app : App) (self : MagTool) (ptr : Nat) (o : Origin)
    (idx : Nat) (mag : Magnitude)
    (ho : self.heap[ptr]? = some o) (hm : o.magnitudes[idx]? = some mag)
    (hfz : mag.evaluationStatus ≠ none) :
    (∀ pick : Pick, ∃ o1, (self.feedPick app pick).1.heap[ptr]? = some o1 ∧
      o1.magnitudes[idx]? = some mag) ∧
    (∀ (ampl : Amplitude) (update : Bool),
      ∃ o1, (self.feedAmplitude app ampl update).1.heap[ptr]? = some o1 ∧
        o1.magnitudes[idx]? = some mag) ∧
    (∀ origin : Nat, ∃ o1, (self.feedOrigin app origin).1.heap[ptr]? = some o1 ∧
      o1.magnitudes[idx]? = some mag) := by
  refine ⟨?_, ?_, ?_⟩
  · intro pick
    obtain ⟨o1, h1, hk⟩ := feedPick_frozenRespected app self pick ptr o ho
    exact ⟨o1, h1, hk idx mag hm hfz⟩
  · intro ampl update
    obtain ⟨o1, h1, hk⟩ := feedAmplitude_frozenRespected app self ampl update ptr o ho
    exact ⟨o1, h1, hk idx mag hm hfz⟩
  · intro origin
    obtain ⟨o1, h1, hk⟩ := feedOrigin_frozenRespected app self origin ptr o ho
    exact ⟨o1, h1, hk idx mag hm hfz⟩

/-- C2, witness: scenario S5. The origin carries a confirmed `MLv` magnitude;
feeding an `MLv` amplitude for its pick leaves that magnitude as it was. -/
theorem feed_frozen_respect_witness :
    ∃ o1, (s5Tool.feedAmplitude evalApp s5Amplitude true).1.heap[0]? = some o1 ∧
      o1.magnitudes[0]? = some s5Frozen :=
  (feed_frozen_respect evalApp s5Tool 0 s5Origin 0 s5Frozen rfl rfl (by decide)).2.1
    s5Amplitude true

/-! ### The engine without archive -/

theorem getPick_noquery (app : App) (self : MagTool) (id : String) (hq : app.query = none) :
    self.getPick app id = (self, self.findPick id) := by
  unfold MagTool.getPick
  cases h : self.findPick id with
  | some p => rfl
  | none => simp only [hq]

theorem getAmplitude_noquery (app : App) (self : MagTool) (id : String) (hq : app.query = none) :
    self.getAmplitude app id = (self, self.findAmplitude id) := by
  unfold MagTool.getAmplitude
  cases h : self.findAmplitude id with
  | some p => rfl
  | none => simp only [hq]

theorem retrieveMissing_noquery (app : App) (self : MagTool) (origin : Nat)
    (hq : app.query = none) : self.retrieveMissingPicksAndArrivalsFromDB app origin = self := by
  unfold MagTool.retrieveMissingPicksAndArrivalsFromDB
  split
  · rfl
  · simp only [hq]
    split <;> rfl

theorem sameSetup_refl (a : MagTool) : a.sameSetup a :=
  ⟨rfl, rfl, rfl, rfl, rfl, rfl, rfl, rfl, rfl, rfl, rfl⟩

theorem sameSetup_trans {a b c : MagTool} (h1 : a.sameSetup b) (h2 : b.sameSetup c) :
    a.sameSetup c := by
  obtain ⟨a1, a2, a3, a4, a5, a6, a7, a8, a9, a10, a11⟩ := h1
  obtain ⟨b1, b2, b3, b4, b5, b6, b7, b8, b9, b10, b11⟩ := h2
  exact ⟨b1.trans a1, b2.trans a2, b3.trans a3, b4.trans a4, b5.trans a5, b6.trans a6,
    b7.trans a7, b8.trans a8, b9.trans a9, b10.trans a10, b11.trans a11⟩

theorem sameSetup_symm {a b : MagTool} (h : a.sameSetup b) : b.sameSetup a := by
  obtain ⟨a1, a2, a3, a4, a5, a6, a7, a8, a9, a10, a11⟩ := h
  exact ⟨a1.symm, a2.symm, a3.symm, a4.symm, a5.symm, a6.symm, a7.symm, a8.symm, a9.symm,
    a10.symm, a11.symm⟩

theorem bind_sameSetup (self : MagTool) (pickID : String) (origin : Nat) :
    self.sameSetup (self.bind pickID origin) := by
  unfold MagTool.bind
  split <;> exact sameSetup_refl _

theorem bind_objectCache (self : MagTool) (pickID : String) (origin : Nat) :
    (self.bind pickID origin).objectCache = self.objectCache := by
  unfold MagTool.bind
  split <;> rfl

theorem store_sameSetup (self : MagTool) (origin : Nat) (c : OriginCtx) :
    self.sameSetup (self.store origin c) := sameSetup_refl _

theorem cacheFeed_sameSetup (self : MagTool) (obj : CachedObject) :
    self.sameSetup (self.cacheFeed obj) := sameSetup_refl _

/-- Without archive one arrival step only changes the bindings, and its map is
the selection step over the cached picks. -/
theorem arrivalStep_noquery (app : App) (origin : Nat) (arr : Arrival) (self : MagTool)
    (m : PickStreamMap) (hq : app.query = none) :
    (self.arrivalStep app origin arr m).2 =
        selectStep app self.minimumArrivalWeight self.findPick arr m ∧
      self.sameSetup (self.arrivalStep app origin arr m).1 ∧
      (self.arrivalStep app origin arr m).1.objectCache = self.objectCache := by
  unfold MagTool.arrivalStep selectStep
  rw [getPick_noquery app self arr.pickID hq]
  cases hf : self.findPick arr.pickID with
  | none => exact ⟨rfl, sameSetup_refl _, rfl⟩
  | some pick =>
    have hb := bind_sameSetup self arr.pickID origin
    have hc := bind_objectCache self arr.pickID origin
    simp only
    split
    · exact ⟨rfl, hb, hc⟩
    · split
      · exact ⟨rfl, hb, hc⟩
      · cases hd : arr.distance with
        | none => exact ⟨rfl, hb, hc⟩
        | some d => exact ⟨rfl, hb, hc⟩

theorem findPick_congr {a b : MagTool} (h : b.objectCache = a.objectCache) :
    b.findPick = a.findPick := by
  funext id
  unfold MagTool.findPick
  rw [h]

/-- Without archive the arrival loop only changes the bindings, and the map it
builds is the selection over the cached picks. -/
theorem arrivalLoop_noquery (app : App) (origin : Nat) (arrivals : List Arrival) (self : MagTool)
    (m : PickStreamMap) (hq : app.query = none) :
    (MagTool.arrivalLoop app origin arrivals self m).2 =
        selectPicks app self.minimumArrivalWeight self.findPick arrivals m ∧
      self.sameSetup (MagTool.arrivalLoop app origin arrivals self m).1 ∧
      (MagTool.arrivalLoop app origin arrivals self m).1.objectCache = self.objectCache := by
  induction arrivals generalizing self m with
  | nil => exact ⟨rfl, sameSetup_refl _, rfl⟩
  | cons arr rest ih =>
    obtain ⟨s1, s2, s3⟩ := arrivalStep_noquery app origin arr self m hq
    unfold MagTool.arrivalLoop selectPicks
    rw [← s1]
    rcases hstep : self.arrivalStep app origin arr m with ⟨self1, _ | m1⟩
    · rw [hstep] at s2 s3
      exact ⟨rfl, s2, s3⟩
    · rw [hstep] at s2 s3
      obtain ⟨i1, i2, i3⟩ := ih self1 m1
      rw [findPick_congr s3, s2.2.2.2.2.2.2.2.2.1] at i1
      exact ⟨i1, sameSetup_trans s2 i2, i3.trans s3⟩

/-! ### Growth of an origin under processing -/

theorem grows_refl (c : OriginCtx) : c.grows c :=
  ⟨rfl, rfl, rfl, rfl, rfl, ⟨[], by simp⟩, fun _ h => h⟩

theorem grows_trans {a b c : OriginCtx} (h1 : a.grows b) (h2 : b.grows c) : a.grows c := by
  obtain ⟨a1, a2, a3, a4, a5, ⟨e1, a6⟩, a7⟩ := h1
  obtain ⟨b1, b2, b3, b4, b5, ⟨e2, b6⟩, b7⟩ := h2
  refine ⟨b1.trans a1, b2.trans a2, b3.trans a3, b4.trans a4, b5.trans a5, ⟨e1 ++ e2, ?_⟩,
    fun id h => b7 id (a7 id h)⟩
  rw [b6, a6, List.append_assoc]

theorem grows_of_eq {a b : OriginCtx} (h : b = a) : a.grows b := by
  subst h
  exact grows_refl _

theorem modifyMagnitude_grows (c : OriginCtx) (i : Nat) (f : Magnitude → Magnitude) :
    c.grows (c.modifyMagnitude i f) :=
  ⟨rfl, rfl, rfl, rfl, rfl, ⟨[], by simp [OriginCtx.modifyMagnitude]⟩, fun _ h => h⟩

theorem modifyAt_map_of {α β : Type} (g : α → β) (f : α → α) (l : List α) (i : Nat)
    (hf : ∀ x, g (f x) = g x) : (modifyAt f l i).map g = l.map g := by
  induction l generalizing i with
  | nil => rfl
  | cons x xs ih =>
    cases i with
    | zero => simp [modifyAt, hf]
    | succ i => simp [modifyAt, ih]

theorem setAmplitudeID_grows (c : OriginCtx) (i : Nat) (aid : String) :
    c.grows (c.setAmplitudeID i aid) := by
  refine ⟨rfl, rfl, rfl, rfl, rfl, ⟨[], ?_⟩, fun _ h => h⟩
  simp only [OriginCtx.setAmplitudeID, List.append_nil]
  exact modifyAt_map_of stationKey _ _ i (fun x => rfl)

theorem getMagnitude_grows (app : App) (c : OriginCtx) (type : String) :
    c.grows (getMagnitude app c type).2 := by
  have h := getMagnitude_spec app c type
  rcases hr : getMagnitude app c type with ⟨_ | ⟨i, isNew⟩, c1⟩
  · rw [hr] at h
    simp only at h
    exact grows_of_eq h
  · rw [hr] at h
    simp only at h
    obtain ⟨h1, h2, h3, h4, h5, h6, _, h8⟩ := h
    refine ⟨h3, h4, h5, h6, h2, ⟨[], by simp [h1]⟩, ?_⟩
    rcases h8 with ⟨_, rfl, _⟩ | ⟨_, _, _, _, hreg⟩
    · exact fun _ h => h
    · intro id hid
      simp only [hreg]
      exact List.mem_cons_of_mem _ hid

theorem getMagnitudeWithValue_grows (app : App) (c : OriginCtx) (type : String) (value : ℚ) :
    c.grows (getMagnitudeWithValue app c type value).2 := by
  have h := getMagnitude_grows app c type
  unfold getMagnitudeWithValue
  rcases hr : getMagnitude app c type with ⟨_ | ⟨i, isNew⟩, c1⟩
  · rw [hr] at h; exact h
  · rw [hr] at h
    exact grows_trans h (modifyMagnitude_grows _ _ _)

theorem deriveMw_grows (app : App) (self : MagTool) (c : OriginCtx) (mtype : String)
    (value stdev : ℚ) (staCount : Nat) :
    c.grows (self.deriveMw app c mtype value stdev staCount).2 := by
  unfold MagTool.deriveMw
  cases hp : self.processors.find? (fun proc => decide (proc.amplitudeType = mtype)) with
  | none => exact grows_refl _
  | some proc =>
    simp only
    cases he : proc.estimateMw value with
    | none => exact grows_refl _
    | some r =>
      obtain ⟨Mw, stdError⟩ := r
      simp only
      have h := getMagnitudeWithValue_grows app c proc.typeMw Mw
      rcases hgm : getMagnitudeWithValue app c proc.typeMw Mw with ⟨_ | ⟨i, isNew⟩, c2⟩
      · rw [hgm] at h
        exact h
      · rw [hgm] at h
        exact grows_trans h (modifyMagnitude_grows _ _ _)

theorem computeMagnitude_grows (app : App) (self : MagTool) (c : OriginCtx) (mtype : String)
    (netMag : Nat) : c.grows (self.computeMagnitude app c mtype netMag).2 := by
  unfold MagTool.computeMagnitude
  simp only
  split
  · exact grows_refl _
  · exact grows_trans (modifyMagnitude_grows _ _ _) (deriveMw_grows _ _ _ _ _ _ _)

theorem networkMagnitudeStep_grows (app : App) (self : MagTool) (c : OriginCtx) (mtype : String) :
    c.grows (self.networkMagnitudeStep app c mtype) := by
  have h := getMagnitude_grows app c mtype
  unfold MagTool.networkMagnitudeStep
  rcases hr : getMagnitude app c mtype with ⟨_ | ⟨i, isNew⟩, c1⟩
  · rw [hr] at h; exact h
  · rw [hr] at h
    simp only
    have h2 := grows_trans h (computeMagnitude_grows app self c1 mtype i)
    split
    · exact h2
    · exact grows_trans h2 (modifyMagnitude_grows _ _ _)

theorem foldl_networkMagnitudeStep_grows (app : App) (self : MagTool) (magTypes : List String)
    (c : OriginCtx) : c.grows (magTypes.foldl (self.networkMagnitudeStep app) c) := by
  induction magTypes generalizing c with
  | nil => exact grows_refl _
  | cons t rest ih =>
    exact grows_trans (networkMagnitudeStep_grows app self c t) (ih _)

theorem computeSummaryMagnitude_grows (app : App) (self : MagTool) (c c1 : OriginCtx) (b : Bool)
    (h : self.computeSummaryMagnitude app c = some (b, c1)) : c.grows c1 := by
  unfold MagTool.computeSummaryMagnitude at h
  have hg := getMagnitude_grows app c self.summaryMagnitudeType
  split at h
  · cases h; exact grows_refl _
  · split at h
    · cases h; exact grows_refl _
    · split at h
      · cases h
      · split at h
        · cases h; exact grows_refl _
        · simp only at h
          split at h
          · rename_i hgm
            rw [hgm] at hg
            cases h; exact hg
          · rename_i hgm
            rw [hgm] at hg
            split at h
            · cases h; exact hg
            · cases h; exact grows_trans hg (modifyMagnitude_grows _ _ _)

/-! ### Settled station magnitudes -/

theorem settled_mono (app : App) {c c1 : OriginCtx} (hg : c.grows c1) (wfid : WaveformStreamID)
    (type : String) (h : settled app c wfid type) : settled app c1 wfid type := by
  obtain ⟨hid, _, _, _, _, ⟨extra, hkeys⟩, hreg⟩ := hg
  rcases h with ⟨staMag, hmem, heq, hty⟩ | hcf
  · left
    have hk : stationKey staMag ∈ c1.origin.stationMagnitudes.map stationKey := by
      rw [hkeys]
      exact List.mem_append_left _ (List.mem_map_of_mem _ hmem)
    obtain ⟨staMag1, hmem1, hkey1⟩ := List.mem_map.mp hk
    have h1 : staMag1.waveformID = staMag.waveformID := congrArg Prod.fst hkey1
    have h2 : staMag1.type = staMag.type := congrArg Prod.snd hkey1
    exact ⟨staMag1, hmem1, by rw [h1]; exact heq, by rw [h2]; exact hty⟩
  · right
    unfold App.createFails App.objectID stationMagnitudeID at hcf ⊢
    cases hc : app.hasCustomPublicIDPattern with
    | true => simp [hc] at hcf
    | false =>
      simp only [hc, Bool.not_false, Bool.true_and, decide_eq_true_eq, Bool.false_eq_true,
        if_false] at hcf ⊢
      rw [hid]
      exact hreg _ hcf

theorem getStationMagnitude_of_settled (app : App) (c : OriginCtx) (wfid : WaveformStreamID)
    (type : String) (value : ℚ) (h : settled app c wfid type) :
    getStationMagnitude app c wfid type value false = (none, c) := by
  unfold getStationMagnitude
  cases hidx : firstIndex (fun stamag : StationMagnitude =>
      app.equivalent stamag.waveformID wfid && decide (stamag.type = type))
      c.origin.stationMagnitudes with
  | some i => simp
  | none =>
    rcases h with ⟨staMag, hmem, heq, hty⟩ | hcf
    · have := (firstIndex_none_iff _ _).mp hidx staMag hmem
      simp [heq, hty] at this
    · simp only [hcf, if_true]

theorem getStationMagnitude_false_grows (app : App) (hrefl : ∀ w, app.equivalent w w = true)
    (c : OriginCtx) (wfid : WaveformStreamID) (type : String) (value : ℚ) :
    c.grows (getStationMagnitude app c wfid type value false).2 ∧
      settled app (getStationMagnitude app c wfid type value false).2 wfid type := by
  unfold getStationMagnitude
  cases hidx : firstIndex (fun stamag : StationMagnitude =>
      app.equivalent stamag.waveformID wfid && decide (stamag.type = type))
      c.origin.stationMagnitudes with
  | some i =>
    simp only [Bool.not_false, if_true]
    refine ⟨grows_refl _, Or.inl ?_⟩
    obtain ⟨x, hx, hpx, _⟩ := firstIndex_some _ _ _ hidx
    simp only [Bool.and_eq_true, decide_eq_true_eq] at hpx
    exact ⟨x, List.getElem?_mem hx, hpx.1, hpx.2⟩
  | none =>
    simp only
    cases hcf : app.createFails c.registry
        (app.objectID c.registry (stationMagnitudeID c.origin wfid type)) with
    | true =>
      simp only [if_true]
      exact ⟨grows_refl _, Or.inr hcf⟩
    | false =>
      simp only [Bool.false_eq_true, if_false]
      refine ⟨⟨rfl, rfl, rfl, rfl, rfl, ⟨[(wfid, type)], ?_⟩, fun id h => List.mem_cons_of_mem _ h⟩,
        Or.inl ⟨_, List.mem_append_right _ (List.mem_singleton_self _), hrefl wfid, rfl⟩⟩
      simp [stationKey, App.newStationMagnitude]

theorem installStationMagnitudes_grows (app : App) (hrefl : ∀ w, app.equivalent w w = true)
    (ampl : Amplitude) (mags : List MagnitudeEntry) (c : OriginCtx) (magTypes : List String) :
    c.grows (installStationMagnitudes app ampl mags c magTypes).1 ∧
      ∀ e ∈ mags, settled app (installStationMagnitudes app ampl mags c magTypes).1
        ampl.waveformID e.1 := by
  induction mags generalizing c magTypes with
  | nil => exact ⟨grows_refl _, by simp⟩
  | cons e rest ih =>
    obtain ⟨type, value⟩ := e
    obtain ⟨hg, hs⟩ := getStationMagnitude_false_grows app hrefl c ampl.waveformID type value
    unfold installStationMagnitudes
    rcases hr : getStationMagnitude app c ampl.waveformID type value false with ⟨_ | i, c1⟩
    · rw [hr] at hg hs
      simp only
      obtain ⟨ig, is⟩ := ih c1 magTypes
      refine ⟨grows_trans hg ig, ?_⟩
      intro e he
      rcases List.mem_cons.mp he with rfl | he
      · exact settled_mono app ig _ _ hs
      · exact is e he
    · rw [hr] at hg hs
      simp only
      have hg2 := setAmplitudeID_grows c1 i ampl.publicID
      obtain ⟨ig, is⟩ := ih (c1.setAmplitudeID i ampl.publicID) (setInsert magTypes type)
      refine ⟨grows_trans hg (grows_trans hg2 ig), ?_⟩
      intro e he
      rcases List.mem_cons.mp he with rfl | he
      · exact settled_mono app (grows_trans hg2 ig) _ _ hs
      · exact is e he

theorem installStationMagnitudes_of_settled (app : App) (ampl : Amplitude)
    (mags : List MagnitudeEntry) (c : OriginCtx) (magTypes : List String)
    (h : ∀ e ∈ mags, settled app c ampl.waveformID e.1) :
    installStationMagnitudes app ampl mags c magTypes = (c, magTypes) := by
  induction mags with
  | nil => rfl
  | cons e rest ih =>
    obtain ⟨type, value⟩ := e
    unfold installStationMagnitudes
    rw [getStationMagnitude_of_settled app c ampl.waveformID type value
      (h _ (List.mem_cons_self _ _))]
    exact ih (fun e he => h e (List.mem_cons_of_mem _ he))

theorem amplitudeSettled_mono (app : App) (self : MagTool) (distance depth : ℚ)
    {c c1 : OriginCtx} (hg : c.grows c1) (ampl : Amplitude)
    (h : self.amplitudeSettled app distance depth c ampl) :
    self.amplitudeSettled app distance depth c1 ampl := by
  obtain ⟨r, hr, hs⟩ := h
  exact ⟨r, hr, fun hb e he => settled_mono app hg _ _ (hs hb e he)⟩

theorem usedAmplitudeLoop_grows (app : App) (hrefl : ∀ w, app.equivalent w w = true)
    (self : MagTool) (distance depth : ℚ) (l : List (String × Amplitude)) (c : OriginCtx)
    (magTypes : List String) :
    c.grows (self.usedAmplitudeLoop app distance depth l c magTypes).1 ∧
      ((self.usedAmplitudeLoop app distance depth l c magTypes).2 ≠ none →
        ∀ a ∈ l, self.amplitudeSettled app distance depth
          (self.usedAmplitudeLoop app distance depth l c magTypes).1 a.2) := by
  induction l generalizing c magTypes with
  | nil => exact ⟨grows_refl _, by simp⟩
  | cons a rest ih =>
    obtain ⟨key, ampl⟩ := a
    unfold MagTool.usedAmplitudeLoop
    rcases hcs : self.computeStationMagnitude ampl distance depth with _ | ⟨flag, mags⟩
    · exact ⟨grows_refl _, fun h => absurd rfl h⟩
    · cases flag with
      | false =>
        simp only
        obtain ⟨ig, is⟩ := ih c magTypes
        refine ⟨ig, fun hne a ha => ?_⟩
        rcases List.mem_cons.mp ha with rfl | ha
        · exact ⟨(false, mags), hcs, fun hb => by simp at hb⟩
        · exact is hne a ha
      | true =>
        simp only
        obtain ⟨hg, hs⟩ := installStationMagnitudes_grows app hrefl ampl mags c magTypes
        obtain ⟨ig, is⟩ := ih (installStationMagnitudes app ampl mags c magTypes).1
          (installStationMagnitudes app ampl mags c magTypes).2
        refine ⟨grows_trans hg ig, fun hne a ha => ?_⟩
        rcases List.mem_cons.mp ha with rfl | ha
        · exact ⟨(true, mags), hcs, fun _ e he => settled_mono app ig _ _ (hs e he)⟩
        · exact is hne a ha

theorem usedAmplitudeLoop_of_settled (app : App) (self : MagTool) (distance depth : ℚ)
    (l : List (String × Amplitude)) (c : OriginCtx) (magTypes : List String)
    (h : ∀ a ∈ l, self.amplitudeSettled app distance depth c a.2) :
    self.usedAmplitudeLoop app distance depth l c magTypes = (c, some magTypes) := by
  induction l with
  | nil => rfl
  | cons a rest ih =>
    obtain ⟨key, ampl⟩ := a
    obtain ⟨r, hr, hs⟩ := h (key, ampl) (List.mem_cons_self _ _)
    obtain ⟨flag, mags⟩ := r
    unfold MagTool.usedAmplitudeLoop
    simp only at hr
    rw [hr]
    cases flag with
    | false => exact ih (fun a ha => h a (List.mem_cons_of_mem _ ha))
    | true =>
      simp only
      rw [installStationMagnitudes_of_settled app ampl mags c magTypes (hs rfl)]
      exact ih (fun a ha => h a (List.mem_cons_of_mem _ ha))

theorem pickStreamLoop_grows (app : App) (hrefl : ∀ w, app.equivalent w w = true)
    (self : MagTool) (depth : ℚ) (l : List (String × (Pick × ℚ))) (c : OriginCtx)
    (magTypes : List String) :
    c.grows (self.pickStreamLoop app depth l c magTypes).1 ∧
      ((self.pickStreamLoop app depth l c magTypes).2 ≠ none →
        self.allSettled app depth l (self.pickStreamLoop app depth l c magTypes).1) := by
  induction l generalizing c magTypes with
  | nil => exact ⟨grows_refl _, fun _ e he => by simp at he⟩
  | cons e rest ih =>
    obtain ⟨key, pick, distance⟩ := e
    unfold MagTool.pickStreamLoop
    simp only
    obtain ⟨hg, hs⟩ := usedAmplitudeLoop_grows app hrefl self distance depth
      (collectUsedAmplitudes (self.amplitudesForPick pick.publicID)) c magTypes
    rcases hr : self.usedAmplitudeLoop app distance depth
        (collectUsedAmplitudes (self.amplitudesForPick pick.publicID)) c magTypes with
      ⟨c1, _ | magTypes1⟩
    · rw [hr] at hg
      exact ⟨hg, fun h => absurd rfl h⟩
    · rw [hr] at hg hs
      simp only
      obtain ⟨ig, is⟩ := ih c1 magTypes1
      refine ⟨grows_trans hg ig, fun hne e he a ha => ?_⟩
      rcases List.mem_cons.mp he with rfl | he
      · exact amplitudeSettled_mono app self _ depth ig _ (hs (by simp) a ha)
      · exact is hne e he a ha

theorem pickStreamLoop_of_settled (app : App) (self : MagTool) (depth : ℚ)
    (l : List (String × (Pick × ℚ))) (c : OriginCtx) (magTypes : List String)
    (h : self.allSettled app depth l c) :
    self.pickStreamLoop app depth l c magTypes = (c, some magTypes) := by
  induction l with
  | nil => rfl
  | cons e rest ih =>
    obtain ⟨key, pick, distance⟩ := e
    unfold MagTool.pickStreamLoop
    simp only
    rw [usedAmplitudeLoop_of_settled app self distance depth _ c magTypes
      (fun a ha => h _ (List.mem_cons_self _ _) a ha)]
    exact ih (fun e he => h e (List.mem_cons_of_mem _ he))

theorem allSettled_mono (app : App) (self : MagTool) (depth : ℚ)
    (l : List (String × (Pick × ℚ))) {c c1 : OriginCtx} (hg : c.grows c1)
    (h : self.allSettled app depth l c) : self.allSettled app depth l c1 :=
  fun e he a ha => amplitudeSettled_mono app self _ depth hg _ (h e he a ha)

theorem computeStationMagnitude_congr {a b : MagTool} (h : a.sameSetup b) :
    b.computeStationMagnitude = a.computeStationMagnitude := by
  funext ampl distance depth
  unfold MagTool.computeStationMagnitude
  rw [h.2.2.2.2.2.2.2.2.2.1]

theorem amplitudesForPick_congr {a b : MagTool} (h : a.sameSetup b) :
    b.amplitudesForPick = a.amplitudesForPick := by
  funext id
  unfold MagTool.amplitudesForPick
  rw [h.2.2.2.2.2.2.2.2.2.2]

theorem allSettled_congr (app : App) {a b : MagTool} (hs : a.sameSetup b) (depth : ℚ)
    (l : List (String × (Pick × ℚ))) (c : OriginCtx) (h : a.allSettled app depth l c) :
    b.allSettled app depth l c := by
  intro e he x hx
  rw [amplitudesForPick_congr hs] at hx
  obtain ⟨r, hr, hset⟩ := h e he x hx
  exact ⟨r, by rw [computeStationMagnitude_congr hs]; exact hr, hset⟩

theorem summaryStep_congr {a b : MagTool} (h : a.sameSetup b) :
    b.summaryStep = a.summaryStep := by
  obtain ⟨_, h2, h3, h4, h5, h6, h7, _⟩ := h
  funext acc nmag
  unfold MagTool.summaryStep MagTool.isTypeEnabledForSummaryMagnitude MagTool.coefficientA
    MagTool.coefficientB
  rw [h2, h3, h4, h5, h6, h7]

theorem summaryLoop_congr {a b : MagTool} (h : a.sameSetup b) (l : List Magnitude)
    (acc : SummaryAccumulator) : b.summaryLoop l acc = a.summaryLoop l acc := by
  induction l generalizing acc with
  | nil => rfl
  | cons x xs ih =>
    unfold MagTool.summaryLoop
    rw [summaryStep_congr h]
    cases a.summaryStep acc x with
    | none => rfl
    | some acc1 => exact ih acc1

theorem computeSummaryMagnitude_congr (app : App) {a b : MagTool} (h : a.sameSetup b)
    (c : OriginCtx) : b.computeSummaryMagnitude app c = a.computeSummaryMagnitude app c := by
  unfold MagTool.computeSummaryMagnitude
  rw [summaryLoop_congr h, h.1, h.2.1]

/-! ### The summary step run again -/

theorem summaryStep_summaryType (self : MagTool) (acc : SummaryAccumulator) (m : Magnitude)
    (h : m.type = self.summaryMagnitudeType) : self.summaryStep acc m = some acc := by
  unfold MagTool.summaryStep
  rw [if_pos h]

theorem summaryLoop_append_summaryType (self : MagTool) (l : List Magnitude) (m : Magnitude)
    (acc : SummaryAccumulator) (h : m.type = self.summaryMagnitudeType) :
    self.summaryLoop (l ++ [m]) acc = self.summaryLoop l acc := by
  induction l generalizing acc with
  | nil =>
    simp only [List.nil_append, MagTool.summaryLoop]
    rw [summaryStep_summaryType self acc m h]
  | cons x xs ih =>
    simp only [List.cons_append, MagTool.summaryLoop]
    cases self.summaryStep acc x with
    | none => rfl
    | some acc1 => exact ih acc1

theorem summaryLoop_modifyAt_summaryType (self : MagTool) (f : Magnitude → Magnitude)
    (hf : ∀ x, (f x).type = x.type) (l : List Magnitude) (i : Nat) (m : Magnitude)
    (acc : SummaryAccumulator) (hm : l[i]? = some m) (h : m.type = self.summaryMagnitudeType) :
    self.summaryLoop (modifyAt f l i) acc = self.summaryLoop l acc := by
  induction l generalizing i acc with
  | nil => rfl
  | cons x xs ih =>
    cases i with
    | zero =>
      simp only [List.getElem?_cons_zero, Option.some.injEq] at hm
      subst hm
      simp only [modifyAt, MagTool.summaryLoop]
      rw [summaryStep_summaryType self acc x h,
        summaryStep_summaryType self acc (f x) ((hf x).trans h)]
    | succ i =>
      simp only [List.getElem?_cons_succ] at hm
      simp only [modifyAt, MagTool.summaryLoop]
      cases self.summaryStep acc x with
      | none => rfl
      | some acc1 => exact ih i acc1 hm

/-- On an origin whose summary magnitude carries the value and the count the
loop yields, `computeSummaryMagnitude` reports no update and changes nothing. -/
theorem computeSummaryMagnitude_of_current (app : App) (self : MagTool) (c : OriginCtx)
    (acc : SummaryAccumulator) (i : Nat) (mag : Magnitude)
    (hen : self.summaryMagnitudeEnabled = true) (hS : self.summaryMagnitudeType ≠ "")
    (hloop : self.summaryLoop c.origin.magnitudes ⟨0, 0, 0⟩ = some acc)
    (hw : acc.totalWeight ≠ 0)
    (hidx : firstIndex (fun nmag : Magnitude => decide (nmag.type = self.summaryMagnitudeType))
      c.origin.magnitudes = some i)
    (hget : c.origin.magnitudes[i]? = some mag) (hfz : mag.evaluationStatus = none)
    (hval : mag.magnitude.value = acc.value / acc.totalWeight)
    (hcnt : mag.stationCount = some acc.count) :
    self.computeSummaryMagnitude app c = some (false, c) := by
  unfold MagTool.computeSummaryMagnitude
  rw [if_neg (by simp [hen]), if_neg hS, hloop]
  simp only
  rw [if_neg hw, getMagnitude_existing app c _ i mag hidx hget]
  simp [hfz, hget, hval, hcnt]

/-- The summary step is idempotent: run on its own result it reports no update
and changes nothing. -/
theorem computeSummaryMagnitude_again (app : App) (self : MagTool) (c c1 : OriginCtx) (b : Bool)
    (h : self.computeSummaryMagnitude app c = some (b, c1)) :
    self.computeSummaryMagnitude app c1 = some (false, c1) := by
  have h0 := h
  unfold MagTool.computeSummaryMagnitude at h
  by_cases hen : (!self.summaryMagnitudeEnabled) = true
  · rw [if_pos hen] at h
    cases h
    exact h0
  rw [if_neg hen] at h
  by_cases hS : self.summaryMagnitudeType = ""
  · rw [if_pos hS] at h
    cases h
    exact h0
  rw [if_neg hS] at h
  cases hloop : self.summaryLoop c.origin.magnitudes ⟨0, 0, 0⟩ with
  | none => rw [hloop] at h; cases h
  | some acc =>
    rw [hloop] at h
    simp only at h
    by_cases hw : acc.totalWeight = 0
    · rw [if_pos hw] at h
      cases h
      exact h0
    rw [if_neg hw] at h
    have hspec := getMagnitude_spec app c self.summaryMagnitudeType
    rcases hgm : getMagnitude app c self.summaryMagnitudeType with ⟨_ | ⟨i, isNew⟩, cg⟩
    · rw [hgm] at h hspec
      simp only at h hspec
      cases h
      subst hspec
      exact h0
    · rw [hgm] at h hspec
      simp only at h hspec
      obtain ⟨_, _, _, _, _, _, ⟨mag, hmag, hty, hfz⟩, hcase⟩ := hspec
      rw [hmag] at h
      simp only at h
      have hen1 : self.summaryMagnitudeEnabled = true := by simpa using hen
      split at h
      · rename_i hun
        cases h
        rcases hcase with ⟨_, hc, _⟩ | ⟨hnew, _⟩
        · subst hc
          exact h0
        · subst hnew
          simp at hun
      · cases h
        have hloop1 : self.summaryLoop cg.origin.magnitudes ⟨0, 0, 0⟩ = some acc := by
          rcases hcase with ⟨_, hc, _⟩ | ⟨_, _, _, hm, _⟩
          · rw [hc]; exact hloop
          · rw [hm, summaryLoop_append_summaryType self _ _ _ rfl]
            exact hloop
        have hidx1 : firstIndex
            (fun nmag : Magnitude => decide (nmag.type = self.summaryMagnitudeType))
            cg.origin.magnitudes = some i := by
          rcases hcase with ⟨_, hc, hidx⟩ | ⟨_, hi, hidx, hm, _⟩
          · rw [hc]; exact hidx
          · rw [hm, hi]
            exact firstIndex_append_of_none _ _ _ hidx (by simp [App.newMagnitude])
        refine computeSummaryMagnitude_of_current app self _ acc i _ hen1 hS ?_ hw ?_
          (modifyMagnitude_get? cg i _ mag hmag) hfz rfl rfl
        · simp only [OriginCtx.modifyMagnitude]
          refine Eq.trans (summaryLoop_modifyAt_summaryType self _ ?_ _ i mag _ hmag hty) hloop1
          intro x
          rfl
        · refine Eq.trans (modifyMagnitude_firstIndex cg i _ _ ?_) hidx1
          intro x
          rfl

/-! ### Processing an origin again -/

theorem modifyAt_self {α : Type} (l : List α) (i : Nat) (x : α) (h : l[i]? = some x) :
    modifyAt (fun _ => x) l i = l := by
  induction l generalizing i with
  | nil => rfl
  | cons a as ih =>
    cases i with
    | zero =>
      simp only [List.getElem?_cons_zero, Option.some.injEq] at h
      subst h
      rfl
    | succ i =>
      simp only [List.getElem?_cons_succ] at h
      simp only [modifyAt, ih i h]

theorem modifyAt_modifyAt_const {α : Type} (l : List α) (i : Nat) (x y : α) :
    modifyAt (fun _ => y) (modifyAt (fun _ => x) l i) i = modifyAt (fun _ => y) l i := by
  induction l generalizing i with
  | nil => rfl
  | cons a as ih =>
    cases i with
    | zero => rfl
    | succ i => simp only [modifyAt, ih i]

/-- The second run of the part of `processOrigin` after the pick selection, in
an engine with the same setup, on the origin the first run produced: no station
magnitude is inserted, no network magnitude is aggregated and the summary step
reports no update. -/
theorem processSelected_again (app : App) (hrefl : ∀ w, app.equivalent w w = true)
    (self self1 : MagTool) (hs : self.sameSetup self1) (depth : ℚ) (m : PickStreamMap)
    (c c1 : OriginCtx) (h : self.processSelected app depth m c = (c1, some true)) :
    c.grows c1 ∧ self1.processSelected app depth m c1 = (c1, some true) ∧
      self1.processSelectedSummary app depth m c1 = some false := by
  unfold MagTool.processSelected at h
  obtain ⟨hg, hset⟩ := pickStreamLoop_grows app hrefl self depth m c []
  rcases hp : self.pickStreamLoop app depth m c [] with ⟨cp, _ | magTypes⟩
  · rw [hp] at h
    simp at h
  · rw [hp] at h hg hset
    simp only at h hg hset
    have hg2 := foldl_networkMagnitudeStep_grows app self magTypes cp
    rcases hsum : self.computeSummaryMagnitude app
        (magTypes.foldl (self.networkMagnitudeStep app) cp) with _ | ⟨b, c3⟩
    · rw [hsum] at h
      simp at h
    · rw [hsum] at h
      simp only [Prod.mk.injEq, and_true] at h
      subst h
      have hg3 := computeSummaryMagnitude_grows app self _ _ _ hsum
      have hall : self1.allSettled app depth m c3 :=
        allSettled_congr app hs depth m c3
          (allSettled_mono app self depth m (grows_trans hg2 hg3) (hset (by simp)))
      have hloop := pickStreamLoop_of_settled app self1 depth m c3 [] hall
      have hagain : self1.computeSummaryMagnitude app c3 = some (false, c3) := by
        rw [computeSummaryMagnitude_congr app hs]
        exact computeSummaryMagnitude_again app self _ _ _ hsum
      refine ⟨grows_trans hg (grows_trans hg2 hg3), ?_, ?_⟩
      · unfold MagTool.processSelected
        rw [hloop]
        simp only [List.foldl_nil]
        rw [hagain]
      · unfold MagTool.processSelectedSummary
        rw [hloop]
        simp only [List.foldl_nil]
        rw [hagain]

/-- Without archive `processOrigin` is the pick selection over the cache followed
by the processing of the selected picks. -/
theorem processOrigin_noquery (app : App) (hq : app.query = none) (s : MagTool) (origin : Nat)
    (o : Origin) (depth : ℚ) (ho : s.heap[origin]? = some o) (hd : o.depth = some depth) :
    ∃ s2, s.sameSetup s2 ∧ s2.objectCache = s.objectCache ∧ s2.heap = s.heap ∧
      s2.registry = s.registry ∧
      match selectPicks app s.minimumArrivalWeight s.findPick o.arrivals [] with
      | none => s.processOrigin app origin = (s2, none) ∧ s.processOriginSummary app origin = none
      | some m =>
        s.processOrigin app origin =
            (s2.store origin (s2.processSelected app depth m ⟨o, s.registry⟩).1,
              (s2.processSelected app depth m ⟨o, s.registry⟩).2) ∧
          s.processOriginSummary app origin =
            s2.processSelectedSummary app depth m ⟨o, s.registry⟩ := by
  obtain ⟨a1, a2, a3⟩ := arrivalLoop_noquery app origin o.arrivals s [] hq
  have a4 := arrivalLoop_heap app origin o.arrivals s []
  have a5 := arrivalLoop_registry app origin o.arrivals s []
  refine ⟨(MagTool.arrivalLoop app origin o.arrivals s []).1, a2, a3, a4, a5, ?_⟩
  rw [← a1]
  unfold MagTool.processOrigin MagTool.processOriginSummary
  simp only [retrieveMissing_noquery app s origin hq, ho, hd]
  rcases hr : MagTool.arrivalLoop app origin o.arrivals s [] with ⟨s2, _ | m⟩
  · exact ⟨rfl, rfl⟩
  · rw [hr] at a4 a5
    simp only at a4 a5 ⊢
    have hctx : s2.ctx origin = some ⟨o, s.registry⟩ := by
      unfold MagTool.ctx
      rw [a4, ho, a5]
      rfl
    rw [hctx]
    exact ⟨rfl, rfl⟩

/-- Without archive, a run of `processOrigin` that returns true leaves the
origin in a state on which a further run, from any engine state with the same
setup, cache, origins and registry, returns true again, changes no origin and
gets no update from the summary step. -/
theorem processOrigin_again (app : App) (hq : app.query = none)
    (hrefl : ∀ w, app.equivalent w w = true) (s s1 : MagTool) (origin : Nat)
    (h : s.processOrigin app origin = (s1, some true)) :
    ∃ o o1, s.heap[origin]? = some o ∧ s1.heap = modifyAt (fun _ => o1) s.heap origin ∧
      OriginCtx.grows ⟨o, s.registry⟩ ⟨o1, s1.registry⟩ ∧ s.sameSetup s1 ∧
      s1.objectCache = s.objectCache ∧
      ∀ sY : MagTool, s.sameSetup sY → sY.objectCache = s.objectCache → sY.heap = s1.heap →
        sY.registry = s1.registry →
        ∃ s2, sY.processOrigin app origin = (s2, some true) ∧ s2.heap = s1.heap ∧
          s2.registry = s1.registry ∧ sY.sameSetup s2 ∧ s2.objectCache = sY.objectCache ∧
          sY.processOriginSummary app origin = some false := by
  cases ho : s.heap[origin]? with
  | none =>
    unfold MagTool.processOrigin at h
    simp only [retrieveMissing_noquery app s origin hq, ho] at h
    simp at h
  | some o =>
    cases hd : o.depth with
    | none =>
      unfold MagTool.processOrigin at h
      simp only [retrieveMissing_noquery app s origin hq, ho, hd] at h
      simp at h
    | some depth =>
      obtain ⟨s2, b1, b2, b3, b4, hm⟩ := processOrigin_noquery app hq s origin o depth ho hd
      cases hsel : selectPicks app s.minimumArrivalWeight s.findPick o.arrivals [] with
      | none =>
        rw [hsel] at hm
        rw [hm.1] at h
        simp at h
      | some m =>
        rw [hsel] at hm
        simp only at hm
        rw [hm.1] at h
        rcases hps : s2.processSelected app depth m ⟨o, s.registry⟩ with ⟨c1, r⟩
        rw [hps] at h
        simp only [Prod.mk.injEq] at h
        obtain ⟨h1, h2⟩ := h
        subst h2
        have hheap : s1.heap = modifyAt (fun _ => c1.origin) s.heap origin := by
          rw [← h1]
          simp only [MagTool.store, b3]
        have hreg : s1.registry = c1.registry := by
          rw [← h1]
          rfl
        have hgrow := (processSelected_again app hrefl s2 s2 (sameSetup_refl _) depth m _ c1 hps).1
        refine ⟨o, c1.origin, rfl, hheap, ?_, ?_, ?_, ?_⟩
        · rw [hreg]
          exact hgrow
        · rw [← h1]
          exact sameSetup_trans b1 (store_sameSetup _ _ _)
        · rw [← h1]
          exact b2
        · intro sY y1 y2 y3 y4
          have hoY : sY.heap[origin]? = some c1.origin := by
            rw [y3, hheap, modifyAt_get?_eq, ho]
            rfl
          have hdY : c1.origin.depth = some depth := hgrow.2.1.trans hd
          obtain ⟨sY2, e1, e2, e3, e4, hmY⟩ :=
            processOrigin_noquery app hq sY origin c1.origin depth hoY hdY
          have hselY : selectPicks app sY.minimumArrivalWeight sY.findPick c1.origin.arrivals [] =
              some m := by
            rw [findPick_congr y2, y1.2.2.2.2.2.2.2.2.1, hgrow.2.2.2.2.1]
            exact hsel
          rw [hselY] at hmY
          simp only at hmY
          have hc1 : (⟨c1.origin, sY.registry⟩ : OriginCtx) = c1 := by
            rw [y4, hreg]
          rw [hc1] at hmY
          have hs22 : s2.sameSetup sY2 :=
            sameSetup_trans (sameSetup_symm b1) (sameSetup_trans y1 e1)
          obtain ⟨_, g2, g3⟩ := processSelected_again app hrefl s2 sY2 hs22 depth m _ c1 hps
          rw [g2] at hmY
          rw [g3] at hmY
          refine ⟨_, hmY.1, ?_, ?_, sameSetup_trans e1 (store_sameSetup _ _ _), e2, hmY.2⟩
          · simp only [MagTool.store, e3]
            rw [modifyAt_self _ _ _ hoY]
            exact y3
          · simp only [MagTool.store]
            exact hreg.symm

/-! ### Feeding an origin again -/

theorem completeOrigin_noquery (app : App) (hq : app.query = none) (o : Origin) :
    app.completeOrigin o = if o.arrivals.length = 0 then none else some o := by
  unfold App.completeOrigin
  simp only [hq]

theorem heap_ids_modifyAt (heap : List Origin) (i : Nat) (o o1 : Origin)
    (ho : heap[i]? = some o) (hid : o1.publicID = o.publicID) (ptr : Nat) :
    ((modifyAt (fun _ => o1) heap i)[ptr]?).map (fun org => org.publicID) =
      (heap[ptr]?).map (fun org => org.publicID) := by
  by_cases hp : i = ptr
  · subst hp
    rw [modifyAt_get?_eq, ho]
    simp [hid]
  · rw [modifyAt_get?_ne _ _ _ _ hp]

theorem cachedPublicID_congr {a b : MagTool}
    (h : ∀ ptr : Nat, (b.heap[ptr]?).map (fun org : Origin => org.publicID) =
      (a.heap[ptr]?).map (fun org : Origin => org.publicID)) :
    b.cachedPublicID = a.cachedPublicID := by
  funext obj
  cases obj with
  | pick p => rfl
  | amplitude x => rfl
  | origin ptr => exact h ptr

theorem findOrigin_congr {a b : MagTool} (hc : b.objectCache = a.objectCache)
    (h : ∀ ptr : Nat, (b.heap[ptr]?).map (fun org : Origin => org.publicID) =
      (a.heap[ptr]?).map (fun org : Origin => org.publicID)) :
    b.findOrigin = a.findOrigin := by
  funext id
  unfold MagTool.findOrigin
  rw [hc]
  congr 1
  funext obj
  cases obj with
  | pick p => rfl
  | amplitude x => rfl
  | origin ptr => simp only [h ptr]

/-- After the cache was fed an origin, `Origin::Find` on its public id returns
that origin. -/
theorem findOrigin_cacheFeed (s : MagTool) (origin : Nat) (o : Origin)
    (ho : s.heap[origin]? = some o) :
    (s.cacheFeed (CachedObject.origin origin)).findOrigin o.publicID = some origin := by
  unfold MagTool.findOrigin MagTool.cacheFeed
  simp only [List.findSome?_append]
  have hnone : List.findSome? (fun obj : CachedObject =>
      match obj with
      | CachedObject.origin ptr =>
        if (s.heap[ptr]?).map (fun org => org.publicID) = some o.publicID then some ptr else none
      | _ => none)
      (s.objectCache.filter (fun x =>
        decide (s.cachedPublicID x ≠ s.cachedPublicID (CachedObject.origin origin)))) = none := by
    rw [List.findSome?_eq_none_iff]
    intro x hx
    obtain ⟨_, hne⟩ := List.mem_filter.mp hx
    simp only [decide_eq_true_eq] at hne
    cases x with
    | pick p => rfl
    | amplitude a => rfl
    | origin ptr =>
      simp only [MagTool.cachedPublicID, ho, Option.map_some'] at hne
      simp only [ite_eq_right_iff]
      intro hc
      exact absurd hc hne
  rw [hnone]
  simp [ho]

/-- Feeding the cache the same object twice is feeding it once. -/
theorem cacheFeed_objectCache_again (s s1 : MagTool) (obj : CachedObject)
    (hc : s1.objectCache = (s.cacheFeed obj).objectCache)
    (hid : s1.cachedPublicID = s.cachedPublicID) :
    (s1.cacheFeed obj).objectCache = (s.cacheFeed obj).objectCache := by
  unfold MagTool.cacheFeed at hc ⊢
  simp only at hc ⊢
  rw [hc, hid, List.filter_append, List.filter_filter]
  simp

theorem feedOrigin_duplicate (app : App) (s : MagTool) (origin registered : Nat) (o : Origin)
    (ho : s.heap[origin]? = some o)
    (hb : ¬ app.isAgencyIDBlocked (objectAgencyID o.creationInfo) = true)
    (hf : s.findOrigin o.publicID = some registered) (hne : registered ≠ origin) :
    s.feedOrigin app origin = s.processOrigin app registered ∧
      s.feedOriginSummary app origin = s.processOriginSummary app registered := by
  unfold MagTool.feedOrigin MagTool.feedOriginSummary
  simp only [ho, if_neg hb, hf, hne, ne_eq, not_false_eq_true, if_true, and_self]

theorem feedOrigin_first (app : App) (hq : app.query = none) (s : MagTool) (origin : Nat)
    (o : Origin) (ho : s.heap[origin]? = some o)
    (hb : ¬ app.isAgencyIDBlocked (objectAgencyID o.creationInfo) = true)
    (hf : s.findOrigin o.publicID = none ∨ s.findOrigin o.publicID = some origin)
    (hr : ¬ o.evaluationStatus = some EvaluationStatus.REJECTED)
    (ha : ¬ o.arrivals.length = 0) :
    s.feedOrigin app origin = (s.cacheFeed (CachedObject.origin origin)).processOrigin app origin ∧
      s.feedOriginSummary app origin =
        (s.cacheFeed (CachedObject.origin origin)).processOriginSummary app origin := by
  unfold MagTool.feedOrigin MagTool.feedOriginSummary
  simp only [ho, if_neg hb, completeOrigin_noquery app hq, if_neg ha, if_neg hr,
    modifyAt_self _ _ _ ho]
  rcases hf with hf | hf
  · simp only [hf, and_self]
  · simp only [hf, ne_eq, not_true_eq_false, if_false, and_self]

/-- Without archive, a second `feed(Origin*)` of an origin whose first feed
returned true returns true again, leaves every origin object as it is, and its
summary step reports no update. -/
theorem feedOrigin_again (app : App) (hq : app.query = none)
    (hrefl : ∀ w, app.equivalent w w = true) (s s1 : MagTool) (origin : Nat)
    (h : s.feedOrigin app origin = (s1, some true)) :
    ∃ s2, s1.feedOrigin app origin = (s2, some true) ∧ s2.heap = s1.heap ∧
      s1.feedOriginSummary app origin = some false := by
  cases ho : s.heap[origin]? with
  | none =>
    unfold MagTool.feedOrigin at h
    simp [ho] at h
  | some o =>
    by_cases hb : app.isAgencyIDBlocked (objectAgencyID o.creationInfo) = true
    · unfold MagTool.feedOrigin at h
      simp [ho, hb] at h
    by_cases hdup : ∃ registered, s.findOrigin o.publicID = some registered ∧ registered ≠ origin
    · obtain ⟨registered, hf, hne⟩ := hdup
      rw [(feedOrigin_duplicate app s origin registered o ho hb hf hne).1] at h
      obtain ⟨oR, oR1, hoR, hheap, hgrow, hsame, hcache, hagain⟩ :=
        processOrigin_again app hq hrefl s s1 registered h
      have hids := heap_ids_modifyAt s.heap registered oR oR1 hoR hgrow.1
      rw [← hheap] at hids
      have ho1 : s1.heap[origin]? = some o := by
        rw [hheap, modifyAt_get?_ne _ _ _ _ hne, ho]
      have hf1 : s1.findOrigin o.publicID = some registered := by
        rw [findOrigin_congr hcache hids]
        exact hf
      obtain ⟨s2, g1, g2, _, _, _, g6⟩ := hagain s1 hsame hcache rfl rfl
      obtain ⟨d1, d2⟩ := feedOrigin_duplicate app s1 origin registered o ho1 hb hf1 hne
      exact ⟨s2, d1.trans g1, g2, d2.trans g6⟩
    · have hf : s.findOrigin o.publicID = none ∨ s.findOrigin o.publicID = some origin := by
        cases hfo : s.findOrigin o.publicID with
        | none => exact Or.inl rfl
        | some registered =>
          right
          by_cases he : registered = origin
          · rw [he]
          · exact absurd ⟨registered, hfo, he⟩ hdup
      by_cases hr : o.evaluationStatus = some EvaluationStatus.REJECTED
      · unfold MagTool.feedOrigin at h
        rcases hf with hf | hf <;> simp [ho, hb, hf, hr] at h
      by_cases ha : o.arrivals.length = 0
      · unfold MagTool.feedOrigin at h
        rcases hf with hf | hf <;>
          simp [ho, hb, hf, hr, completeOrigin_noquery app hq, ha] at h
      rw [(feedOrigin_first app hq s origin o ho hb hf hr ha).1] at h
      obtain ⟨oX, o1, hoX, hheap, hgrow, hsame, hcache, hagain⟩ :=
        processOrigin_again app hq hrefl _ s1 origin h
      have hoX1 : oX = o := by
        have : (s.cacheFeed (CachedObject.origin origin)).heap[origin]? = some o := ho
        rw [this] at hoX
        exact (Option.some.inj hoX).symm
      subst hoX1
      have hheap1 : s1.heap = modifyAt (fun _ => o1) s.heap origin := hheap
      obtain ⟨hid, _, hev, hci, harr, _, _⟩ := hgrow
      simp only at hid hev hci harr
      have ho1 : s1.heap[origin]? = some o1 := by
        rw [hheap1, modifyAt_get?_eq, ho]
        rfl
      have hids := heap_ids_modifyAt s.heap origin oX o1 ho hid
      rw [← hheap1] at hids
      have hf1 : s1.findOrigin o1.publicID = none ∨ s1.findOrigin o1.publicID = some origin := by
        right
        have hfc : s1.findOrigin = (s.cacheFeed (CachedObject.origin origin)).findOrigin :=
          findOrigin_congr hcache hids
        rw [hfc, hid]
        exact findOrigin_cacheFeed s origin oX ho
      have hb1 : ¬ app.isAgencyIDBlocked (objectAgencyID o1.creationInfo) = true := by
        rw [hci]; exact hb
      have hr1 : ¬ o1.evaluationStatus = some EvaluationStatus.REJECTED := by
        rw [hev]; exact hr
      have ha1 : ¬ o1.arrivals.length = 0 := by
        rw [harr]; exact ha
      obtain ⟨d1, d2⟩ := feedOrigin_first app hq s1 origin o1 ho1 hb1 hf1 hr1 ha1
      have hcY : (s1.cacheFeed (CachedObject.origin origin)).objectCache =
          (s.cacheFeed (CachedObject.origin origin)).objectCache :=
        cacheFeed_objectCache_again s s1 _ hcache (cachedPublicID_congr hids)
      obtain ⟨s2, g1, g2, _, _, _, g6⟩ := hagain (s1.cacheFeed (CachedObject.origin origin))
        (sameSetup_trans hsame (cacheFeed_sameSetup _ _)) hcY rfl rfl
      exact ⟨s2, d1.trans g1, g2, d2.trans g6⟩

/-- An archive whose content changes between two feeds. The engine holds the
pick and the amplitude of station `GE.A`; the pick `P6` of the second arrival
of origin `O7` is unknown. The first `feed(Origin*)`, with nothing for `O7` in
the archive, returns true and leaves the network magnitude `MLv` 3 from one
station and the summary `M` 3. Then the pick `P6` and an amplitude on it are
written to the archive; nothing is fed to the engine. The second
`feed(Origin*)` reads both from the archive
(`retrieveMissingPicksAndArrivalsFromDB`), adds a station magnitude, changes
the network magnitude `MLv` to 4 from two stations, and its summary step
reports an update. -/
theorem feedOrigin_archive_changed :
    (archiveTool.feedOrigin (archiveApp emptyArchive) 0).2 = some true ∧
    ((archiveTool.feedOrigin (archiveApp emptyArchive) 0).1.heap[0]?).map
      (fun o => (o.stationMagnitudes.map (fun m => (m.type, m.magnitude.value)),
        o.magnitudes.map (fun m => (m.type, m.magnitude.value, m.stationCount)))) =
      some ([("MLv", 3)], [("MLv", 3, some 1), ("M", 3, some 1)]) ∧
    ((archiveTool.feedOrigin (archiveApp emptyArchive) 0).1.feedOrigin
      (archiveApp laterArchive) 0).2 = some true ∧
    (((archiveTool.feedOrigin (archiveApp emptyArchive) 0).1.feedOrigin
      (archiveApp laterArchive) 0).1.heap[0]?).map
      (fun o => (o.stationMagnitudes.map (fun m => (m.type, m.magnitude.value)),
        o.magnitudes.map (fun m => (m.type, m.magnitude.value, m.stationCount)))) =
      some ([("MLv", 3), ("MLv", 5)], [("MLv", 4, some 2), ("M", 4, some 2)]) ∧
    (archiveTool.feedOrigin (archiveApp emptyArchive) 0).1.feedOriginSummary
      (archiveApp laterArchive) 0 = some true := by
  refine ⟨?_, ?_, ?_, ?_, ?_⟩ <;> decide!

/-! ### Order of origin and amplitude -/

/-- C3 (counterexample). No archive, both picks fed, origin `O3` with depth and
two valid arrivals on the same station: the pick `P1` on the `BH` channels at
time 10 and the pick `P2` on the `HH` channels at time 5; the amplitude `A1`
belongs to `P1`. Fed as origin then amplitude, the origin stays without any
magnitude: `feed(Amplitude*)` looks for the first pick per network, station and
location, finds `P2`, and drops the amplitude. Fed as amplitude then origin, the
origin gets the station magnitude `MLv` 3, the network magnitude `MLv` and the
summary magnitude `M`: `processOrigin` selects one pick per abstract stream
(with the first two characters of the channel code), so `P1` is used. All four
calls return true. -/
theorem feed_order_dependent :
    (twoBandTool.feedOrigin evalApp 0).2 = some true ∧
    ((twoBandTool.feedOrigin evalApp 0).1.feedAmplitude evalApp bhAmplitude false).2 = some true ∧
    ((twoBandTool.feedOrigin evalApp 0).1.feedAmplitude evalApp bhAmplitude false).1.heap[0]? =
      some twoBandOrigin ∧
    (twoBandTool.feedAmplitude evalApp bhAmplitude false).2 = some true ∧
    ((twoBandTool.feedAmplitude evalApp bhAmplitude false).1.feedOrigin evalApp 0).2 = some true ∧
    (((twoBandTool.feedAmplitude evalApp bhAmplitude false).1.feedOrigin evalApp 0).1.heap[0]?).map
      (fun o => (o.stationMagnitudes.map (fun m => (m.type, m.magnitude.value)),
        o.magnitudes.map (fun m => (m.type, m.magnitude.value, m.stationCount)))) =
      some ([("MLv", 3)], [("MLv", 3, some 1), ("M", 3, some 1)]) := by
  decide!

theorem usedAmplitudeLoop_congr (app : App) {a b : MagTool} (h : a.sameSetup b)
    (distance depth : ℚ) (l : List (String × Amplitude)) (c : OriginCtx) (magTypes : List String) :
    b.usedAmplitudeLoop app distance depth l c magTypes =
      a.usedAmplitudeLoop app distance depth l c magTypes := by
  induction l generalizing c magTypes with
  | nil => rfl
  | cons x rest ih =>
    obtain ⟨key, ampl⟩ := x
    unfold MagTool.usedAmplitudeLoop
    rw [computeStationMagnitude_congr h]
    rcases a.computeStationMagnitude ampl distance depth with _ | ⟨flag, mags⟩
    · rfl
    · cases flag with
      | false => exact ih c magTypes
      | true => exact ih _ _

theorem pickStreamLoop_congr (app : App) {a b : MagTool} (h : a.sameSetup b) (depth : ℚ)
    (l : List (String × (Pick × ℚ))) (c : OriginCtx) (magTypes : List String) :
    b.pickStreamLoop app depth l c magTypes = a.pickStreamLoop app depth l c magTypes := by
  induction l generalizing c magTypes with
  | nil => rfl
  | cons e rest ih =>
    obtain ⟨key, pick, distance⟩ := e
    unfold MagTool.pickStreamLoop
    simp only
    rw [amplitudesForPick_congr h, usedAmplitudeLoop_congr app h]
    rcases a.usedAmplitudeLoop app distance depth
        (collectUsedAmplitudes (a.amplitudesForPick pick.publicID)) c magTypes with
      ⟨c1, _ | magTypes1⟩
    · rfl
    · exact ih c1 magTypes1

theorem computeMagnitude_congr (app : App) {a b : MagTool} (h : a.sameSetup b) :
    b.computeMagnitude app = a.computeMagnitude app := by
  funext c mtype netMag
  unfold MagTool.computeMagnitude MagTool.deriveMw MagTool.aggregate MagTool.reconciled
    MagTool.averageMethod
  rw [h.2.2.2.2.2.2.2.1, h.2.2.2.2.2.2.2.2.2.1]

theorem networkMagnitudeStep_congr (app : App) {a b : MagTool} (h : a.sameSetup b) :
    b.networkMagnitudeStep app = a.networkMagnitudeStep app := by
  funext c mtype
  unfold MagTool.networkMagnitudeStep
  rw [computeMagnitude_congr app h]

theorem processSelected_congr (app : App) {a b : MagTool} (h : a.sameSetup b) (depth : ℚ)
    (m : PickStreamMap) (c : OriginCtx) :
    b.processSelected app depth m c = a.processSelected app depth m c := by
  unfold MagTool.processSelected
  rw [pickStreamLoop_congr app h, networkMagnitudeStep_congr app h]
  rcases a.pickStreamLoop app depth m c [] with ⟨c1, _ | magTypes⟩
  · rfl
  · simp only
    rw [computeSummaryMagnitude_congr app h]

theorem StdMap.mem_assign {V : Type} (m : StdMap V) (key : String) (v : V) (e : String × V)
    (h : e ∈ StdMap.assign m key v) : e = (key, v) ∨ e ∈ m := by
  induction m with
  | nil =>
    simp only [StdMap.assign, List.mem_singleton] at h
    exact Or.inl h
  | cons x rest ih =>
    obtain ⟨k, w⟩ := x
    unfold StdMap.assign at h
    split at h
    · rcases List.mem_cons.mp h with h | h
      · exact Or.inl h
      · exact Or.inr h
    · split at h
      · rename_i hk
        rcases List.mem_cons.mp h with h | h
        · left; rw [h, hk]
        · exact Or.inr (List.mem_cons_of_mem _ h)
      · rcases List.mem_cons.mp h with h | h
        · right; rw [h]; exact List.mem_cons_self _ _
        · rcases ih h with h | h
          · exact Or.inl h
          · exact Or.inr (List.mem_cons_of_mem _ h)

theorem StdMap.find_assign_self {V : Type} (m : StdMap V) (key : String) (v : V) :
    StdMap.find (StdMap.assign m key v) key = some v := by
  induction m with
  | nil => simp [StdMap.assign, StdMap.find]
  | cons x rest ih =>
    obtain ⟨k, w⟩ := x
    unfold StdMap.assign
    split
    · simp [StdMap.find]
    · split
      · rename_i hk
        simp [StdMap.find, hk]
      · rename_i hk
        have : ¬ k = key := fun h => hk h.symm
        simp only [StdMap.find, if_neg this]
        exact ih

theorem StdMap.find_assign_ne {V : Type} (m : StdMap V) (key key1 : String) (v : V)
    (hne : key ≠ key1) : StdMap.find (StdMap.assign m key v) key1 = StdMap.find m key1 := by
  induction m with
  | nil => simp [StdMap.assign, StdMap.find, hne]
  | cons x rest ih =>
    obtain ⟨k, w⟩ := x
    unfold StdMap.assign
    split
    · simp only [StdMap.find, if_neg hne]
    · split
      · rename_i hk
        have : ¬ k = key1 := fun h => hne (hk.trans h)
        simp only [StdMap.find, if_neg this]
      · by_cases hk1 : k = key1
        · simp only [StdMap.find, if_pos hk1]
        · simp only [StdMap.find, if_neg hk1]
          exact ih

theorem StdMap.mem_of_find {V : Type} (m : StdMap V) (key : String) (v : V)
    (h : StdMap.find m key = some v) : (key, v) ∈ m := by
  induction m with
  | nil => simp [StdMap.find] at h
  | cons x rest ih =>
    obtain ⟨k, w⟩ := x
    unfold StdMap.find at h
    split at h
    · rename_i hk
      simp only [Option.some.injEq] at h
      rw [← hk, ← h]
      exact List.mem_cons_self _ _
    · exact List.mem_cons_of_mem _ (ih h)

theorem findPick_publicID (t : MagTool) (id : String) (p : Pick)
    (h : t.findPick id = some p) : p.publicID = id := by
  unfold MagTool.findPick at h
  obtain ⟨x, _, hx⟩ := List.exists_of_findSome?_eq_some h
  cases x with
  | pick q =>
    simp only at hx
    split at hx
    · rename_i hq
      simp only [Option.some.injEq] at hx
      rw [← hx]
      exact hq
    · cases hx
  | amplitude a => cases hx
  | origin ptr => cases hx

theorem firstPLoop_append (app : App) (ampl : Amplitude) (l1 l2 : List Arrival) (t : MagTool)
    (st : Option Pick × Option Arrival) :
    MagTool.firstPLoop app ampl (l1 ++ l2) t st =
      MagTool.firstPLoop app ampl l2 (MagTool.firstPLoop app ampl l1 t st).1
        (MagTool.firstPLoop app ampl l1 t st).2 := by
  induction l1 generalizing t st with
  | nil => rfl
  | cons a rest ih =>
    simp only [List.cons_append, MagTool.firstPLoop]
    exact ih _ _

theorem selectPicks_append (app : App) (minWeight : ℚ) (find : String → Option Pick)
    (l1 l2 : List Arrival) (m : PickStreamMap) :
    selectPicks app minWeight find (l1 ++ l2) m =
      match selectPicks app minWeight find l1 m with
      | none => none
      | some m1 => selectPicks app minWeight find l2 m1 := by
  induction l1 generalizing m with
  | nil => rfl
  | cons a rest ih =>
    simp only [List.cons_append, selectPicks]
    cases selectStep app minWeight find a m with
    | none => rfl
    | some m1 => exact ih m1

theorem firstPStep_pre (app : App) (hq : app.query = none) (t : MagTool) (ampl : Amplitude)
    (pick : Pick) (a : Arrival) (st : Option Pick × Option Arrival)
    (hid : a.pickID ≠ ampl.pickID)
    (hfirst : app.validArrival a t.minimumArrivalWeight = true → ∀ p,
      t.findPick a.pickID = some p → sameStation ampl.waveformID p.waveformID →
      pick.time < p.time)
    (h2 : st.2 = none) (h1 : ∀ p1, st.1 = some p1 → pick.time < p1.time) :
    (t.firstPStep app ampl a st).1 = t ∧ (t.firstPStep app ampl a st).2.2 = none ∧
      ∀ p1, (t.firstPStep app ampl a st).2.1 = some p1 → pick.time < p1.time := by
  unfold MagTool.firstPStep
  rw [getPick_noquery app t a.pickID hq]
  cases hf : t.findPick a.pickID with
  | none => exact ⟨rfl, h2, h1⟩
  | some p =>
    simp only
    by_cases hs : sameStation ampl.waveformID p.waveformID
    · have hs1 : ¬ (ampl.waveformID.networkCode ≠ p.waveformID.networkCode ∨
          ampl.waveformID.stationCode ≠ p.waveformID.stationCode ∨
          ampl.waveformID.locationCode ≠ p.waveformID.locationCode) := by
        obtain ⟨e1, e2, e3⟩ := hs
        simp [e1, e2, e3]
      rw [if_neg hs1]
      by_cases hv : app.validArrival a t.minimumArrivalWeight = true
      · rw [if_neg (by simp [hv]), if_neg (fun h => hid h.symm)]
        have hp := hfirst hv p hf hs
        obtain ⟨s1, s2⟩ := st
        simp only at h1 h2
        subst h2
        cases s1 with
        | none =>
          refine ⟨rfl, rfl, ?_⟩
          intro p1 hp1
          simp only [Option.some.injEq] at hp1
          rw [← hp1]; exact hp
        | some pPick =>
          by_cases hlt : p.time < pPick.time
          · simp only [if_pos hlt]
            refine ⟨trivial, trivial, ?_⟩
            intro p1 hp1
            simp only [Option.some.injEq] at hp1
            rw [← hp1]; exact hp
          · simp only [if_neg hlt]
            exact ⟨trivial, trivial, h1⟩
      · rw [if_pos (by simp [hv])]
        exact ⟨rfl, h2, h1⟩
    · have hs1 : ampl.waveformID.networkCode ≠ p.waveformID.networkCode ∨
          ampl.waveformID.stationCode ≠ p.waveformID.stationCode ∨
          ampl.waveformID.locationCode ≠ p.waveformID.locationCode := by
        unfold sameStation at hs
        by_contra hc
        simp only [not_or, ne_eq, not_not] at hc
        exact hs hc
      rw [if_pos hs1]
      exact ⟨rfl, h2, h1⟩

theorem firstPStep_post (app : App) (hq : app.query = none) (t : MagTool) (ampl : Amplitude)
    (pick : Pick) (arr a : Arrival)
    (hid : a.pickID ≠ ampl.pickID)
    (hfirst : app.validArrival a t.minimumArrivalWeight = true → ∀ p,
      t.findPick a.pickID = some p → sameStation ampl.waveformID p.waveformID →
      pick.time < p.time) :
    t.firstPStep app ampl a (some pick, some arr) = (t, (some pick, some arr)) := by
  unfold MagTool.firstPStep
  rw [getPick_noquery app t a.pickID hq]
  cases hf : t.findPick a.pickID with
  | none => rfl
  | some p =>
    simp only
    split
    · rfl
    · rename_i hs
      split
      · rfl
      · rename_i hv
        have hv1 : app.validArrival a t.minimumArrivalWeight = true := by simpa using hv
        have hs1 : sameStation ampl.waveformID p.waveformID := by
          unfold sameStation
          simp only [not_or, ne_eq, not_not] at hs
          exact hs
        have hp := hfirst hv1 p hf hs1
        rw [if_neg (fun h => hid h.symm)]
        have : ¬ p.time < pick.time := by omega
        simp only [if_neg this]

theorem firstPStep_at (app : App) (hq : app.query = none) (t : MagTool) (ampl : Amplitude)
    (pick : Pick) (arr : Arrival) (st : Option Pick × Option Arrival)
    (hpick : t.findPick ampl.pickID = some pick) (harrid : arr.pickID = ampl.pickID)
    (hvalid : app.validArrival arr t.minimumArrivalWeight = true)
    (hsta : sameStation ampl.waveformID pick.waveformID)
    (h1 : ∀ p1, st.1 = some p1 → pick.time < p1.time) :
    t.firstPStep app ampl arr st = (t, (some pick, some arr)) := by
  unfold MagTool.firstPStep
  rw [getPick_noquery app t arr.pickID hq, harrid, hpick]
  obtain ⟨e1, e2, e3⟩ := hsta
  obtain ⟨s1, s2⟩ := st
  cases s1 with
  | none => simp [e1, e2, e3, hvalid]
  | some pPick =>
    have := h1 pPick rfl
    simp [e1, e2, e3, hvalid, this]

theorem firstPLoop_pre (app : App) (hq : app.query = none) (t : MagTool) (ampl : Amplitude)
    (pick : Pick) (pre : List Arrival) (st : Option Pick × Option Arrival)
    (hid : ∀ a ∈ pre, a.pickID ≠ ampl.pickID)
    (hfirst : ∀ a ∈ pre, app.validArrival a t.minimumArrivalWeight = true → ∀ p,
      t.findPick a.pickID = some p → sameStation ampl.waveformID p.waveformID →
      pick.time < p.time)
    (h2 : st.2 = none) (h1 : ∀ p1, st.1 = some p1 → pick.time < p1.time) :
    (MagTool.firstPLoop app ampl pre t st).1 = t ∧
      ∀ p1, (MagTool.firstPLoop app ampl pre t st).2.1 = some p1 → pick.time < p1.time := by
  induction pre generalizing st with
  | nil => exact ⟨rfl, h1⟩
  | cons a rest ih =>
    obtain ⟨g1, g2, g3⟩ := firstPStep_pre app hq t ampl pick a st
      (hid a (List.mem_cons_self _ _)) (hfirst a (List.mem_cons_self _ _)) h2 h1
    unfold MagTool.firstPLoop
    simp only
    rw [g1]
    exact ih _ (fun a ha => hid a (List.mem_cons_of_mem _ ha))
      (fun a ha => hfirst a (List.mem_cons_of_mem _ ha)) g2 g3

theorem firstPLoop_post (app : App) (hq : app.query = none) (t : MagTool) (ampl : Amplitude)
    (pick : Pick) (arr : Arrival) (post : List Arrival)
    (hid : ∀ a ∈ post, a.pickID ≠ ampl.pickID)
    (hfirst : ∀ a ∈ post, app.validArrival a t.minimumArrivalWeight = true → ∀ p,
      t.findPick a.pickID = some p → sameStation ampl.waveformID p.waveformID →
      pick.time < p.time) :
    MagTool.firstPLoop app ampl post t (some pick, some arr) = (t, (some pick, some arr)) := by
  induction post with
  | nil => rfl
  | cons a rest ih =>
    unfold MagTool.firstPLoop
    simp only
    rw [firstPStep_post app hq t ampl pick arr a (hid a (List.mem_cons_self _ _))
      (hfirst a (List.mem_cons_self _ _))]
    exact ih (fun a ha => hid a (List.mem_cons_of_mem _ ha))
      (fun a ha => hfirst a (List.mem_cons_of_mem _ ha))

/-- The arrival scan of `feed(Amplitude*)` settles on the arrival of the
amplitude's pick when that pick is the strictly first one on its station. -/
theorem firstPLoop_first (app : App) (hq : app.query = none) (t : MagTool) (ampl : Amplitude)
    (pick : Pick) (arr : Arrival) (pre post : List Arrival)
    (hpick : t.findPick ampl.pickID = some pick) (harrid : arr.pickID = ampl.pickID)
    (hpre : ∀ a ∈ pre, a.pickID ≠ ampl.pickID) (hpost : ∀ a ∈ post, a.pickID ≠ ampl.pickID)
    (hvalid : app.validArrival arr t.minimumArrivalWeight = true)
    (hsta : sameStation ampl.waveformID pick.waveformID)
    (hfirst : ∀ a ∈ pre ++ post, app.validArrival a t.minimumArrivalWeight = true → ∀ p,
      t.findPick a.pickID = some p → sameStation ampl.waveformID p.waveformID →
      pick.time < p.time) :
    MagTool.firstPLoop app ampl (pre ++ arr :: post) t (none, none) =
      (t, (some pick, some arr)) := by
  obtain ⟨g1, g2⟩ := firstPLoop_pre app hq t ampl pick pre (none, none) hpre
    (fun a ha => hfirst a (List.mem_append_left _ ha)) rfl (by intro p1 h; cases h)
  rw [firstPLoop_append, g1]
  unfold MagTool.firstPLoop
  simp only
  rw [firstPStep_at app hq t ampl pick arr _ hpick harrid hvalid hsta g2]
  exact firstPLoop_post app hq t ampl pick arr post hpost
    (fun a ha => hfirst a (List.mem_append_right _ ha))

theorem selectStep_pre (app : App) (minWeight : ℚ) (find : String → Option Pick)
    (hfind : ∀ id p, find id = some p → p.publicID = id) (pickID : String) (pick : Pick)
    (a : Arrival) (m : PickStreamMap) (hid : a.pickID ≠ pickID) (hdist : a.distance ≠ none)
    (hfirst : app.validArrival a minWeight = true → ∀ p, find a.pickID = some p →
      abstractStream p.waveformID = abstractStream pick.waveformID → pick.time < p.time)
    (hm : ∀ e ∈ m, e.2.1.publicID ≠ pickID ∧
      (e.1 = abstractStream pick.waveformID → pick.time < e.2.1.time)) :
    ∃ m1, selectStep app minWeight find a m = some m1 ∧
      ∀ e ∈ m1, e.2.1.publicID ≠ pickID ∧
        (e.1 = abstractStream pick.waveformID → pick.time < e.2.1.time) := by
  unfold selectStep
  cases hf : find a.pickID with
  | none => exact ⟨m, rfl, hm⟩
  | some p =>
    simp only
    by_cases hv : app.validArrival a minWeight = true
    · rw [if_neg (by simp [hv])]
      split
      · exact ⟨m, rfl, hm⟩
      · rcases Option.ne_none_iff_exists'.mp hdist with ⟨dd, hdd⟩
        rw [hdd]
        refine ⟨_, rfl, ?_⟩
        intro e he
        rcases StdMap.mem_assign _ _ _ _ he with he | he
        · rw [he]
          refine ⟨?_, fun hk => hfirst hv p hf hk⟩
          simp only
          rw [hfind _ _ hf]
          exact hid
        · exact hm e he
    · rw [if_pos (by simp [hv])]
      exact ⟨m, rfl, hm⟩

theorem selectStep_post (app : App) (minWeight : ℚ) (find : String → Option Pick)
    (hfind : ∀ id p, find id = some p → p.publicID = id) (pickID : String) (pick : Pick)
    (d : ℚ) (a : Arrival) (m : PickStreamMap) (hid : a.pickID ≠ pickID)
    (hdist : a.distance ≠ none)
    (hfirst : app.validArrival a minWeight = true → ∀ p, find a.pickID = some p →
      abstractStream p.waveformID = abstractStream pick.waveformID → pick.time < p.time)
    (hm : ∀ e ∈ m, e.2.1.publicID ≠ pickID ∨ e.2 = (pick, d))
    (hk : StdMap.find m (abstractStream pick.waveformID) = some (pick, d)) :
    ∃ m1, selectStep app minWeight find a m = some m1 ∧
      (∀ e ∈ m1, e.2.1.publicID ≠ pickID ∨ e.2 = (pick, d)) ∧
      StdMap.find m1 (abstractStream pick.waveformID) = some (pick, d) := by
  unfold selectStep
  cases hf : find a.pickID with
  | none => exact ⟨m, rfl, hm, hk⟩
  | some p =>
    simp only
    by_cases hv : app.validArrival a minWeight = true
    · rw [if_neg (by simp [hv])]
      by_cases hs : abstractStream p.waveformID = abstractStream pick.waveformID
      · have hp := hfirst hv p hf hs
        rw [hs, hk]
        simp only [hp, decide_True, if_true]
        exact ⟨m, rfl, hm, hk⟩
      · split
        · exact ⟨m, rfl, hm, hk⟩
        · rcases Option.ne_none_iff_exists'.mp hdist with ⟨dd, hdd⟩
          rw [hdd]
          refine ⟨_, rfl, ?_, ?_⟩
          · intro e he
            rcases StdMap.mem_assign _ _ _ _ he with he | he
            · left
              rw [he]
              simp only
              rw [hfind _ _ hf]
              exact hid
            · exact hm e he
          · rw [StdMap.find_assign_ne _ _ _ _ hs]
            exact hk
    · rw [if_pos (by simp [hv])]
      exact ⟨m, rfl, hm, hk⟩

theorem selectStep_at (app : App) (minWeight : ℚ) (find : String → Option Pick)
    (pickID : String) (pick : Pick) (d : ℚ) (arr : Arrival) (m : PickStreamMap)
    (hpick : find arr.pickID = some pick) (hvalid : app.validArrival arr minWeight = true)
    (hd : arr.distance = some d)
    (hm : ∀ e ∈ m, e.2.1.publicID ≠ pickID ∧
      (e.1 = abstractStream pick.waveformID → pick.time < e.2.1.time)) :
    ∃ m1, selectStep app minWeight find arr m = some m1 ∧
      (∀ e ∈ m1, e.2.1.publicID ≠ pickID ∨ e.2 = (pick, d)) ∧
      StdMap.find m1 (abstractStream pick.waveformID) = some (pick, d) := by
  unfold selectStep
  rw [hpick]
  simp only
  rw [if_neg (by simp [hvalid]), hd]
  have hearlier : (match StdMap.find m (abstractStream pick.waveformID) with
      | some e => decide (e.1.time < pick.time)
      | none => false) = false := by
    cases hfm : StdMap.find m (abstractStream pick.waveformID) with
    | none => rfl
    | some e =>
      have hlt : pick.time < e.1.time := (hm _ (StdMap.mem_of_find _ _ _ hfm)).2 rfl
      simp only [decide_eq_false_iff_not]
      omega
  rw [hearlier]
  refine ⟨_, rfl, ?_, StdMap.find_assign_self _ _ _⟩
  intro e he
  rcases StdMap.mem_assign _ _ _ _ he with he | he
  · right; rw [he]
  · exact Or.inl (hm e he).1

theorem selectPicks_pre (app : App) (minWeight : ℚ) (find : String → Option Pick)
    (hfind : ∀ id p, find id = some p → p.publicID = id) (pickID : String) (pick : Pick)
    (pre : List Arrival) (m : PickStreamMap) (hid : ∀ a ∈ pre, a.pickID ≠ pickID)
    (hdist : ∀ a ∈ pre, a.distance ≠ none)
    (hfirst : ∀ a ∈ pre, app.validArrival a minWeight = true → ∀ p, find a.pickID = some p →
      abstractStream p.waveformID = abstractStream pick.waveformID → pick.time < p.time)
    (hm : ∀ e ∈ m, e.2.1.publicID ≠ pickID ∧
      (e.1 = abstractStream pick.waveformID → pick.time < e.2.1.time)) :
    ∃ m1, selectPicks app minWeight find pre m = some m1 ∧
      ∀ e ∈ m1, e.2.1.publicID ≠ pickID ∧
        (e.1 = abstractStream pick.waveformID → pick.time < e.2.1.time) := by
  induction pre generalizing m with
  | nil => exact ⟨m, rfl, hm⟩
  | cons a rest ih =>
    obtain ⟨m1, g1, g2⟩ := selectStep_pre app minWeight find hfind pickID pick a m
      (hid a (List.mem_cons_self _ _)) (hdist a (List.mem_cons_self _ _))
      (hfirst a (List.mem_cons_self _ _)) hm
    unfold selectPicks
    rw [g1]
    exact ih m1 (fun a ha => hid a (List.mem_cons_of_mem _ ha))
      (fun a ha => hdist a (List.mem_cons_of_mem _ ha))
      (fun a ha => hfirst a (List.mem_cons_of_mem _ ha)) g2

theorem selectPicks_post (app : App) (minWeight : ℚ) (find : String → Option Pick)
    (hfind : ∀ id p, find id = some p → p.publicID = id) (pickID : String) (pick : Pick)
    (d : ℚ) (post : List Arrival) (m : PickStreamMap) (hid : ∀ a ∈ post, a.pickID ≠ pickID)
    (hdist : ∀ a ∈ post, a.distance ≠ none)
    (hfirst : ∀ a ∈ post, app.validArrival a minWeight = true → ∀ p, find a.pickID = some p →
      abstractStream p.waveformID = abstractStream pick.waveformID → pick.time < p.time)
    (hm : ∀ e ∈ m, e.2.1.publicID ≠ pickID ∨ e.2 = (pick, d))
    (hk : StdMap.find m (abstractStream pick.waveformID) = some (pick, d)) :
    ∃ m1, selectPicks app minWeight find post m = some m1 ∧
      (∀ e ∈ m1, e.2.1.publicID ≠ pickID ∨ e.2 = (pick, d)) ∧
      StdMap.find m1 (abstractStream pick.waveformID) = some (pick, d) := by
  induction post generalizing m with
  | nil => exact ⟨m, rfl, hm, hk⟩
  | cons a rest ih =>
    obtain ⟨m1, g1, g2, g3⟩ := selectStep_post app minWeight find hfind pickID pick d a m
      (hid a (List.mem_cons_self _ _)) (hdist a (List.mem_cons_self _ _))
      (hfirst a (List.mem_cons_self _ _)) hm hk
    unfold selectPicks
    rw [g1]
    exact ih m1 (fun a ha => hid a (List.mem_cons_of_mem _ ha))
      (fun a ha => hdist a (List.mem_cons_of_mem _ ha))
      (fun a ha => hfirst a (List.mem_cons_of_mem _ ha)) g2 g3

/-- The pick selection of `processOrigin` keeps the amplitude's pick, with the
distance of its arrival, when that pick is the strictly first one on its
abstract stream; every other selected pick has another public id. -/
theorem selectPicks_first (app : App) (minWeight : ℚ) (find : String → Option Pick)
    (hfind : ∀ id p, find id = some p → p.publicID = id) (pickID : String) (pick : Pick)
    (d : ℚ) (arr : Arrival) (pre post : List Arrival)
    (hpick : find arr.pickID = some pick) (hvalid : app.validArrival arr minWeight = true)
    (hd : arr.distance = some d)
    (hpre : ∀ a ∈ pre, a.pickID ≠ pickID) (hpost : ∀ a ∈ post, a.pickID ≠ pickID)
    (hdist : ∀ a ∈ pre ++ post, a.distance ≠ none)
    (hfirst : ∀ a ∈ pre ++ post, app.validArrival a minWeight = true → ∀ p,
      find a.pickID = some p →
      abstractStream p.waveformID = abstractStream pick.waveformID → pick.time < p.time) :
    ∃ m, selectPicks app minWeight find (pre ++ arr :: post) [] = some m ∧
      (∀ e ∈ m, e.2.1.publicID ≠ pickID ∨ e.2 = (pick, d)) ∧
      ∃ e ∈ m, e.2 = (pick, d) := by
  obtain ⟨m1, g1, g2⟩ := selectPicks_pre app minWeight find hfind pickID pick pre [] hpre
    (fun a ha => hdist a (List.mem_append_left _ ha))
    (fun a ha => hfirst a (List.mem_append_left _ ha)) (by intro e he; cases he)
  obtain ⟨m2, k1, k2, k3⟩ := selectStep_at app minWeight find pickID pick d arr m1 hpick hvalid
    hd g2
  obtain ⟨m3, j1, j2, j3⟩ := selectPicks_post app minWeight find hfind pickID pick d post m2
    hpost (fun a ha => hdist a (List.mem_append_right _ ha))
    (fun a ha => hfirst a (List.mem_append_right _ ha)) k2 k3
  refine ⟨m3, ?_, j2, ⟨_, StdMap.mem_of_find _ _ _ j3, rfl⟩⟩
  rw [selectPicks_append, g1]
  simp only
  unfold selectPicks
  rw [k1]
  exact j1

theorem collectUsedAmplitudes_single (ampl : Amplitude) :
    collectUsedAmplitudes [ampl] = [(ampl.type, ampl)] := by
  simp [collectUsedAmplitudes, useAmplitude, StdMap.find, StdMap.assign]

theorem collectUsedAmplitudes_nil : collectUsedAmplitudes [] = [] := rfl

/-- The loop over the selected picks does nothing on an origin on which the only
indexed amplitude is settled. -/
theorem pickStreamLoop_settled_single (app : App) (t : MagTool) (ampl : Amplitude) (pick : Pick)
    (d depth : ℚ)
    (hidx : ∀ id, t.amplitudesForPick id = if id = ampl.pickID then [ampl] else [])
    (l : List (String × (Pick × ℚ)))
    (hl : ∀ e ∈ l, e.2.1.publicID ≠ ampl.pickID ∨ e.2 = (pick, d)) (c : OriginCtx)
    (magTypes : List String) (hs : t.amplitudeSettled app d depth c ampl) :
    t.pickStreamLoop app depth l c magTypes = (c, some magTypes) := by
  apply pickStreamLoop_of_settled
  intro e he a ha
  rw [hidx] at ha
  rcases hl e he with hne | heq
  · rw [if_neg hne, collectUsedAmplitudes_nil] at ha
    cases ha
  · by_cases hp : e.2.1.publicID = ampl.pickID
    · rw [if_pos hp, collectUsedAmplitudes_single] at ha
      simp only [List.mem_singleton] at ha
      rw [ha, heq]
      exact hs
    · rw [if_neg hp, collectUsedAmplitudes_nil] at ha
      cases ha

/-- With a single indexed amplitude, whose pick is selected once or several
times with the same distance and is the only selected pick with that public id,
the loop over the selected picks is the loop over that amplitude. -/
theorem pickStreamLoop_single (app : App) (hrefl : ∀ w, app.equivalent w w = true)
    (t : MagTool) (ampl : Amplitude) (pick : Pick) (d depth : ℚ)
    (hidx : ∀ id, t.amplitudesForPick id = if id = ampl.pickID then [ampl] else [])
    (hpid : pick.publicID = ampl.pickID) (l : List (String × (Pick × ℚ)))
    (hl : ∀ e ∈ l, e.2.1.publicID ≠ ampl.pickID ∨ e.2 = (pick, d))
    (hex : ∃ e ∈ l, e.2 = (pick, d)) (c : OriginCtx) (magTypes : List String) :
    t.pickStreamLoop app depth l c magTypes =
      t.usedAmplitudeLoop app d depth [(ampl.type, ampl)] c magTypes := by
  induction l generalizing c magTypes with
  | nil =>
    obtain ⟨e, he, _⟩ := hex
    cases he
  | cons e rest ih =>
    have hrest : ∀ e ∈ rest, e.2.1.publicID ≠ ampl.pickID ∨ e.2 = (pick, d) :=
      fun e he => hl e (List.mem_cons_of_mem _ he)
    obtain ⟨key, p, dist⟩ := e
    unfold MagTool.pickStreamLoop
    simp only
    rw [hidx]
    by_cases heq : (p, dist) = (pick, d)
    · simp only [Prod.mk.injEq] at heq
      obtain ⟨hp, hdist⟩ := heq
      subst hp hdist
      rw [if_pos hpid, collectUsedAmplitudes_single]
      obtain ⟨_, hset⟩ := usedAmplitudeLoop_grows app hrefl t dist depth [(ampl.type, ampl)] c
        magTypes
      rcases hr : t.usedAmplitudeLoop app dist depth [(ampl.type, ampl)] c magTypes with
        ⟨c1, _ | magTypes1⟩
      · rfl
      · rw [hr] at hset
        simp only
        exact pickStreamLoop_settled_single app t ampl p dist depth hidx rest hrest c1 magTypes1
          (hset (by simp) _ (List.mem_singleton_self _))
    · have hne : p.publicID ≠ ampl.pickID := by
        rcases hl _ (List.mem_cons_self _ _) with h | h
        · exact h
        · exact absurd h heq
      rw [if_neg hne, collectUsedAmplitudes_nil]
      simp only [MagTool.usedAmplitudeLoop]
      apply ih hrest
      obtain ⟨e, he, hee⟩ := hex
      rcases List.mem_cons.mp he with h | h
      · rw [h] at hee
        exact absurd hee heq
      · exact ⟨e, h, hee⟩

theorem getStationMagnitude_nil (app : App) (c : OriginCtx) (wfid : WaveformStreamID)
    (type : String) (value : ℚ) (update : Bool) (hsm : c.origin.stationMagnitudes = []) :
    getStationMagnitude app c wfid type value update =
      if app.createFails c.registry (app.objectID c.registry (stationMagnitudeID c.origin wfid type))
      then (none, c)
      else
        (some 0,
         { origin := { c.origin with stationMagnitudes :=
             [app.newStationMagnitude
               (app.objectID c.registry (stationMagnitudeID c.origin wfid type)) wfid type value] },
           registry := app.objectID c.registry (stationMagnitudeID c.origin wfid type) ::
             c.registry }) := by
  unfold getStationMagnitude
  simp only [hsm, firstIndex, List.length_nil, List.nil_append]

theorem getMagnitude_nil (app : App) (c : OriginCtx) (type : String)
    (hmag : c.origin.magnitudes = []) :
    getMagnitude app c type =
      if app.createFails c.registry (app.objectID c.registry (magnitudeID c.origin type))
      then (none, c)
      else
        (some (0, true),
         { origin := { c.origin with magnitudes :=
             [app.newMagnitude (app.objectID c.registry (magnitudeID c.origin type)) type] },
           registry := app.objectID c.registry (magnitudeID c.origin type) :: c.registry }) := by
  unfold getMagnitude
  simp only [hmag, firstIndex, List.length_nil, List.nil_append]

theorem computeSummaryMagnitude_nil (app : App) (t : MagTool) (c : OriginCtx)
    (hmag : c.origin.magnitudes = []) : t.computeSummaryMagnitude app c = some (false, c) := by
  unfold MagTool.computeSummaryMagnitude
  split
  · rfl
  · split
    · rfl
    · simp [hmag, MagTool.summaryLoop]

theorem stationMagnitudeLoop_length (ampl : Amplitude) (period distance depth : ℚ)
    (procs : List MagnitudeProcessor) (acc mags : List MagnitudeEntry)
    (h : stationMagnitudeLoop ampl period distance depth procs acc = some mags) :
    mags.length ≤ acc.length + procs.length := by
  induction procs generalizing acc with
  | nil =>
    simp only [stationMagnitudeLoop, Option.some.injEq] at h
    rw [← h]
    simp
  | cons proc rest ih =>
    unfold stationMagnitudeLoop at h
    split at h
    · have := ih acc h
      simp only [List.length_cons]
      omega
    · split at h
      · cases h
      · split at h
        · have := ih acc h
          simp only [List.length_cons]
          omega
        · have := ih _ h
          simp only [List.length_append, List.length_cons, List.length_nil] at this ⊢
          omega

theorem computeStationMagnitude_single (t : MagTool) (ampl : Amplitude) (distance depth : ℚ)
    (mags : List MagnitudeEntry)
    (hproc : (t.processors.filter (fun proc => decide (proc.amplitudeType = ampl.type))).length ≤ 1)
    (h : t.computeStationMagnitude ampl distance depth = some (true, mags)) :
    ∃ e, mags = [e] := by
  unfold MagTool.computeStationMagnitude at h
  simp only at h
  split at h
  · cases h
  · rename_i mags1 hloop
    simp only [Option.some.injEq, Prod.mk.injEq] at h
    obtain ⟨h1, h2⟩ := h
    subst h2
    have hlen := stationMagnitudeLoop_length _ _ _ _ _ _ _ hloop
    simp only [List.length_nil, Nat.zero_add] at hlen
    match mags1, h1, hlen with
    | [], h1, _ => simp at h1
    | [e], _, _ => exact ⟨e, rfl⟩
    | _ :: _ :: _, _, hlen =>
      simp only [List.length_cons] at hlen
      omega

/-- On an origin without magnitudes, the loop of `feed(Amplitude*)` over a single
computed magnitude, followed by the summary step when a network magnitude was
touched, leaves the origin that `processOrigin` leaves after installing the
station magnitude, aggregating the types found and running the summary step. -/
theorem retroactiveLoop_single (app : App) (t : MagTool) (ampl : Amplitude) (update : Bool)
    (e : MagnitudeEntry) (c : OriginCtx) (hsm : c.origin.stationMagnitudes = [])
    (hmag : c.origin.magnitudes = []) :
    (if (t.retroactiveLoop app ampl update [e] c false).2 then
        (match t.computeSummaryMagnitude app (t.retroactiveLoop app ampl update [e] c false).1 with
          | none => (t.retroactiveLoop app ampl update [e] c false).1
          | some (_, c1) => c1)
      else (t.retroactiveLoop app ampl update [e] c false).1) =
      (match t.computeSummaryMagnitude app
          ((installStationMagnitudes app ampl [e] c []).2.foldl (t.networkMagnitudeStep app)
            (installStationMagnitudes app ampl [e] c []).1) with
        | none => (installStationMagnitudes app ampl [e] c []).2.foldl (t.networkMagnitudeStep app)
            (installStationMagnitudes app ampl [e] c []).1
        | some (_, c3) => c3) := by
  obtain ⟨type, value⟩ := e
  unfold MagTool.retroactiveLoop installStationMagnitudes
  rw [getStationMagnitude_nil app c _ type value update hsm,
    getStationMagnitude_nil app c _ type value false hsm]
  by_cases hcf : app.createFails c.registry
      (app.objectID c.registry (stationMagnitudeID c.origin ampl.waveformID type)) = true
  · simp only [if_pos hcf, MagTool.retroactiveLoop, installStationMagnitudes, List.foldl_nil,
      Bool.false_eq_true, if_false]
    rw [computeSummaryMagnitude_nil app t c hmag]
  · simp only [if_neg hcf, installStationMagnitudes, setInsert, List.foldl_cons, List.foldl_nil]
    have hmag2 : ((⟨{ c.origin with stationMagnitudes :=
          [app.newStationMagnitude
            (app.objectID c.registry (stationMagnitudeID c.origin ampl.waveformID type))
            ampl.waveformID type value] },
        app.objectID c.registry (stationMagnitudeID c.origin ampl.waveformID type) ::
          c.registry⟩ : OriginCtx).setAmplitudeID 0 ampl.publicID).origin.magnitudes = [] := hmag
    have htype : (match ((⟨{ c.origin with stationMagnitudes :=
          [app.newStationMagnitude
            (app.objectID c.registry (stationMagnitudeID c.origin ampl.waveformID type))
            ampl.waveformID type value] },
        app.objectID c.registry (stationMagnitudeID c.origin ampl.waveformID type) ::
          c.registry⟩ : OriginCtx).setAmplitudeID 0 ampl.publicID).origin.stationMagnitudes[0]? with
        | some staMag => staMag.type
        | none => type) = type := rfl
    rw [htype]
    unfold MagTool.networkMagnitudeStep
    rw [getMagnitude_nil app _ type hmag2]
    split
    · simp only [MagTool.retroactiveLoop, Bool.false_eq_true, if_false]
      rw [computeSummaryMagnitude_nil app t _ hmag2]
    · simp only [MagTool.retroactiveLoop, if_true]

/-- The origin left by `processOrigin` after the pick selection when a single
amplitude is used, on an origin without magnitudes, in an engine with at most
one processor for the amplitude type: it is the origin the loop of
`feed(Amplitude*)` over the computed magnitudes and its summary step leave. -/
theorem processSelected_single (app : App) (t : MagTool) (ampl : Amplitude) (update : Bool)
    (d depth : ℚ) (l : PickStreamMap) (c : OriginCtx)
    (hloop : t.pickStreamLoop app depth l c [] =
      t.usedAmplitudeLoop app d depth [(ampl.type, ampl)] c [])
    (hsm : c.origin.stationMagnitudes = []) (hmag : c.origin.magnitudes = [])
    (hproc : (t.processors.filter (fun proc => decide (proc.amplitudeType = ampl.type))).length ≤ 1) :
    (t.processSelected app depth l c).1 =
      match t.computeStationMagnitude ampl d depth with
      | none => c
      | some (false, _) => c
      | some (true, mags) =>
        if (t.retroactiveLoop app ampl update mags c false).2 then
          (match t.computeSummaryMagnitude app (t.retroactiveLoop app ampl update mags c false).1 with
            | none => (t.retroactiveLoop app ampl update mags c false).1
            | some (_, c1) => c1)
        else (t.retroactiveLoop app ampl update mags c false).1 := by
  unfold MagTool.processSelected
  rw [hloop]
  unfold MagTool.usedAmplitudeLoop
  rcases hcs : t.computeStationMagnitude ampl d depth with _ | ⟨flag, mags⟩
  · rfl
  · cases flag with
    | false =>
      simp only [MagTool.usedAmplitudeLoop, List.foldl_nil]
      rw [computeSummaryMagnitude_nil app t c hmag]
    | true =>
      obtain ⟨e, he⟩ := computeStationMagnitude_single t ampl d depth mags hproc hcs
      subst he
      simp only [MagTool.usedAmplitudeLoop]
      rw [retroactiveLoop_single app t ampl update e c hsm hmag]
      rcases t.computeSummaryMagnitude app
          ((installStationMagnitudes app ampl [e] c []).2.foldl (t.networkMagnitudeStep app)
            (installStationMagnitudes app ampl [e] c []).1) with _ | ⟨b, c3⟩
      · rfl
      · rfl

/-- The origins after the body of the update loop of `feed(Amplitude*)` ran on
an origin for which the arrival scan settled on an arrival with distance. -/
theorem updateOrigin_heap (app : App) (t : MagTool) (ampl : Amplitude) (update : Bool)
    (origin : Nat) (o : Origin) (pick : Pick) (arr : Arrival) (d depth : ℚ)
    (ho : t.heap[origin]? = some o)
    (hb : ¬ app.isAgencyIDBlocked (objectAgencyID o.creationInfo) = true)
    (hscan : MagTool.firstPLoop app ampl o.arrivals t (none, none) = (t, (some pick, some arr)))
    (hd : arr.distance = some d) (hdepth : o.depth = some depth) :
    (t.updateOrigin app ampl update origin).1.heap =
      modifyAt (fun _ =>
        (match t.computeStationMagnitude ampl d depth with
          | none => (⟨o, t.registry⟩ : OriginCtx)
          | some (false, _) => ⟨o, t.registry⟩
          | some (true, mags) =>
            if (t.retroactiveLoop app ampl update mags ⟨o, t.registry⟩ false).2 then
              (match t.computeSummaryMagnitude app
                  (t.retroactiveLoop app ampl update mags ⟨o, t.registry⟩ false).1 with
                | none => (t.retroactiveLoop app ampl update mags ⟨o, t.registry⟩ false).1
                | some (_, c1) => c1)
            else (t.retroactiveLoop app ampl update mags ⟨o, t.registry⟩ false).1).origin)
        t.heap origin := by
  have hctx : t.ctx origin = some ⟨o, t.registry⟩ := by
    unfold MagTool.ctx
    rw [ho]
    rfl
  unfold MagTool.updateOrigin
  simp only [ho, if_neg hb, hscan, hd, hdepth]
  rcases hcs : t.computeStationMagnitude ampl d depth with _ | ⟨flag, mags⟩
  · simp only
    exact (modifyAt_self _ _ _ ho).symm
  · cases flag with
    | false =>
      simp only
      exact (modifyAt_self _ _ _ ho).symm
    | true =>
      simp only [hctx]
      by_cases hu : (t.retroactiveLoop app ampl update mags ⟨o, t.registry⟩ false).2 = true
      · simp only [if_pos hu]
        rcases t.computeSummaryMagnitude app
            (t.retroactiveLoop app ampl update mags ⟨o, t.registry⟩ false).1 with _ | ⟨b, c1⟩
        · rfl
        · rfl
      · simp only [if_neg hu]
        rfl

/-- Without archive, `feed(Amplitude*)` of an amplitude that is neither cached
nor indexed enters it into the index and runs the update loop over the origins
bound to its pick. -/
theorem feedAmplitude_fresh (app : App) (hq : app.query = none) (t : MagTool) (ampl : Amplitude)
    (update : Bool)
    (hb : ¬ app.isAgencyIDBlocked (objectAgencyID ampl.creationInfo) = true)
    (hp : ¬ (t.processors.find? (fun proc => decide (proc.amplitudeType = ampl.type))).isNone = true)
    (hpid : ampl.pickID ≠ "") (hc : t.findAmplitude ampl.publicID = none)
    (hidx : t.amplitudesForPick ampl.pickID = []) :
    t.feedAmplitude app ampl update =
      match t.originsForPick ampl.pickID with
      | none => ({ t with ampl := t.ampl ++ [(ampl.pickID, ampl)] }, some true)
      | some origins =>
        match MagTool.updateLoop app ampl update origins
            { t with ampl := t.ampl ++ [(ampl.pickID, ampl)] } with
        | (s3, false) => (s3, none)
        | (s3, true) => (s3, some true) := by
  unfold MagTool.feedAmplitude MagTool._feed
  rw [if_neg hb, if_neg hp]
  simp only [hpid, if_false, getAmplitude_noquery app t ampl.publicID hq, hc, Option.getD_none,
    hidx, List.any_nil, Bool.false_eq_true, getPick_noquery app _ ampl.pickID hq, hq]
  have horg : MagTool.originsForPick { t with ampl := t.ampl ++ [(ampl.pickID, ampl)] }
      ampl.pickID = t.originsForPick ampl.pickID := rfl
  cases ho : t.originsForPick ampl.pickID with
  | none =>
    rw [ho] at horg
    simp only [horg]
  | some origins =>
    rw [ho] at horg
    simp only [horg]

/-- An amplitude of a blocked agency, of a type without processor or without
pick id leaves the engine as it is. -/
theorem feedAmplitude_skip (app : App) (t : MagTool) (ampl : Amplitude) (update : Bool)
    (h : app.isAgencyIDBlocked (objectAgencyID ampl.creationInfo) = true ∨
      (t.processors.find? (fun proc => decide (proc.amplitudeType = ampl.type))).isNone = true ∨
      ampl.pickID = "") :
    (t.feedAmplitude app ampl update).1 = t := by
  unfold MagTool.feedAmplitude
  by_cases hb : app.isAgencyIDBlocked (objectAgencyID ampl.creationInfo) = true
  · rw [if_pos hb]
  rw [if_neg hb]
  by_cases hp : (t.processors.find? (fun proc => decide (proc.amplitudeType = ampl.type))).isNone
      = true
  · rw [if_pos hp]
  rw [if_neg hp]
  rcases h with h | h | h
  · exact absurd h hb
  · exact absurd h hp
  · unfold MagTool._feed
    simp only [h, if_true]

/-- An origin of a blocked agency, or a rejected origin that is not a duplicate,
leaves the engine as it is. -/
theorem feedOrigin_skip (app : App) (t : MagTool) (origin : Nat) (o : Origin)
    (ho : t.heap[origin]? = some o)
    (h : app.isAgencyIDBlocked (objectAgencyID o.creationInfo) = true ∨
      (t.findOrigin o.publicID = none ∧ o.evaluationStatus = some EvaluationStatus.REJECTED)) :
    t.feedOrigin app origin = (t, some false) := by
  unfold MagTool.feedOrigin
  simp only [ho]
  by_cases hb : app.isAgencyIDBlocked (objectAgencyID o.creationInfo) = true
  · rw [if_pos hb]
  rw [if_neg hb]
  rcases h with h | ⟨h1, h2⟩
  · exact absurd h hb
  · simp only [h1, h2, if_true]

theorem cacheFeed_fresh (s : MagTool) (obj : CachedObject)
    (h : ∀ x ∈ s.objectCache, s.cachedPublicID x ≠ s.cachedPublicID obj) :
    (s.cacheFeed obj).objectCache = s.objectCache ++ [obj] := by
  unfold MagTool.cacheFeed
  simp only
  rw [List.filter_eq_self.mpr]
  intro x hx
  simp only [decide_eq_true_eq]
  exact h x hx

theorem findPick_append_origin (a b : MagTool) (ptr : Nat)
    (h : b.objectCache = a.objectCache ++ [CachedObject.origin ptr]) :
    b.findPick = a.findPick := by
  funext id
  unfold MagTool.findPick
  rw [h, List.findSome?_append]
  simp

theorem findAmplitude_append_origin (a b : MagTool) (ptr : Nat)
    (h : b.objectCache = a.objectCache ++ [CachedObject.origin ptr]) :
    b.findAmplitude = a.findAmplitude := by
  funext id
  unfold MagTool.findAmplitude
  rw [h, List.findSome?_append]
  simp

theorem findOrigin_fresh (s : MagTool) (id : String)
    (h : ∀ x ∈ s.objectCache, s.cachedPublicID x ≠ some id) : s.findOrigin id = none := by
  unfold MagTool.findOrigin
  rw [List.findSome?_eq_none_iff]
  intro x hx
  have hne := h x hx
  cases x with
  | pick p => rfl
  | amplitude a => rfl
  | origin ptr =>
    simp only [MagTool.cachedPublicID] at hne
    simp only [ite_eq_right_iff]
    intro hc
    exact absurd hc hne

theorem sameSetup_ampl_append {a b : MagTool} (h : a.sameSetup b)
    (x : List (String × Amplitude)) :
    MagTool.sameSetup { a with ampl := a.ampl ++ x } { b with ampl := b.ampl ++ x } := by
  obtain ⟨a1, a2, a3, a4, a5, a6, a7, a8, a9, a10, a11⟩ := h
  exact ⟨a1, a2, a3, a4, a5, a6, a7, a8, a9, a10, by simp only [a11]⟩

theorem arrivalLoop_append (app : App) (origin : Nat) (l1 l2 : List Arrival) (t : MagTool)
    (m : PickStreamMap) :
    MagTool.arrivalLoop app origin (l1 ++ l2) t m =
      match MagTool.arrivalLoop app origin l1 t m with
      | (t1, none) => (t1, none)
      | (t1, some m1) => MagTool.arrivalLoop app origin l2 t1 m1 := by
  induction l1 generalizing t m with
  | nil => rfl
  | cons a rest ih =>
    simp only [List.cons_append, MagTool.arrivalLoop]
    rcases t.arrivalStep app origin a m with ⟨t1, _ | m1⟩
    · rfl
    · exact ih t1 m1

theorem bind_originsForPick_ne (t : MagTool) (pickID pid : String) (origin : Nat)
    (hne : pickID ≠ pid) : (t.bind pickID origin).originsForPick pid = t.originsForPick pid := by
  unfold MagTool.bind
  split
  · unfold MagTool.originsForPick
    exact StdMap.find_assign_ne _ _ _ _ hne
  · rfl

theorem bind_originsForPick_self (t : MagTool) (pickID : String) (origin : Nat) (l : List Nat)
    (h : t.originsForPick pickID = some l) :
    (t.bind pickID origin).originsForPick pickID = some (l ++ [origin]) := by
  unfold MagTool.bind
  rw [h]
  unfold MagTool.originsForPick
  exact StdMap.find_assign_self _ _ _

theorem arrivalStep_orgs_other (app : App) (hq : app.query = none) (t : MagTool) (origin : Nat)
    (a : Arrival) (m : PickStreamMap) (pid : String) (hne : a.pickID ≠ pid) :
    (t.arrivalStep app origin a m).1.originsForPick pid = t.originsForPick pid := by
  unfold MagTool.arrivalStep
  rw [getPick_noquery app t a.pickID hq]
  have hb := bind_originsForPick_ne t a.pickID pid origin hne
  cases t.findPick a.pickID with
  | none => rfl
  | some p =>
    simp only
    split
    · exact hb
    · split
      · exact hb
      · cases a.distance with
        | none => exact hb
        | some d => exact hb

theorem arrivalLoop_orgs_other (app : App) (hq : app.query = none) (origin : Nat)
    (l : List Arrival) (t : MagTool) (m : PickStreamMap) (pid : String)
    (hne : ∀ a ∈ l, a.pickID ≠ pid) :
    (MagTool.arrivalLoop app origin l t m).1.originsForPick pid = t.originsForPick pid := by
  induction l generalizing t m with
  | nil => rfl
  | cons a rest ih =>
    have hs := arrivalStep_orgs_other app hq t origin a m pid (hne a (List.mem_cons_self _ _))
    unfold MagTool.arrivalLoop
    rcases hr : t.arrivalStep app origin a m with ⟨t1, _ | m1⟩
    · rw [hr] at hs
      exact hs
    · rw [hr] at hs
      simp only
      rw [ih t1 m1 (fun a ha => hne a (List.mem_cons_of_mem _ ha))]
      exact hs

theorem arrivalStep_orgs_at (app : App) (hq : app.query = none) (t : MagTool) (origin : Nat)
    (arr : Arrival) (m : PickStreamMap) (pick : Pick) (l : List Nat)
    (hpick : t.findPick arr.pickID = some pick) (h : t.originsForPick arr.pickID = some l) :
    (t.arrivalStep app origin arr m).1.originsForPick arr.pickID = some (l ++ [origin]) := by
  unfold MagTool.arrivalStep
  rw [getPick_noquery app t arr.pickID hq, hpick]
  have hb := bind_originsForPick_self t arr.pickID origin l h
  simp only
  split
  · exact hb
  · split
    · exact hb
    · cases arr.distance with
      | none => exact hb
      | some d => exact hb

/-- Without archive, an arrival loop that does not throw binds the origin once
to a pick that is cached, has a binding and is referenced by one arrival. -/
theorem arrivalLoop_orgs_first (app : App) (hq : app.query = none) (origin : Nat)
    (pre post : List Arrival) (arr : Arrival) (t : MagTool) (pick : Pick) (l : List Nat)
    (hpre : ∀ a ∈ pre, a.pickID ≠ arr.pickID) (hpost : ∀ a ∈ post, a.pickID ≠ arr.pickID)
    (hpick : t.findPick arr.pickID = some pick) (h : t.originsForPick arr.pickID = some l) :
    (MagTool.arrivalLoop app origin (pre ++ arr :: post) t []).1.originsForPick arr.pickID =
      some (l ++ [origin]) ∨
    (MagTool.arrivalLoop app origin (pre ++ arr :: post) t []).2 = none := by
  rw [arrivalLoop_append]
  have h1 := arrivalLoop_orgs_other app hq origin pre t [] arr.pickID hpre
  obtain ⟨_, _, h3⟩ := arrivalLoop_noquery app origin pre t [] hq
  rcases hr : MagTool.arrivalLoop app origin pre t [] with ⟨t1, _ | m1⟩
  · exact Or.inr rfl
  · rw [hr] at h1 h3
    simp only at h1 h3 ⊢
    have hp1 : t1.findPick arr.pickID = some pick := by
      rw [findPick_congr h3]
      exact hpick
    have h2 := arrivalStep_orgs_at app hq t1 origin arr m1 pick l hp1 (h1.trans h)
    unfold MagTool.arrivalLoop
    rcases hs : t1.arrivalStep app origin arr m1 with ⟨t2, _ | m2⟩
    · exact Or.inr rfl
    · rw [hs] at h2
      simp only at h2 ⊢
      left
      rw [arrivalLoop_orgs_other app hq origin post t2 m2 arr.pickID hpost]
      exact h2

/-- Without archive `processOrigin` is the arrival loop followed by the
processing of the selected picks on the state the loop leaves. -/
theorem processOrigin_noquery_arrivalLoop (app : App) (hq : app.query = none) (s : MagTool)
    (origin : Nat) (o : Origin) (depth : ℚ) (m : PickStreamMap)
    (ho : s.heap[origin]? = some o) (hd : o.depth = some depth)
    (hsel : selectPicks app s.minimumArrivalWeight s.findPick o.arrivals [] = some m) :
    (MagTool.arrivalLoop app origin o.arrivals s []).2 = some m ∧
    s.processOrigin app origin =
      ((MagTool.arrivalLoop app origin o.arrivals s []).1.store origin
          ((MagTool.arrivalLoop app origin o.arrivals s []).1.processSelected app depth m
            ⟨o, s.registry⟩).1,
        ((MagTool.arrivalLoop app origin o.arrivals s []).1.processSelected app depth m
            ⟨o, s.registry⟩).2) := by
  obtain ⟨a1, _, _⟩ := arrivalLoop_noquery app origin o.arrivals s [] hq
  have a4 := arrivalLoop_heap app origin o.arrivals s []
  have a5 := arrivalLoop_registry app origin o.arrivals s []
  rw [hsel] at a1
  refine ⟨a1, ?_⟩
  unfold MagTool.processOrigin
  simp only [retrieveMissing_noquery app s origin hq, ho, hd]
  rcases hr : MagTool.arrivalLoop app origin o.arrivals s [] with ⟨s2, _ | m1⟩
  · rw [hr] at a1
    cases a1
  · rw [hr] at a1 a4 a5
    simp only [Option.some.injEq] at a1 a4 a5
    subst a1
    have hctx : s2.ctx origin = some ⟨o, s.registry⟩ := by
      unfold MagTool.ctx
      rw [a4, ho, a5]
      rfl
    simp only [hctx]

/-- With an empty amplitude index, the processing of the selected picks leaves
an origin without network magnitudes as it is and returns true. -/
theorem processSelected_no_amplitudes (app : App) (t : MagTool) (depth : ℚ) (m : PickStreamMap)
    (c : OriginCtx) (hidx : ∀ id, t.amplitudesForPick id = [])
    (hmag : c.origin.magnitudes = []) :
    t.processSelected app depth m c = (c, some true) := by
  have hall : t.allSettled app depth m c := by
    intro e _ a ha
    rw [hidx, collectUsedAmplitudes_nil] at ha
    cases ha
  unfold MagTool.processSelected
  rw [pickStreamLoop_of_settled app t depth m c [] hall]
  simp only [List.foldl_nil]
  rw [computeSummaryMagnitude_nil app t c hmag]

/-- Without archive, the first `feed(Origin*)` of an origin whose public id is
not in the cache, which is neither blocked nor rejected and whose pick
selection does not throw: the origin enters the cache, the arrival loop runs and
the selected picks are processed. -/
theorem feedOrigin_fresh (app : App) (hq : app.query = none) (t : MagTool) (origin : Nat)
    (o : Origin) (depth : ℚ) (m : PickStreamMap)
    (ho : t.heap[origin]? = some o) (hdepth : o.depth = some depth)
    (hfresh : ∀ x ∈ t.objectCache, t.cachedPublicID x ≠ some o.publicID)
    (hb : ¬ app.isAgencyIDBlocked (objectAgencyID o.creationInfo) = true)
    (hr : ¬ o.evaluationStatus = some EvaluationStatus.REJECTED)
    (ha : ¬ o.arrivals.length = 0)
    (hsel : selectPicks app t.minimumArrivalWeight t.findPick o.arrivals [] = some m) :
    ∃ s2, s2 = (MagTool.arrivalLoop app origin o.arrivals
        (t.cacheFeed (CachedObject.origin origin)) []).1 ∧
      t.feedOrigin app origin =
        (s2.store origin (s2.processSelected app depth m ⟨o, t.registry⟩).1,
          (s2.processSelected app depth m ⟨o, t.registry⟩).2) ∧
      t.sameSetup s2 ∧ s2.objectCache = t.objectCache ++ [CachedObject.origin origin] ∧
      s2.heap = t.heap ∧ s2.registry = t.registry := by
  have hcf : t.cachedPublicID (CachedObject.origin origin) = some o.publicID := by
    simp [MagTool.cachedPublicID, ho]
  have hcache : (t.cacheFeed (CachedObject.origin origin)).objectCache =
      t.objectCache ++ [CachedObject.origin origin] :=
    cacheFeed_fresh t _ (by rw [hcf]; exact hfresh)
  have hfp : (t.cacheFeed (CachedObject.origin origin)).findPick = t.findPick :=
    findPick_append_origin t _ origin hcache
  have hsel1 : selectPicks app (t.cacheFeed (CachedObject.origin origin)).minimumArrivalWeight
      (t.cacheFeed (CachedObject.origin origin)).findPick o.arrivals [] = some m := by
    rw [hfp]
    exact hsel
  obtain ⟨_, hpo⟩ := processOrigin_noquery_arrivalLoop app hq
    (t.cacheFeed (CachedObject.origin origin)) origin o depth m ho hdepth hsel1
  obtain ⟨_, a2, a3⟩ := arrivalLoop_noquery app origin o.arrivals
    (t.cacheFeed (CachedObject.origin origin)) [] hq
  have a4 := arrivalLoop_heap app origin o.arrivals (t.cacheFeed (CachedObject.origin origin)) []
  have a5 := arrivalLoop_registry app origin o.arrivals
    (t.cacheFeed (CachedObject.origin origin)) []
  refine ⟨_, rfl, ?_, sameSetup_trans (cacheFeed_sameSetup _ _) a2, a3.trans hcache, a4, a5⟩
  rw [(feedOrigin_first app hq t origin o ho hb (Or.inl (findOrigin_fresh t _ hfresh)) hr ha).1]
  exact hpo

theorem updateLoop_single (app : App) (ampl : Amplitude) (update : Bool) (origin : Nat)
    (t : MagTool) :
    (MagTool.updateLoop app ampl update [origin] t).1 = (t.updateOrigin app ampl update origin).1 := by
  unfold MagTool.updateLoop
  rcases t.updateOrigin app ampl update origin with ⟨t1, _ | _⟩
  · rfl
  · rfl

/-- Without archive, origin then amplitude: the first feed of the origin leaves
the origin objects as they are and binds the origin to the pick; the amplitude
then enters the index and the update loop runs on the origin. -/
theorem feed_origin_then_amplitude (app : App) (hq : app.query = none) (s : MagTool)
    (origin : Nat) (o : Origin) (ampl : Amplitude) (update : Bool) (pick : Pick) (arr : Arrival)
    (pre post : List Arrival) (depth : ℚ) (m : PickStreamMap)
    (ho : s.heap[origin]? = some o) (hdepth : o.depth = some depth)
    (hmag : o.magnitudes = [])
    (hfresh : ∀ x ∈ s.objectCache, s.cachedPublicID x ≠ some o.publicID)
    (hampl : s.ampl = []) (hcached : s.findAmplitude ampl.publicID = none)
    (hbound : s.originsForPick ampl.pickID = some [])
    (hpick : s.findPick ampl.pickID = some pick)
    (harr : o.arrivals = pre ++ arr :: post) (harrid : arr.pickID = ampl.pickID)
    (hpre : ∀ a ∈ pre, a.pickID ≠ ampl.pickID) (hpost : ∀ a ∈ post, a.pickID ≠ ampl.pickID)
    (hsel : selectPicks app s.minimumArrivalWeight s.findPick o.arrivals [] = some m)
    (hb : ¬ app.isAgencyIDBlocked (objectAgencyID o.creationInfo) = true)
    (hr : ¬ o.evaluationStatus = some EvaluationStatus.REJECTED) :
    ∃ sO : MagTool, (s.feedOrigin app origin).1 = sO ∧ sO.heap = s.heap ∧
      sO.registry = s.registry ∧ sO.findPick = s.findPick ∧ s.sameSetup sO ∧
      (¬ app.isAgencyIDBlocked (objectAgencyID ampl.creationInfo) = true →
        ¬ (s.processors.find? (fun proc => decide (proc.amplitudeType = ampl.type))).isNone = true →
        ampl.pickID ≠ "" →
        ∃ T : MagTool, T.heap = s.heap ∧ T.registry = s.registry ∧ T.findPick = s.findPick ∧
          MagTool.sameSetup { s with ampl := s.ampl ++ [(ampl.pickID, ampl)] } T ∧
          (sO.feedAmplitude app ampl update).1 = (T.updateOrigin app ampl update origin).1) := by
  have hne : ¬ o.arrivals.length = 0 := by rw [harr]; simp
  have hidx0 : ∀ id, s.amplitudesForPick id = [] := by
    intro id
    simp [MagTool.amplitudesForPick, hampl]
  have hcf : s.cachedPublicID (CachedObject.origin origin) = some o.publicID := by
    simp [MagTool.cachedPublicID, ho]
  have hfpX : (s.cacheFeed (CachedObject.origin origin)).findPick = s.findPick :=
    findPick_append_origin s _ origin (cacheFeed_fresh s _ (by rw [hcf]; exact hfresh))
  obtain ⟨s2, hs2, hfO, g1, g2, g3, g4⟩ :=
    feedOrigin_fresh app hq s origin o depth m ho hdepth hfresh hb hr hne hsel
  have hidx2 : ∀ id, s2.amplitudesForPick id = [] := by
    intro id
    rw [amplitudesForPick_congr g1]
    exact hidx0 id
  rw [processSelected_no_amplitudes app s2 depth m ⟨o, s.registry⟩ hidx2 hmag] at hfO
  have hheapO : (s2.store origin ⟨o, s.registry⟩).heap = s.heap := by
    simp only [MagTool.store, g3]
    exact modifyAt_self _ _ _ ho
  have hsame1 : s.sameSetup (s2.store origin ⟨o, s.registry⟩) :=
    sameSetup_trans g1 (store_sameSetup _ _ _)
  have hfpO : (s2.store origin ⟨o, s.registry⟩).findPick = s.findPick :=
    findPick_append_origin s _ origin g2
  refine ⟨s2.store origin ⟨o, s.registry⟩, by rw [hfO], hheapO, rfl, hfpO, hsame1, ?_⟩
  intro hbA hpA hpidA
  have horgs : (s2.store origin ⟨o, s.registry⟩).originsForPick ampl.pickID =
      some [origin] := by
    have h1 := arrivalLoop_orgs_first app hq origin pre post arr
      (s.cacheFeed (CachedObject.origin origin)) pick []
      (by rw [harrid]; exact hpre) (by rw [harrid]; exact hpost)
      (by rw [hfpX, harrid]; exact hpick) (by rw [harrid]; exact hbound)
    rw [← harr, ← hs2, harrid] at h1
    rcases h1 with h1 | h1
    · exact h1
    · have h2 := (processOrigin_noquery_arrivalLoop app hq
        (s.cacheFeed (CachedObject.origin origin)) origin o depth m ho hdepth
        (by rw [hfpX]; exact hsel)).1
      rw [h1] at h2
      cases h2
  have hfa : (s2.store origin ⟨o, s.registry⟩).findAmplitude ampl.publicID = none := by
    have : (s2.store origin ⟨o, s.registry⟩).findAmplitude = s.findAmplitude :=
      findAmplitude_append_origin s _ origin g2
    rw [this]
    exact hcached
  have hpA2 : ¬ ((s2.store origin ⟨o, s.registry⟩).processors.find?
      (fun proc => decide (proc.amplitudeType = ampl.type))).isNone = true := by
    have : (s2.store origin ⟨o, s.registry⟩).processors = s.processors :=
      g1.2.2.2.2.2.2.2.2.2.1
    rw [this]
    exact hpA
  refine ⟨{ s2.store origin ⟨o, s.registry⟩ with
      ampl := (s2.store origin ⟨o, s.registry⟩).ampl ++ [(ampl.pickID, ampl)] },
    hheapO, rfl, findPick_append_origin s _ origin g2,
    sameSetup_ampl_append hsame1 [(ampl.pickID, ampl)], ?_⟩
  rw [feedAmplitude_fresh app hq _ ampl update hbA hpA2 hpidA hfa (hidx2 _), horgs]
  simp only
  rw [← updateLoop_single]
  rcases MagTool.updateLoop app ampl update [origin]
      { s2.store origin ⟨o, s.registry⟩ with
        ampl := (s2.store origin ⟨o, s.registry⟩).ampl ++ [(ampl.pickID, ampl)] } with
    ⟨s3, _ | _⟩
  · rfl
  · rfl

/-- Without archive, on an engine in which no amplitude was fed: an origin
without magnitudes whose public id is not in the cache and an amplitude whose
pick is cached, bound to no origin, referenced by one valid arrival of the
origin and strictly the first pick on its station and abstract stream leave the
same origin objects in both feed orders, when at most one processor handles the
amplitude type. -/
theorem feed_order_heap (app : App) (hq : app.query = none)
    (hrefl : ∀ w, app.equivalent w w = true) (s : MagTool) (origin : Nat) (o : Origin)
    (ampl : Amplitude) (update : Bool) (pick : Pick) (arr : Arrival) (pre post : List Arrival)
    (depth : ℚ)
    (ho : s.heap[origin]? = some o) (hdepth : o.depth = some depth)
    (hsm : o.stationMagnitudes = []) (hmag : o.magnitudes = [])
    (hfresh : ∀ x ∈ s.objectCache, s.cachedPublicID x ≠ some o.publicID)
    (hampl : s.ampl = []) (hcached : s.findAmplitude ampl.publicID = none)
    (hbound : s.originsForPick ampl.pickID = some [])
    (hpick : s.findPick ampl.pickID = some pick)
    (harr : o.arrivals = pre ++ arr :: post) (harrid : arr.pickID = ampl.pickID)
    (hpre : ∀ a ∈ pre, a.pickID ≠ ampl.pickID) (hpost : ∀ a ∈ post, a.pickID ≠ ampl.pickID)
    (hvalid : app.validArrival arr s.minimumArrivalWeight = true)
    (hdist : ∀ a ∈ o.arrivals, a.distance ≠ none)
    (hsta : sameStation ampl.waveformID pick.waveformID)
    (hfirst : ∀ a ∈ pre ++ post, app.validArrival a s.minimumArrivalWeight = true → ∀ p,
      s.findPick a.pickID = some p →
      sameStation ampl.waveformID p.waveformID ∨
        abstractStream p.waveformID = abstractStream pick.waveformID → pick.time < p.time)
    (hproc : (s.processors.filter (fun proc => decide (proc.amplitudeType = ampl.type))).length ≤ 1) :
    ((s.feedOrigin app origin).1.feedAmplitude app ampl update).1.heap =
      ((s.feedAmplitude app ampl update).1.feedOrigin app origin).1.heap := by
  obtain ⟨d, hd⟩ := Option.ne_none_iff_exists'.mp (hdist arr (by rw [harr]; simp))
  have hne : ¬ o.arrivals.length = 0 := by rw [harr]; simp
  have hidx0 : ∀ id, s.amplitudesForPick id = [] := by
    intro id
    simp [MagTool.amplitudesForPick, hampl]
  have hdist1 : ∀ a ∈ pre ++ post, a.distance ≠ none := by
    intro a ha
    apply hdist
    rw [harr]
    rcases List.mem_append.mp ha with h | h
    · exact List.mem_append_left _ h
    · exact List.mem_append_right _ (List.mem_cons_of_mem _ h)
  obtain ⟨m, hsel, hm1, hm2⟩ := selectPicks_first app s.minimumArrivalWeight s.findPick
    (findPick_publicID s) ampl.pickID pick d arr pre post (by rw [harrid]; exact hpick) hvalid hd
    hpre hpost hdist1 (fun a ha hv p hp hs => hfirst a ha hv p hp (Or.inr hs))
  rw [← harr] at hsel
  have hA : ¬ (app.isAgencyIDBlocked (objectAgencyID ampl.creationInfo) = true ∨
      (s.processors.find? (fun proc => decide (proc.amplitudeType = ampl.type))).isNone = true ∨
      ampl.pickID = "") →
      (s.feedAmplitude app ampl update).1 = { s with ampl := s.ampl ++ [(ampl.pickID, ampl)] } := by
    intro hn
    simp only [not_or] at hn
    rw [feedAmplitude_fresh app hq s ampl update hn.1 hn.2.1 hn.2.2 hcached (hidx0 _), hbound]
    rfl
  by_cases hskipO : app.isAgencyIDBlocked (objectAgencyID o.creationInfo) = true ∨
      o.evaluationStatus = some EvaluationStatus.REJECTED
  · have hO : ∀ t : MagTool, t.heap = s.heap → t.objectCache = s.objectCache →
        t.feedOrigin app origin = (t, some false) := by
      intro t h1 h2
      have hto : t.heap[origin]? = some o := by rw [h1]; exact ho
      have hfo : t.findOrigin o.publicID = none := by
        have : t.findOrigin = s.findOrigin := findOrigin_congr h2 (fun ptr => by rw [h1])
        rw [this]
        exact findOrigin_fresh s _ hfresh
      apply feedOrigin_skip app t origin o hto
      rcases hskipO with h | h
      · exact Or.inl h
      · exact Or.inr ⟨hfo, h⟩
    rw [hO s rfl rfl]
    by_cases hskipA : app.isAgencyIDBlocked (objectAgencyID ampl.creationInfo) = true ∨
        (s.processors.find? (fun proc => decide (proc.amplitudeType = ampl.type))).isNone = true ∨
        ampl.pickID = ""
    · rw [feedAmplitude_skip app s ampl update hskipA, hO s rfl rfl]
    · rw [hA hskipA, hO { s with ampl := s.ampl ++ [(ampl.pickID, ampl)] } rfl rfl]
  · simp only [not_or] at hskipO
    obtain ⟨hb, hr⟩ := hskipO
    obtain ⟨sO, hsO, hheapO, _, _, hsameO, hrest⟩ := feed_origin_then_amplitude app hq s origin o
      ampl update pick arr pre post depth m ho hdepth hmag hfresh hampl hcached hbound hpick harr
      harrid hpre hpost hsel hb hr
    rw [hsO]
    by_cases hskipA : app.isAgencyIDBlocked (objectAgencyID ampl.creationInfo) = true ∨
        (s.processors.find? (fun proc => decide (proc.amplitudeType = ampl.type))).isNone = true ∨
        ampl.pickID = ""
    · rw [feedAmplitude_skip app s ampl update hskipA, hsO]
      apply congrArg
      apply feedAmplitude_skip
      rw [hsameO.2.2.2.2.2.2.2.2.2.1]
      exact hskipA
    · have hnA := hskipA
      simp only [not_or] at hnA
      obtain ⟨T, hheapT, hregT, hfpT, hsameT, hOA⟩ := hrest hnA.1 hnA.2.1 hnA.2.2
      have hamplT : T.ampl = [(ampl.pickID, ampl)] := by
        rw [hsameT.2.2.2.2.2.2.2.2.2.2]
        simp only [hampl, List.nil_append]
      have hmwT : T.minimumArrivalWeight = s.minimumArrivalWeight :=
        hsameT.2.2.2.2.2.2.2.2.1
      have hprT : T.processors = s.processors := hsameT.2.2.2.2.2.2.2.2.2.1
      have hidxT : ∀ id, T.amplitudesForPick id = if id = ampl.pickID then [ampl] else [] := by
        intro id
        simp only [MagTool.amplitudesForPick, hamplT]
        by_cases hid : id = ampl.pickID
        · simp [hid]
        · have : ¬ ampl.pickID = id := fun h => hid h.symm
          simp [hid, this]
      have hscan := firstPLoop_first app hq T ampl pick arr pre post
        (by rw [hfpT]; exact hpick) harrid hpre hpost (by rw [hmwT]; exact hvalid) hsta
        (by
          intro a ha hv p hp hs
          rw [hmwT] at hv
          rw [hfpT] at hp
          exact hfirst a ha hv p hp (Or.inl hs))
      rw [← harr] at hscan
      have hupd := updateOrigin_heap app T ampl update origin o pick arr d depth
        (by rw [hheapT]; exact ho) hb hscan hd hdepth
      have hloopT := pickStreamLoop_single app hrefl T ampl pick d depth hidxT
        (findPick_publicID s _ _ hpick) m hm1 hm2 ⟨o, s.registry⟩ []
      have hsingle := processSelected_single app T ampl update d depth m ⟨o, s.registry⟩ hloopT
        hsm hmag (by rw [hprT]; exact hproc)
      have hfreshA : ∀ x ∈ MagTool.objectCache { s with ampl := s.ampl ++ [(ampl.pickID, ampl)] },
          MagTool.cachedPublicID { s with ampl := s.ampl ++ [(ampl.pickID, ampl)] } x ≠
            some o.publicID := hfresh
      obtain ⟨s4, _, hfAO, k1, _, k3, _⟩ := feedOrigin_fresh app hq
        { s with ampl := s.ampl ++ [(ampl.pickID, ampl)] } origin o depth m ho hdepth hfreshA hb hr
        hne hsel
      have hreg4 : MagTool.registry { s with ampl := s.ampl ++ [(ampl.pickID, ampl)] } =
          s.registry := rfl
      rw [hreg4] at hfAO
      have hcongr : s4.processSelected app depth m ⟨o, s.registry⟩ =
          T.processSelected app depth m ⟨o, s.registry⟩ :=
        processSelected_congr app (sameSetup_trans (sameSetup_symm hsameT) k1) depth m
          ⟨o, s.registry⟩
      rw [hOA, hupd, hA hskipA, hfAO, hcongr]
      simp only [MagTool.store, k3, hheapT, hregT]
      rw [hsingle]

/-- C3 (order independence, amended). No archive is configured and the stream
comparison `equivalent` is reflexive. No amplitude was fed before and the
amplitude `A` is not cached. The origin `O` has its depth set, carries no
station and no network magnitude, its public id is not in the cache, and each
of its arrivals has a distance. The pick of `A` is cached and bound to no
origin; exactly one arrival of `O` references it, and that arrival is valid. `A`
was measured on the network, station and location of its pick. Every other
valid arrival of `O` whose cached pick lies on that network, station and
location, or on the abstract stream of the pick of `A`, has a strictly later
pick. At most one processor handles the amplitude type of `A`. Then
`feed(O); feed(A, update)` and `feed(A, update); feed(O)` leave the same origin
objects: `O` carries the same station magnitudes, network magnitudes and
summary magnitude, in every attribute. -/
theorem feed_order_independent (app : App) (hq : app.query = none)
    (hrefl : ∀ w, app.equivalent w w = true) (s : MagTool) (origin : Nat) (o : Origin)
    (ampl : Amplitude) (update : Bool) (pick : Pick) (arr : Arrival) (pre post : List Arrival)
    (depth : ℚ)
    (ho : s.heap[origin]? = some o) (hdepth : o.depth = some depth)
    (hsm : o.stationMagnitudes = []) (hmag : o.magnitudes = [])
    (hfresh : ∀ x ∈ s.objectCache, s.cachedPublicID x ≠ some o.publicID)
    (hampl : s.ampl = []) (hcached : s.findAmplitude ampl.publicID = none)
    (hbound : s.originsForPick ampl.pickID = some [])
    (hpick : s.findPick ampl.pickID = some pick)
    (harr : o.arrivals = pre ++ arr :: post) (harrid : arr.pickID = ampl.pickID)
    (hpre : ∀ a ∈ pre, a.pickID ≠ ampl.pickID) (hpost : ∀ a ∈ post, a.pickID ≠ ampl.pickID)
    (hvalid : app.validArrival arr s.minimumArrivalWeight = true)
    (hdist : ∀ a ∈ o.arrivals, a.distance ≠ none)
    (hsta : sameStation ampl.waveformID pick.waveformID)
    (hfirst : ∀ a ∈ pre ++ post, app.validArrival a s.minimumArrivalWeight = true → ∀ p,
      s.findPick a.pickID = some p →
      sameStation ampl.waveformID p.waveformID ∨
        abstractStream p.waveformID = abstractStream pick.waveformID → pick.time < p.time)
    (hproc : (s.processors.filter (fun proc => decide (proc.amplitudeType = ampl.type))).length ≤ 1) :
    ((s.feedOrigin app origin).1.feedAmplitude app ampl update).1.heap =
      ((s.feedAmplitude app ampl update).1.feedOrigin app origin).1.heap :=
  feed_order_heap app hq hrefl s origin o ampl update pick arr pre post depth ho hdepth hsm hmag
    hfresh hampl hcached hbound hpick harr harrid hpre hpost hvalid hdist hsta hfirst hproc

/-- C3 (amended), witness: scenario S4. The origin is fed without amplitudes and
the amplitude arrives late, or the amplitude is fed first; in both orders the
origin ends with the station magnitude `MLv` 3, the network magnitude `MLv` and
the summary magnitude `M`. -/
theorem feed_order_independent_witness :
    ((s4Tool.feedOrigin evalApp 0).1.feedAmplitude evalApp s5Amplitude false).1.heap =
      ((s4Tool.feedAmplitude evalApp s5Amplitude false).1.feedOrigin evalApp 0).1.heap ∧
    (((s4Tool.feedAmplitude evalApp s5Amplitude false).1.feedOrigin evalApp 0).1.heap[0]?).map
      (fun o => (o.stationMagnitudes.map (fun m => (m.type, m.magnitude.value)),
        o.magnitudes.map (fun m => (m.type, m.magnitude.value, m.stationCount)))) =
      some ([("MLv", 3)], [("MLv", 3, some 1), ("M", 3, some 1)]) :=
  ⟨feed_order_independent evalApp rfl (by intro w; simp [evalApp]) s4Tool 0 freshOrigin
    s5Amplitude false s5Pick { pickID := "P5", distance := some 1, weight := some 1 } [] [] 10 rfl rfl rfl rfl
    (by decide) rfl (by decide) (by decide) (by decide) rfl rfl (by simp) (by simp)
    (by decide!) (by simp [freshOrigin]) ⟨rfl, rfl, rfl⟩ (by simp) (by decide),
   by decide!⟩

/-! ### Empty aggregation and summary suppression -/

/-- C11 (empty aggregation). On an origin without station magnitude of type
`mtype`, `computeMagnitude(origin, mtype, netMag)` returns false and leaves the
origin, with the target `netMag` and every other object on it, and the registry
of public ids as they are. -/
theorem computeMagnitude_empty (app : App) (self : MagTool) (c : OriginCtx) (mtype : String)
    (netMag : Nat) (h : ∀ staMag ∈ c.origin.stationMagnitudes, staMag.type ≠ mtype) :
    self.computeMagnitude app c mtype netMag = (false, c) := by
  have hnil : stationMagnitudesOfType c.origin mtype = [] := by
    unfold stationMagnitudesOfType
    rw [List.filter_eq_nil_iff]
    intro staMag hs
    simp only [decide_eq_true_eq]
    exact h staMag hs
  unfold MagTool.computeMagnitude
  simp only [stationMagnitudeValues_length, hnil, List.length_nil, if_true]

/-- C11, witness: the scenario origin `O1` has station magnitudes of type `MLv`
only; aggregating the type `mb` returns false and changes nothing. -/
theorem computeMagnitude_empty_witness :
    (MagTool.computeMagnitude evalApp {} ⟨s1Origin, []⟩ "mb" 0) = (false, ⟨s1Origin, []⟩) :=
  computeMagnitude_empty evalApp {} ⟨s1Origin, []⟩ "mb" 0 (by decide)

/-- C12 (summary suppression). Let the summary be enabled with a non-empty type
and let the loop over the network magnitudes yield a weighted average (a
positive total weight). If the first network magnitude of the summary type on
the origin is not frozen, its value differs from that weighted average by less
than 1e-4 and its station count equals the computed count, then
`computeSummaryMagnitude` returns false and leaves the origin, with that
magnitude, as it is. Consequently, whenever a call of `computeSummaryMagnitude`
returns, a second call on the resulting origin returns false and changes
nothing. -/
theorem computeSummaryMagnitude_suppression (app : App) (self : MagTool) :
    (∀ (c : OriginCtx) (i : Nat) (mag : Magnitude),
      self.summaryMagnitudeEnabled = true → self.summaryMagnitudeType ≠ "" →
      (∀ m ∈ c.origin.magnitudes, m.stationCount ≠ none) →
      0 < self.specTotalWeight c.origin →
      c.origin.magnitudes[i]? = some mag → mag.type = self.summaryMagnitudeType →
      (∀ j m, j < i → c.origin.magnitudes[j]? = some m → m.type ≠ self.summaryMagnitudeType) →
      mag.evaluationStatus = none →
      |mag.magnitude.value - self.specSummaryValue c.origin| < 1 / 10000 →
      mag.stationCount = some (self.specSummaryCount c.origin) →
      self.computeSummaryMagnitude app c = some (false, c)) ∧
    (∀ (c c1 : OriginCtx) (updated : Bool),
      self.computeSummaryMagnitude app c = some (updated, c1) →
      self.computeSummaryMagnitude app c1 = some (false, c1)) := by
  refine ⟨?_, fun c c1 updated h => computeSummaryMagnitude_again app self c c1 updated h⟩
  intro c i mag hen hS hcount hw hget hty hfirst hfz hval hcnt
  cases hloop : self.summaryLoop c.origin.magnitudes ⟨0, 0, 0⟩ with
  | none =>
    obtain ⟨m, hm, hm2⟩ := summaryLoop_none self _ _ hloop
    exact absurd hm2 (hcount m hm)
  | some acc =>
    obtain ⟨hW, hV, hC⟩ := summaryLoop_spec self c.origin acc hloop
    have hidx : firstIndex (fun nmag : Magnitude => decide (nmag.type = self.summaryMagnitudeType))
        c.origin.magnitudes = some i := by
      cases hfi : firstIndex (fun nmag : Magnitude =>
          decide (nmag.type = self.summaryMagnitudeType)) c.origin.magnitudes with
      | none =>
        have := (firstIndex_none_iff _ _).mp hfi mag (List.getElem?_mem hget)
        simp [hty] at this
      | some k =>
        obtain ⟨x, hx, hpx, hlt⟩ := firstIndex_some _ _ _ hfi
        rcases Nat.lt_trichotomy k i with hk | hk | hk
        · have := hfirst k x hk hx
          simp only [decide_eq_true_eq] at hpx
          exact absurd hpx this
        · rw [hk]
        · have := hlt i mag hk hget
          simp [hty] at this
    unfold MagTool.computeSummaryMagnitude
    rw [if_neg (by simp [hen]), if_neg hS, hloop]
    simp only
    rw [if_neg (by rw [hW]; exact ne_of_gt hw), getMagnitude_existing app c _ i mag hidx hget]
    simp only [hfz, Option.isSome_none, Bool.false_eq_true, if_false, hget, Bool.not_false,
      Bool.true_and, hV, hC, hcnt, decide_True, Bool.and_true, decide_eq_true_eq]
    rw [if_pos hval]

/-- C12, witness: on scenario S6 with the summary magnitude already computed the
call returns false and changes nothing; on scenario S6 itself the first call
returns true and the call that follows it returns false. -/
theorem computeSummaryMagnitude_suppression_witness :
    s6Tool.computeSummaryMagnitude evalApp ⟨s6Summarised, []⟩ = some (false, ⟨s6Summarised, []⟩) ∧
    ∃ c1, s6Tool.computeSummaryMagnitude evalApp ⟨s6Origin, []⟩ = some (true, c1) ∧
      s6Tool.computeSummaryMagnitude evalApp c1 = some (false, c1) :=
  ⟨(computeSummaryMagnitude_suppression evalApp s6Tool).1 ⟨s6Summarised, []⟩ 2
      { publicID := "O6#netMag.M", type := "M", magnitude := { value := 63/16 },
        methodID := "weighted average", stationCount := some 10 }
      rfl (by decide) (by decide) (by decide!) rfl rfl
      (by
        intro j m hj hm
        have hj2 : j = 0 ∨ j = 1 := by omega
        rcases hj2 with rfl | rfl
        · simp only [s6Summarised, s6Origin, List.cons_append, List.nil_append,
            List.getElem?_cons_zero, Option.some.injEq] at hm
          subst hm
          decide
        · simp only [s6Summarised, s6Origin, List.cons_append, List.nil_append,
            List.getElem?_cons_succ, List.getElem?_cons_zero, Option.some.injEq] at hm
          subst hm
          decide)
      rfl (by decide!) (by decide!),
   by
    obtain ⟨_, _, c1, mag, hr, _⟩ := summary_of_scenario_S6 evalApp s6Tool ⟨s6Origin, []⟩
      _ _ (by decide) (by decide) (by decide) (by decide) rfl rfl rfl rfl rfl rfl rfl rfl rfl rfl
      rfl rfl (by decide)
    exact ⟨c1, hr, (computeSummaryMagnitude_suppression evalApp s6Tool).2 _ _ _ hr⟩⟩

/-! ### Eviction -/

theorem StdMap.find_filter_key_self {V : Type} (m : StdMap V) (key : String) :
    StdMap.find (m.filter (fun e => decide (e.1 ≠ key))) key = none := by
  induction m with
  | nil => rfl
  | cons x rest ih =>
    obtain ⟨k, v⟩ := x
    by_cases hk : k = key
    · simp only [List.filter, hk, ne_eq, not_true_eq_false, decide_False]
      exact ih
    · simp only [List.filter, ne_eq, hk, not_false_eq_true, decide_True, StdMap.find, if_false]
      exact ih

theorem StdMap.find_filter_key_ne {V : Type} (m : StdMap V) (key key1 : String)
    (hne : key1 ≠ key) :
    StdMap.find (m.filter (fun e => decide (e.1 ≠ key))) key1 = StdMap.find m key1 := by
  induction m with
  | nil => rfl
  | cons x rest ih =>
    obtain ⟨k, v⟩ := x
    by_cases hk : k = key
    · have hk1 : ¬ k = key1 := fun h => hne (h.symm.trans hk)
      simp only [List.filter, hk, ne_eq, not_true_eq_false, decide_False, StdMap.find]
      rw [← hk, if_neg hk1, hk]
      exact ih
    · simp only [List.filter, ne_eq, hk, not_false_eq_true, decide_True, StdMap.find]
      by_cases hk1 : k = key1
      · simp only [if_pos hk1]
      · simp only [if_neg hk1]
        exact ih

/-- C14 (eviction purge). After `publicObjectRemoved` ran for the public id `p`,
no amplitude is listed under `p`, `originsForPick(p)` is null, and for every
other pick id the amplitudes listed and the origins bound are what they were. -/
theorem publicObjectRemoved_purge (self : MagTool) (p : String) :
    (self.publicObjectRemoved p).amplitudesForPick p = [] ∧
    (self.publicObjectRemoved p).originsForPick p = none ∧
    ∀ q, q ≠ p →
      (self.publicObjectRemoved p).amplitudesForPick q = self.amplitudesForPick q ∧
      (self.publicObjectRemoved p).originsForPick q = self.originsForPick q := by
  refine ⟨?_, ?_, ?_⟩
  · unfold MagTool.publicObjectRemoved MagTool.amplitudesForPick
    simp only [List.filter_filter, List.map_eq_nil_iff, List.filter_eq_nil_iff]
    intro e _
    simp
  · unfold MagTool.publicObjectRemoved MagTool.originsForPick
    exact StdMap.find_filter_key_self _ _
  · intro q hq
    refine ⟨?_, ?_⟩
    · unfold MagTool.publicObjectRemoved MagTool.amplitudesForPick
      simp only [List.filter_filter]
      congr 1
      apply List.filter_congr
      intro e _
      by_cases he : e.1 = q
      · simp [he, hq]
      · simp [he]
    · unfold MagTool.publicObjectRemoved MagTool.originsForPick
      exact StdMap.find_filter_key_ne _ _ _ hq

/-- C14, witness: evicting the pick `P1` of the two-pick engine empties its
entries and keeps the binding of `P2`. -/
theorem publicObjectRemoved_purge_witness :
    (twoBandTool.publicObjectRemoved "P1").originsForPick "P1" = none ∧
    (twoBandTool.publicObjectRemoved "P1").originsForPick "P2" = twoBandTool.originsForPick "P2" :=
  ⟨(publicObjectRemoved_purge twoBandTool "P1").2.1,
   ((publicObjectRemoved_purge twoBandTool "P1").2.2 "P2" (by decide)).2⟩

/-- C15 (counterexample). In scenario S5 the origin `O5` is cached and bound to
its pick `P5`. When the origin expires, the eviction callback erases the index
entries under the key `O5`, of which there are none: the origin is gone from
the cache and is still listed among the origins bound to `P5`. -/
theorem expire_origin_stays_bound :
    (s5Tool.heap[0]?).map (fun o => o.publicID) = some "O5" ∧
    s5Tool.findOrigin "O5" = some 0 ∧
    (s5Tool.expire (CachedObject.origin 0)).findOrigin "O5" = none ∧
    (s5Tool.expire (CachedObject.origin 0)).originsForPick "P5" = some [0] := by
  refine ⟨?_, ?_, ?_, ?_⟩ <;> decide!

/-- C15 (amended). After `publicObjectRemoved` ran for the public id `x`, neither
index has an entry under the key `x`, and every entry under another key is
kept as it is, with the amplitudes and origins it lists. -/
theorem publicObjectRemoved_keys (self : MagTool) (x : String) :
    (∀ e ∈ (self.publicObjectRemoved x).ampl, e.1 ≠ x) ∧
    (∀ e ∈ (self.publicObjectRemoved x).orgs, e.1 ≠ x) ∧
    (∀ e ∈ self.ampl, e.1 ≠ x → e ∈ (self.publicObjectRemoved x).ampl) ∧
    (∀ e ∈ self.orgs, e.1 ≠ x → e ∈ (self.publicObjectRemoved x).orgs) := by
  unfold MagTool.publicObjectRemoved
  refine ⟨?_, ?_, ?_, ?_⟩
  · intro e he
    simpa using (List.mem_filter.mp he).2
  · intro e he
    simpa using (List.mem_filter.mp he).2
  · intro e he hne
    exact List.mem_filter.mpr ⟨he, by simpa using hne⟩
  · intro e he hne
    exact List.mem_filter.mpr ⟨he, by simpa using hne⟩

/-- C15 (amended), witness: evicting the pick `P5` in scenario S5 leaves no entry
under `P5`; evicting the origin `O5` keeps the entry of `P5`. -/
theorem publicObjectRemoved_keys_witness :
    (∀ e ∈ (s5Tool.publicObjectRemoved "P5").orgs, e.1 ≠ "P5") ∧
    ("P5", [0]) ∈ (s5Tool.publicObjectRemoved "O5").orgs :=
  ⟨(publicObjectRemoved_keys s5Tool "P5").2.1,
   (publicObjectRemoved_keys s5Tool "O5").2.2.2 ("P5", [0]) (by decide) (by decide)⟩

/-! ### Upserts -/

theorem firstIndex_eq_of_first {α : Type} (p : α → Bool) (l : List α) (i : Nat) (x : α)
    (hget : l[i]? = some x) (hp : p x = true)
    (hfirst : ∀ j y, j < i → l[j]? = some y → p y = false) : firstIndex p l = some i := by
  cases hfi : firstIndex p l with
  | none =>
    have := (firstIndex_none_iff p l).mp hfi x (List.getElem?_mem hget)
    rw [hp] at this
    cases this
  | some k =>
    obtain ⟨y, hy, hpy, hlt⟩ := firstIndex_some p l k hfi
    rcases Nat.lt_trichotomy k i with hk | hk | hk
    · have := hfirst k y hk hy
      rw [hpy] at this
      cases this
    · rw [hk]
    · have := hlt i x hk hget
      rw [hp] at this
      cases this

/-- C16 (counterexample). On the origin `O5` the station magnitude `MLv` of the
stream `GE.A..BHZ` was created with the public id `O5#staMag.MLv#GE.A`. For the
stream `GE.A..HHZ`, which is not equivalent to it, no station magnitude of type
`MLv` exists; `getStationMagnitude` builds the same public id, `Create` yields
`NULL`, and the call returns `NULL` with either value of `update`, leaving the
origin as it is. -/
theorem getStationMagnitude_create_refused :
    (getStationMagnitude evalApp ⟨freshOrigin, []⟩ bhStream "MLv" 3 false).2.origin.stationMagnitudes.map
      (fun m => (m.publicID, m.waveformID, m.type)) = [("O5#staMag.MLv#GE.A", bhStream, "MLv")] ∧
    evalApp.equivalent bhStream hhStream = false ∧
    (getStationMagnitude evalApp
      (getStationMagnitude evalApp ⟨freshOrigin, []⟩ bhStream "MLv" 3 false).2
      hhStream "MLv" 4 false).1 = none ∧
    (getStationMagnitude evalApp
      (getStationMagnitude evalApp ⟨freshOrigin, []⟩ bhStream "MLv" 3 false).2
      hhStream "MLv" 4 true).1 = none ∧
    (getStationMagnitude evalApp
      (getStationMagnitude evalApp ⟨freshOrigin, []⟩ bhStream "MLv" 3 false).2
      hhStream "MLv" 4 true).2.origin =
      (getStationMagnitude evalApp ⟨freshOrigin, []⟩ bhStream "MLv" 3 false).2.origin := by
  refine ⟨?_, ?_, ?_, ?_, ?_⟩ <;> decide!

/-- C16 (amended). Let `staMag` at position `i` be the first station magnitude of
the origin with a stream equivalent to `wfid` and the type `type`. With
`update = false` the call returns `NULL` and changes nothing; with
`update = true` it returns position `i`, where the station magnitude now has
the given value and a modification time and is otherwise what it was, and no
other object changed. When no such station magnitude exists and `Create`
succeeds, the call returns a new station magnitude appended to the origin, with
the given type, stream and value and, without custom id pattern, the public id
`<origin id>#staMag.<type>#<network>.<station>`; when `Create` yields `NULL`
the call returns `NULL` and changes nothing. -/
theorem getStationMagnitude_upsert (app : App) (c : OriginCtx) (wfid : WaveformStreamID)
    (type : String) (value : ℚ) :
    (∀ (i : Nat) (staMag : StationMagnitude),
      c.origin.stationMagnitudes[i]? = some staMag →
      app.equivalent staMag.waveformID wfid = true → staMag.type = type →
      (∀ j y, j < i → c.origin.stationMagnitudes[j]? = some y →
        ¬ (app.equivalent y.waveformID wfid = true ∧ y.type = type)) →
      getStationMagnitude app c wfid type value false = (none, c) ∧
      getStationMagnitude app c wfid type value true =
        (some i, { c with origin := { c.origin with stationMagnitudes := modifyAt (fun _ => app.updateStationMagnitude value staMag) c.origin.stationMagnitudes i } }) ∧
      (app.updateStationMagnitude value staMag).magnitude.value = value ∧
      (app.updateStationMagnitude value staMag).publicID = staMag.publicID ∧
      (app.updateStationMagnitude value staMag).type = staMag.type ∧
      (app.updateStationMagnitude value staMag).waveformID = staMag.waveformID ∧
      (app.updateStationMagnitude value staMag).amplitudeID = staMag.amplitudeID) ∧
    ((∀ y ∈ c.origin.stationMagnitudes,
        ¬ (app.equivalent y.waveformID wfid = true ∧ y.type = type)) →
      ∀ update,
        (app.createFails c.registry
            (app.objectID c.registry (stationMagnitudeID c.origin wfid type)) = true →
          getStationMagnitude app c wfid type value update = (none, c)) ∧
        (app.createFails c.registry
            (app.objectID c.registry (stationMagnitudeID c.origin wfid type)) = false →
          ∃ staMag,
            getStationMagnitude app c wfid type value update =
              (some c.origin.stationMagnitudes.length,
               { origin := { c.origin with
                   stationMagnitudes := c.origin.stationMagnitudes ++ [staMag] },
                 registry := staMag.publicID :: c.registry }) ∧
            staMag.type = type ∧ staMag.waveformID = wfid ∧ staMag.magnitude.value = value ∧
            (app.hasCustomPublicIDPattern = false →
              staMag.publicID = c.origin.publicID ++ "#staMag." ++ type ++ "#" ++
                wfid.networkCode ++ "." ++ wfid.stationCode))) := by
  refine ⟨?_, ?_⟩
  · intro i staMag hget heq hty hfirst
    have hidx : firstIndex (fun stamag : StationMagnitude =>
        app.equivalent stamag.waveformID wfid && decide (stamag.type = type))
        c.origin.stationMagnitudes = some i := by
      apply firstIndex_eq_of_first _ _ i staMag hget (by simp [heq, hty])
      intro j y hj hy
      have := hfirst j y hj hy
      by_contra hc
      simp only [Bool.not_eq_false, Bool.and_eq_true, decide_eq_true_eq] at hc
      exact this hc
    unfold getStationMagnitude
    simp only [hidx, Bool.not_false, Bool.not_true, if_true, Bool.false_eq_true, if_false,
      true_and, Prod.mk.injEq]
    refine ⟨?_, rfl, rfl, rfl, rfl, rfl⟩
    congr 2
    have hmod : ∀ (l : List StationMagnitude) (k : Nat), l[k]? = some staMag →
        modifyAt (app.updateStationMagnitude value) l k =
          modifyAt (fun _ => app.updateStationMagnitude value staMag) l k := by
      intro l
      induction l with
      | nil => intro k _; rfl
      | cons a as ih =>
        intro k hk
        cases k with
        | zero =>
          simp only [List.getElem?_cons_zero, Option.some.injEq] at hk
          subst hk
          rfl
        | succ k =>
          simp only [List.getElem?_cons_succ] at hk
          simp only [modifyAt, ih k hk]
    exact hmod _ _ hget
  · intro hnone update
    have hidx : firstIndex (fun stamag : StationMagnitude =>
        app.equivalent stamag.waveformID wfid && decide (stamag.type = type))
        c.origin.stationMagnitudes = none := by
      rw [firstIndex_none_iff]
      intro y hy
      have := hnone y hy
      by_contra hc
      simp only [Bool.not_eq_false, Bool.and_eq_true, decide_eq_true_eq] at hc
      exact this hc
    refine ⟨?_, ?_⟩
    · intro hcf
      unfold getStationMagnitude
      simp only [hidx, hcf, if_true]
    · intro hcf
      refine ⟨app.newStationMagnitude
        (app.objectID c.registry (stationMagnitudeID c.origin wfid type)) wfid type value,
        ?_, rfl, rfl, rfl, ?_⟩
      · unfold getStationMagnitude
        simp only [hidx, hcf, Bool.false_eq_true, if_false]
        rfl
      · intro hcustom
        simp only [App.newStationMagnitude, App.objectID, hcustom, Bool.false_eq_true, if_false,
          stationMagnitudeID]

/-- C16, witness: on the origin `O5` with the station magnitude `MLv` of
`GE.A..BHZ`, the insert-only call returns `NULL` and changes nothing, the
updating call returns position 0; on the origin `O5` without station magnitudes
the call appends `O5#staMag.MLv#GE.A`. -/
theorem getStationMagnitude_upsert_witness :
    getStationMagnitude evalApp upsertCtx bhStream "MLv" 4 false = (none, upsertCtx) ∧
    (getStationMagnitude evalApp upsertCtx bhStream "MLv" 4 true).1 = some 0 ∧
    ∃ staMag,
      getStationMagnitude evalApp ⟨freshOrigin, []⟩ bhStream "MLv" 3 true =
        (some 0,
         { origin := { freshOrigin with stationMagnitudes := [] ++ [staMag] },
           registry := staMag.publicID :: [] }) ∧
      staMag.publicID = "O5#staMag.MLv#GE.A" := by
  have h := getStationMagnitude_upsert evalApp upsertCtx bhStream "MLv" 4
  have h1 := h.1 0
    { publicID := "O5#staMag.MLv#GE.A", type := "MLv", waveformID := bhStream,
      magnitude := { value := 3 } }
    rfl (by decide) rfl (by intro j y hj; omega)
  obtain ⟨staMag, hs, _, _, _, hid⟩ :=
    ((getStationMagnitude_upsert evalApp ⟨freshOrigin, []⟩ bhStream "MLv" 3).2
      (by intro y hy; cases hy) true).2 (by decide)
  refine ⟨h1.1, ?_, staMag, hs, ?_⟩
  · rw [h1.2.1]
  · rw [hid rfl]
    decide

/-- C17 (counterexample). With a custom public id pattern configured,
`getMagnitude` on the origin `O5`, which has no magnitude of type `MLv`, creates
the magnitude with the generated public id `smi:custom/1`, not with
`O5#netMag.MLv`. And on an origin whose first magnitude of type `MLv` has no
evaluation status while a second one of that type has, the call returns the
first one, not `NULL`. -/
theorem getMagnitude_custom_id :
    (∃ c1, getMagnitude customIdApp ⟨freshOrigin, []⟩ "MLv" = (some (0, true), c1) ∧
      c1.origin.magnitudes.map (fun m => (m.publicID, m.type)) = [("smi:custom/1", "MLv")] ∧
      freshOrigin.publicID ++ "#netMag." ++ "MLv" = "O5#netMag.MLv") ∧
    (∃ m ∈ twoMLvCtx.origin.magnitudes, m.type = "MLv" ∧ m.evaluationStatus ≠ none) ∧
    (getMagnitude evalApp twoMLvCtx "MLv").1 = some (0, false) := by
  refine ⟨⟨_, rfl, ?_, ?_⟩, ?_, ?_⟩ <;> decide!

/-- C17 (amended). About `getMagnitude(origin, type)`: (1) it returns `NULL`
exactly when the first magnitude of that type on the origin has its evaluation
status set, or when no magnitude of that type exists and `Create` yields
`NULL`; (2) whenever it returns `NULL` the origin is unchanged; (3) when the
first magnitude of that type has no evaluation status, it is returned with
`newInstance = false` and nothing changes; (4) when no magnitude of that type
exists and `Create` succeeds, a magnitude of that type is appended to the
origin and returned with `newInstance = true`; without custom id pattern its
public id is `<origin id>#netMag.<type>`. -/
theorem getMagnitude_upsert (app : App) (c : OriginCtx) (type : String) :
    ((getMagnitude app c type).1 = none ↔
      ((∃ (i : Nat) (mag : Magnitude), c.origin.magnitudes[i]? = some mag ∧ mag.type = type ∧
          (∀ (j : Nat) (y : Magnitude), j < i → c.origin.magnitudes[j]? = some y →
            y.type ≠ type) ∧
          mag.evaluationStatus ≠ none) ∨
       ((∀ y ∈ c.origin.magnitudes, y.type ≠ type) ∧
          app.createFails c.registry (app.objectID c.registry (magnitudeID c.origin type)) = true))) ∧
    ((getMagnitude app c type).1 = none → (getMagnitude app c type).2 = c) ∧
    (∀ (i : Nat) (mag : Magnitude), c.origin.magnitudes[i]? = some mag → mag.type = type →
      (∀ (j : Nat) (y : Magnitude), j < i → c.origin.magnitudes[j]? = some y → y.type ≠ type) →
      mag.evaluationStatus = none →
      getMagnitude app c type = (some (i, false), c)) ∧
    ((∀ y ∈ c.origin.magnitudes, y.type ≠ type) →
      app.createFails c.registry (app.objectID c.registry (magnitudeID c.origin type)) = false →
      ∃ mag,
        getMagnitude app c type =
          (some (c.origin.magnitudes.length, true),
           { origin := { c.origin with magnitudes := c.origin.magnitudes ++ [mag] },
             registry := mag.publicID :: c.registry }) ∧
        mag.type = type ∧ mag.evaluationStatus = none ∧
        (app.hasCustomPublicIDPattern = false →
          mag.publicID = c.origin.publicID ++ "#netMag." ++ type)) := by
  have hfirst : ∀ (i : Nat) (mag : Magnitude), c.origin.magnitudes[i]? = some mag →
      mag.type = type →
      (∀ (j : Nat) (y : Magnitude), j < i → c.origin.magnitudes[j]? = some y → y.type ≠ type) →
      firstIndex (fun nmag : Magnitude => decide (nmag.type = type)) c.origin.magnitudes =
        some i := by
    intro i mag hget hty hf
    apply firstIndex_eq_of_first _ _ i mag hget (by simp [hty])
    intro j y hj hy
    simp [hf j y hj hy]
  have hnone : (∀ y ∈ c.origin.magnitudes, y.type ≠ type) →
      firstIndex (fun nmag : Magnitude => decide (nmag.type = type)) c.origin.magnitudes =
        none := by
    intro h
    rw [firstIndex_none_iff]
    intro y hy
    simp [h y hy]
  have hnone_rev : firstIndex (fun nmag : Magnitude => decide (nmag.type = type))
      c.origin.magnitudes = none → ∀ y ∈ c.origin.magnitudes, y.type ≠ type := by
    intro h y hy
    have := (firstIndex_none_iff _ _).mp h y hy
    simpa using this
  refine ⟨?_, ?_, ?_, ?_⟩
  · constructor
    · intro hnull
      cases hidx : firstIndex (fun nmag : Magnitude => decide (nmag.type = type))
          c.origin.magnitudes with
      | none =>
        right
        refine ⟨hnone_rev hidx, ?_⟩
        cases hcf : app.createFails c.registry
            (app.objectID c.registry (magnitudeID c.origin type)) with
        | true => rfl
        | false =>
          rw [getMagnitude_create app c type hidx hcf] at hnull
          cases hnull
      | some i =>
        left
        obtain ⟨mag, hget, hp, hlt⟩ := firstIndex_some _ _ i hidx
        refine ⟨i, mag, hget, by simpa using hp, ?_, ?_⟩
        · intro j y hj hy
          simpa using hlt j y hj hy
        · rw [getMagnitude_existing app c type i mag hidx hget] at hnull
          intro hev
          simp [hev] at hnull
    · rintro (⟨i, mag, hget, hty, hf, hev⟩ | ⟨hall, hcf⟩)
      · rw [getMagnitude_existing app c type i mag (hfirst i mag hget hty hf) hget]
        cases he : mag.evaluationStatus with
        | none => exact absurd he hev
        | some _ => rfl
      · rw [getMagnitude_create_fails app c type (hnone hall) hcf]
  · intro hnull
    have := getMagnitude_spec app c type
    rcases hg : getMagnitude app c type with ⟨r, c1⟩
    rw [hg] at this hnull
    cases r with
    | none => exact this
    | some _ => cases hnull
  · intro i mag hget hty hf hev
    rw [getMagnitude_existing app c type i mag (hfirst i mag hget hty hf) hget, hev]
    rfl
  · intro hall hcf
    refine ⟨app.newMagnitude (app.objectID c.registry (magnitudeID c.origin type)) type,
      getMagnitude_create app c type (hnone hall) hcf, rfl, rfl, ?_⟩
    intro hcustom
    simp only [App.newMagnitude, App.objectID, hcustom, Bool.false_eq_true, if_false,
      magnitudeID]

/-- C17, witness: on the origin `O5` with a frozen `MLv` the call returns
`NULL` and changes nothing; on the origin with two magnitudes of type `MLv` the
first one is returned; on the origin `O5` without magnitudes `O5#netMag.MLv` is
created. -/
theorem getMagnitude_upsert_witness :
    getMagnitude evalApp frozenMLvCtx "MLv" = (none, frozenMLvCtx) ∧
    getMagnitude evalApp twoMLvCtx "MLv" = (some (0, false), twoMLvCtx) ∧
    ∃ mag,
      getMagnitude evalApp ⟨freshOrigin, []⟩ "MLv" =
        (some (0, true),
         { origin := { freshOrigin with magnitudes := [] ++ [mag] },
           registry := mag.publicID :: [] }) ∧
      mag.publicID = "O5#netMag.MLv" := by
  have h0 := getMagnitude_upsert evalApp frozenMLvCtx "MLv"
  have hnull : (getMagnitude evalApp frozenMLvCtx "MLv").1 = none :=
    h0.1.mpr (Or.inl ⟨0, _, rfl, rfl, by intro j y hj; omega, by decide⟩)
  have hsame := h0.2.1 hnull
  have h1 := (getMagnitude_upsert evalApp twoMLvCtx "MLv").2.2.1 0 _ rfl rfl
    (by intro j y hj; omega) rfl
  obtain ⟨mag, hm, _, _, hid⟩ := (getMagnitude_upsert evalApp ⟨freshOrigin, []⟩ "MLv").2.2.2
    (by intro y hy; cases hy) (by decide)
  refine ⟨Prod.ext hnull hsame, h1, mag, hm, ?_⟩
  rw [hid rfl]
  decide

/-! ### Exceptions at the ingress -/

/-- C19 (failing inputs). The read `arr->distance()` at line 967, the read
`nmag->stationCount()` at line 714 and the read `ampl->amplitude().value()` in
`computeStationMagnitude` stand outside every `try` block. `feed(Origin*)` on an
origin with a valid arrival without distance does not return: the exception
escapes. So it does on an origin carrying a network magnitude without station
count while the summary magnitude is enabled, and so does `feed(Amplitude*)`
with an amplitude without value for a pick bound to an origin. The engine state
the escaping call leaves behind has the origin cached and bound to the pick. -/
theorem feed_exception_escapes :
    noDistanceOrigin.arrivals.map (fun a => (a.pickID, a.distance,
        evalApp.validArrival a noDistanceTool.minimumArrivalWeight)) = [("P5", none, true)] ∧
    (noDistanceTool.feedOrigin evalApp 0).2 = none ∧
    noCountOrigin.magnitudes.map (fun m => (m.type, m.stationCount)) = [("MLv", none)] ∧
    (noCountTool.feedOrigin evalApp 0).2 = none ∧
    (noCountTool.feedOrigin evalApp 0).1.orgs = [("P5", [0])] ∧
    noValueAmplitude.amplitude = none ∧
    (boundTool.feedAmplitude evalApp noValueAmplitude false).2 = none ∧
    (boundTool.feedAmplitude evalApp noValueAmplitude true).2 = none := by
  refine ⟨?_, ?_, ?_, ?_, ?_, ?_, ?_, ?_⟩ <;> decide!

/-! ### Origins that are not processed -/

/-- C20 (counterexample). The engine holds the origin `O5` (address 0), fed
before, and a second origin object with the same public id (address 1) that is
rejected, has no arrivals and no depth. The duplicate test of `feed(Origin*)`
precedes the tests of the fed object: the call processes the cached instance,
returns true, and the cached origin, which had no magnitudes, gets the station
magnitude `MLv`, the network magnitude `MLv` and the summary magnitude `M`. -/
theorem feedOrigin_rejected_duplicate :
    duplicateTool.heap.map (fun o => (o.publicID, o.evaluationStatus, o.depth)) =
      [("O5", none, some 10), ("O5", some EvaluationStatus.REJECTED, none)] ∧
    duplicateTool.heap.map (fun o => (o.arrivals.length, o.stationMagnitudes.length,
        o.magnitudes.length)) = [(1, 0, 0), (0, 0, 0)] ∧
    duplicateTool.findOrigin "O5" = some 0 ∧
    (duplicateTool.feedOrigin evalApp 1).2 = some true ∧
    (duplicateTool.feedOrigin evalApp 1).1.heap.map (fun o =>
        (o.stationMagnitudes.map (fun m => (m.publicID, m.magnitude.value)),
         o.magnitudes.map (fun m => (m.publicID, m.magnitude.value)))) =
      [([("O5#staMag.MLv#GE.A", 3)], [("O5#netMag.MLv", 3), ("O5#netMag.M", 3)]), ([], [])] := by
  refine ⟨?_, ?_, ?_, ?_, ?_⟩ <;> decide!

theorem processOrigin_no_depth (app : App) (s : MagTool) (origin : Nat) (o : Origin)
    (ho : s.heap[origin]? = some o) (hd : o.depth = none) :
    s.processOrigin app origin = (s.retrieveMissingPicksAndArrivalsFromDB app origin, some false) := by
  unfold MagTool.processOrigin
  simp only [retrieveMissingPicksAndArrivalsFromDB_heap, ho, hd]

theorem completeOrigin_children (app : App) (o o1 : Origin) (h : app.completeOrigin o = some o1) :
    o1.publicID = o.publicID ∧ o1.depth = o.depth ∧
    (o1.magnitudes = o.magnitudes ∨
      ∃ q, app.query = some q ∧ o.magnitudes = [] ∧
        o1.magnitudes = (q.loadMagnitudes o.publicID).map q.loadMagnitude) ∧
    (o1.stationMagnitudes = o.stationMagnitudes ∨
      ∃ q, app.query = some q ∧ o.stationMagnitudes = [] ∧
        o1.stationMagnitudes = q.loadStationMagnitudes o.publicID) := by
  unfold App.completeOrigin at h
  cases hq : app.query with
  | none =>
    simp only [hq] at h
    split at h
    · cases h
    · cases h
      exact ⟨rfl, rfl, Or.inl rfl, Or.inl rfl⟩
  | some q =>
    simp only [hq] at h
    generalize hA : (if o.arrivals.length = 0 then
      ({ o with arrivals := q.loadArrivals o.publicID } : Origin) else o) = oa at h
    have hoa : oa.publicID = o.publicID ∧ oa.depth = o.depth ∧ oa.magnitudes = o.magnitudes ∧
        oa.stationMagnitudes = o.stationMagnitudes := by
      rw [← hA]
      split <;> exact ⟨rfl, rfl, rfl, rfl⟩
    obtain ⟨e1, e2, e3, e4⟩ := hoa
    by_cases h0 : oa.arrivals.length = 0
    · rw [if_pos h0] at h
      cases h
    · rw [if_neg h0] at h
      have h1 := Option.some.inj h
      subst h1
      by_cases hm : oa.magnitudes.length = 0
      · have hm0 : o.magnitudes = [] := by
          rw [← e3]
          exact List.length_eq_zero.mp hm
        by_cases hs : oa.stationMagnitudes.length = 0
        · have hs0 : o.stationMagnitudes = [] := by
            rw [← e4]
            exact List.length_eq_zero.mp hs
          simp only [hm, hs, if_true]
          exact ⟨e1, e2, Or.inr ⟨q, rfl, hm0, by rw [e1]⟩, Or.inr ⟨q, rfl, hs0, by rw [e1]⟩⟩
        · simp only [hm, hs, if_true, if_false]
          exact ⟨e1, e2, Or.inr ⟨q, rfl, hm0, by rw [e1]⟩, Or.inl e4⟩
      · by_cases hs : oa.stationMagnitudes.length = 0
        · have hs0 : o.stationMagnitudes = [] := by
            rw [← e4]
            exact List.length_eq_zero.mp hs
          simp only [hm, hs, if_true, if_false]
          exact ⟨e1, e2, Or.inl e3, Or.inr ⟨q, rfl, hs0, by rw [e1]⟩⟩
        · simp only [hm, hs, if_false]
          exact ⟨e1, e2, Or.inl e3, Or.inl e4⟩

/-- C20 (amended). Let `o` be the fed origin object. (1) When its agency is
blocked, `feed(Origin*)` returns false and the engine state is unchanged.
(2) When no other origin object with the same public id is cached: if it is
rejected, or it has no arrivals and the archive, if any, holds none, the call
returns false and the engine state is unchanged; if its depth is unset the call
returns false and every origin object is unchanged, except that the fed object
may have been completed from the archive. (3) Completing from the archive
leaves the magnitudes and station magnitudes the object has, and loads those
of the archive when it has none. -/
theorem feedOrigin_rejected (app : App) (s : MagTool) (origin : Nat) (o : Origin)
    (ho : s.heap[origin]? = some o) :
    (app.isAgencyIDBlocked (objectAgencyID o.creationInfo) = true →
      s.feedOrigin app origin = (s, some false)) ∧
    ((s.findOrigin o.publicID = none ∨ s.findOrigin o.publicID = some origin) →
      (o.evaluationStatus = some EvaluationStatus.REJECTED →
        s.feedOrigin app origin = (s, some false)) ∧
      (o.arrivals = [] → (∀ q, app.query = some q → q.loadArrivals o.publicID = []) →
        s.feedOrigin app origin = (s, some false)) ∧
      (o.depth = none →
        (s.feedOrigin app origin).2 = some false ∧
        ((s.feedOrigin app origin).1.heap = s.heap ∨
          ∃ o1, app.completeOrigin o = some o1 ∧
            (s.feedOrigin app origin).1.heap = modifyAt (fun _ => o1) s.heap origin) ∧
        (app.query = none → (s.feedOrigin app origin).1.heap = s.heap))) ∧
    (∀ o1, app.completeOrigin o = some o1 →
      (o1.magnitudes = o.magnitudes ∨
        ∃ q, app.query = some q ∧ o.magnitudes = [] ∧
          o1.magnitudes = (q.loadMagnitudes o.publicID).map q.loadMagnitude) ∧
      (o1.stationMagnitudes = o.stationMagnitudes ∨
        ∃ q, app.query = some q ∧ o.stationMagnitudes = [] ∧
          o1.stationMagnitudes = q.loadStationMagnitudes o.publicID)) := by
  refine ⟨?_, ?_, ?_⟩
  · intro hb
    unfold MagTool.feedOrigin
    simp only [ho, hb, if_true]
  · intro hnd
    have hdup : (match s.findOrigin o.publicID with
        | some registered => if registered ≠ origin then some registered else none
        | none => (none : Option Nat)) = none := by
      rcases hnd with h | h
      · rw [h]
      · rw [h]
        simp
    refine ⟨?_, ?_, ?_⟩
    · intro hrej
      unfold MagTool.feedOrigin
      simp only [ho, hdup, hrej, if_true]
      split <;> rfl
    · intro harr hload
      have hc : app.completeOrigin o = none := by
        unfold App.completeOrigin
        cases hq : app.query with
        | none => simp [harr]
        | some q => simp [harr, hload q hq]
      unfold MagTool.feedOrigin
      simp only [ho, hdup, hc]
      split
      · rfl
      · split <;> rfl
    · intro hd
      unfold MagTool.feedOrigin
      simp only [ho, hdup]
      by_cases hb : app.isAgencyIDBlocked (objectAgencyID o.creationInfo) = true
      · rw [if_pos hb]
        exact ⟨rfl, Or.inl rfl, fun _ => rfl⟩
      rw [if_neg hb]
      by_cases hrej : o.evaluationStatus = some EvaluationStatus.REJECTED
      · rw [if_pos hrej]
        exact ⟨rfl, Or.inl rfl, fun _ => rfl⟩
      rw [if_neg hrej]
      cases hc : app.completeOrigin o with
      | none => exact ⟨rfl, Or.inl rfl, fun _ => rfl⟩
      | some o1 =>
        have hd1 : o1.depth = none := by
          rw [(completeOrigin_children app o o1 hc).2.1, hd]
        have hget : (MagTool.cacheFeed { s with heap := modifyAt (fun _ => o1) s.heap origin }
            (CachedObject.origin origin)).heap[origin]? = some o1 := by
          show (modifyAt (fun _ => o1) s.heap origin)[origin]? = some o1
          rw [modifyAt_get?_eq, ho]
          rfl
        simp only [processOrigin_no_depth app _ origin o1 hget hd1,
          retrieveMissingPicksAndArrivalsFromDB_heap]
        refine ⟨trivial, Or.inr ⟨o1, rfl, rfl⟩, ?_⟩
        intro hq
        rw [completeOrigin_noquery app hq] at hc
        split at hc
        · cases hc
        · cases hc
          exact modifyAt_self _ _ _ ho
  · intro o1 hc
    exact (completeOrigin_children app o o1 hc).2.2

/-- C20, witness: the rejected origin object fed to an engine that has no
origin cached. -/
theorem feedOrigin_rejected_witness :
    ({ heap := [rejectedCopy] } : MagTool).feedOrigin evalApp 0 =
      (({ heap := [rejectedCopy] } : MagTool), some false) ∧
    (noDepthTool.feedOrigin evalApp 0).2 = some false ∧
    (noDepthTool.feedOrigin evalApp 0).1.heap = noDepthTool.heap :=
  ⟨((feedOrigin_rejected evalApp { heap := [rejectedCopy] } 0 rejectedCopy rfl).2.1
      (Or.inl rfl)).1 rfl,
   (((feedOrigin_rejected evalApp noDepthTool 0 _ rfl).2.1 (Or.inl rfl)).2.2 rfl).1,
   (((feedOrigin_rejected evalApp noDepthTool 0 _ rfl).2.1 (Or.inl rfl)).2.2 rfl).2.2 rfl⟩

/-! ### The first-P rule -/

theorem firstPStep_skip (app : App) (hq : app.query = none) (t : MagTool) (ampl : Amplitude)
    (a : Arrival) (st : Option Pick × Option Arrival)
    (h : ∀ p, ¬ t.qualifies app ampl a p) : t.firstPStep app ampl a st = (t, st) := by
  unfold MagTool.firstPStep
  rw [getPick_noquery app t a.pickID hq]
  cases hf : t.findPick a.pickID with
  | none => rfl
  | some p =>
    simp only
    split
    · rfl
    · rename_i hs
      split
      · rfl
      · rename_i hv
        exfalso
        apply h p
        refine ⟨hf, ?_, by simpa using hv⟩
        unfold sameStation
        simp only [not_or, ne_eq, not_not] at hs
        exact hs

theorem firstPStep_other (app : App) (hq : app.query = none) (t : MagTool) (ampl : Amplitude)
    (a : Arrival) (p : Pick) (pp : Option Pick) (ar : Option Arrival)
    (h : t.qualifies app ampl a p) (hid : a.pickID ≠ ampl.pickID) :
    t.firstPStep app ampl a (pp, ar) =
      (t, match pp with
          | none => (some p, ar)
          | some q => if p.time < q.time then (some p, none) else (some q, ar)) := by
  obtain ⟨hf, ⟨e1, e2, e3⟩, hv⟩ := h
  have hid1 : ¬ ampl.pickID = a.pickID := fun h => hid h.symm
  unfold MagTool.firstPStep
  rw [getPick_noquery app t a.pickID hq, hf]
  cases pp with
  | none => simp [e1, e2, e3, hv, hid1]
  | some q =>
    by_cases hlt : p.time < q.time
    · simp [e1, e2, e3, hv, hlt, hid1]
    · simp [e1, e2, e3, hv, hlt, hid1]

theorem firstPStep_same (app : App) (hq : app.query = none) (t : MagTool) (ampl : Amplitude)
    (a : Arrival) (p : Pick) (pp : Option Pick) (ar : Option Arrival)
    (h : t.qualifies app ampl a p) (hid : a.pickID = ampl.pickID) :
    t.firstPStep app ampl a (pp, ar) =
      (t, match pp with
          | none => (some p, some a)
          | some q =>
            if p.time < q.time then (some p, some a)
            else if q.publicID = p.publicID then (some q, some a) else (some q, ar)) := by
  obtain ⟨hf, ⟨e1, e2, e3⟩, hv⟩ := h
  unfold MagTool.firstPStep
  rw [getPick_noquery app t a.pickID hq, hf]
  cases pp with
  | none => simp [e1, e2, e3, hv, hid]
  | some q =>
    by_cases hlt : p.time < q.time
    · simp [e1, e2, e3, hv, hlt, hid]
    · by_cases hpq : q.publicID = p.publicID
      · simp [e1, e2, e3, hv, hlt, hid, hpq]
      · simp [e1, e2, e3, hv, hlt, hid, hpq]

theorem qualifies_unique (app : App) (t : MagTool) (ampl : Amplitude) (a : Arrival)
    (p q : Pick) (hp : t.qualifies app ampl a p) (hq : t.qualifies app ampl a q) : p = q := by
  have := hp.1.symm.trans hq.1
  exact Option.some.inj this

theorem qualifies_publicID (app : App) (t : MagTool) (ampl : Amplitude) (a : Arrival)
    (p : Pick) (hp : t.qualifies app ampl a p) : p.publicID = a.pickID :=
  findPick_publicID t a.pickID p hp.1

theorem firstPStep_state (app : App) (hq : app.query = none) (t : MagTool) (ampl : Amplitude)
    (a : Arrival) (st : Option Pick × Option Arrival) : (t.firstPStep app ampl a st).1 = t := by
  obtain ⟨pp, ar⟩ := st
  by_cases hqa : ∃ p, t.qualifies app ampl a p
  · obtain ⟨p, hp⟩ := hqa
    by_cases hid : a.pickID = ampl.pickID
    · rw [firstPStep_same app hq t ampl a p pp ar hp hid]
    · rw [firstPStep_other app hq t ampl a p pp ar hp hid]
  · rw [firstPStep_skip app hq t ampl a _ (fun p hp => hqa ⟨p, hp⟩)]

theorem firstPLoop_cons (app : App) (hq : app.query = none) (t : MagTool) (ampl : Amplitude)
    (a : Arrival) (rest : List Arrival) (st : Option Pick × Option Arrival) :
    MagTool.firstPLoop app ampl (a :: rest) t st =
      MagTool.firstPLoop app ampl rest t (t.firstPStep app ampl a st).2 := by
  have h : MagTool.firstPLoop app ampl (a :: rest) t st =
      MagTool.firstPLoop app ampl rest (t.firstPStep app ampl a st).1
        (t.firstPStep app ampl a st).2 := rfl
  rw [h, firstPStep_state app hq]

theorem firstPLoop_state (app : App) (hq : app.query = none) (t : MagTool) (ampl : Amplitude)
    (l : List Arrival) (st : Option Pick × Option Arrival) :
    (MagTool.firstPLoop app ampl l t st).1 = t := by
  induction l generalizing st with
  | nil => rfl
  | cons a rest ih =>
    rw [firstPLoop_cons app hq]
    exact ih _

/-- The scan does not settle on an arrival when no arrival that counts refers
to the amplitude's pick. -/
theorem firstPLoop_none (app : App) (hq : app.query = none) (t : MagTool) (ampl : Amplitude)
    (l : List Arrival) (st : Option Pick × Option Arrival)
    (hno : ∀ a ∈ l, a.pickID = ampl.pickID → ∀ p, ¬ t.qualifies app ampl a p)
    (h2 : st.2 = none) : (MagTool.firstPLoop app ampl l t st).2.2 = none := by
  induction l generalizing st with
  | nil => exact h2
  | cons a rest ih =>
    rw [firstPLoop_cons app hq]
    apply ih _ (fun b hb => hno b (List.mem_cons_of_mem _ hb))
    obtain ⟨pp, ar⟩ := st
    simp only at h2
    subst h2
    by_cases hqa : ∃ p, t.qualifies app ampl a p
    · obtain ⟨p, hp⟩ := hqa
      have hid : a.pickID ≠ ampl.pickID := fun e => hno a (List.mem_cons_self _ _) e p hp
      rw [firstPStep_other app hq t ampl a p pp none hp hid]
      cases pp with
      | none => rfl
      | some q =>
        simp only
        split <;> rfl
    · rw [firstPStep_skip app hq t ampl a _ (fun p hp => hqa ⟨p, hp⟩)]

theorem firstPStep_other_min (app : App) (hq : app.query = none) (t : MagTool) (ampl : Amplitude)
    (a : Arrival) (st : Option Pick × Option Arrival) (hid : a.pickID ≠ ampl.pickID)
    (h1 : ∀ p0, st.1 = some p0 → p0.publicID ≠ ampl.pickID) :
    (∀ p1, (t.firstPStep app ampl a st).2.1 = some p1 → p1.publicID ≠ ampl.pickID) ∧
    (∀ x : Int, (∃ px, st.1 = some px ∧ px.time ≤ x) →
      ∃ p1, (t.firstPStep app ampl a st).2.1 = some p1 ∧ p1.time ≤ x) ∧
    (∀ pa, t.qualifies app ampl a pa →
      ∃ p1, (t.firstPStep app ampl a st).2.1 = some p1 ∧ p1.time ≤ pa.time) := by
  obtain ⟨pp, ar⟩ := st
  by_cases hqa : ∃ p, t.qualifies app ampl a p
  · obtain ⟨p, hp⟩ := hqa
    have hpid : p.publicID ≠ ampl.pickID := by
      rw [qualifies_publicID app t ampl a p hp]
      exact hid
    rw [firstPStep_other app hq t ampl a p pp ar hp hid]
    cases pp with
    | none =>
      refine ⟨?_, ?_, ?_⟩
      · intro p1 e
        cases e
        exact hpid
      · rintro x ⟨px, e, _⟩
        cases e
      · intro pa hpa
        rw [qualifies_unique app t ampl a pa p hpa hp]
        exact ⟨p, rfl, le_refl _⟩
    | some q =>
      have hq1 := h1 q rfl
      by_cases hlt : p.time < q.time
      · simp only [if_pos hlt]
        refine ⟨?_, ?_, ?_⟩
        · intro p1 e
          cases e
          exact hpid
        · rintro x ⟨px, e, hx⟩
          cases e
          exact ⟨p, rfl, le_trans (le_of_lt hlt) hx⟩
        · intro pa hpa
          rw [qualifies_unique app t ampl a pa p hpa hp]
          exact ⟨p, rfl, le_refl _⟩
      · simp only [if_neg hlt]
        refine ⟨?_, ?_, ?_⟩
        · intro p1 e
          cases e
          exact hq1
        · rintro x ⟨px, e, hx⟩
          cases e
          exact ⟨q, rfl, hx⟩
        · intro pa hpa
          rw [qualifies_unique app t ampl a pa p hpa hp]
          exact ⟨q, rfl, not_lt.mp hlt⟩
  · rw [firstPStep_skip app hq t ampl a _ (fun p hp => hqa ⟨p, hp⟩)]
    refine ⟨h1, fun x hx => hx, ?_⟩
    intro pa hpa
    exact absurd ⟨pa, hpa⟩ hqa

/-- Over arrivals of other picks the scan keeps a pick that is not the
amplitude's pick and is not later than any pick that counts. -/
theorem firstPLoop_other_min (app : App) (hq : app.query = none) (t : MagTool)
    (ampl : Amplitude) (l : List Arrival) (st : Option Pick × Option Arrival)
    (hid : ∀ a ∈ l, a.pickID ≠ ampl.pickID)
    (h1 : ∀ p0, st.1 = some p0 → p0.publicID ≠ ampl.pickID) :
    (∀ p1, (MagTool.firstPLoop app ampl l t st).2.1 = some p1 → p1.publicID ≠ ampl.pickID) ∧
    (∀ x : Int, ((∃ px, st.1 = some px ∧ px.time ≤ x) ∨
        (∃ c ∈ l, ∃ pc, t.qualifies app ampl c pc ∧ pc.time ≤ x)) →
      ∃ p1, (MagTool.firstPLoop app ampl l t st).2.1 = some p1 ∧ p1.time ≤ x) := by
  induction l generalizing st with
  | nil =>
    refine ⟨h1, ?_⟩
    rintro x (h | ⟨c, hc, _⟩)
    · exact h
    · cases hc
  | cons a rest ih =>
    rw [firstPLoop_cons app hq]
    obtain ⟨g1, g2, g3⟩ := firstPStep_other_min app hq t ampl a st
      (hid a (List.mem_cons_self _ _)) h1
    obtain ⟨i1, i2⟩ := ih (t.firstPStep app ampl a st).2
      (fun b hb => hid b (List.mem_cons_of_mem _ hb)) g1
    refine ⟨i1, ?_⟩
    rintro x (h | ⟨c, hc, pc, hpc, hx⟩)
    · exact i2 x (Or.inl (g2 x h))
    · rcases List.mem_cons.mp hc with e | hc1
      · subst e
        obtain ⟨p1, hp1, hle⟩ := g3 pc hpc
        exact i2 x (Or.inl ⟨p1, hp1, le_trans hle hx⟩)
      · exact i2 x (Or.inr ⟨c, hc1, pc, hpc, hx⟩)

/-- A strictly earlier pick among the later arrivals resets the arrival. -/
theorem firstPLoop_reset (app : App) (hq : app.query = none) (t : MagTool) (ampl : Amplitude)
    (l : List Arrival) (px : Pick) (ar : Option Arrival)
    (hid : ∀ a ∈ l, a.pickID ≠ ampl.pickID)
    (h : ∃ c ∈ l, ∃ pc, t.qualifies app ampl c pc ∧ pc.time < px.time) :
    (MagTool.firstPLoop app ampl l t (some px, ar)).2.2 = none := by
  induction l generalizing ar with
  | nil =>
    obtain ⟨c, hc, _⟩ := h
    cases hc
  | cons a rest ih =>
    rw [firstPLoop_cons app hq]
    have hrest : ∀ b ∈ rest, b.pickID ≠ ampl.pickID :=
      fun b hb => hid b (List.mem_cons_of_mem _ hb)
    obtain ⟨c, hc, pc, hpc, hlt⟩ := h
    by_cases hqa : ∃ p, t.qualifies app ampl a p
    · obtain ⟨p, hp⟩ := hqa
      rw [firstPStep_other app hq t ampl a p (some px) ar hp (hid a (List.mem_cons_self _ _))]
      by_cases hlt1 : p.time < px.time
      · simp only [if_pos hlt1]
        exact firstPLoop_none app hq t ampl rest _
          (fun b hb e => absurd e (hrest b hb)) rfl
      · simp only [if_neg hlt1]
        rcases List.mem_cons.mp hc with e | hc1
        · subst e
          rw [qualifies_unique app t ampl c pc p hpc hp] at hlt
          exact absurd hlt hlt1
        · exact ih ar hrest ⟨c, hc1, pc, hpc, hlt⟩
    · rw [firstPStep_skip app hq t ampl a _ (fun p hp => hqa ⟨p, hp⟩)]
      rcases List.mem_cons.mp hc with e | hc1
      · subst e
        exact absurd ⟨pc, hpc⟩ hqa
      · exact ih ar hrest ⟨c, hc1, pc, hpc, hlt⟩

/-- Later arrivals whose picks are not earlier leave the settled arrival. -/
theorem firstPLoop_post_le (app : App) (hq : app.query = none) (t : MagTool) (ampl : Amplitude)
    (pick : Pick) (arr : Arrival) (post : List Arrival)
    (hid : ∀ a ∈ post, a.pickID ≠ ampl.pickID)
    (hle : ∀ c ∈ post, ∀ pc, t.qualifies app ampl c pc → pick.time ≤ pc.time) :
    MagTool.firstPLoop app ampl post t (some pick, some arr) = (t, (some pick, some arr)) := by
  induction post with
  | nil => rfl
  | cons a rest ih =>
    rw [firstPLoop_cons app hq]
    have hstep : (t.firstPStep app ampl a (some pick, some arr)).2 = (some pick, some arr) := by
      by_cases hqa : ∃ p, t.qualifies app ampl a p
      · obtain ⟨p, hp⟩ := hqa
        rw [firstPStep_other app hq t ampl a p (some pick) (some arr) hp
          (hid a (List.mem_cons_self _ _))]
        have := hle a (List.mem_cons_self _ _) p hp
        simp only [if_neg (not_lt.mpr this)]
      · rw [firstPStep_skip app hq t ampl a _ (fun p hp => hqa ⟨p, hp⟩)]
    rw [hstep]
    exact ih (fun b hb => hid b (List.mem_cons_of_mem _ hb))
      (fun c hc => hle c (List.mem_cons_of_mem _ hc))

/-- The scan settles on the arrival of the amplitude's pick when that pick is
earlier than the picks that count before it and not later than those after
it. -/
theorem firstPLoop_used (app : App) (hq : app.query = none) (t : MagTool) (ampl : Amplitude)
    (pick : Pick) (arr : Arrival) (pre post : List Arrival)
    (harrid : arr.pickID = ampl.pickID)
    (hpre : ∀ a ∈ pre, a.pickID ≠ ampl.pickID) (hpost : ∀ a ∈ post, a.pickID ≠ ampl.pickID)
    (hqual : t.qualifies app ampl arr pick)
    (hstrict : ∀ c ∈ pre, ∀ pc, t.qualifies app ampl c pc → pick.time < pc.time)
    (hle : ∀ c ∈ post, ∀ pc, t.qualifies app ampl c pc → pick.time ≤ pc.time) :
    MagTool.firstPLoop app ampl (pre ++ arr :: post) t (none, none) =
      (t, (some pick, some arr)) := by
  obtain ⟨g1, g2⟩ := firstPLoop_pre app hq t ampl pick pre (none, none) hpre
    (fun a ha hv p hf hs => hstrict a ha p ⟨hf, hs, hv⟩) rfl (by intro p1 h; cases h)
  rw [firstPLoop_append, g1, firstPLoop_cons app hq]
  have hpick : t.findPick ampl.pickID = some pick := by
    rw [← harrid]
    exact hqual.1
  rw [firstPStep_at app hq t ampl pick arr _ hpick harrid hqual.2.2 hqual.2.1 g2]
  exact firstPLoop_post_le app hq t ampl pick arr post hpost hle

/-- The scan settles on no arrival when a pick that counts before the arrival
of the amplitude's pick is not later, or one after it is earlier. -/
theorem firstPLoop_skipped (app : App) (hq : app.query = none) (t : MagTool) (ampl : Amplitude)
    (pick : Pick) (arr : Arrival) (pre post : List Arrival)
    (harrid : arr.pickID = ampl.pickID)
    (hpre : ∀ a ∈ pre, a.pickID ≠ ampl.pickID) (hpost : ∀ a ∈ post, a.pickID ≠ ampl.pickID)
    (hqual : t.qualifies app ampl arr pick)
    (h : (∃ c ∈ pre, ∃ pc, t.qualifies app ampl c pc ∧ pc.time ≤ pick.time) ∨
      (∃ c ∈ post, ∃ pc, t.qualifies app ampl c pc ∧ pc.time < pick.time)) :
    (MagTool.firstPLoop app ampl (pre ++ arr :: post) t (none, none)).2.2 = none := by
  have hpickid : pick.publicID = ampl.pickID := by
    rw [qualifies_publicID app t ampl arr pick hqual, harrid]
  have hnopre : (MagTool.firstPLoop app ampl pre t (none, none)).2.2 = none :=
    firstPLoop_none app hq t ampl pre _ (fun b hb e => absurd e (hpre b hb)) rfl
  obtain ⟨m1, m2⟩ := firstPLoop_other_min app hq t ampl pre (none, none) hpre
    (by intro p0 e; cases e)
  have hst := firstPLoop_state app hq t ampl pre (none, none)
  rw [firstPLoop_append, hst, firstPLoop_cons app hq]
  rcases hS : (MagTool.firstPLoop app ampl pre t (none, none)).2 with ⟨pp, ar⟩
  rw [hS] at hnopre m1 m2
  simp only at hnopre m1 m2
  subst hnopre
  rw [firstPStep_same app hq t ampl arr pick pp none hqual harrid]
  have hnopost : ∀ st : Option Pick × Option Arrival, st.2 = none →
      (MagTool.firstPLoop app ampl post t st).2.2 = none :=
    fun st h2 => firstPLoop_none app hq t ampl post st (fun b hb e => absurd e (hpost b hb)) h2
  cases pp with
  | none =>
    simp only
    rcases h with ⟨c, hc, pc, hpc, hx⟩ | hpostc
    · obtain ⟨p1, e, _⟩ := m2 pick.time (Or.inr ⟨c, hc, pc, hpc, hx⟩)
      cases e
    · exact firstPLoop_reset app hq t ampl post pick (some arr) hpost hpostc
  | some q =>
    have hne : ¬ q.publicID = pick.publicID := by
      rw [hpickid]
      exact m1 q rfl
    simp only [if_neg hne]
    by_cases hlt : pick.time < q.time
    · simp only [if_pos hlt]
      rcases h with ⟨c, hc, pc, hpc, hx⟩ | hpostc
      · obtain ⟨p1, e, hle⟩ := m2 pick.time (Or.inr ⟨c, hc, pc, hpc, hx⟩)
        cases e
        exact absurd hlt (not_lt.mpr hle)
      · exact firstPLoop_reset app hq t ampl post pick (some arr) hpost hpostc
    · simp only [if_neg hlt]
      exact hnopost _ rfl

/-- An origin on which the scan settles on no arrival is left as it is. -/
theorem updateOrigin_skipped (app : App) (hq : app.query = none) (t : MagTool)
    (ampl : Amplitude) (update : Bool) (origin : Nat) (o : Origin)
    (ho : t.heap[origin]? = some o)
    (h : (MagTool.firstPLoop app ampl o.arrivals t (none, none)).2.2 = none) :
    t.updateOrigin app ampl update origin = (t, true) := by
  unfold MagTool.updateOrigin
  simp only [ho]
  split
  · rfl
  · simp only [h, firstPLoop_state app hq]

/-- C13 (counterexample). Two valid arrivals on station `GE.A` whose cached
picks `P1` and `P2` have the same time 10; the amplitude `A1` belongs to `P1`,
so the time of its pick is the earliest on the station. With the arrival of
`P1` first, `feed(Amplitude*)` uses it and the origin gets the station
magnitude `MLv` 3. With the same two arrivals in the other order the scan keeps
`P2` as the first pick, the test `pPick == p` fails for `P1`, and the origin is
skipped. -/
theorem feedAmplitude_tie_order :
    bhPick.time = tiePick.time ∧
    (((tieTool tieOrigin).feedAmplitude evalApp bhAmplitude false).1.heap[0]?).map
      (fun o => (o.stationMagnitudes.map (fun m => (m.type, m.magnitude.value)),
        o.magnitudes.map (fun m => (m.type, m.magnitude.value, m.stationCount)))) =
      some ([("MLv", 3)], [("MLv", 3, some 1), ("M", 3, some 1)]) ∧
    ((tieTool { tieOrigin with arrivals := tieOrigin.arrivals.reverse }).feedAmplitude
      evalApp bhAmplitude false).1.heap[0]? =
      some { tieOrigin with arrivals := tieOrigin.arrivals.reverse } := by
  refine ⟨?_, ?_, ?_⟩ <;> decide!

/-- C13 (amended). No archive; `o` is a bound origin and `arr` its one arrival
with the amplitude's pick id, which counts with the cached pick `pick` (valid
arrival, pick on the amplitude's network, station and location). (1) When
`pick` is earlier than every pick that counts before `arr` and not later than
every pick that counts after it, the scan of `feed(Amplitude*)` settles on
`arr`; when a pick that counts before `arr` is not later, or one after `arr`
is earlier, the origin is left as it is. (2) When no arrival that counts
refers to the amplitude's pick, the origin is left as it is. (3) When no other
pick that counts has the time of `pick`, the arrival the scan settles on is the
same for every order of the other arrivals around `arr`. -/
theorem updateOrigin_firstP (app : App) (hq : app.query = none) (t : MagTool)
    (ampl : Amplitude) (update : Bool) (origin : Nat) (o : Origin)
    (ho : t.heap[origin]? = some o) :
    (∀ (pick : Pick) (arr : Arrival) (pre post : List Arrival),
      o.arrivals = pre ++ arr :: post → arr.pickID = ampl.pickID →
      (∀ a ∈ pre ++ post, a.pickID ≠ ampl.pickID) → t.qualifies app ampl arr pick →
      ((∀ c ∈ pre, ∀ pc, t.qualifies app ampl c pc → pick.time < pc.time) →
        (∀ c ∈ post, ∀ pc, t.qualifies app ampl c pc → pick.time ≤ pc.time) →
        MagTool.firstPLoop app ampl o.arrivals t (none, none) = (t, (some pick, some arr))) ∧
      (((∃ c ∈ pre, ∃ pc, t.qualifies app ampl c pc ∧ pc.time ≤ pick.time) ∨
        (∃ c ∈ post, ∃ pc, t.qualifies app ampl c pc ∧ pc.time < pick.time)) →
        t.updateOrigin app ampl update origin = (t, true))) ∧
    ((∀ a ∈ o.arrivals, a.pickID = ampl.pickID → ∀ p, ¬ t.qualifies app ampl a p) →
      t.updateOrigin app ampl update origin = (t, true)) ∧
    (∀ (pick : Pick) (arr : Arrival) (pre post pre1 post1 : List Arrival),
      arr.pickID = ampl.pickID → (∀ a ∈ pre ++ post, a.pickID ≠ ampl.pickID) →
      t.qualifies app ampl arr pick → (pre1 ++ post1).Perm (pre ++ post) →
      (∀ c ∈ pre ++ post, ∀ pc, t.qualifies app ampl c pc → pc.time ≠ pick.time) →
      (MagTool.firstPLoop app ampl (pre1 ++ arr :: post1) t (none, none)).2.2 =
        (MagTool.firstPLoop app ampl (pre ++ arr :: post) t (none, none)).2.2) := by
  refine ⟨?_, ?_, ?_⟩
  · intro pick arr pre post harr harrid hids hqual
    have hpre : ∀ a ∈ pre, a.pickID ≠ ampl.pickID :=
      fun a ha => hids a (List.mem_append_left _ ha)
    have hpost : ∀ a ∈ post, a.pickID ≠ ampl.pickID :=
      fun a ha => hids a (List.mem_append_right _ ha)
    refine ⟨?_, ?_⟩
    · intro hstrict hle
      rw [harr]
      exact firstPLoop_used app hq t ampl pick arr pre post harrid hpre hpost hqual hstrict hle
    · intro h
      apply updateOrigin_skipped app hq t ampl update origin o ho
      rw [harr]
      exact firstPLoop_skipped app hq t ampl pick arr pre post harrid hpre hpost hqual h
  · intro hno
    exact updateOrigin_skipped app hq t ampl update origin o ho
      (firstPLoop_none app hq t ampl o.arrivals _ hno rfl)
  · intro pick arr pre post pre1 post1 harrid hids hqual hperm hnotie
    have hpre : ∀ a ∈ pre, a.pickID ≠ ampl.pickID :=
      fun a ha => hids a (List.mem_append_left _ ha)
    have hpost : ∀ a ∈ post, a.pickID ≠ ampl.pickID :=
      fun a ha => hids a (List.mem_append_right _ ha)
    have hpre1 : ∀ a ∈ pre1, a.pickID ≠ ampl.pickID :=
      fun a ha => hids a (hperm.mem_iff.mp (List.mem_append_left _ ha))
    have hpost1 : ∀ a ∈ post1, a.pickID ≠ ampl.pickID :=
      fun a ha => hids a (hperm.mem_iff.mp (List.mem_append_right _ ha))
    by_cases hall : ∀ c ∈ pre ++ post, ∀ pc, t.qualifies app ampl c pc → pick.time < pc.time
    · rw [firstPLoop_used app hq t ampl pick arr pre post harrid hpre hpost hqual
          (fun c hc => hall c (List.mem_append_left _ hc))
          (fun c hc pc hpc => le_of_lt (hall c (List.mem_append_right _ hc) pc hpc)),
        firstPLoop_used app hq t ampl pick arr pre1 post1 harrid hpre1 hpost1 hqual
          (fun c hc => hall c (hperm.mem_iff.mp (List.mem_append_left _ hc)))
          (fun c hc pc hpc =>
            le_of_lt (hall c (hperm.mem_iff.mp (List.mem_append_right _ hc)) pc hpc))]
    · push_neg at hall
      obtain ⟨c, hc, pc, hpc, hnlt⟩ := hall
      have hlt : pc.time < pick.time := lt_of_le_of_ne hnlt (hnotie c hc pc hpc)
      have h1 : (MagTool.firstPLoop app ampl (pre ++ arr :: post) t (none, none)).2.2 = none := by
        apply firstPLoop_skipped app hq t ampl pick arr pre post harrid hpre hpost hqual
        rcases List.mem_append.mp hc with h | h
        · exact Or.inl ⟨c, h, pc, hpc, le_of_lt hlt⟩
        · exact Or.inr ⟨c, h, pc, hpc, hlt⟩
      have h2 : (MagTool.firstPLoop app ampl (pre1 ++ arr :: post1) t (none, none)).2.2 =
          none := by
        apply firstPLoop_skipped app hq t ampl pick arr pre1 post1 harrid hpre1 hpost1 hqual
        rcases List.mem_append.mp (hperm.mem_iff.mpr hc) with h | h
        · exact Or.inl ⟨c, h, pc, hpc, le_of_lt hlt⟩
        · exact Or.inr ⟨c, h, pc, hpc, hlt⟩
      rw [h1, h2]

/-- C13, witness: on the origin with the tied picks the scan settles on the
arrival of `P1`, which comes first; an amplitude of the pick `P5`, to which no
arrival of the origin refers, leaves the origin as it is. -/
theorem updateOrigin_firstP_witness :
    MagTool.firstPLoop evalApp bhAmplitude tieOrigin.arrivals (tieTool tieOrigin) (none, none) =
      (tieTool tieOrigin,
        (some bhPick, some { pickID := "P1", distance := some 1, weight := some 1 })) ∧
    (tieTool tieOrigin).updateOrigin evalApp s5Amplitude false 0 = (tieTool tieOrigin, true) :=
  ⟨((updateOrigin_firstP evalApp rfl (tieTool tieOrigin) bhAmplitude false 0 tieOrigin rfl).1
      bhPick { pickID := "P1", distance := some 1, weight := some 1 } []
      [{ pickID := "P2", distance := some 1, weight := some 1 }] rfl rfl
      (by
        intro a ha
        simp only [List.nil_append, List.mem_singleton] at ha
        subst ha
        decide)
      ⟨by decide, by decide, by decide!⟩).1
      (by intro c hc; cases hc)
      (by
        intro c hc pc hpc
        simp only [List.mem_singleton] at hc
        subst hc
        have h1 : (tieTool tieOrigin).findPick "P2" = some tiePick := by decide
        have h2 : pc = tiePick := Option.some.inj (hpc.1.symm.trans h1)
        subst h2
        decide),
   (updateOrigin_firstP evalApp rfl (tieTool tieOrigin) s5Amplitude false 0 tieOrigin rfl).2.1
      (by
        intro a ha e
        exfalso
        simp only [tieOrigin, List.mem_cons, List.mem_singleton, List.not_mem_nil,
          or_false] at ha
        rcases ha with h | h <;> subst h <;> exact absurd e (by decide))⟩

/-! ### The uniqueness invariant: the origin-level operations -/

theorem uniqueKept_refl {app : App} (o : Origin) : uniqueKept app o o := ⟨id, id⟩

theorem uniqueKept_trans {app : App} {o1 o2 o3 : Origin} (h12 : uniqueKept app o1 o2)
    (h23 : uniqueKept app o2 o3) : uniqueKept app o1 o3 :=
  ⟨fun h => h23.1 (h12.1 h), fun h => h23.2 (h12.2 h)⟩

theorem uniqueKept_of_eq {app : App} {o o1 : Origin}
    (hs : o1.stationMagnitudes = o.stationMagnitudes) (hm : o1.magnitudes = o.magnitudes) :
    uniqueKept app o o1 := by
  refine ⟨?_, ?_⟩
  · intro h
    unfold uniqueStationMagnitudes at h ⊢
    rw [hs]
    exact h
  · intro h
    unfold uniqueMagnitudes at h ⊢
    rw [hm]
    exact h

theorem pairwise_modifyAt_of_key {α β : Type} (g : α → β) (R : β → β → Prop) (f : α → α)
    (hf : ∀ x, g (f x) = g x) (l : List α) (i : Nat)
    (h : l.Pairwise (fun a b => R (g a) (g b))) :
    (modifyAt f l i).Pairwise (fun a b => R (g a) (g b)) := by
  rw [← List.pairwise_map] at h ⊢
  rw [modifyAt_map_of g f l i hf]
  exact h

theorem uniqueStationMagnitudes_modifyAt (app : App) (o : Origin)
    (f : StationMagnitude → StationMagnitude) (hf : ∀ x, stationKey (f x) = stationKey x)
    (i : Nat) (h : uniqueStationMagnitudes app o) :
    uniqueStationMagnitudes app { o with stationMagnitudes := modifyAt f o.stationMagnitudes i } :=
  pairwise_modifyAt_of_key stationKey
    (fun k1 k2 => ¬ (app.equivalent k1.1 k2.1 = true ∧ k1.2 = k2.2)) f hf o.stationMagnitudes i h

theorem uniqueMagnitudes_modifyAt (o : Origin) (f : Magnitude → Magnitude)
    (hf : ∀ x, (f x).type = x.type) (i : Nat) (h : uniqueMagnitudes o) :
    uniqueMagnitudes { o with magnitudes := modifyAt f o.magnitudes i } :=
  pairwise_modifyAt_of_key (fun m : Magnitude => m.type) (fun k1 k2 => k1 ≠ k2) f hf
    o.magnitudes i h

theorem getStationMagnitude_uniqueKept (app : App) (c : OriginCtx) (wfid : WaveformStreamID)
    (type : String) (value : ℚ) (update : Bool) :
    uniqueKept app c.origin (getStationMagnitude app c wfid type value update).2.origin := by
  unfold getStationMagnitude
  cases hidx : firstIndex (fun stamag : StationMagnitude =>
      app.equivalent stamag.waveformID wfid && decide (stamag.type = type))
      c.origin.stationMagnitudes with
  | some i =>
    simp only
    split
    · exact uniqueKept_refl _
    · exact ⟨fun h => uniqueStationMagnitudes_modifyAt app c.origin _ (by intro x; rfl) i h,
        fun h => h⟩
  | none =>
    simp only
    split
    · exact uniqueKept_refl _
    · refine ⟨?_, fun h => h⟩
      intro h
      unfold uniqueStationMagnitudes at h ⊢
      simp only
      rw [List.pairwise_append]
      refine ⟨h, List.pairwise_singleton _ _, ?_⟩
      intro a ha b hb
      simp only [List.mem_singleton] at hb
      subst hb
      have := (firstIndex_none_iff _ _).mp hidx a ha
      simpa [App.newStationMagnitude] using this

theorem setAmplitudeID_uniqueKept (app : App) (c : OriginCtx) (i : Nat) (aid : String) :
    uniqueKept app c.origin (c.setAmplitudeID i aid).origin :=
  ⟨fun h => uniqueStationMagnitudes_modifyAt app c.origin _ (by intro x; rfl) i h, fun h => h⟩

theorem modifyMagnitude_uniqueKept (app : App) (c : OriginCtx) (i : Nat)
    (f : Magnitude → Magnitude) (hf : ∀ x, (f x).type = x.type) :
    uniqueKept app c.origin (c.modifyMagnitude i f).origin :=
  ⟨fun h => h, fun h => uniqueMagnitudes_modifyAt c.origin f hf i h⟩

theorem getMagnitude_uniqueKept (app : App) (c : OriginCtx) (type : String) :
    uniqueKept app c.origin (getMagnitude app c type).2.origin := by
  cases hidx : firstIndex (fun nmag : Magnitude => decide (nmag.type = type))
      c.origin.magnitudes with
  | none =>
    cases hcf : app.createFails c.registry
        (app.objectID c.registry (magnitudeID c.origin type)) with
    | true =>
      rw [getMagnitude_create_fails app c type hidx hcf]
      exact uniqueKept_refl _
    | false =>
      rw [getMagnitude_create app c type hidx hcf]
      refine ⟨fun h => h, ?_⟩
      intro h
      unfold uniqueMagnitudes at h ⊢
      simp only
      rw [List.pairwise_append]
      refine ⟨h, List.pairwise_singleton _ _, ?_⟩
      intro a ha b hb
      simp only [List.mem_singleton] at hb
      subst hb
      have := (firstIndex_none_iff _ _).mp hidx a ha
      simpa [App.newMagnitude] using this
  | some i =>
    obtain ⟨mag, hget, _, _⟩ := firstIndex_some _ _ i hidx
    rw [getMagnitude_existing app c type i mag hidx hget]
    exact uniqueKept_refl _

theorem getMagnitudeWithValue_uniqueKept (app : App) (c : OriginCtx) (type : String)
    (value : ℚ) : uniqueKept app c.origin (getMagnitudeWithValue app c type value).2.origin := by
  unfold getMagnitudeWithValue
  have hk := getMagnitude_uniqueKept app c type
  rcases hr : getMagnitude app c type with ⟨_ | ⟨i, isNew⟩, c1⟩
  · rw [hr] at hk
    exact hk
  · rw [hr] at hk
    exact uniqueKept_trans hk (modifyMagnitude_uniqueKept app c1 i _ (by intro x; rfl))

theorem deriveMw_uniqueKept (app : App) (self : MagTool) (c : OriginCtx) (mtype : String)
    (value stdev : ℚ) (staCount : Nat) :
    uniqueKept app c.origin (self.deriveMw app c mtype value stdev staCount).2.origin := by
  unfold MagTool.deriveMw
  cases hp : self.processors.find? (fun proc => decide (proc.amplitudeType = mtype)) with
  | none => exact uniqueKept_refl _
  | some proc =>
    simp only
    cases he : proc.estimateMw value with
    | none => exact uniqueKept_refl _
    | some r =>
      obtain ⟨Mw, stdError⟩ := r
      simp only
      have hk := getMagnitudeWithValue_uniqueKept app c proc.typeMw Mw
      rcases hr : getMagnitudeWithValue app c proc.typeMw Mw with ⟨_ | ⟨i, isNew⟩, c2⟩
      · rw [hr] at hk
        exact hk
      · rw [hr] at hk
        exact uniqueKept_trans hk (modifyMagnitude_uniqueKept app c2 i _ (by intro x; rfl))

theorem computeMagnitude_uniqueKept (app : App) (self : MagTool) (c : OriginCtx) (mtype : String)
    (netMag : Nat) :
    uniqueKept app c.origin (self.computeMagnitude app c mtype netMag).2.origin := by
  unfold MagTool.computeMagnitude
  simp only
  split
  · exact uniqueKept_refl _
  · exact uniqueKept_trans (modifyMagnitude_uniqueKept app c netMag _ (by intro x; rfl))
      (deriveMw_uniqueKept _ _ _ _ _ _ _)

theorem networkMagnitudeStep_uniqueKept (app : App) (self : MagTool) (c : OriginCtx)
    (mtype : String) : uniqueKept app c.origin (self.networkMagnitudeStep app c mtype).origin := by
  unfold MagTool.networkMagnitudeStep
  have hk := getMagnitude_uniqueKept app c mtype
  rcases hr : getMagnitude app c mtype with ⟨_ | ⟨netMag, isNew⟩, c1⟩
  · rw [hr] at hk
    exact hk
  · rw [hr] at hk
    simp only at hk ⊢
    have hc := computeMagnitude_uniqueKept app self c1 mtype netMag
    cases isNew with
    | true => exact uniqueKept_trans hk hc
    | false =>
      simp only [Bool.false_eq_true, if_false]
      exact uniqueKept_trans hk (uniqueKept_trans hc
        (modifyMagnitude_uniqueKept app _ netMag _ (by intro x; rfl)))

theorem computeSummaryMagnitude_uniqueKept (app : App) (self : MagTool) (c c1 : OriginCtx)
    (b : Bool) (h : self.computeSummaryMagnitude app c = some (b, c1)) :
    uniqueKept app c.origin c1.origin := by
  unfold MagTool.computeSummaryMagnitude at h
  split at h
  · cases h; exact uniqueKept_refl _
  split at h
  · cases h; exact uniqueKept_refl _
  split at h
  · exact absurd h (by simp)
  split at h
  · cases h; exact uniqueKept_refl _
  rename_i acc _ _
  have hk := getMagnitude_uniqueKept app c self.summaryMagnitudeType
  rcases hr : getMagnitude app c self.summaryMagnitudeType with ⟨_ | ⟨i, isNew⟩, c2⟩
  · rw [hr] at h hk
    simp only [Option.some.injEq, Prod.mk.injEq] at h
    rw [← h.2]; exact hk
  · rw [hr] at h hk
    simp only at h hk
    split at h
    · simp only [Option.some.injEq, Prod.mk.injEq] at h
      rw [← h.2]; exact hk
    · simp only [Option.some.injEq, Prod.mk.injEq] at h
      rw [← h.2]
      exact uniqueKept_trans hk (modifyMagnitude_uniqueKept app c2 i _ (by intro x; rfl))

theorem installStationMagnitudes_uniqueKept (app : App) (ampl : Amplitude)
    (mags : List MagnitudeEntry) (c : OriginCtx) (magTypes : List String) :
    uniqueKept app c.origin (installStationMagnitudes app ampl mags c magTypes).1.origin := by
  induction mags generalizing c magTypes with
  | nil => exact uniqueKept_refl _
  | cons e rest ih =>
    obtain ⟨type, value⟩ := e
    unfold installStationMagnitudes
    have hg := getStationMagnitude_uniqueKept app c ampl.waveformID type value false
    rcases hr : getStationMagnitude app c ampl.waveformID type value false with ⟨_ | i, c1⟩
    · rw [hr] at hg
      exact uniqueKept_trans hg (ih _ _)
    · rw [hr] at hg
      exact uniqueKept_trans hg (uniqueKept_trans (setAmplitudeID_uniqueKept app c1 i _) (ih _ _))

theorem usedAmplitudeLoop_uniqueKept (app : App) (self : MagTool) (distance depth : ℚ)
    (used : List (String × Amplitude)) (c : OriginCtx) (magTypes : List String) :
    uniqueKept app c.origin
      (self.usedAmplitudeLoop app distance depth used c magTypes).1.origin := by
  induction used generalizing c magTypes with
  | nil => exact uniqueKept_refl _
  | cons e rest ih =>
    obtain ⟨key, ampl⟩ := e
    unfold MagTool.usedAmplitudeLoop
    rcases hr : self.computeStationMagnitude ampl distance depth with _ | ⟨b, mags⟩
    · exact uniqueKept_refl _
    · cases b with
      | false => simp only; exact ih c magTypes
      | true =>
        simp only
        exact uniqueKept_trans (installStationMagnitudes_uniqueKept app ampl mags c magTypes)
          (ih _ _)

theorem pickStreamLoop_uniqueKept (app : App) (self : MagTool) (depth : ℚ)
    (streams : List (String × (Pick × ℚ))) (c : OriginCtx) (magTypes : List String) :
    uniqueKept app c.origin (self.pickStreamLoop app depth streams c magTypes).1.origin := by
  induction streams generalizing c magTypes with
  | nil => exact uniqueKept_refl _
  | cons e rest ih =>
    obtain ⟨key, pick, distance⟩ := e
    unfold MagTool.pickStreamLoop
    simp only
    have hu := usedAmplitudeLoop_uniqueKept app self distance depth
      (collectUsedAmplitudes (self.amplitudesForPick pick.publicID)) c magTypes
    rcases hr : self.usedAmplitudeLoop app distance depth
      (collectUsedAmplitudes (self.amplitudesForPick pick.publicID)) c magTypes with ⟨c1, _ | mt⟩
    · rw [hr] at hu; exact hu
    · rw [hr] at hu
      exact uniqueKept_trans hu (ih _ _)

theorem foldl_networkMagnitudeStep_uniqueKept (app : App) (self : MagTool)
    (magTypes : List String) (c : OriginCtx) :
    uniqueKept app c.origin (magTypes.foldl (self.networkMagnitudeStep app) c).origin := by
  induction magTypes generalizing c with
  | nil => exact uniqueKept_refl _
  | cons t rest ih =>
    simp only [List.foldl_cons]
    exact uniqueKept_trans (networkMagnitudeStep_uniqueKept app self c t) (ih _)

theorem processSelected_uniqueKept (app : App) (self : MagTool) (depth : ℚ)
    (pickStreamMap : PickStreamMap) (c : OriginCtx) :
    uniqueKept app c.origin (self.processSelected app depth pickStreamMap c).1.origin := by
  unfold MagTool.processSelected
  have hp := pickStreamLoop_uniqueKept app self depth pickStreamMap c []
  rcases hr : self.pickStreamLoop app depth pickStreamMap c [] with ⟨c1, _ | magTypes⟩
  · rw [hr] at hp; exact hp
  · rw [hr] at hp
    simp only at hp ⊢
    have h2 := foldl_networkMagnitudeStep_uniqueKept app self magTypes c1
    rcases hs : self.computeSummaryMagnitude app
      (magTypes.foldl (self.networkMagnitudeStep app) c1) with _ | ⟨b, c3⟩
    · exact uniqueKept_trans hp h2
    · exact uniqueKept_trans hp (uniqueKept_trans h2
        (computeSummaryMagnitude_uniqueKept app self _ c3 b hs))

theorem retroactiveLoop_uniqueKept (app : App) (self : MagTool) (ampl : Amplitude)
    (update : Bool) (mags : List MagnitudeEntry) (c : OriginCtx) (u : Bool) :
    uniqueKept app c.origin (self.retroactiveLoop app ampl update mags c u).1.origin := by
  induction mags generalizing c u with
  | nil => exact uniqueKept_refl _
  | cons e rest ih =>
    obtain ⟨type, value⟩ := e
    unfold MagTool.retroactiveLoop
    have hg := getStationMagnitude_uniqueKept app c ampl.waveformID type value update
    rcases hr : getStationMagnitude app c ampl.waveformID type value update with ⟨_ | i, c1⟩
    · rw [hr] at hg
      simp only at hg ⊢
      exact uniqueKept_trans hg (ih c1 u)
    · rw [hr] at hg
      simp only at hg ⊢
      have h1 : uniqueKept app c.origin (c1.setAmplitudeID i ampl.publicID).origin :=
        uniqueKept_trans hg (setAmplitudeID_uniqueKept app c1 i _)
      generalize hmt : (match (c1.setAmplitudeID i ampl.publicID).origin.stationMagnitudes[i]? with
        | some staMag => staMag.type
        | none => type) = mtype
      have hk := getMagnitude_uniqueKept app (c1.setAmplitudeID i ampl.publicID) mtype
      rcases hm : getMagnitude app (c1.setAmplitudeID i ampl.publicID) mtype with
        ⟨_ | ⟨netMag, isNew⟩, c3⟩
      · rw [hm] at hk
        simp only at hk ⊢
        exact uniqueKept_trans h1 (uniqueKept_trans hk (ih c3 u))
      · rw [hm] at hk
        simp only at hk ⊢
        exact uniqueKept_trans h1 (uniqueKept_trans hk (uniqueKept_trans
          (computeMagnitude_uniqueKept app self c3 mtype netMag) (ih _ true)))

/-! ### The uniqueness invariant: the engine -/

theorem uniqueRespected_refl {app : App} (s : MagTool) : uniqueRespected app s s :=
  fun _ o h => ⟨o, h, uniqueKept_refl o⟩

theorem uniqueRespected_trans {app : App} {s1 s2 s3 : MagTool} (h12 : uniqueRespected app s1 s2)
    (h23 : uniqueRespected app s2 s3) : uniqueRespected app s1 s3 := by
  intro ptr o h
  obtain ⟨o2, ho2, hk2⟩ := h12 ptr o h
  obtain ⟨o3, ho3, hk3⟩ := h23 ptr o2 ho2
  exact ⟨o3, ho3, uniqueKept_trans hk2 hk3⟩

theorem uniqueRespected_of_heap_eq {app : App} {s s1 : MagTool} (h : s1.heap = s.heap) :
    uniqueRespected app s s1 := fun _ o ho => ⟨o, by rw [h]; exact ho, uniqueKept_refl o⟩

/-- Writing back an origin that keeps the uniqueness invariant of the stored one. -/
theorem store_uniqueRespected {app : App} (self : MagTool) (origin : Nat) (c : OriginCtx) (o : Origin)
    (ho : self.heap[origin]? = some o) (hk : uniqueKept app o c.origin) :
    uniqueRespected app self (self.store origin c) := by
  intro ptr o1 h1
  by_cases hp : origin = ptr
  · subst hp
    rw [ho] at h1
    have : o = o1 := Option.some.inj h1
    subst this
    refine ⟨c.origin, ?_, hk⟩
    simp only [MagTool.store]
    rw [modifyAt_get?_eq, ho]
    rfl
  · refine ⟨o1, ?_, uniqueKept_refl o1⟩
    simp only [MagTool.store]
    rw [modifyAt_get?_ne _ _ _ _ hp]
    exact h1

theorem processOrigin_uniqueRespected (app : App) (self : MagTool) (origin : Nat) :
    uniqueRespected app self (self.processOrigin app origin).1 := by
  unfold MagTool.processOrigin
  simp only
  have h1 := retrieveMissingPicksAndArrivalsFromDB_heap app self origin
  generalize self.retrieveMissingPicksAndArrivalsFromDB app origin = self1 at h1 ⊢
  split
  · exact uniqueRespected_of_heap_eq h1
  · rename_i o ho
    split
    · exact uniqueRespected_of_heap_eq h1
    · rename_i depth hd
      have h2 := arrivalLoop_heap app origin o.arrivals self1 []
      rcases hr : MagTool.arrivalLoop app origin o.arrivals self1 [] with ⟨self2, _ | m⟩
      · rw [hr] at h2
        exact uniqueRespected_of_heap_eq (h2.trans h1)
      · rw [hr] at h2
        simp only at h2 ⊢
        have h12 : uniqueRespected app self self2 := uniqueRespected_of_heap_eq (h2.trans h1)
        cases hc : self2.ctx origin with
        | none => exact h12
        | some c =>
          simp only
          obtain ⟨hco, _⟩ := ctx_eq_some self2 origin c hc
          exact uniqueRespected_trans h12 (store_uniqueRespected self2 origin _ c.origin hco
            (processSelected_uniqueKept app self2 depth m c))

theorem updateOrigin_uniqueRespected (app : App) (self : MagTool) (ampl : Amplitude)
    (update : Bool) (origin : Nat) :
    uniqueRespected app self (self.updateOrigin app ampl update origin).1 := by
  unfold MagTool.updateOrigin
  split
  · exact uniqueRespected_refl _
  · rename_i o ho
    split
    · exact uniqueRespected_refl _
    · simp only
      have h1 := firstPLoop_heap app ampl o.arrivals self (none, none)
      generalize MagTool.firstPLoop app ampl o.arrivals self (none, none) = r at h1 ⊢
      have h01 : uniqueRespected app self r.1 := uniqueRespected_of_heap_eq h1
      split
      · exact h01
      · split
        · split
          · exact h01
          · exact h01
          · rename_i mags _
            split
            · exact h01
            · rename_i c hc
              obtain ⟨hco, _⟩ := ctx_eq_some r.1 origin c hc
              have hk := retroactiveLoop_uniqueKept app r.1 ampl update mags c false
              split
              · split
                · exact uniqueRespected_trans h01 (store_uniqueRespected r.1 origin _ c.origin hco hk)
                · rename_i b c1 hs
                  exact uniqueRespected_trans h01 (store_uniqueRespected r.1 origin _ c.origin hco
                    (uniqueKept_trans hk (computeSummaryMagnitude_uniqueKept app r.1 _ c1 b hs)))
              · exact uniqueRespected_trans h01 (store_uniqueRespected r.1 origin _ c.origin hco hk)
        · exact h01

theorem updateLoop_uniqueRespected (app : App) (ampl : Amplitude) (update : Bool)
    (origins : List Nat) (self : MagTool) :
    uniqueRespected app self (MagTool.updateLoop app ampl update origins self).1 := by
  induction origins generalizing self with
  | nil => exact uniqueRespected_refl _
  | cons origin rest ih =>
    unfold MagTool.updateLoop
    have h := updateOrigin_uniqueRespected app self ampl update origin
    rcases hr : self.updateOrigin app ampl update origin with ⟨self1, _ | _⟩
    · rw [hr] at h; exact h
    · rw [hr] at h; exact uniqueRespected_trans h (ih self1)

theorem fetchOrigins_uniqueRespected (app : App) (self : MagTool) (q : DatabaseQuery)
    (ampl : Amplitude) : uniqueRespected app self (self.fetchOrigins app q ampl) := by
  intro ptr o ho
  refine ⟨o, ?_, uniqueKept_refl o⟩
  unfold MagTool.fetchOrigins
  simp only
  have hlt : ptr < self.heap.length := (List.getElem?_eq_some_iff.mp ho).1
  obtain ⟨⟨extra, he⟩, hre⟩ := foldl_fetchStep_heap app ampl.pickID
    (q.getOriginsForAmplitude ampl.publicID)
    (({ self with dbAccesses := self.dbAccesses + 1 }).createBinding ampl.pickID, [])
    self.heap ⟨[], by simp [createBinding_heap]⟩ (by simp)
  rw [foldl_loadOrigin_heap q _ _ ptr (fun p hp => by have := hre p hp; omega), he,
    List.getElem?_append_left hlt]
  exact ho

theorem feedPick_uniqueRespected (app : App) (self : MagTool) (pick : Pick) :
    uniqueRespected app self (self.feedPick app pick).1 :=
  uniqueRespected_of_heap_eq (feedPick_heap app self pick)

theorem feedAmplitude_uniqueRespected (app : App) (self : MagTool) (ampl : Amplitude)
    (update : Bool) : uniqueRespected app self (self.feedAmplitude app ampl update).1 := by
  unfold MagTool.feedAmplitude
  split
  · exact uniqueRespected_refl _
  split
  · exact uniqueRespected_refl _
  have h1 := _feed_heap app self ampl update
  rcases hr : self._feed app ampl update with ⟨self1, _ | _⟩
  · rw [hr] at h1; exact uniqueRespected_of_heap_eq h1
  · rw [hr] at h1
    simp only at h1 ⊢
    have h01 : uniqueRespected app self self1 := uniqueRespected_of_heap_eq h1
    have h12 : uniqueRespected app self1
        (match self1.originsForPick ampl.pickID, app.query with
          | none, some q => self1.fetchOrigins app q ampl
          | _, _ => self1) := by
      split
      · exact fetchOrigins_uniqueRespected app self1 _ ampl
      · exact uniqueRespected_refl _
    generalize (match self1.originsForPick ampl.pickID, app.query with
          | none, some q => self1.fetchOrigins app q ampl
          | _, _ => self1) = self2 at h12 ⊢
    have h02 := uniqueRespected_trans h01 h12
    split
    · exact h02
    · rename_i origins _
      have h23 := updateLoop_uniqueRespected app ampl update origins self2
      rcases hu : MagTool.updateLoop app ampl update origins self2 with ⟨self3, _ | _⟩
      · rw [hu] at h23; exact uniqueRespected_trans h02 h23
      · rw [hu] at h23; exact uniqueRespected_trans h02 h23

theorem completeOrigin_uniqueKept (app : App) (harch : archiveUnique app) (o o1 : Origin)
    (h : app.completeOrigin o = some o1) : uniqueKept app o o1 := by
  obtain ⟨_, _, hm, hs⟩ := completeOrigin_children app o o1 h
  refine ⟨?_, ?_⟩
  · intro hu
    unfold uniqueStationMagnitudes at hu ⊢
    rcases hs with hs | ⟨q, hq, _, hs⟩
    · rw [hs]
      exact hu
    · rw [hs]
      exact (harch q hq o.publicID).2
  · intro hu
    unfold uniqueMagnitudes at hu ⊢
    rcases hm with hm | ⟨q, hq, _, hm⟩
    · rw [hm]
      exact hu
    · rw [hm]
      exact (harch q hq o.publicID).1

theorem feedOrigin_uniqueRespected (app : App) (harch : archiveUnique app) (self : MagTool) (origin : Nat) :
    uniqueRespected app self (self.feedOrigin app origin).1 := by
  unfold MagTool.feedOrigin
  split
  · exact uniqueRespected_refl _
  · rename_i o ho
    split
    · exact uniqueRespected_refl _
    · simp only
      split
      · exact processOrigin_uniqueRespected app self _
      · split
        · exact uniqueRespected_refl _
        · split
          · exact uniqueRespected_refl _
          · rename_i o1 hc
            have hk := completeOrigin_uniqueKept app harch o o1 hc
            have h1 : uniqueRespected app self
                ({ self with heap := modifyAt (fun _ => o1) self.heap origin }) := by
              have := store_uniqueRespected self origin ⟨o1, self.registry⟩ o ho hk
              exact this
            exact uniqueRespected_trans h1 (uniqueRespected_trans
              (uniqueRespected_of_heap_eq (cacheFeed_heap _ _))
              (processOrigin_uniqueRespected app _ origin))

theorem uniquePerKey_of_kept {app : App} {o o1 : Origin} (hk : uniqueKept app o o1)
    (hu : uniquePerKey app o) : uniquePerKey app o1 :=
  ⟨hk.1 hu.1, hk.2 hu.2⟩

/-- C18 (counterexample). The archive holds two network magnitudes of type
`MLv` for the origin `O5`. The origin object fed has no station magnitude and
no network magnitude, so it satisfies the uniqueness invariant. `feed(Origin*)`
loads the magnitudes of the archive (lines 1305-1309) and returns true; the
origin then carries two network magnitudes of type `MLv`. -/
theorem feedOrigin_archive_duplicates :
    freshOrigin.stationMagnitudes = [] ∧ freshOrigin.magnitudes = [] ∧
    (s4Tool.feedOrigin (archiveApp duplicateArchive) 0).2 = some true ∧
    ((s4Tool.feedOrigin (archiveApp duplicateArchive) 0).1.heap[0]?).map
      (fun o => o.magnitudes.map (fun m => (m.publicID, m.type))) =
      some [("smi:a/MLv", "MLv"), ("smi:b/MLv", "MLv"), ("O5#netMag.M", "M")] ∧
    ((s4Tool.feedOrigin (archiveApp duplicateArchive) 0).1.heap[0]?).map
      (fun o => decide (uniqueMagnitudes o)) = some false := by
  refine ⟨?_, ?_, ?_, ?_, ?_⟩ <;> decide!

/-- C18 (amended). The uniqueness invariant (at most one station magnitude per
equivalent stream id and type, at most one network magnitude per type) of an
origin is preserved by `getStationMagnitude`, `getMagnitude`,
`computeMagnitude` and `computeSummaryMagnitude`. An origin object of the
engine that satisfies it still satisfies it after every `feed(Pick*)` and
every `feed(Amplitude*)`, and after every `feed(Origin*)` provided the
magnitudes and station magnitudes the archive loads for an origin satisfy the
invariant. -/
theorem feed_unique_invariant (app : App) (self : MagTool) :
    (∀ (c : OriginCtx) (wfid : WaveformStreamID) (type : String) (value : ℚ) (update : Bool),
      uniquePerKey app c.origin →
      uniquePerKey app (getStationMagnitude app c wfid type value update).2.origin) ∧
    (∀ (c : OriginCtx) (type : String), uniquePerKey app c.origin →
      uniquePerKey app (getMagnitude app c type).2.origin) ∧
    (∀ (c : OriginCtx) (mtype : String) (netMag : Nat), uniquePerKey app c.origin →
      uniquePerKey app (self.computeMagnitude app c mtype netMag).2.origin) ∧
    (∀ (c c1 : OriginCtx) (b : Bool), self.computeSummaryMagnitude app c = some (b, c1) →
      uniquePerKey app c.origin → uniquePerKey app c1.origin) ∧
    (∀ (ptr : Nat) (o : Origin), self.heap[ptr]? = some o → uniquePerKey app o →
      (∀ pick : Pick, ∃ o1, (self.feedPick app pick).1.heap[ptr]? = some o1 ∧
        uniquePerKey app o1) ∧
      (∀ (ampl : Amplitude) (update : Bool),
        ∃ o1, (self.feedAmplitude app ampl update).1.heap[ptr]? = some o1 ∧
          uniquePerKey app o1) ∧
      (archiveUnique app → ∀ origin : Nat,
        ∃ o1, (self.feedOrigin app origin).1.heap[ptr]? = some o1 ∧ uniquePerKey app o1)) := by
  refine ⟨?_, ?_, ?_, ?_, ?_⟩
  · intro c wfid type value update hu
    exact uniquePerKey_of_kept (getStationMagnitude_uniqueKept app c wfid type value update) hu
  · intro c type hu
    exact uniquePerKey_of_kept (getMagnitude_uniqueKept app c type) hu
  · intro c mtype netMag hu
    exact uniquePerKey_of_kept (computeMagnitude_uniqueKept app self c mtype netMag) hu
  · intro c c1 b h hu
    exact uniquePerKey_of_kept (computeSummaryMagnitude_uniqueKept app self c c1 b h) hu
  · intro ptr o ho hu
    refine ⟨?_, ?_, ?_⟩
    · intro pick
      obtain ⟨o1, h1, hk⟩ := feedPick_uniqueRespected app self pick ptr o ho
      exact ⟨o1, h1, uniquePerKey_of_kept hk hu⟩
    · intro ampl update
      obtain ⟨o1, h1, hk⟩ := feedAmplitude_uniqueRespected app self ampl update ptr o ho
      exact ⟨o1, h1, uniquePerKey_of_kept hk hu⟩
    · intro harch origin
      obtain ⟨o1, h1, hk⟩ := feedOrigin_uniqueRespected app harch self origin ptr o ho
      exact ⟨o1, h1, uniquePerKey_of_kept hk hu⟩

/-- C18, witness: the origin `O5` without magnitudes satisfies the invariant,
and so does the origin object after it was fed to the engine holding its pick
and an amplitude. -/
theorem feed_unique_invariant_witness :
    ∃ o1, (freshTool.feedOrigin evalApp 0).1.heap[0]? = some o1 ∧ uniquePerKey evalApp o1 :=
  ((feed_unique_invariant evalApp freshTool).2.2.2.2 0 freshOrigin rfl
    ⟨List.Pairwise.nil, List.Pairwise.nil⟩).2.2 (fun q hq => by cases hq) 0

/-! ### Amplitudes that are not processed -/

/-- C21 (rejected amplitudes). When the agency of the amplitude is blocked, or
no processor is registered under the type of the amplitude,
`feed(Amplitude*, update)` returns false and leaves the whole engine state as
it is: the amplitude index, the bindings of picks to origins and every origin
object. -/
theorem feedAmplitude_rejected (app : App) (self : MagTool) (ampl : Amplitude) (update : Bool)
    (h : app.isAgencyIDBlocked (objectAgencyID ampl.creationInfo) = true ∨
      ∀ proc ∈ self.processors, proc.amplitudeType ≠ ampl.type) :
    self.feedAmplitude app ampl update = (self, some false) := by
  unfold MagTool.feedAmplitude
  by_cases hb : app.isAgencyIDBlocked (objectAgencyID ampl.creationInfo) = true
  · rw [if_pos hb]
  · rw [if_neg hb]
    rcases h with h | h
    · exact absurd h hb
    · have hnone : self.processors.find? (fun proc => decide (proc.amplitudeType = ampl.type)) =
          none := by
        rw [List.find?_eq_none]
        intro proc hp
        simpa using h proc hp
      rw [hnone]
      rfl

/-- C21, witness: in scenario S5 an amplitude of the blocked agency `XX` and an
amplitude of the type `mb`, for which no processor is registered, are both
rejected. -/
theorem feedAmplitude_rejected_witness :
    s5Tool.feedAmplitude blockingApp blockedAmplitude true = (s5Tool, some false) ∧
    s5Tool.feedAmplitude evalApp unknownTypeAmplitude false = (s5Tool, some false) :=
  ⟨feedAmplitude_rejected blockingApp s5Tool blockedAmplitude true (Or.inl (by decide)),
   feedAmplitude_rejected evalApp s5Tool unknownTypeAmplitude false
    (Or.inr (by
      intro proc hp
      simp only [s5Tool, List.mem_singleton] at hp
      subst hp
      decide))⟩

/-! ### Priority of amplitudes -/

/-- C23 (priority at equal evaluation mode). For two amplitudes of the same
evaluation mode, an unset mode counting as automatic, `hasHigherPriority` is
true exactly when both carry a creation time and that of the candidate is
strictly later; when a creation time is absent it is false, and the amplitude
stored first stays in `usedAmplitudes`. -/
theorem hasHigherPriority_equal_mode (candidate reference : Amplitude)
    (hmode : candidate.evaluationMode.getD EvaluationMode.AUTOMATIC =
      reference.evaluationMode.getD EvaluationMode.AUTOMATIC) :
    (hasHigherPriority candidate reference = true ↔
      ∃ c r, candidate.creationTime = some c ∧ reference.creationTime = some r ∧ r < c) ∧
    (candidate.creationTime = none ∨ reference.creationTime = none →
      hasHigherPriority candidate reference = false) ∧
    (∀ usedAmplitudes : StdMap Amplitude,
      candidate.creationTime = none ∨ reference.creationTime = none →
      usedAmplitudes.find candidate.type = some reference →
      useAmplitude usedAmplitudes candidate = usedAmplitudes) := by
  have hval : hasHigherPriority candidate reference =
      match candidate.creationTime, reference.creationTime with
      | some c, some r => decide (c > r)
      | _, _ => false := by
    unfold hasHigherPriority
    simp only [hmode, ne_eq, not_true_eq_false, false_and, if_false]
  have hfalse : candidate.creationTime = none ∨ reference.creationTime = none →
      hasHigherPriority candidate reference = false := by
    intro h
    rw [hval]
    rcases h with h | h
    · rw [h]
    · rw [h]
      cases candidate.creationTime <;> rfl
  refine ⟨?_, hfalse, ?_⟩
  · rw [hval]
    cases hc : candidate.creationTime with
    | none => simp
    | some c =>
      cases hr : reference.creationTime with
      | none => simp
      | some r => simp
  · intro usedAmplitudes h hfind
    unfold useAmplitude
    rw [hfind]
    simp only [hfalse h, Bool.false_eq_true, if_false]

/-- C23, witness: two automatic amplitudes with creation times 2 and 1; the
later one has the higher priority. -/
theorem hasHigherPriority_equal_mode_witness :
    hasHigherPriority
      { s5Amplitude with creationInfo := some { creationTime := some 2 } }
      { s5Amplitude with creationInfo := some { creationTime := some 1 } } = true :=
  (hasHigherPriority_equal_mode
    { s5Amplitude with creationInfo := some { creationTime := some 2 } }
    { s5Amplitude with creationInfo := some { creationTime := some 1 } } rfl).1.mpr
    ⟨2, 1, rfl, rfl, by decide⟩

/-! ### The return value of the aggregation -/

theorem deriveMw_false_iff (app : App) (self : MagTool) (c : OriginCtx) (mtype : String)
    (value stdev : ℚ) (staCount : Nat) :
    (self.deriveMw app c mtype value stdev staCount).1 = false ↔
      ∀ proc ∈ self.processors, proc.amplitudeType ≠ mtype := by
  unfold MagTool.deriveMw
  cases hp : self.processors.find? (fun proc => decide (proc.amplitudeType = mtype)) with
  | none =>
    simp only [true_iff]
    intro proc hmem
    have := List.find?_eq_none.mp hp proc hmem
    simpa using this
  | some proc =>
    have hmem := List.mem_of_find?_eq_some hp
    have hty : proc.amplitudeType = mtype := by simpa using List.find?_some hp
    have hne : ¬ ∀ proc ∈ self.processors, proc.amplitudeType ≠ mtype :=
      fun h => h proc hmem hty
    simp only [hne, iff_false]
    cases he : proc.estimateMw value with
    | none => simp
    | some r =>
      obtain ⟨Mw, stdError⟩ := r
      simp only
      split <;> simp

theorem deriveMw_no_processor (app : App) (self : MagTool) (c : OriginCtx) (mtype : String)
    (value stdev : ℚ) (staCount : Nat)
    (h : ∀ proc ∈ self.processors, proc.amplitudeType ≠ mtype) :
    self.deriveMw app c mtype value stdev staCount = (false, c) := by
  have hp : self.processors.find? (fun proc => decide (proc.amplitudeType = mtype)) = none := by
    rw [List.find?_eq_none]
    intro proc hmem
    simpa using h proc hmem
  unfold MagTool.deriveMw
  rw [hp]

/-- C29 (counterexample). Scenario S1: the origin `O1` has three station
magnitudes of type `MLv` with values 3.0, 3.2 and 3.4, and its network
magnitude of type `MLv` is empty: value 0, no method id, no station count, no
contribution. The engine holds no processor at all.
`computeMagnitude(O1, "MLv", netMag)` writes the three contributions, the
method id "mean", the value 3.2 and the station count 3 to the network
magnitude, then finds no processor and returns false. -/
theorem computeMagnitude_false_after_update :
    s1Origin.magnitudes.map
      (fun m => (m.methodID, m.magnitude.value, m.stationCount, m.contributions)) =
      [("", 0, none, [])] ∧
    (({} : MagTool).computeMagnitude evalApp ⟨s1Origin, []⟩ "MLv" 0).1 = false ∧
    (({} : MagTool).computeMagnitude evalApp ⟨s1Origin, []⟩ "MLv" 0).2.origin.magnitudes.map
      (fun m => (m.methodID, m.magnitude.value, m.stationCount, m.contributions)) =
      [("mean", 16/5, some 3,
        [{ stationMagnitudeID := "O1#staMag.MLv#GE.A", weight := some 1 },
         { stationMagnitudeID := "O1#staMag.MLv#GE.B", weight := some 1 },
         { stationMagnitudeID := "O1#staMag.MLv#GE.C", weight := some 1 }])] := by
  refine ⟨?_, ?_, ?_⟩ <;> decide!

/-- C29 (amended). When the origin has no station magnitude of type `T`,
`computeMagnitude(origin, T, netMag)` returns false and the origin, with
`netMag`, is unchanged. Whenever the call returns false on an origin that has
station magnitudes of type `T`, it returns after the aggregation: the origin is
the one the aggregation leaves, and `netMag` carries the method id, value and
standard deviation of the averaging step, no evaluation status, and the
contributions and the station count of the contribution loop. An engine
without any processor returns false in that way. -/
theorem computeMagnitude_false (app : App) (self : MagTool) (c : OriginCtx) (mtype : String)
    (netMag : Nat) :
    ((∀ staMag ∈ c.origin.stationMagnitudes, staMag.type ≠ mtype) →
      self.computeMagnitude app c mtype netMag = (false, c)) ∧
    ((∃ staMag ∈ c.origin.stationMagnitudes, staMag.type = mtype) →
      (self.computeMagnitude app c mtype netMag).1 = false →
      (self.computeMagnitude app c mtype netMag).2 = self.aggregate app c mtype netMag ∧
      ∀ nm0, c.origin.magnitudes[netMag]? = some nm0 →
        (self.computeMagnitude app c mtype netMag).2.origin.magnitudes[netMag]? =
          some { nm0 with
            contributions := (self.reconciled app c mtype netMag).1,
            methodID := (computeAverage app (self.averageMethod mtype)
              (stationMagnitudeValues c.origin mtype)).methodID,
            magnitude :=
              { value := (computeAverage app (self.averageMethod mtype)
                  (stationMagnitudeValues c.origin mtype)).value,
                uncertainty := some (computeAverage app (self.averageMethod mtype)
                  (stationMagnitudeValues c.origin mtype)).stdev },
            evaluationStatus := none,
            stationCount := some ((self.reconciled app c mtype netMag).2 : Int) }) ∧
    ((∃ staMag ∈ c.origin.stationMagnitudes, staMag.type = mtype) →
      self.processors = [] →
      (self.computeMagnitude app c mtype netMag).1 = false) := by
  have hnil : (∀ staMag ∈ c.origin.stationMagnitudes, staMag.type ≠ mtype) ↔
      (stationMagnitudeValues c.origin mtype).length = 0 := by
    rw [stationMagnitudeValues_length, List.length_eq_zero]
    unfold stationMagnitudesOfType
    rw [List.filter_eq_nil_iff]
    simp only [decide_eq_true_eq]
  refine ⟨?_, ?_, ?_⟩
  · intro h
    unfold MagTool.computeMagnitude
    simp only [hnil.mp h, if_true]
  · rintro ⟨staMag, hmem, hty⟩ hfalse
    have h0 : ¬ (stationMagnitudeValues c.origin mtype).length = 0 :=
      fun h => hnil.mpr h staMag hmem hty
    have hcm : self.computeMagnitude app c mtype netMag =
        (false, self.aggregate app c mtype netMag) := by
      unfold MagTool.computeMagnitude at hfalse ⊢
      simp only [h0, if_false] at hfalse ⊢
      exact deriveMw_no_processor app self _ mtype _ _ _
        ((deriveMw_false_iff app self _ mtype _ _ _).mp hfalse)
    rw [hcm]
    refine ⟨rfl, ?_⟩
    intro nm0 hget
    unfold MagTool.aggregate
    exact modifyMagnitude_get? c netMag _ nm0 hget
  · rintro ⟨staMag, hmem, hty⟩ hproc
    have h0 : ¬ (stationMagnitudeValues c.origin mtype).length = 0 :=
      fun h => hnil.mpr h staMag hmem hty
    unfold MagTool.computeMagnitude
    simp only [h0, if_false]
    rw [deriveMw_false_iff]
    intro proc hp
    rw [hproc] at hp
    exact absurd hp (List.not_mem_nil _)

/-- C29, witness: aggregating the type `mb` on scenario S1, which has no
station magnitude of that type, returns false and changes nothing; aggregating
`MLv` there with an engine without processors returns false and leaves the
aggregated origin. -/
theorem computeMagnitude_false_witness :
    MagTool.computeMagnitude evalApp {} ⟨s1Origin, []⟩ "mb" 0 = (false, ⟨s1Origin, []⟩) ∧
    (MagTool.computeMagnitude evalApp {} ⟨s1Origin, []⟩ "MLv" 0).1 = false ∧
    (MagTool.computeMagnitude evalApp {} ⟨s1Origin, []⟩ "MLv" 0).2 =
      MagTool.aggregate evalApp {} ⟨s1Origin, []⟩ "MLv" 0 :=
  ⟨(computeMagnitude_false evalApp {} ⟨s1Origin, []⟩ "mb" 0).1 (by decide),
   (computeMagnitude_false evalApp {} ⟨s1Origin, []⟩ "MLv" 0).2.2
      ⟨_, List.mem_cons_self _ _, rfl⟩ rfl,
   ((computeMagnitude_false evalApp {} ⟨s1Origin, []⟩ "MLv" 0).2.1
      ⟨_, List.mem_cons_self _ _, rfl⟩ (by decide!)).1⟩

/-! ### The amplitude index -/

theorem getAmplitude_ampl (app : App) (self : MagTool) (id : String) :
    (self.getAmplitude app id).1.ampl = self.ampl := by
  unfold MagTool.getAmplitude
  split
  · rfl
  · split
    · rfl
    · split <;> rfl

theorem getPick_ampl (app : App) (self : MagTool) (id : String) :
    (self.getPick app id).1.ampl = self.ampl := by
  unfold MagTool.getPick
  split
  · rfl
  · split
    · rfl
    · split <;> rfl

theorem bind_ampl (self : MagTool) (pickID : String) (origin : Nat) :
    (self.bind pickID origin).ampl = self.ampl := by
  unfold MagTool.bind
  split <;> rfl

theorem createBinding_ampl (self : MagTool) (pickID : String) :
    (self.createBinding pickID).ampl = self.ampl := by
  unfold MagTool.createBinding
  split <;> rfl

theorem findAmplitude_publicID (t : MagTool) (id : String) (a : Amplitude)
    (h : t.findAmplitude id = some a) : a.publicID = id := by
  unfold MagTool.findAmplitude at h
  obtain ⟨x, _, hx⟩ := List.exists_of_findSome?_eq_some h
  cases x with
  | pick q => cases hx
  | amplitude b =>
    simp only at hx
    split at hx
    · rename_i hb
      simp only [Option.some.injEq] at hx
      rw [← hx]
      exact hb
    · cases hx
  | origin ptr => cases hx

theorem getAmplitude_publicID (app : App) (self : MagTool) (id : String)
    (harch : ∀ q, app.query = some q → ∀ a, q.getAmplitude id = some a → a.publicID = id)
    (a : Amplitude) (h : (self.getAmplitude app id).2 = some a) : a.publicID = id := by
  unfold MagTool.getAmplitude at h
  cases hf : self.findAmplitude id with
  | some b =>
    rw [hf] at h
    simp only [Option.some.injEq] at h
    rw [← h]
    exact findAmplitude_publicID self id b hf
  | none =>
    rw [hf] at h
    cases hq : app.query with
    | none =>
      rw [hq] at h
      cases h
    | some q =>
      rw [hq] at h
      simp only at h
      cases hg : q.getAmplitude id with
      | none =>
        rw [hg] at h
        cases h
      | some b =>
        rw [hg] at h
        simp only [Option.some.injEq] at h
        rw [← h]
        exact harch q hq b hg

/-- What `_feed` does to the amplitude index: nothing, or it appends the
amplitude under the pick id, when no amplitude with its public id is listed
under that pick id. -/
theorem _feed_ampl (app : App) (self : MagTool) (ampl : Amplitude) (update : Bool) :
    (self._feed app ampl update).1.ampl = self.ampl ∨
    ∃ a1, (self._feed app ampl update).1.ampl = self.ampl ++ [(ampl.pickID, a1)] ∧
      (self._feed app ampl update).2 = true ∧
      (self.getAmplitude app ampl.publicID).2.getD ampl = a1 ∧
      ∀ existing ∈ self.amplitudesForPick ampl.pickID, a1.publicID ≠ existing.publicID := by
  unfold MagTool._feed
  simp only
  split
  · exact Or.inl rfl
  · have hg := getAmplitude_ampl app self ampl.publicID
    rcases hr : self.getAmplitude app ampl.publicID with ⟨self1, cached⟩
    rw [hr] at hg
    simp only at hg ⊢
    split
    · exact Or.inl hg
    · rename_i hany
      right
      refine ⟨cached.getD ampl, ?_, rfl, rfl, ?_⟩
      · rw [getPick_ampl]
        simp only [hg]
      · intro existing hex
        have hidx : self1.amplitudesForPick ampl.pickID = self.amplitudesForPick ampl.pickID := by
          unfold MagTool.amplitudesForPick
          rw [hg]
        rw [← hidx] at hex
        intro he
        apply hany
        rw [List.any_eq_true]
        exact ⟨existing, hex, by simpa using he⟩

theorem amplitudesForPick_append (self : MagTool) (x : String × Amplitude) (l : List (String × Amplitude))
    (h : l = self.ampl ++ [x]) (p : String) :
    ((l.filter (fun e => decide (e.1 = p))).map Prod.snd) =
      self.amplitudesForPick p ++ (if x.1 = p then [x.2] else []) := by
  subst h
  unfold MagTool.amplitudesForPick
  rw [List.filter_append, List.map_append]
  congr 1
  by_cases hx : x.1 = p
  · simp [hx]
  · simp [hx]

/-- An index that differs from a duplicate-free index by nothing, or by one
amplitude appended under a pick id where its public id was not listed, is
duplicate-free and lists the old amplitudes first. -/
theorem noDuplicateAmplitudes_step (s s1 : MagTool) (pickID : String)
    (h : s1.ampl = s.ampl ∨ ∃ a1, s1.ampl = s.ampl ++ [(pickID, a1)] ∧
      ∀ existing ∈ s.amplitudesForPick pickID, a1.publicID ≠ existing.publicID) :
    (s.noDuplicateAmplitudes → s1.noDuplicateAmplitudes) ∧
    ∀ p, s.amplitudesForPick p <+: s1.amplitudesForPick p := by
  rcases h with h | ⟨a1, h, hnew⟩
  · have he : ∀ p, s1.amplitudesForPick p = s.amplitudesForPick p := by
      intro p
      unfold MagTool.amplitudesForPick
      rw [h]
    refine ⟨?_, ?_⟩
    · intro hn p
      rw [he]
      exact hn p
    · intro p
      rw [he]
  · have he : ∀ p, s1.amplitudesForPick p =
        s.amplitudesForPick p ++ (if pickID = p then [a1] else []) := by
      intro p
      exact amplitudesForPick_append s (pickID, a1) s1.ampl h p
    refine ⟨?_, ?_⟩
    · intro hn p
      rw [he]
      by_cases hp : pickID = p
      · subst hp
        simp only [if_true, List.map_append, List.map_cons, List.map_nil]
        rw [List.nodup_append]
        refine ⟨hn pickID, List.nodup_singleton _, ?_⟩
        intro id hid hid1
        simp only [List.mem_singleton] at hid1
        obtain ⟨existing, hex, hexid⟩ := List.mem_map.mp hid
        exact hnew existing hex (by rw [hexid, hid1])
      · simp only [hp, if_false, List.append_nil]
        exact hn p
    · intro p
      rw [he]
      exact List.prefix_append _ _

theorem _feed_index (app : App) (self : MagTool) (ampl : Amplitude) (update : Bool) :
    (self.noDuplicateAmplitudes → (self._feed app ampl update).1.noDuplicateAmplitudes) ∧
    ∀ p, self.amplitudesForPick p <+: (self._feed app ampl update).1.amplitudesForPick p := by
  apply noDuplicateAmplitudes_step self _ ampl.pickID
  rcases _feed_ampl app self ampl update with h | ⟨a1, h, _, _, hnew⟩
  · exact Or.inl h
  · exact Or.inr ⟨a1, h, hnew⟩

theorem firstPLoop_ampl (app : App) (ampl : Amplitude) (arrivals : List Arrival) (self : MagTool)
    (st : Option Pick × Option Arrival) :
    (MagTool.firstPLoop app ampl arrivals self st).1.ampl = self.ampl := by
  induction arrivals generalizing self st with
  | nil => rfl
  | cons a rest ih =>
    unfold MagTool.firstPLoop
    simp only
    rw [ih]
    unfold MagTool.firstPStep
    have hg := getPick_ampl app self a.pickID
    rcases hr : self.getPick app a.pickID with ⟨self1, _ | p⟩
    · rw [hr] at hg; exact hg
    · rw [hr] at hg
      simp only at hg ⊢
      repeat' split
      all_goals exact hg

theorem updateOrigin_ampl (app : App) (self : MagTool) (ampl : Amplitude) (update : Bool)
    (origin : Nat) : (self.updateOrigin app ampl update origin).1.ampl = self.ampl := by
  unfold MagTool.updateOrigin
  split
  · rfl
  · split
    · rfl
    · simp only
      have h1 := firstPLoop_ampl app ampl (by assumption : Origin).arrivals self (none, none)
      repeat' split
      all_goals first | exact h1 | (simp only [MagTool.store]; exact h1)

theorem updateLoop_ampl (app : App) (ampl : Amplitude) (update : Bool) (origins : List Nat)
    (self : MagTool) : (MagTool.updateLoop app ampl update origins self).1.ampl = self.ampl := by
  induction origins generalizing self with
  | nil => rfl
  | cons origin rest ih =>
    unfold MagTool.updateLoop
    have h := updateOrigin_ampl app self ampl update origin
    rcases hr : self.updateOrigin app ampl update origin with ⟨self1, _ | _⟩
    · rw [hr] at h; exact h
    · rw [hr] at h
      simp only
      rw [ih, h]

theorem fetchStep_ampl (app : App) (pickID : String) (st : MagTool × List Nat)
    (record : Origin × Option Int) :
    (MagTool.fetchStep app pickID st record).1.ampl = st.1.ampl := by
  unfold MagTool.fetchStep
  split
  · simp only [bind_ampl]
  · simp only
    split
    · rfl
    · simp only [bind_ampl]
      rfl

theorem fetchOrigins_ampl (app : App) (self : MagTool) (q : DatabaseQuery) (ampl : Amplitude) :
    (self.fetchOrigins app q ampl).ampl = self.ampl := by
  unfold MagTool.fetchOrigins
  simp only
  have h1 : ∀ (reload : List Nat) (s : MagTool),
      (reload.foldl (fun (s : MagTool) p => { s with heap := modifyAt q.loadOrigin s.heap p })
        s).ampl = s.ampl := by
    intro reload
    induction reload with
    | nil => intro s; rfl
    | cons p rest ih => intro s; simp only [List.foldl_cons]; rw [ih]
  have h2 : ∀ (records : List (Origin × Option Int)) (st : MagTool × List Nat),
      (records.foldl (MagTool.fetchStep app ampl.pickID) st).1.ampl = st.1.ampl := by
    intro records
    induction records with
    | nil => intro st; rfl
    | cons r rest ih => intro st; simp only [List.foldl_cons]; rw [ih, fetchStep_ampl]
  rw [h1, h2, createBinding_ampl]

theorem feedAmplitude_ampl (app : App) (self : MagTool) (ampl : Amplitude) (update : Bool) :
    (self.feedAmplitude app ampl update).1.ampl = self.ampl ∨
    (self.feedAmplitude app ampl update).1.ampl = (self._feed app ampl update).1.ampl := by
  unfold MagTool.feedAmplitude
  split
  · exact Or.inl rfl
  split
  · exact Or.inl rfl
  right
  rcases hr : self._feed app ampl update with ⟨self1, _ | _⟩
  · rfl
  · simp only
    have h12 : (match self1.originsForPick ampl.pickID, app.query with
          | none, some q => self1.fetchOrigins app q ampl
          | _, _ => self1).ampl = self1.ampl := by
      split
      · exact fetchOrigins_ampl app self1 _ ampl
      · rfl
    generalize (match self1.originsForPick ampl.pickID, app.query with
          | none, some q => self1.fetchOrigins app q ampl
          | _, _ => self1) = self2 at h12 ⊢
    split
    · exact h12
    · rename_i origins _
      have h23 := updateLoop_ampl app ampl update origins self2
      rcases hu : MagTool.updateLoop app ampl update origins self2 with ⟨self3, _ | _⟩
      · rw [hu] at h23
        exact h23.trans h12
      · rw [hu] at h23
        exact h23.trans h12

theorem feedAmplitude_index (app : App) (self : MagTool) (ampl : Amplitude) (update : Bool) :
    (self.noDuplicateAmplitudes →
      (self.feedAmplitude app ampl update).1.noDuplicateAmplitudes) ∧
    ∀ p, self.amplitudesForPick p <+: (self.feedAmplitude app ampl update).1.amplitudesForPick p := by
  apply noDuplicateAmplitudes_step self _ ampl.pickID
  rcases feedAmplitude_ampl app self ampl update with h | h
  · exact Or.inl h
  · rw [h]
    rcases _feed_ampl app self ampl update with h1 | ⟨a1, h1, _, _, hnew⟩
    · exact Or.inl h1
    · exact Or.inr ⟨a1, h1, hnew⟩

theorem runAmplitudeCalls_index (app : App) (calls : List AmplitudeCall) (self : MagTool) :
    (self.noDuplicateAmplitudes → (MagTool.runAmplitudeCalls app calls self).noDuplicateAmplitudes) ∧
    ∀ p, self.amplitudesForPick p <+: (MagTool.runAmplitudeCalls app calls self).amplitudesForPick p := by
  induction calls generalizing self with
  | nil => exact ⟨id, fun p => List.prefix_refl _⟩
  | cons call rest ih =>
    cases call with
    | feed ampl update =>
      obtain ⟨h1, h2⟩ := feedAmplitude_index app self ampl update
      obtain ⟨h3, h4⟩ := ih (self.feedAmplitude app ampl update).1
      exact ⟨fun h => h3 (h1 h), fun p => (h2 p).trans (h4 p)⟩
    | store ampl update =>
      obtain ⟨h1, h2⟩ := _feed_index app self ampl update
      obtain ⟨h3, h4⟩ := ih (self._feed app ampl update).1
      exact ⟨fun h => h3 (h1 h), fun p => (h2 p).trans (h4 p)⟩

/-- C27 (amplitude index without duplicates). (1) Starting from an empty
amplitude index, and more generally from an index in which no pick id lists two
amplitudes with the same public id, every sequence of `feed(Amplitude*)` and
`_feed` calls leaves an index in which no pick id lists two amplitudes with the
same public id, and the list of every pick id is the former list followed by
the amplitudes inserted since, in the order of insertion. (2) `_feed` of an
amplitude with a non-empty pick id whose public id is listed under that pick
id leaves the index unchanged and returns `update` (the archive, if any,
returning for a public id an amplitude with that id). (3) `_feed` of an
amplitude with an empty pick id returns false and changes nothing. -/
theorem amplitude_index_no_duplicates (app : App) (self : MagTool) :
    (∀ calls : List AmplitudeCall,
      (self.ampl = [] → (MagTool.runAmplitudeCalls app calls self).noDuplicateAmplitudes) ∧
      (self.noDuplicateAmplitudes →
        (MagTool.runAmplitudeCalls app calls self).noDuplicateAmplitudes) ∧
      ∀ p, self.amplitudesForPick p <+:
        (MagTool.runAmplitudeCalls app calls self).amplitudesForPick p) ∧
    (∀ (ampl : Amplitude) (update : Bool),
      (∀ q, app.query = some q → ∀ a, q.getAmplitude ampl.publicID = some a →
        a.publicID = ampl.publicID) →
      ampl.pickID ≠ "" →
      ampl.publicID ∈ (self.amplitudesForPick ampl.pickID).map (fun a => a.publicID) →
      (self._feed app ampl update).1.ampl = self.ampl ∧
      (self._feed app ampl update).2 = update) ∧
    (∀ (ampl : Amplitude) (update : Bool), ampl.pickID = "" →
      self._feed app ampl update = (self, false)) := by
  refine ⟨?_, ?_, ?_⟩
  · intro calls
    obtain ⟨h1, h2⟩ := runAmplitudeCalls_index app calls self
    refine ⟨?_, h1, h2⟩
    intro hempty
    apply h1
    intro p
    unfold MagTool.amplitudesForPick
    rw [hempty]
    exact List.nodup_nil
  · intro ampl update harch hpid hlisted
    have hg := getAmplitude_ampl app self ampl.publicID
    have hid : ((self.getAmplitude app ampl.publicID).2.getD ampl).publicID = ampl.publicID := by
      cases hc : (self.getAmplitude app ampl.publicID).2 with
      | none => rfl
      | some a => exact getAmplitude_publicID app self ampl.publicID harch a hc
    unfold MagTool._feed
    simp only [hpid, if_false]
    rcases hr : self.getAmplitude app ampl.publicID with ⟨self1, cached⟩
    rw [hr] at hg hid
    simp only at hg hid ⊢
    have hidx : self1.amplitudesForPick ampl.pickID = self.amplitudesForPick ampl.pickID := by
      unfold MagTool.amplitudesForPick
      rw [hg]
    have hany : (self1.amplitudesForPick ampl.pickID).any
        (fun existing => decide ((cached.getD ampl).publicID = existing.publicID)) = true := by
      rw [List.any_eq_true, hidx]
      obtain ⟨existing, hex, hexid⟩ := List.mem_map.mp hlisted
      exact ⟨existing, hex, by simp [hid, hexid]⟩
    rw [if_pos hany]
    exact ⟨hg, rfl⟩
  · intro ampl update hpid
    unfold MagTool._feed
    simp only [hpid, if_true]

/-- C27, witness: the engine lists the amplitude `A5` under the pick `P5`;
feeding `A5` again with `update = false` leaves the index and returns false,
and after any two calls the list of `P5` still starts with `A5`. -/
theorem amplitude_index_no_duplicates_witness :
    (freshTool._feed evalApp s5Amplitude false).1.ampl = freshTool.ampl ∧
    (freshTool._feed evalApp s5Amplitude false).2 = false ∧
    (MagTool.runAmplitudeCalls evalApp
      [AmplitudeCall.feed s5Amplitude true, AmplitudeCall.store bhAmplitude false]
      freshTool).noDuplicateAmplitudes :=
  ⟨((amplitude_index_no_duplicates evalApp freshTool).2.1 s5Amplitude false
      (fun q hq => by cases hq) (by decide) (by decide)).1,
   ((amplitude_index_no_duplicates evalApp freshTool).2.1 s5Amplitude false
      (fun q hq => by cases hq) (by decide) (by decide)).2,
   ((amplitude_index_no_duplicates evalApp freshTool).1 _).2.1 (by
      intro p
      by_cases hp : "P5" = p
      · subst hp
        decide
      · simp [MagTool.amplitudesForPick, freshTool, hp])⟩

/-! ### Bindings of picks to origins -/

theorem getPick_orgs (app : App) (self : MagTool) (id : String) :
    (self.getPick app id).1.orgs = self.orgs := by
  unfold MagTool.getPick
  split
  · rfl
  · split
    · rfl
    · split <;> rfl

theorem bind_originsForPick (t : MagTool) (pickID pid : String) (origin : Nat) :
    (t.bind pickID origin).originsForPick pid =
      if pickID = pid then (t.originsForPick pid).map (fun old => old ++ [origin])
      else t.originsForPick pid := by
  by_cases h : pickID = pid
  · subst h
    rw [if_pos rfl]
    cases ho : t.originsForPick pickID with
    | none =>
      unfold MagTool.bind
      rw [ho]
      exact ho
    | some l => exact bind_originsForPick_self t pickID origin l ho
  · rw [if_neg h]
    exact bind_originsForPick_ne t pickID pid origin h

theorem createBinding_originsForPick (t : MagTool) (pickID pid : String) :
    (t.createBinding pickID).originsForPick pid =
      if pickID = pid ∧ t.originsForPick pid = none then some [] else t.originsForPick pid := by
  unfold MagTool.createBinding
  cases ho : t.originsForPick pickID with
  | some l =>
    simp only
    by_cases h : pickID = pid
    · subst h
      simp [ho]
    · simp [h]
  | none =>
    simp only
    by_cases h : pickID = pid
    · subst h
      rw [if_pos ⟨rfl, ho⟩]
      unfold MagTool.originsForPick
      exact StdMap.find_assign_self _ _ _
    · rw [if_neg (fun hc => h hc.1)]
      unfold MagTool.originsForPick
      exact StdMap.find_assign_ne _ _ _ _ h

/-- Without archive, one iteration of the arrival loop appends the origin to
the list of the arrival's pick id when that pick is cached and has a list. -/
theorem arrivalStep_originsForPick (app : App) (hq : app.query = none) (t : MagTool)
    (origin : Nat) (a : Arrival) (m : PickStreamMap) (pid : String) :
    (t.arrivalStep app origin a m).1.originsForPick pid =
      if a.pickID = pid ∧ (t.findPick pid).isSome = true then
        (t.originsForPick pid).map (fun old => old ++ [origin])
      else t.originsForPick pid := by
  unfold MagTool.arrivalStep
  rw [getPick_noquery app t a.pickID hq]
  have hb := bind_originsForPick t a.pickID pid origin
  cases hf : t.findPick a.pickID with
  | none =>
    have : ¬ (a.pickID = pid ∧ (t.findPick pid).isSome = true) := by
      rintro ⟨h1, h2⟩
      rw [← h1, hf] at h2
      cases h2
    rw [if_neg this]
  | some p =>
    have hres : (t.bind a.pickID origin).originsForPick pid =
        if a.pickID = pid ∧ (t.findPick pid).isSome = true then
          (t.originsForPick pid).map (fun old => old ++ [origin])
        else t.originsForPick pid := by
      rw [hb]
      by_cases h : a.pickID = pid
      · have h2 : (t.findPick pid).isSome = true := by
          rw [← h, hf]
          rfl
        rw [if_pos h, if_pos ⟨h, h2⟩]
      · rw [if_neg h, if_neg (fun hc => h hc.1)]
    simp only
    split
    · exact hres
    · split
      · exact hres
      · cases a.distance with
        | none => exact hres
        | some d => exact hres

/-- Without archive, an arrival loop that does not throw appends the origin to
the list of a pick id once for every arrival that references it, when the pick
is cached and has a list. -/
theorem arrivalLoop_originsForPick (app : App) (hq : app.query = none) (origin : Nat)
    (l : List Arrival) (t : MagTool) (m : PickStreamMap) (pid : String)
    (hret : (MagTool.arrivalLoop app origin l t m).2 ≠ none) :
    (MagTool.arrivalLoop app origin l t m).1.originsForPick pid =
      (t.originsForPick pid).map (fun old => old ++ List.replicate
        (if (t.findPick pid).isSome = true then l.countP (fun a => decide (a.pickID = pid))
          else 0) origin) := by
  induction l generalizing t m with
  | nil =>
    simp only [MagTool.arrivalLoop, List.countP_nil, ite_self, List.replicate_zero,
      List.append_nil, Option.map_id']
  | cons a rest ih =>
    have hs := arrivalStep_originsForPick app hq t origin a m pid
    obtain ⟨_, _, hc⟩ := arrivalStep_noquery app origin a t m hq
    unfold MagTool.arrivalLoop at hret ⊢
    rcases hr : t.arrivalStep app origin a m with ⟨t1, _ | m1⟩
    · rw [hr] at hret
      exact absurd rfl hret
    · rw [hr] at hret hs hc
      simp only at hret hs hc ⊢
      rw [ih t1 m1 hret, hs, findPick_congr hc]
      by_cases hf : (t.findPick pid).isSome = true
      · by_cases ha : a.pickID = pid
        · simp only [hf, ha, and_self, if_true, List.countP_cons, decide_True, Option.map_map]
          congr 1
          funext old
          simp only [Function.comp, List.append_assoc, List.replicate_succ,
            List.singleton_append]
        · simp only [hf, ha, false_and, if_false, if_true, List.countP_cons, decide_False,
            Bool.false_eq_true, Nat.add_zero]
      · simp only [hf, and_false, if_false, Bool.false_eq_true]

theorem selectStep_total (app : App) (minWeight : ℚ) (find : String → Option Pick) (a : Arrival)
    (m : PickStreamMap) (hd : app.validArrival a minWeight = true → a.distance ≠ none) :
    ∃ m1, selectStep app minWeight find a m = some m1 := by
  unfold selectStep
  cases find a.pickID with
  | none => exact ⟨m, rfl⟩
  | some pick =>
    simp only
    by_cases hv : app.validArrival a minWeight = true
    · simp only [hv, Bool.not_true, Bool.false_eq_true, if_false]
      split
      · exact ⟨m, rfl⟩
      · obtain ⟨d, hdd⟩ := Option.ne_none_iff_exists'.mp (hd hv)
        rw [hdd]
        exact ⟨_, rfl⟩
    · simp only [Bool.not_eq_true] at hv
      simp only [hv, Bool.not_false, if_true]
      exact ⟨m, rfl⟩

theorem selectPicks_total (app : App) (minWeight : ℚ) (find : String → Option Pick)
    (l : List Arrival) (m : PickStreamMap)
    (hd : ∀ a ∈ l, app.validArrival a minWeight = true → a.distance ≠ none) :
    ∃ m1, selectPicks app minWeight find l m = some m1 := by
  induction l generalizing m with
  | nil => exact ⟨m, rfl⟩
  | cons a rest ih =>
    obtain ⟨m1, h1⟩ := selectStep_total app minWeight find a m (hd a (List.mem_cons_self _ _))
    unfold selectPicks
    rw [h1]
    exact ih m1 (fun b hb => hd b (List.mem_cons_of_mem _ hb))

theorem processSelected_flag (app : App) (t : MagTool) (depth : ℚ) (m : PickStreamMap)
    (c : OriginCtx) :
    (t.processSelected app depth m c).2 = none ∨ (t.processSelected app depth m c).2 = some true := by
  unfold MagTool.processSelected
  rcases t.pickStreamLoop app depth m c [] with ⟨c1, _ | magTypes⟩
  · exact Or.inl rfl
  · simp only
    rcases t.computeSummaryMagnitude app (magTypes.foldl (t.networkMagnitudeStep app) c1) with
      _ | ⟨b, c3⟩
    · exact Or.inl rfl
    · exact Or.inr rfl

/-- Without archive, on an origin with depth whose valid arrivals carry a
distance, `processOrigin` leaves the bindings the arrival loop leaves: the
origin is appended to the list of a pick id once for every arrival that
references it, when the pick is cached and has a list. -/
theorem processOrigin_originsForPick (app : App) (hq : app.query = none) (s : MagTool)
    (origin : Nat) (o : Origin) (depth : ℚ)
    (ho : s.heap[origin]? = some o) (hd : o.depth = some depth)
    (hdist : ∀ a ∈ o.arrivals, app.validArrival a s.minimumArrivalWeight = true →
      a.distance ≠ none) (pid : String) :
    (s.processOrigin app origin).2 ≠ some false ∧
    (s.processOrigin app origin).1.originsForPick pid =
      (s.originsForPick pid).map (fun old => old ++ List.replicate
        (if (s.findPick pid).isSome = true then
          o.arrivals.countP (fun a => decide (a.pickID = pid)) else 0) origin) := by
  obtain ⟨m, hm⟩ := selectPicks_total app s.minimumArrivalWeight s.findPick o.arrivals [] hdist
  obtain ⟨h1, h2⟩ := processOrigin_noquery_arrivalLoop app hq s origin o depth m ho hd hm
  have h3 := arrivalLoop_originsForPick app hq origin o.arrivals s [] pid
    (by rw [h1]; exact fun h => by cases h)
  rw [h2]
  refine ⟨?_, h3⟩
  rcases processSelected_flag app (MagTool.arrivalLoop app origin o.arrivals s []).1 depth m
    ⟨o, s.registry⟩ with h | h
  · simp only [h]
    exact fun hc => by cases hc
  · simp only [h]
    exact fun hc => by cases hc

/-- C26 (counterexample). The origin `O7` has its depth set; its first arrival
references the cached pick `P5`, its second arrival the pick `P6`, which is
neither cached nor bound, and there is no archive. `processOrigin` returns true
and binds the origin to `P5`; the arrival of `P6` is skipped before `bind`
(lines 930-934), and `origins_for_pick(P6)` stays absent. -/
theorem processOrigin_unknown_pick_unbound :
    twoStationOrigin.arrivals.map (fun a => a.pickID) = ["P5", "P6"] ∧
    twoStationOrigin.depth = some 10 ∧
    (unknownPickTool.processOrigin evalApp 0).2 = some true ∧
    (unknownPickTool.processOrigin evalApp 0).1.originsForPick "P5" = some [0] ∧
    (unknownPickTool.processOrigin evalApp 0).1.originsForPick "P6" = none := by
  refine ⟨?_, ?_, ?_, ?_, ?_⟩ <;> decide!

/-- C26 (amended). No archive; the origin has its depth set and its valid
arrivals carry a distance. After `processOrigin`, for every arrival of the
origin, valid or not, whose pick is cached and has a list of origins (the pick
was fed), `origins_for_pick` of its pick id contains the origin. The list of a
pick id that is not cached, or to which no arrival refers, is what it was, and
a pick id without list stays without list. -/
theorem processOrigin_binds (app : App) (hq : app.query = none) (s : MagTool)
    (origin : Nat) (o : Origin) (depth : ℚ)
    (ho : s.heap[origin]? = some o) (hd : o.depth = some depth)
    (hdist : ∀ a ∈ o.arrivals, app.validArrival a s.minimumArrivalWeight = true →
      a.distance ≠ none) :
    (∀ a ∈ o.arrivals, ∀ (pick : Pick) (l : List Nat),
      s.findPick a.pickID = some pick → s.originsForPick a.pickID = some l →
      ∃ l1, (s.processOrigin app origin).1.originsForPick a.pickID = some l1 ∧ origin ∈ l1) ∧
    (∀ pid, (s.findPick pid = none ∨ ∀ a ∈ o.arrivals, a.pickID ≠ pid) →
      (s.processOrigin app origin).1.originsForPick pid = s.originsForPick pid) ∧
    (∀ pid, s.originsForPick pid = none →
      (s.processOrigin app origin).1.originsForPick pid = none) := by
  refine ⟨?_, ?_, ?_⟩
  · intro a ha pick l hpick hl
    rw [(processOrigin_originsForPick app hq s origin o depth ho hd hdist a.pickID).2, hl, hpick]
    refine ⟨_, rfl, ?_⟩
    have : 0 < o.arrivals.countP (fun b => decide (b.pickID = a.pickID)) :=
      List.countP_pos.mpr ⟨a, ha, by simp⟩
    simp only [Option.isSome_some, if_true]
    exact List.mem_append_right _ (List.mem_replicate.mpr ⟨by omega, rfl⟩)
  · intro pid h
    rw [(processOrigin_originsForPick app hq s origin o depth ho hd hdist pid).2]
    have hzero : (if (s.findPick pid).isSome = true then
        o.arrivals.countP (fun a => decide (a.pickID = pid)) else 0) = 0 := by
      rcases h with h | h
      · rw [h]
        rfl
      · have : o.arrivals.countP (fun a => decide (a.pickID = pid)) = 0 := by
          rw [List.countP_eq_zero]
          intro a ha
          simpa using h a ha
        rw [this]
        simp
    rw [hzero]
    simp
  · intro pid h
    rw [(processOrigin_originsForPick app hq s origin o depth ho hd hdist pid).2, h]
    rfl

/-- C26, witness: the second arrival of the origin `O4` has the weight 0.1,
below the minimum 0.5; its pick `P2` is cached and has an empty list. After
`processOrigin` the list of `P2` contains the origin. -/
theorem processOrigin_binds_witness :
    evalApp.validArrival { pickID := "P2", distance := some 1, weight := some (1/10) }
      lowWeightTool.minimumArrivalWeight = false ∧
    ∃ l1, (lowWeightTool.processOrigin evalApp 0).1.originsForPick "P2" = some l1 ∧ 0 ∈ l1 :=
  ⟨by decide!,
   (processOrigin_binds evalApp rfl lowWeightTool 0 lowWeightOrigin 10 rfl rfl
      (by
        intro a ha _
        simp only [lowWeightOrigin, List.mem_cons, List.mem_singleton, List.not_mem_nil,
          or_false] at ha
        rcases ha with h | h <;> subst h <;> decide)).1
      { pickID := "P2", distance := some 1, weight := some (1/10) }
      (by simp [lowWeightOrigin]) hhPick [] (by decide) (by decide)⟩

/-- C30 (counterexample). Starting from the empty engine, the pick `P5` is fed,
then the origin `O5`, whose one arrival references `P5`, is fed twice. Every
call returns true. After the first feed of the origin the list of `P5` is
`[O5]`, after the second feed it is `[O5, O5]`: `processOrigin` calls `bind`
for the arrival again and `bind` appends without looking at the list. -/
theorem feedOrigin_twice_binds_twice :
    (startTool.feedPick evalApp s5Pick).2 = true ∧
    ((startTool.feedPick evalApp s5Pick).1.feedOrigin evalApp 0).2 = some true ∧
    ((startTool.feedPick evalApp s5Pick).1.feedOrigin evalApp 0).1.originsForPick "P5" =
      some [0] ∧
    (((startTool.feedPick evalApp s5Pick).1.feedOrigin evalApp 0).1.feedOrigin evalApp 0).2 =
      some true ∧
    (((startTool.feedPick evalApp s5Pick).1.feedOrigin evalApp 0).1.feedOrigin
      evalApp 0).1.originsForPick "P5" = some [0, 0] := by
  refine ⟨?_, ?_, ?_, ?_, ?_⟩ <;> decide!

/-- C30 (amended). (1) `createBinding(p)` creates an empty list when `p` has
none and leaves every existing list as it is. (2) `bind(p, origin)` changes
nothing when `p` has no list, and otherwise appends the origin to the list of
`p`, whether the list holds it or not, leaving the other lists. (3)
`feed(Pick*)` leaves every list, or creates an empty one for a pick id without
list. (4) Without archive, `processOrigin` on an origin with depth whose valid
arrivals carry a distance, and `feed(Origin*)` of such an origin that is
neither blocked, a duplicate nor rejected and has arrivals, append the origin
to the list of a cached pick once for each arrival that references the pick,
at every call. -/
theorem bindings_append (app : App) (self : MagTool) :
    (∀ pickID pid : String,
      (self.createBinding pickID).originsForPick pid =
        if pickID = pid ∧ self.originsForPick pid = none then some []
        else self.originsForPick pid) ∧
    (∀ (pickID : String) (origin : Nat), self.originsForPick pickID = none →
      self.bind pickID origin = self) ∧
    (∀ (pickID pid : String) (origin : Nat),
      (self.bind pickID origin).originsForPick pid =
        if pickID = pid then (self.originsForPick pid).map (fun old => old ++ [origin])
        else self.originsForPick pid) ∧
    (∀ (pick : Pick) (pid : String),
      (self.feedPick app pick).1.originsForPick pid = self.originsForPick pid ∨
      (self.originsForPick pid = none ∧
        (self.feedPick app pick).1.originsForPick pid = some [])) ∧
    (app.query = none → ∀ (origin : Nat) (o : Origin) (depth : ℚ),
      self.heap[origin]? = some o → o.depth = some depth →
      (∀ a ∈ o.arrivals, app.validArrival a self.minimumArrivalWeight = true →
        a.distance ≠ none) →
      (∀ pid : String,
        (self.processOrigin app origin).1.originsForPick pid =
          (self.originsForPick pid).map (fun old => old ++ List.replicate
            (if (self.findPick pid).isSome = true then
              o.arrivals.countP (fun a => decide (a.pickID = pid)) else 0) origin)) ∧
      (¬ app.isAgencyIDBlocked (objectAgencyID o.creationInfo) = true →
        (self.findOrigin o.publicID = none ∨ self.findOrigin o.publicID = some origin) →
        ¬ o.evaluationStatus = some EvaluationStatus.REJECTED → ¬ o.arrivals.length = 0 →
        ∀ pid : String,
          (self.feedOrigin app origin).1.originsForPick pid =
            (self.originsForPick pid).map (fun old => old ++ List.replicate
              (if ((self.cacheFeed (CachedObject.origin origin)).findPick pid).isSome = true then
                o.arrivals.countP (fun a => decide (a.pickID = pid)) else 0) origin))) := by
  refine ⟨?_, ?_, ?_, ?_, ?_⟩
  · intro pickID pid
    exact createBinding_originsForPick self pickID pid
  · intro pickID origin h
    unfold MagTool.bind
    rw [h]
  · intro pickID pid origin
    exact bind_originsForPick self pickID pid origin
  · intro pick pid
    unfold MagTool.feedPick
    split
    · exact Or.inl rfl
    · simp only
      have h := createBinding_originsForPick (self.cacheFeed (CachedObject.pick pick))
        pick.publicID pid
      have hc : (self.cacheFeed (CachedObject.pick pick)).originsForPick pid =
          self.originsForPick pid := rfl
      rw [hc] at h
      by_cases hn : pick.publicID = pid ∧ self.originsForPick pid = none
      · rw [if_pos hn] at h
        exact Or.inr ⟨hn.2, h⟩
      · rw [if_neg hn] at h
        exact Or.inl h
  · intro hq origin o depth ho hd hdist
    refine ⟨?_, ?_⟩
    · intro pid
      exact (processOrigin_originsForPick app hq self origin o depth ho hd hdist pid).2
    · intro hb hf hr ha pid
      rw [(feedOrigin_first app hq self origin o ho hb hf hr ha).1]
      exact (processOrigin_originsForPick app hq (self.cacheFeed (CachedObject.origin origin))
        origin o depth ho hd hdist pid).2

/-- C30, witness: in scenario S5 the pick `P5` is bound to the origin `O5`;
`processOrigin` on `O5` appends it again. -/
theorem bindings_append_witness :
    s5Tool.originsForPick "P5" = some [0] ∧
    (s5Tool.processOrigin evalApp 0).1.originsForPick "P5" = some [0, 0] := by
  have h := ((bindings_append evalApp s5Tool).2.2.2.2 rfl 0 s5Origin 10 rfl rfl
    (by
      intro a ha _
      simp only [s5Origin, List.mem_singleton] at ha
      subst ha
      decide)).1 "P5"
  refine ⟨by decide, ?_⟩
  rw [h]
  decide

/-! ### The pick selected per abstract stream -/

/-- One iteration of the selection keeps the two properties of the map: every
entry comes from a visited valid arrival with its pick, key and distance, and
every visited valid arrival with a pick has an entry under the key of its pick
that is not later. -/
theorem selectStep_inv (app : App) (minWeight : ℚ) (find : String → Option Pick)
    (seen : List Arrival) (a : Arrival) (m m1 : PickStreamMap)
    (h1 : ∀ key e, StdMap.find m key = some e →
      ∃ b ∈ seen, app.validArrival b minWeight = true ∧ find b.pickID = some e.1 ∧
        abstractStream e.1.waveformID = key ∧ b.distance = some e.2)
    (h2 : ∀ b ∈ seen, ∀ p, app.validArrival b minWeight = true → find b.pickID = some p →
      ∃ e, StdMap.find m (abstractStream p.waveformID) = some e ∧ e.1.time ≤ p.time)
    (hs : selectStep app minWeight find a m = some m1) :
    (∀ key e, StdMap.find m1 key = some e →
      ∃ b ∈ seen ++ [a], app.validArrival b minWeight = true ∧ find b.pickID = some e.1 ∧
        abstractStream e.1.waveformID = key ∧ b.distance = some e.2) ∧
    (∀ b ∈ seen ++ [a], ∀ p, app.validArrival b minWeight = true → find b.pickID = some p →
      ∃ e, StdMap.find m1 (abstractStream p.waveformID) = some e ∧ e.1.time ≤ p.time) := by
  have keep1 : ∀ key e, StdMap.find m key = some e →
      ∃ b ∈ seen ++ [a], app.validArrival b minWeight = true ∧ find b.pickID = some e.1 ∧
        abstractStream e.1.waveformID = key ∧ b.distance = some e.2 := by
    intro key e he
    obtain ⟨b, hb, r⟩ := h1 key e he
    exact ⟨b, List.mem_append_left _ hb, r⟩
  unfold selectStep at hs
  cases hf : find a.pickID with
  | none =>
    rw [hf] at hs
    simp only [Option.some.injEq] at hs
    subst hs
    refine ⟨keep1, ?_⟩
    intro b hb p hv hp
    rcases List.mem_append.mp hb with hb | hb
    · exact h2 b hb p hv hp
    · simp only [List.mem_singleton] at hb
      subst hb
      rw [hf] at hp
      cases hp
  | some pick =>
    rw [hf] at hs
    simp only at hs
    by_cases hv : app.validArrival a minWeight = true
    · simp only [hv, Bool.not_true, Bool.false_eq_true, if_false] at hs
      by_cases hearlier : (match StdMap.find m (abstractStream pick.waveformID) with
          | some e => decide (e.1.time < pick.time)
          | none => false) = true
      · rw [if_pos hearlier] at hs
        simp only [Option.some.injEq] at hs
        subst hs
        refine ⟨keep1, ?_⟩
        intro b hb p hvb hp
        rcases List.mem_append.mp hb with hb | hb
        · exact h2 b hb p hvb hp
        · simp only [List.mem_singleton] at hb
          subst hb
          rw [hf] at hp
          simp only [Option.some.injEq] at hp
          subst hp
          cases he : StdMap.find m (abstractStream pick.waveformID) with
          | none =>
            rw [he] at hearlier
            cases hearlier
          | some e =>
            rw [he] at hearlier
            simp only [decide_eq_true_eq] at hearlier
            exact ⟨e, rfl, le_of_lt hearlier⟩
      · rw [if_neg hearlier] at hs
        cases hd : a.distance with
        | none =>
          rw [hd] at hs
          cases hs
        | some d =>
          rw [hd] at hs
          simp only [Option.some.injEq] at hs
          subst hs
          refine ⟨?_, ?_⟩
          · intro key e he
            by_cases hk : abstractStream pick.waveformID = key
            · subst hk
              rw [StdMap.find_assign_self] at he
              simp only [Option.some.injEq] at he
              subst he
              exact ⟨a, List.mem_append_right _ (List.mem_singleton.mpr rfl), hv, hf, rfl, hd⟩
            · rw [StdMap.find_assign_ne _ _ _ _ hk] at he
              exact keep1 key e he
          · intro b hb p hvb hp
            by_cases hk : abstractStream pick.waveformID = abstractStream p.waveformID
            · rw [← hk, StdMap.find_assign_self]
              refine ⟨(pick, d), rfl, ?_⟩
              rcases List.mem_append.mp hb with hb | hb
              · obtain ⟨e, he, hle⟩ := h2 b hb p hvb hp
                rw [← hk] at he
                rw [he] at hearlier
                simp only [decide_eq_true_eq, not_lt] at hearlier
                exact le_trans hearlier hle
              · simp only [List.mem_singleton] at hb
                subst hb
                rw [hf] at hp
                simp only [Option.some.injEq] at hp
                subst hp
                exact le_refl _
            · rw [StdMap.find_assign_ne _ _ _ _ hk]
              rcases List.mem_append.mp hb with hb | hb
              · exact h2 b hb p hvb hp
              · simp only [List.mem_singleton] at hb
                subst hb
                rw [hf] at hp
                simp only [Option.some.injEq] at hp
                subst hp
                exact absurd rfl hk
    · simp only [Bool.not_eq_true] at hv
      simp only [hv, Bool.not_false, if_true, Option.some.injEq] at hs
      subst hs
      refine ⟨keep1, ?_⟩
      intro b hb p hvb hp
      rcases List.mem_append.mp hb with hb | hb
      · exact h2 b hb p hvb hp
      · simp only [List.mem_singleton] at hb
        subst hb
        rw [hv] at hvb
        cases hvb

theorem selectPicks_inv (app : App) (minWeight : ℚ) (find : String → Option Pick)
    (l seen : List Arrival) (m m1 : PickStreamMap)
    (h1 : ∀ key e, StdMap.find m key = some e →
      ∃ b ∈ seen, app.validArrival b minWeight = true ∧ find b.pickID = some e.1 ∧
        abstractStream e.1.waveformID = key ∧ b.distance = some e.2)
    (h2 : ∀ b ∈ seen, ∀ p, app.validArrival b minWeight = true → find b.pickID = some p →
      ∃ e, StdMap.find m (abstractStream p.waveformID) = some e ∧ e.1.time ≤ p.time)
    (hs : selectPicks app minWeight find l m = some m1) :
    (∀ key e, StdMap.find m1 key = some e →
      ∃ b ∈ seen ++ l, app.validArrival b minWeight = true ∧ find b.pickID = some e.1 ∧
        abstractStream e.1.waveformID = key ∧ b.distance = some e.2) ∧
    (∀ b ∈ seen ++ l, ∀ p, app.validArrival b minWeight = true → find b.pickID = some p →
      ∃ e, StdMap.find m1 (abstractStream p.waveformID) = some e ∧ e.1.time ≤ p.time) := by
  induction l generalizing seen m with
  | nil =>
    simp only [selectPicks, Option.some.injEq] at hs
    subst hs
    simp only [List.append_nil]
    exact ⟨h1, h2⟩
  | cons a rest ih =>
    unfold selectPicks at hs
    cases hstep : selectStep app minWeight find a m with
    | none =>
      rw [hstep] at hs
      cases hs
    | some m2 =>
      rw [hstep] at hs
      simp only at hs
      obtain ⟨g1, g2⟩ := selectStep_inv app minWeight find seen a m m2 h1 h2 hstep
      have := ih (seen ++ [a]) m2 g1 g2 hs
      simpa only [List.append_assoc, List.singleton_append] using this

/-- The map the selection builds from the empty map: every entry is the pick
and the distance of a valid arrival with that pick, under the abstract stream
of the pick, and under the abstract stream of the pick of every valid arrival
there is an entry whose pick is not later. -/
theorem selectPicks_earliest (app : App) (minWeight : ℚ) (find : String → Option Pick)
    (l : List Arrival) (m : PickStreamMap)
    (hs : selectPicks app minWeight find l [] = some m) :
    (∀ key e, StdMap.find m key = some e →
      ∃ b ∈ l, app.validArrival b minWeight = true ∧ find b.pickID = some e.1 ∧
        abstractStream e.1.waveformID = key ∧ b.distance = some e.2) ∧
    (∀ b ∈ l, ∀ p, app.validArrival b minWeight = true → find b.pickID = some p →
      ∃ e, StdMap.find m (abstractStream p.waveformID) = some e ∧ e.1.time ≤ p.time) := by
  have := selectPicks_inv app minWeight find l [] [] m
    (by intro key e he; cases he) (by intro b hb; cases hb) hs
  simpa only [List.nil_append] using this

theorem findSome?_filter_of_none {α β : Type} (f : α → Option β) (P : α → Bool) (l : List α)
    (h : ∀ x ∈ l, P x = false → f x = none) :
    (l.filter P).findSome? f = l.findSome? f := by
  induction l with
  | nil => rfl
  | cons x rest ih =>
    have ih1 := ih (fun y hy => h y (List.mem_cons_of_mem _ hy))
    by_cases hp : P x = true
    · simp only [List.filter_cons, hp, if_true, List.findSome?_cons, ih1]
    · simp only [Bool.not_eq_true] at hp
      simp only [List.filter_cons, hp, Bool.false_eq_true, if_false, List.findSome?_cons,
        h x (List.mem_cons_self _ _) hp, ih1]

/-- Entering a pick that was not cached, under its own public id, leaves the
lookup of every other id and makes the lookup of its id yield it. -/
theorem findPick_cacheFeed_pick (t : MagTool) (p : Pick) (id : String) :
    (t.cacheFeed (CachedObject.pick p)).findPick id =
      if p.publicID = id then some p else t.findPick id := by
  unfold MagTool.findPick MagTool.cacheFeed
  simp only [List.findSome?_append]
  by_cases h : p.publicID = id
  · rw [if_pos h]
    have hnone : List.findSome? (fun o : CachedObject =>
        match o with
        | CachedObject.pick q => if q.publicID = id then some q else none
        | _ => none)
        (t.objectCache.filter (fun o =>
          decide (t.cachedPublicID o ≠ t.cachedPublicID (CachedObject.pick p)))) = none := by
      rw [List.findSome?_eq_none_iff]
      intro x hx
      have hx2 := (List.mem_filter.mp hx).2
      cases x with
      | pick q =>
        simp only [MagTool.cachedPublicID, ne_eq, Option.some.injEq, decide_not,
          Bool.not_eq_eq_eq_not, Bool.not_true, decide_eq_false_iff_not] at hx2
        simp only
        rw [if_neg (fun hq => hx2 (hq.trans h.symm))]
      | amplitude a => rfl
      | origin ptr => rfl
    rw [hnone]
    simp [h]
  · rw [if_neg h]
    rw [findSome?_filter_of_none]
    · simp [h]
    · intro x _ hx
      cases x with
      | pick q =>
        simp only [MagTool.cachedPublicID, ne_eq, Option.some.injEq, decide_not,
          Bool.not_eq_eq_eq_not, Bool.not_false, decide_eq_true_eq] at hx
        simp only
        rw [if_neg (fun hq => h (hx.symm.trans hq))]
      | amplitude a => rfl
      | origin ptr => rfl

theorem lookupPick_getPick (app : App) (harch : archivePickIds app) (t : MagTool)
    (id id1 : String) :
    (t.getPick app id).1.lookupPick app id1 = t.lookupPick app id1 := by
  unfold MagTool.lookupPick
  cases hf : t.findPick id with
  | some p0 =>
    have : t.getPick app id = (t, some p0) := by
      unfold MagTool.getPick
      rw [hf]
    rw [this]
  | none =>
    cases hq : app.query with
    | none =>
      have : t.getPick app id = (t, none) := by
        unfold MagTool.getPick
        rw [hf]
        simp only [hq]
      rw [this]
    | some q =>
      cases hg : q.getPick id with
      | none =>
        have : t.getPick app id = (t, none) := by
          unfold MagTool.getPick
          rw [hf]
          simp only [hq, hg]
        rw [this]
      | some p =>
        have hst : t.getPick app id = (t.cacheFeed (CachedObject.pick p), some p) := by
          unfold MagTool.getPick
          rw [hf]
          simp only [hq, hg]
        have hid := harch q hq id p hg
        rw [hst]
        simp only
        unfold MagTool.getPick
        rw [findPick_cacheFeed_pick, hid]
        by_cases h : id = id1
        · subst h
          simp only [if_true, hf, hq, hg]
        · simp only [if_neg h]
          cases t.findPick id1 with
          | some p1 => rfl
          | none =>
            simp only [hq]
            cases q.getPick id1 <;> rfl

theorem lookupPick_bind (app : App) (t : MagTool) (pickID : String) (origin : Nat)
    (id1 : String) : (t.bind pickID origin).lookupPick app id1 = t.lookupPick app id1 := by
  have hfp : (t.bind pickID origin).findPick = t.findPick :=
    findPick_congr (bind_objectCache t pickID origin)
  have hcache := bind_objectCache t pickID origin
  unfold MagTool.lookupPick MagTool.getPick
  rw [hfp]
  cases t.findPick id1 with
  | some p => rfl
  | none =>
    simp only
    cases app.query with
    | none => rfl
    | some q =>
      simp only
      cases q.getPick id1 <;> rfl

theorem getPick_minimumArrivalWeight (app : App) (self : MagTool) (id : String) :
    (self.getPick app id).1.minimumArrivalWeight = self.minimumArrivalWeight := by
  unfold MagTool.getPick
  split
  · rfl
  · split
    · rfl
    · split <;> rfl

theorem bind_minimumArrivalWeight (self : MagTool) (pickID : String) (origin : Nat) :
    (self.bind pickID origin).minimumArrivalWeight = self.minimumArrivalWeight := by
  unfold MagTool.bind
  split <;> rfl

/-- One iteration of the arrival loop builds the map of the selection over the
lookup of the cache, and leaves that lookup as it is. -/
theorem arrivalStep_lookup (app : App) (harch : archivePickIds app) (t : MagTool)
    (origin : Nat) (arr : Arrival) (m : PickStreamMap) :
    (t.arrivalStep app origin arr m).2 =
      selectStep app t.minimumArrivalWeight (t.lookupPick app) arr m ∧
    (∀ id1, (t.arrivalStep app origin arr m).1.lookupPick app id1 = t.lookupPick app id1) ∧
    (t.arrivalStep app origin arr m).1.minimumArrivalWeight = t.minimumArrivalWeight := by
  have hl := lookupPick_getPick app harch t arr.pickID
  have hw := getPick_minimumArrivalWeight app t arr.pickID
  unfold MagTool.arrivalStep selectStep
  have hlook : t.lookupPick app arr.pickID = (t.getPick app arr.pickID).2 := rfl
  rw [hlook]
  rcases hr : t.getPick app arr.pickID with ⟨t1, _ | pick⟩
  · rw [hr] at hl hw
    exact ⟨rfl, hl, hw⟩
  · rw [hr] at hl hw
    simp only at hl hw ⊢
    have hb : ∀ id1, (t1.bind arr.pickID origin).lookupPick app id1 = t.lookupPick app id1 := by
      intro id1
      rw [lookupPick_bind, hl]
    have hbw : (t1.bind arr.pickID origin).minimumArrivalWeight = t.minimumArrivalWeight := by
      rw [bind_minimumArrivalWeight, hw]
    split
    · exact ⟨rfl, hb, hbw⟩
    · split
      · exact ⟨rfl, hb, hbw⟩
      · cases arr.distance with
        | none => exact ⟨rfl, hb, hbw⟩
        | some d => exact ⟨rfl, hb, hbw⟩

/-- The map the arrival loop builds is the selection over the lookup of the
cache in the state the loop starts from. -/
theorem arrivalLoop_lookup (app : App) (harch : archivePickIds app) (origin : Nat)
    (arrivals : List Arrival) (t : MagTool) (m : PickStreamMap) :
    (MagTool.arrivalLoop app origin arrivals t m).2 =
      selectPicks app t.minimumArrivalWeight (t.lookupPick app) arrivals m := by
  induction arrivals generalizing t m with
  | nil => rfl
  | cons arr rest ih =>
    obtain ⟨s1, s2, s3⟩ := arrivalStep_lookup app harch t origin arr m
    unfold MagTool.arrivalLoop selectPicks
    rw [← s1]
    rcases hstep : t.arrivalStep app origin arr m with ⟨t1, _ | m1⟩
    · rfl
    · rw [hstep] at s2 s3
      simp only at s2 s3 ⊢
      rw [ih t1 m1, s3]
      have : t1.lookupPick app = t.lookupPick app := funext s2
      rw [this]

/-- After the retrieval of missing picks, `processOrigin` on an origin with
depth runs the arrival loop; when the loop returns a map, the selected picks
are processed with that map and the origin is written back. -/
theorem processOrigin_arrivalLoop (app : App) (s : MagTool) (origin : Nat) (o : Origin)
    (depth : ℚ) (s2 : MagTool) (m : PickStreamMap)
    (ho : s.heap[origin]? = some o) (hd : o.depth = some depth)
    (hloop : MagTool.arrivalLoop app origin o.arrivals
      (s.retrieveMissingPicksAndArrivalsFromDB app origin) [] = (s2, some m)) :
    s.processOrigin app origin =
      (s2.store origin (s2.processSelected app depth m ⟨o, s2.registry⟩).1,
        (s2.processSelected app depth m ⟨o, s2.registry⟩).2) := by
  have h1 := retrieveMissingPicksAndArrivalsFromDB_heap app s origin
  have a4 := arrivalLoop_heap app origin o.arrivals
    (s.retrieveMissingPicksAndArrivalsFromDB app origin) []
  rw [hloop] at a4
  simp only at a4
  unfold MagTool.processOrigin
  simp only [h1, ho, hd, hloop]
  have hctx : s2.ctx origin = some ⟨o, s2.registry⟩ := by
    unfold MagTool.ctx
    rw [a4, h1, ho]
    rfl
  simp only [hctx]

/-- C25 (earliest pick per abstract stream). Let `s1` be the engine after the
retrieval of missing picks at the start of `processOrigin`, the origin having
its depth set, and let the archive, if any, return for a public id a pick with
that id. (1) When the arrival loop returns the map `m`, the selected picks are
processed with `m`, and: every entry of `m` under a key is the pick of a valid
arrival of the origin whose pick the cache yields, that pick has the abstract
stream `network.station.location.channel[0:2]` equal to the key, and the
distance of the entry is the distance of that arrival; for every valid arrival
of the origin whose pick `p` the cache yields there is an entry under the
abstract stream of `p`, and the time of its pick is not later than the time of
`p`. (2) When every valid arrival of the origin carries a distance, the arrival
loop returns a map. -/
theorem processOrigin_earliest_pick (app : App) (harch : archivePickIds app) (s : MagTool)
    (origin : Nat) (o : Origin) (depth : ℚ)
    (ho : s.heap[origin]? = some o) (hd : o.depth = some depth) :
    (∀ (s2 : MagTool) (m : PickStreamMap),
      MagTool.arrivalLoop app origin o.arrivals
        (s.retrieveMissingPicksAndArrivalsFromDB app origin) [] = (s2, some m) →
      s.processOrigin app origin =
        (s2.store origin (s2.processSelected app depth m ⟨o, s2.registry⟩).1,
          (s2.processSelected app depth m ⟨o, s2.registry⟩).2) ∧
      (∀ key e, StdMap.find m key = some e →
        ∃ a ∈ o.arrivals,
          app.validArrival a
            (s.retrieveMissingPicksAndArrivalsFromDB app origin).minimumArrivalWeight = true ∧
          (s.retrieveMissingPicksAndArrivalsFromDB app origin).lookupPick app a.pickID =
            some e.1 ∧
          abstractStream e.1.waveformID = key ∧ a.distance = some e.2) ∧
      (∀ a ∈ o.arrivals, ∀ p,
        app.validArrival a
          (s.retrieveMissingPicksAndArrivalsFromDB app origin).minimumArrivalWeight = true →
        (s.retrieveMissingPicksAndArrivalsFromDB app origin).lookupPick app a.pickID = some p →
        ∃ e, StdMap.find m (abstractStream p.waveformID) = some e ∧ e.1.time ≤ p.time)) ∧
    ((∀ a ∈ o.arrivals,
        app.validArrival a
          (s.retrieveMissingPicksAndArrivalsFromDB app origin).minimumArrivalWeight = true →
        a.distance ≠ none) →
      ∃ (s2 : MagTool) (m : PickStreamMap),
        MagTool.arrivalLoop app origin o.arrivals
          (s.retrieveMissingPicksAndArrivalsFromDB app origin) [] = (s2, some m)) := by
  have hsel := arrivalLoop_lookup app harch origin o.arrivals
    (s.retrieveMissingPicksAndArrivalsFromDB app origin) []
  refine ⟨?_, ?_⟩
  · intro s2 m hloop
    rw [hloop] at hsel
    simp only at hsel
    obtain ⟨g1, g2⟩ := selectPicks_earliest app _ _ o.arrivals m hsel.symm
    exact ⟨processOrigin_arrivalLoop app s origin o depth s2 m ho hd hloop, g1, g2⟩
  · intro hdist
    obtain ⟨m, hm⟩ := selectPicks_total app
      (s.retrieveMissingPicksAndArrivalsFromDB app origin).minimumArrivalWeight
      ((s.retrieveMissingPicksAndArrivalsFromDB app origin).lookupPick app) o.arrivals [] hdist
    rw [hm] at hsel
    rcases hr : MagTool.arrivalLoop app origin o.arrivals
      (s.retrieveMissingPicksAndArrivalsFromDB app origin) [] with ⟨s2, r⟩
    rw [hr] at hsel
    simp only at hsel
    exact ⟨s2, m, by rw [hsel]⟩

/-- C25, witness: the origin `O3` has two valid arrivals on the abstract streams
`GE.A..BH` and `GE.A..HH`, both picks cached, both distances set: the arrival
loop returns a map. -/
theorem processOrigin_earliest_pick_witness :
    ∃ (s2 : MagTool) (m : PickStreamMap),
      MagTool.arrivalLoop evalApp 0 twoBandOrigin.arrivals
        (twoBandTool.retrieveMissingPicksAndArrivalsFromDB evalApp 0) [] = (s2, some m) :=
  (processOrigin_earliest_pick evalApp (fun q hq => by cases hq) twoBandTool 0 twoBandOrigin 10
    rfl rfl).2
    (by
      intro a ha _
      simp only [twoBandOrigin, List.mem_cons, List.mem_singleton, List.not_mem_nil,
        or_false] at ha
      rcases ha with h | h <;> subst h <;> decide)

/-! ### The contribution of a station magnitude -/

theorem upsertContribution_find_self (cs : List StationMagnitudeContribution) (id : String)
    (w : ℚ) :
    ∃ r, (upsertContribution cs id w).find? (fun r => decide (r.stationMagnitudeID = id)) = some r ∧
      r.weight.getD (-1) = w ∧ (w ≠ -1 → r.weight = some w) := by
  induction cs with
  | nil =>
    exact ⟨{ stationMagnitudeID := id, weight := some w }, by simp [upsertContribution], rfl,
      fun _ => rfl⟩
  | cons x rest ih =>
    by_cases hx : x.stationMagnitudeID = id
    · by_cases hw : x.weight.getD (-1) ≠ w
      · refine ⟨{ x with weight := some w }, ?_, rfl, fun _ => rfl⟩
        simp [upsertContribution, hx, hw]
      · have hw' : x.weight.getD (-1) = w := by simpa using hw
        refine ⟨x, ?_, hw', ?_⟩
        · simp [upsertContribution, hx, hw']
        · intro hne
          cases hxw : x.weight with
          | none =>
            rw [hxw] at hw'
            exact absurd hw'.symm hne
          | some v =>
            rw [hxw] at hw'
            simp only [Option.getD_some] at hw'
            rw [hw']
    · obtain ⟨r, hr1, hr2, hr3⟩ := ih
      refine ⟨r, ?_, hr2, hr3⟩
      simp only [upsertContribution, hx, if_false]
      rw [List.find?_cons_of_neg _ (by simpa using hx)]
      exact hr1

theorem upsertContribution_find_ne (cs : List StationMagnitudeContribution) (id id1 : String)
    (w : ℚ) (hne : id1 ≠ id) :
    (upsertContribution cs id w).find? (fun r => decide (r.stationMagnitudeID = id1)) =
      cs.find? (fun r => decide (r.stationMagnitudeID = id1)) := by
  induction cs with
  | nil =>
    simp only [upsertContribution, List.find?_nil]
    rw [List.find?_cons_of_neg _ (by simpa using fun e => hne e.symm)]
    rfl
  | cons x rest ih =>
    by_cases hx : x.stationMagnitudeID = id
    · have hx1 : ¬ x.stationMagnitudeID = id1 := fun e => hne (e.symm.trans hx)
      simp only [upsertContribution, hx, if_true]
      have hid : ¬ id = id1 := fun e => hne e.symm
      rw [List.find?_cons_of_neg _ (by split <;> first | simpa using hx1 | simpa using hid),
        List.find?_cons_of_neg _ (by first | simpa using hx1 | simpa using hid)]
    · simp only [upsertContribution, hx, if_false]
      by_cases hx1 : x.stationMagnitudeID = id1
      · rw [List.find?_cons_of_pos _ (by simpa using hx1),
          List.find?_cons_of_pos _ (by simpa using hx1)]
      · rw [List.find?_cons_of_neg _ (by simpa using hx1),
          List.find?_cons_of_neg _ (by simpa using hx1)]
        exact ih

theorem foldl_upsertContribution_find_ne (ps : List (String × ℚ))
    (cs : List StationMagnitudeContribution) (id1 : String) (h : id1 ∉ ps.map Prod.fst) :
    (ps.foldl (fun acc p => upsertContribution acc p.1 p.2) cs).find?
        (fun r => decide (r.stationMagnitudeID = id1)) =
      cs.find? (fun r => decide (r.stationMagnitudeID = id1)) := by
  induction ps generalizing cs with
  | nil => rfl
  | cons p rest ih =>
    simp only [List.map_cons, List.mem_cons, not_or] at h
    simp only [List.foldl_cons]
    rw [ih _ h.2, upsertContribution_find_ne _ _ _ _ h.1]

/-- After the contribution loop over pairwise distinct ids, the contribution
found for each id carries the weight paired with it. -/
theorem foldl_upsertContribution_find (ps : List (String × ℚ))
    (cs : List StationMagnitudeContribution) (hps : (ps.map Prod.fst).Nodup) :
    ∀ p ∈ ps, ∃ r, (ps.foldl (fun acc p => upsertContribution acc p.1 p.2) cs).find?
        (fun r => decide (r.stationMagnitudeID = p.1)) = some r ∧
      r.weight.getD (-1) = p.2 ∧ (p.2 ≠ -1 → r.weight = some p.2) := by
  induction ps generalizing cs with
  | nil => intro p hp; simp at hp
  | cons q rest ih =>
    rw [List.map_cons] at hps
    have hnd := List.nodup_cons.mp hps
    intro p hp
    simp only [List.foldl_cons]
    rcases List.mem_cons.mp hp with rfl | hmem
    · rw [foldl_upsertContribution_find_ne _ _ _ hnd.1]
      exact upsertContribution_find_self cs p.1 p.2
    · exact ih _ hnd.2 p hmem

theorem contributionWeights_mem (weights : List ℚ) (staMags : List StationMagnitude)
    (start i : Nat) (staMag : StationMagnitude) (h : staMags[i]? = some staMag) :
    (staMag.publicID, weights.getD (start + i) 0) ∈ contributionWeights weights staMags start := by
  induction staMags generalizing start i with
  | nil => simp at h
  | cons s rest ih =>
    cases i with
    | zero =>
      simp only [List.getElem?_cons_zero, Option.some.injEq] at h
      subst h
      simp [contributionWeights]
    | succ j =>
      simp only [List.getElem?_cons_succ] at h
      simp only [contributionWeights, List.mem_cons]
      right
      have := ih (start + 1) j h
      rw [show start + 1 + j = start + (j + 1) by omega] at this
      exact this

theorem map_eq_five {α β : Type} (f : α → β) (l : List α) (a b c d e : β)
    (h : l.map f = [a, b, c, d, e]) :
    ∃ s0 s1 s2 s3 s4, l = [s0, s1, s2, s3, s4] ∧ f s0 = a ∧ f s1 = b ∧ f s2 = c ∧ f s3 = d ∧
      f s4 = e := by
  rcases l with _ | ⟨s0, _ | ⟨s1, _ | ⟨s2, _ | ⟨s3, _ | ⟨s4, _ | ⟨s5, t⟩⟩⟩⟩⟩⟩ <;>
    simp only [List.map_cons, List.map_nil, List.cons.injEq, and_true, and_false,
      reduceCtorEq] at h
  exact ⟨s0, s1, s2, s3, s4, rfl, h⟩

/-- The averaging step under `Default` for more than three values. -/
theorem computeAverage_default (app : App) (desc : AverageDescription) (mv : List ℚ)
    (hdesc : desc.type = AverageType.Default) (hn : 3 < mv.length) :
    computeAverage app desc mv =
      ⟨"trimmed mean(25)", (app.computeTrimmedMean mv 25).1, (app.computeTrimmedMean mv 25).2.1,
        (app.computeTrimmedMean mv 25).2.2⟩ := by
  simp [computeAverage, hdesc, hn]

/-- C24 (trimmed default). Let the method of type `T` be `Default`, let the
origin have at least four station magnitudes of type `T` with pairwise distinct
public ids, and let `mv` be their values in enumeration order. After
`computeMagnitude` the target has method id "trimmed mean(25)"; its value is
the value the trimmed-mean routine returns for `mv` at 25 percent (unless the
Mw derivation rewrites the target itself); its station count is the number of
station magnitudes whose returned weight is greater than 0; and the
contribution found under the public id of the `i`-th station magnitude carries
the `i`-th returned weight (read with the default -1 of an unset weight; as a
set weight whenever it is not -1). With the trimmed mean as the specification
words it and the values 2.0, 3.0, 3.1, 3.2, 9.0 (scenario S2) the value is 3.1,
the station count is 3, and the contribution of a station magnitude has weight
0 when its value is 2.0 or 9.0 and weight 1 otherwise. -/
theorem computeMagnitude_trimmed_default (app : App) (self : MagTool) (c : OriginCtx)
    (mtype : String) (netMag : Nat) (nm0 : Magnitude)
    (hget : c.origin.magnitudes[netMag]? = some nm0)
    (hdefault : (self.averageMethod mtype).type = AverageType.Default)
    (hn : 4 ≤ (stationMagnitudesOfType c.origin mtype).length)
    (hids : ((stationMagnitudesOfType c.origin mtype).map (fun s => s.publicID)).Nodup) :
    ∃ nm, (self.computeMagnitude app c mtype netMag).2.origin.magnitudes[netMag]? = some nm ∧
      nm.methodID = "trimmed mean(25)" ∧
      ((∀ proc, self.processors.find? (fun proc => decide (proc.amplitudeType = mtype)) = some proc →
          proc.typeMw ≠ nm0.type) →
        nm.magnitude.value = (app.computeTrimmedMean
          ((stationMagnitudesOfType c.origin mtype).map (fun s => s.magnitude.value)) 25).1) ∧
      nm.stationCount = some (((contributionWeights
        (app.computeTrimmedMean
          ((stationMagnitudesOfType c.origin mtype).map (fun s => s.magnitude.value)) 25).2.2
        (stationMagnitudesOfType c.origin mtype) 0).filter
          (fun p => decide (0 < p.2))).length : Int) ∧
      (∀ (i : Nat) (staMag : StationMagnitude) (w : ℚ),
        (stationMagnitudesOfType c.origin mtype)[i]? = some staMag →
        (app.computeTrimmedMean
          ((stationMagnitudesOfType c.origin mtype).map (fun s => s.magnitude.value)) 25).2.2[i]?
          = some w →
        ∃ r, nm.contributions.find? (fun r => decide (r.stationMagnitudeID = staMag.publicID))
            = some r ∧
          r.weight.getD (-1) = w ∧ (w ≠ -1 → r.weight = some w)) ∧
      ((∀ mv p, (app.computeTrimmedMean mv p).1 = (trimmedMeanSpec mv p).1 ∧
          (app.computeTrimmedMean mv p).2.2 = (trimmedMeanSpec mv p).2) →
        (stationMagnitudesOfType c.origin mtype).map (fun s => s.magnitude.value)
          = [2, 3, 31/10, 16/5, 9] →
        ((∀ proc, self.processors.find? (fun proc => decide (proc.amplitudeType = mtype))
            = some proc → proc.typeMw ≠ nm0.type) →
          nm.magnitude.value = 31/10) ∧
        nm.stationCount = some 3 ∧
        ∀ staMag ∈ stationMagnitudesOfType c.origin mtype,
          ∃ r, nm.contributions.find? (fun r => decide (r.stationMagnitudeID = staMag.publicID))
              = some r ∧
            r.weight = some (if staMag.magnitude.value = 2 ∨ staMag.magnitude.value = 9 then 0
              else 1)) := by
  have hne : stationMagnitudesOfType c.origin mtype ≠ [] := by
    intro h
    rw [h] at hn
    simp at hn
  obtain ⟨nm, h1, _, _, h4, h5, h6, _, h8⟩ :=
    computeMagnitude_target app self c mtype netMag nm0 hne hget
  have havg := computeAverage_default app (self.averageMethod mtype)
    (stationMagnitudeValues c.origin mtype) hdefault
    (by rw [stationMagnitudeValues_length]; omega)
  rw [havg] at h4 h5 h6 h8
  rw [stationMagnitudeValues_eq] at h5 h6 h8
  rw [reconcileContributions_eq] at h5 h6
  simp only [Nat.zero_add] at h5 h6 h8
  have hfind : ∀ (i : Nat) (staMag : StationMagnitude),
      (stationMagnitudesOfType c.origin mtype)[i]? = some staMag →
      ∃ r, nm.contributions.find? (fun r => decide (r.stationMagnitudeID = staMag.publicID))
          = some r ∧
        r.weight.getD (-1) = (app.computeTrimmedMean
          ((stationMagnitudesOfType c.origin mtype).map (fun s => s.magnitude.value)) 25).2.2.getD
            i 0 ∧
        ((app.computeTrimmedMean
          ((stationMagnitudesOfType c.origin mtype).map (fun s => s.magnitude.value)) 25).2.2.getD
            i 0 ≠ -1 →
          r.weight = some ((app.computeTrimmedMean
            ((stationMagnitudesOfType c.origin mtype).map (fun s => s.magnitude.value))
              25).2.2.getD i 0)) := by
    intro i staMag hi
    have hmem := contributionWeights_mem (app.computeTrimmedMean
      ((stationMagnitudesOfType c.origin mtype).map (fun s => s.magnitude.value)) 25).2.2
      (stationMagnitudesOfType c.origin mtype) 0 i staMag hi
    rw [Nat.zero_add] at hmem
    rw [h5]
    exact foldl_upsertContribution_find _ nm0.contributions
      (by rw [contributionWeights_keys]; exact hids) _ hmem
  refine ⟨nm, h1, h4, ?_, h6, ?_, ?_⟩
  · intro hall
    rw [h8 hall]
  · intro i staMag w hi hw
    obtain ⟨r, hr1, hr2, hr3⟩ := hfind i staMag hi
    have hgetD : (app.computeTrimmedMean
        ((stationMagnitudesOfType c.origin mtype).map (fun s => s.magnitude.value)) 25).2.2.getD
          i 0 = w := by
      rw [List.getD_eq_getElem?_getD, hw]
      rfl
    rw [hgetD] at hr2 hr3
    exact ⟨r, hr1, hr2, hr3⟩
  · intro hest hmv
    have hw : (app.computeTrimmedMean
        ((stationMagnitudesOfType c.origin mtype).map (fun s => s.magnitude.value)) 25).2.2
          = [0, 1, 1, 1, 0] := by
      rw [(hest _ _).2, hmv]
      decide!
    have hv : (app.computeTrimmedMean
        ((stationMagnitudesOfType c.origin mtype).map (fun s => s.magnitude.value)) 25).1
          = 31/10 := by
      rw [(hest _ _).1, hmv]
      decide!
    refine ⟨?_, ?_, ?_⟩
    · intro hall
      rw [h8 hall]
      exact hv
    · rw [h6, hw]
      obtain ⟨s0, s1, s2, s3, s4, hl, _⟩ := map_eq_five _ _ _ _ _ _ _ hmv
      rw [hl]
      simp [contributionWeights]
    · intro staMag hmem
      obtain ⟨i, hi⟩ := List.getElem?_of_mem hmem
      obtain ⟨r, hr1, _, hr3⟩ := hfind i staMag hi
      rw [hw] at hr3
      refine ⟨r, hr1, ?_⟩
      obtain ⟨s0, s1, s2, s3, s4, hl, e0, e1, e2, e3, e4⟩ := map_eq_five _ _ _ _ _ _ _ hmv
      rw [hl] at hi
      have hidx : (staMag = s0 ∧ i = 0) ∨ (staMag = s1 ∧ i = 1) ∨ (staMag = s2 ∧ i = 2) ∨
          (staMag = s3 ∧ i = 3) ∨ (staMag = s4 ∧ i = 4) := by
        rcases i with _ | _ | _ | _ | _ | n <;> simp at hi <;> simp [hi]
      rcases hidx with ⟨rfl, rfl⟩ | ⟨rfl, rfl⟩ | ⟨rfl, rfl⟩ | ⟨rfl, rfl⟩ | ⟨rfl, rfl⟩
      · rw [hr3 (by norm_num), e0]; norm_num
      · rw [hr3 (by norm_num), e1]; norm_num
      · rw [hr3 (by norm_num), e2]; norm_num
      · rw [hr3 (by norm_num), e3]; norm_num
      · rw [hr3 (by norm_num), e4]; norm_num

/-- C24, witness: scenario S2 on the host with the trimmed mean as the
specification words it: method id "trimmed mean(25)", value 3.1, station count
3, weight 0 for the station magnitudes with values 2.0 and 9.0 and weight 1 for
the other three. -/
theorem computeMagnitude_trimmed_default_witness :
    ∃ nm, (({} : MagTool).computeMagnitude trimmingApp ⟨s2Origin, []⟩ "MLv" 0).2.origin.magnitudes[0]?
        = some nm ∧
      nm.methodID = "trimmed mean(25)" ∧ nm.magnitude.value = 31/10 ∧
      nm.stationCount = some 3 ∧
      ∀ staMag ∈ stationMagnitudesOfType s2Origin "MLv",
        ∃ r, nm.contributions.find? (fun r => decide (r.stationMagnitudeID = staMag.publicID))
            = some r ∧
          r.weight = some (if staMag.magnitude.value = 2 ∨ staMag.magnitude.value = 9 then 0
            else 1) := by
  obtain ⟨nm, h1, h2, _, _, _, h6⟩ := computeMagnitude_trimmed_default trimmingApp {}
    ⟨s2Origin, []⟩ "MLv" 0 _ rfl rfl (by decide) (by decide)
  obtain ⟨h7, h8, h9⟩ := h6 (fun _ _ => ⟨rfl, rfl⟩) (by decide!)
  exact ⟨nm, h1, h2, h7 (by simp), h8, h9⟩

/-! ### Station magnitudes under the aggregation steps -/

theorem getMagnitude_stationMagnitudes (app : App) (c : OriginCtx) (type : String) :
    (getMagnitude app c type).2.origin.stationMagnitudes = c.origin.stationMagnitudes := by
  have h := getMagnitude_spec app c type
  rcases hr : getMagnitude app c type with ⟨_ | ⟨i, isNew⟩, c1⟩
  · rw [hr] at h
    simp only at h
    rw [h]
  · rw [hr] at h
    simp only at h
    exact h.1

theorem getMagnitudeWithValue_stationMagnitudes (app : App) (c : OriginCtx) (type : String)
    (value : ℚ) :
    (getMagnitudeWithValue app c type value).2.origin.stationMagnitudes
      = c.origin.stationMagnitudes := by
  have h := getMagnitude_stationMagnitudes app c type
  unfold getMagnitudeWithValue
  rcases hr : getMagnitude app c type with ⟨_ | ⟨i, isNew⟩, c1⟩
  · rw [hr] at h; exact h
  · rw [hr] at h; exact h

theorem deriveMw_stationMagnitudes (app : App) (self : MagTool) (c : OriginCtx) (mtype : String)
    (value stdev : ℚ) (staCount : Nat) :
    (self.deriveMw app c mtype value stdev staCount).2.origin.stationMagnitudes
      = c.origin.stationMagnitudes := by
  unfold MagTool.deriveMw
  cases hp : self.processors.find? (fun proc => decide (proc.amplitudeType = mtype)) with
  | none => rfl
  | some proc =>
    simp only
    cases he : proc.estimateMw value with
    | none => rfl
    | some r =>
      obtain ⟨Mw, stdError⟩ := r
      simp only
      have h := getMagnitudeWithValue_stationMagnitudes app c proc.typeMw Mw
      rcases hgm : getMagnitudeWithValue app c proc.typeMw Mw with ⟨_ | ⟨i, isNew⟩, c2⟩
      · rw [hgm] at h
        exact h
      · rw [hgm] at h
        exact h

theorem computeMagnitude_stationMagnitudes (app : App) (self : MagTool) (c : OriginCtx)
    (mtype : String) (netMag : Nat) :
    (self.computeMagnitude app c mtype netMag).2.origin.stationMagnitudes
      = c.origin.stationMagnitudes := by
  unfold MagTool.computeMagnitude
  simp only
  split
  · rfl
  · rw [deriveMw_stationMagnitudes]
    rfl

theorem computeSummaryMagnitude_stationMagnitudes (app : App) (self : MagTool)
    (c c1 : OriginCtx) (b : Bool) (h : self.computeSummaryMagnitude app c = some (b, c1)) :
    c1.origin.stationMagnitudes = c.origin.stationMagnitudes := by
  unfold MagTool.computeSummaryMagnitude at h
  have hg := getMagnitude_stationMagnitudes app c self.summaryMagnitudeType
  split at h
  · cases h; rfl
  · split at h
    · cases h; rfl
    · split at h
      · cases h
      · split at h
        · cases h; rfl
        · simp only at h
          split at h
          · rename_i hgm
            rw [hgm] at hg
            cases h; exact hg
          · rename_i hgm
            rw [hgm] at hg
            split at h
            · cases h; exact hg
            · cases h; exact hg

/-- The step of the loop over the computed magnitudes, seen from the station
magnitude `s` at position `i`, the first of type `T` on the stream `wfid`: with
`update` set, an entry of type `T` writes its value and the amplitude id into
it, an entry of another type leaves it as it is; the position stays the first
of type `T` on the stream. -/
theorem getStationMagnitude_true_at (app : App) (c : OriginCtx) (wfid : WaveformStreamID)
    (T type : String) (value : ℚ) (i : Nat) (s : StationMagnitude) (aid : String)
    (hidx : firstIndex (fun stamag : StationMagnitude =>
      app.equivalent stamag.waveformID wfid && decide (stamag.type = T))
      c.origin.stationMagnitudes = some i)
    (hs : c.origin.stationMagnitudes[i]? = some s) :
    match getStationMagnitude app c wfid type value true with
    | (some j, c1) =>
      firstIndex (fun stamag : StationMagnitude =>
        app.equivalent stamag.waveformID wfid && decide (stamag.type = T))
        (c1.setAmplitudeID j aid).origin.stationMagnitudes = some i ∧
      ∃ s1, (c1.setAmplitudeID j aid).origin.stationMagnitudes[i]? = some s1 ∧
        s1.publicID = s.publicID ∧ s1.waveformID = s.waveformID ∧ s1.type = s.type ∧
        (type = T → s1.magnitude.value = value ∧ s1.amplitudeID = aid) ∧
        (type ≠ T → s1 = s)
    | (none, c1) => c1 = c ∧ type ≠ T := by
  obtain ⟨x, hx, hpx, _⟩ := firstIndex_some _ _ _ hidx
  rw [hs] at hx
  cases hx
  simp only [Bool.and_eq_true, decide_eq_true_eq] at hpx
  have hlt : i < c.origin.stationMagnitudes.length := firstIndex_lt _ _ _ hidx
  unfold getStationMagnitude
  cases hj : firstIndex (fun stamag : StationMagnitude =>
      app.equivalent stamag.waveformID wfid && decide (stamag.type = type))
      c.origin.stationMagnitudes with
  | some j =>
    simp only [Bool.not_true, Bool.false_eq_true, if_false, OriginCtx.setAmplitudeID]
    obtain ⟨y, hy, hpy, _⟩ := firstIndex_some _ _ _ hj
    simp only [Bool.and_eq_true, decide_eq_true_eq] at hpy
    refine ⟨?_, ?_⟩
    · rw [firstIndex_modifyAt _ _ _ _ (by intro x; rfl),
        firstIndex_modifyAt _ _ _ _ (by intro x; rfl)]
      exact hidx
    · by_cases hT : type = T
      · subst hT
        rw [hidx] at hj
        cases hj
        refine ⟨{ app.updateStationMagnitude value s with amplitudeID := aid }, ?_, rfl, rfl, rfl,
          fun _ => ⟨rfl, rfl⟩, fun h => absurd rfl h⟩
        rw [modifyAt_get?_eq, modifyAt_get?_eq, hs]
        rfl
      · have hij : j ≠ i := by
          intro e
          subst e
          rw [hs] at hy
          cases hy
          exact hT (hpy.2.symm.trans hpx.2)
        refine ⟨s, ?_, rfl, rfl, rfl, fun h => absurd h hT, fun _ => rfl⟩
        rw [modifyAt_get?_ne _ _ _ _ hij, modifyAt_get?_ne _ _ _ _ hij, hs]
  | none =>
    have hT : type ≠ T := by
      intro e
      subst e
      rw [hidx] at hj
      cases hj
    simp only
    by_cases hcf : app.createFails c.registry
        (app.objectID c.registry (stationMagnitudeID c.origin wfid type)) = true
    · simp only [hcf, if_true, true_and]
      exact hT
    · simp only [hcf, Bool.false_eq_true, if_false, OriginCtx.setAmplitudeID]
      rw [modifyAt_append_length]
      refine ⟨firstIndex_append_of_some _ _ _ _ hidx,
        s, ?_, rfl, rfl, rfl, fun h => absurd h hT, fun _ => rfl⟩
      rw [List.getElem?_append_left hlt, hs]

/-- The loop over the computed magnitudes with `update` set, seen from the
station magnitude `s` at position `i`, the first of type `T` on the amplitude's
stream: afterwards the position holds the same station magnitude object with
the value of the last entry of type `T` and the amplitude id of the amplitude,
or `s` itself when no entry has type `T`. -/
theorem retroactiveLoop_true_at (app : App) (t : MagTool) (ampl : Amplitude) (T : String)
    (i : Nat) (mags : List MagnitudeEntry) :
    ∀ (c : OriginCtx) (flag : Bool) (s : StationMagnitude),
    firstIndex (fun stamag : StationMagnitude =>
      app.equivalent stamag.waveformID ampl.waveformID && decide (stamag.type = T))
      c.origin.stationMagnitudes = some i →
    c.origin.stationMagnitudes[i]? = some s →
    ∃ s1, (t.retroactiveLoop app ampl true mags c flag).1.origin.stationMagnitudes[i]? = some s1 ∧
      s1.publicID = s.publicID ∧ s1.waveformID = s.waveformID ∧ s1.type = s.type ∧
      (match (mags.filter (fun e => decide (e.1 = T))).getLast? with
       | some e => s1.magnitude.value = e.2 ∧ s1.amplitudeID = ampl.publicID
       | none => s1 = s) := by
  induction mags with
  | nil =>
    intro c flag s _ hs
    exact ⟨s, hs, rfl, rfl, rfl, rfl⟩
  | cons e rest ih =>
    intro c flag s hidx hs
    obtain ⟨type, value⟩ := e
    have hstep := getStationMagnitude_true_at app c ampl.waveformID T type value i s
      ampl.publicID hidx hs
    have hcombine : ∀ (c2 : OriginCtx) (fl : Bool) (s1 : StationMagnitude),
        firstIndex (fun stamag : StationMagnitude =>
          app.equivalent stamag.waveformID ampl.waveformID && decide (stamag.type = T))
          c2.origin.stationMagnitudes = some i →
        c2.origin.stationMagnitudes[i]? = some s1 →
        s1.publicID = s.publicID → s1.waveformID = s.waveformID → s1.type = s.type →
        (type = T → s1.magnitude.value = value ∧ s1.amplitudeID = ampl.publicID) →
        (type ≠ T → s1 = s) →
        ∃ s2, (t.retroactiveLoop app ampl true rest c2 fl).1.origin.stationMagnitudes[i]?
            = some s2 ∧
          s2.publicID = s.publicID ∧ s2.waveformID = s.waveformID ∧ s2.type = s.type ∧
          (match (((type, value) :: rest).filter (fun e => decide (e.1 = T))).getLast? with
           | some e => s2.magnitude.value = e.2 ∧ s2.amplitudeID = ampl.publicID
           | none => s2 = s) := by
      intro c2 fl s1 hidx2 hs2 hp hw hty hT hnT
      obtain ⟨s2, h1, h2, h3, h4, h5⟩ := ih c2 fl s1 hidx2 hs2
      refine ⟨s2, h1, h2.trans hp, h3.trans hw, h4.trans hty, ?_⟩
      by_cases hTy : type = T
      · rw [List.filter_cons_of_pos (by simpa using hTy), List.getLast?_cons]
        cases hL : (rest.filter (fun e => decide (e.1 = T))).getLast? with
        | none =>
          rw [hL] at h5
          simp only at h5
          simp only [Option.getD_none]
          rw [h5]
          exact hT hTy
        | some e1 =>
          rw [hL] at h5
          simpa using h5
      · rw [List.filter_cons_of_neg (by simpa using hTy)]
        cases hL : (rest.filter (fun e => decide (e.1 = T))).getLast? with
        | none =>
          rw [hL] at h5
          simp only at h5 ⊢
          rw [h5]
          exact hnT hTy
        | some e1 =>
          rw [hL] at h5
          simpa using h5
    simp only [MagTool.retroactiveLoop]
    rcases hg : getStationMagnitude app c ampl.waveformID type value true with ⟨_ | j, c1⟩
    · rw [hg] at hstep
      simp only at hstep ⊢
      obtain ⟨hc, hT⟩ := hstep
      subst hc
      exact hcombine c1 flag s hidx hs rfl rfl rfl (fun h => absurd h hT) (fun _ => rfl)
    · rw [hg] at hstep
      simp only at hstep ⊢
      obtain ⟨hidx1, s1, hs1, hp, hw, hty, hT, hnT⟩ := hstep
      generalize (match (c1.setAmplitudeID j ampl.publicID).origin.stationMagnitudes[j]? with
        | some staMag => staMag.type
        | none => type) = mtype
      have hsm := getMagnitude_stationMagnitudes app (c1.setAmplitudeID j ampl.publicID) mtype
      rcases hgm : getMagnitude app (c1.setAmplitudeID j ampl.publicID) mtype with
        ⟨_ | ⟨netMag, isNew⟩, c3⟩
      · rw [hgm] at hsm
        simp only at hsm ⊢
        exact hcombine c3 flag s1 (by rw [hsm]; exact hidx1) (by rw [hsm]; exact hs1) hp hw hty
          hT hnT
      · rw [hgm] at hsm
        simp only at hsm ⊢
        have hsm2 := computeMagnitude_stationMagnitudes app t c3 mtype netMag
        exact hcombine _ true s1 (by rw [hsm2, hsm]; exact hidx1)
          (by rw [hsm2, hsm]; exact hs1) hp hw hty hT hnT

/-- Without `update`, an entry of the type of a station magnitude that is there
on the stream is skipped, and an entry of another type leaves that station
magnitude at its position. -/
theorem getStationMagnitude_false_at (app : App) (c : OriginCtx) (wfid : WaveformStreamID)
    (T type : String) (value : ℚ) (i : Nat) (s : StationMagnitude) (aid : String)
    (hidx : firstIndex (fun stamag : StationMagnitude =>
      app.equivalent stamag.waveformID wfid && decide (stamag.type = T))
      c.origin.stationMagnitudes = some i)
    (hs : c.origin.stationMagnitudes[i]? = some s) :
    match getStationMagnitude app c wfid type value false with
    | (some j, c1) =>
      type ≠ T ∧
      firstIndex (fun stamag : StationMagnitude =>
        app.equivalent stamag.waveformID wfid && decide (stamag.type = T))
        (c1.setAmplitudeID j aid).origin.stationMagnitudes = some i ∧
      (c1.setAmplitudeID j aid).origin.stationMagnitudes[i]? = some s
    | (none, c1) => c1 = c := by
  have hlt : i < c.origin.stationMagnitudes.length := firstIndex_lt _ _ _ hidx
  unfold getStationMagnitude
  cases hj : firstIndex (fun stamag : StationMagnitude =>
      app.equivalent stamag.waveformID wfid && decide (stamag.type = type))
      c.origin.stationMagnitudes with
  | some j => simp
  | none =>
    have hT : type ≠ T := by
      intro e
      subst e
      rw [hidx] at hj
      cases hj
    simp only
    by_cases hcf : app.createFails c.registry
        (app.objectID c.registry (stationMagnitudeID c.origin wfid type)) = true
    · simp only [hcf, if_true]
    · simp only [hcf, Bool.false_eq_true, if_false, OriginCtx.setAmplitudeID]
      rw [modifyAt_append_length]
      refine ⟨hT, firstIndex_append_of_some _ _ _ _ hidx, ?_⟩
      rw [List.getElem?_append_left hlt, hs]

/-- The loop over the computed magnitudes without `update`, seen from the
station magnitude `s` at position `i`, the first of type `T` on the amplitude's
stream: `s` stays at its position, and the entries of type `T` have no effect. -/
theorem retroactiveLoop_false_at (app : App) (t : MagTool) (ampl : Amplitude) (T : String)
    (i : Nat) (s : StationMagnitude) (mags : List MagnitudeEntry) :
    ∀ (c : OriginCtx) (flag : Bool),
    firstIndex (fun stamag : StationMagnitude =>
      app.equivalent stamag.waveformID ampl.waveformID && decide (stamag.type = T))
      c.origin.stationMagnitudes = some i →
    c.origin.stationMagnitudes[i]? = some s →
    (t.retroactiveLoop app ampl false mags c flag).1.origin.stationMagnitudes[i]? = some s ∧
    t.retroactiveLoop app ampl false mags c flag =
      t.retroactiveLoop app ampl false (mags.filter (fun e => decide (e.1 ≠ T))) c flag := by
  induction mags with
  | nil =>
    intro c flag _ hs
    exact ⟨hs, rfl⟩
  | cons e rest ih =>
    intro c flag hidx hs
    obtain ⟨type, value⟩ := e
    have hstep := getStationMagnitude_false_at app c ampl.waveformID T type value i s
      ampl.publicID hidx hs
    by_cases hTy : type = T
    · rw [List.filter_cons_of_neg (by simpa using hTy)]
      have hnone : getStationMagnitude app c ampl.waveformID type value false = (none, c) := by
        rcases hg : getStationMagnitude app c ampl.waveformID type value false with ⟨_ | j, c1⟩
        · rw [hg] at hstep
          simp only at hstep
          rw [hstep]
        · rw [hg] at hstep
          exact absurd hTy hstep.1
      have hunf : t.retroactiveLoop app ampl false ((type, value) :: rest) c flag =
          t.retroactiveLoop app ampl false rest c flag := by
        simp only [MagTool.retroactiveLoop, hnone]
      rw [hunf]
      exact ih c flag hidx hs
    · rw [List.filter_cons_of_pos (by simpa using hTy)]
      simp only [MagTool.retroactiveLoop]
      rcases hg : getStationMagnitude app c ampl.waveformID type value false with ⟨_ | j, c1⟩
      · rw [hg] at hstep
        simp only at hstep ⊢
        subst hstep
        exact ih c1 flag hidx hs
      · rw [hg] at hstep
        simp only at hstep ⊢
        obtain ⟨_, hidx1, hs1⟩ := hstep
        generalize (match (c1.setAmplitudeID j ampl.publicID).origin.stationMagnitudes[j]? with
          | some staMag => staMag.type
          | none => type) = mtype
        have hsm := getMagnitude_stationMagnitudes app (c1.setAmplitudeID j ampl.publicID) mtype
        rcases hgm : getMagnitude app (c1.setAmplitudeID j ampl.publicID) mtype with
          ⟨_ | ⟨netMag, isNew⟩, c3⟩
        · rw [hgm] at hsm
          simp only at hsm ⊢
          exact ih c3 flag (by rw [hsm]; exact hidx1) (by rw [hsm]; exact hs1)
        · rw [hgm] at hsm
          simp only at hsm ⊢
          have hsm2 := computeMagnitude_stationMagnitudes app t c3 mtype netMag
          exact ih _ true (by rw [hsm2, hsm]; exact hidx1) (by rw [hsm2, hsm]; exact hs1)

/-- C28 (retroactive overwrite). Let the origin `o` (agency not blocked, depth
set) carry a station magnitude of type `T` on the amplitude's stream, `staMag`
at position `i` being the first one, let the arrival scan of `feed(Amplitude)`
settle on an arrival with distance, and let `computeStationMagnitude` succeed
with the entries `mags`. (1) With `update` set, when `mags` has an entry of
type `T`, the station magnitude at position `i` is afterwards the same object
(public id, stream, type) with the value of that entry (the last one of type
`T`) and the amplitude id of the fed amplitude, whatever `staMag` carried
before. (2) Without `update` the station magnitude at position `i` is `staMag`
as before; the entries of type `T` have no effect on the loop over the computed
magnitudes; and when all entries have type `T`, no origin of the engine
changes. -/
theorem updateOrigin_overwrite (app : App) (t : MagTool) (ampl : Amplitude) (origin : Nat)
    (o : Origin) (arr : Arrival) (d depth : ℚ) (mags : List MagnitudeEntry) (T : String)
    (i : Nat) (staMag : StationMagnitude)
    (ho : t.heap[origin]? = some o)
    (hb : app.isAgencyIDBlocked (objectAgencyID o.creationInfo) = false)
    (hscan : (MagTool.firstPLoop app ampl o.arrivals t (none, none)).2.2 = some arr)
    (hd : arr.distance = some d) (hdepth : o.depth = some depth)
    (hcs : (MagTool.firstPLoop app ampl o.arrivals t (none, none)).1.computeStationMagnitude
      ampl d depth = some (true, mags))
    (hidx : firstIndex (fun stamag : StationMagnitude =>
      app.equivalent stamag.waveformID ampl.waveformID && decide (stamag.type = T))
      o.stationMagnitudes = some i)
    (hs : o.stationMagnitudes[i]? = some staMag) :
    (∀ e, (mags.filter (fun e => decide (e.1 = T))).getLast? = some e →
      ∃ o1 s1, (t.updateOrigin app ampl true origin).1.heap[origin]? = some o1 ∧
        o1.stationMagnitudes[i]? = some s1 ∧
        s1.publicID = staMag.publicID ∧ s1.waveformID = staMag.waveformID ∧
        s1.type = staMag.type ∧
        s1.magnitude.value = e.2 ∧ s1.amplitudeID = ampl.publicID) ∧
    (∃ o0, (t.updateOrigin app ampl false origin).1.heap[origin]? = some o0 ∧
      o0.stationMagnitudes[i]? = some staMag) ∧
    (MagTool.firstPLoop app ampl o.arrivals t (none, none)).1.retroactiveLoop app ampl false mags
        ⟨o, (MagTool.firstPLoop app ampl o.arrivals t (none, none)).1.registry⟩ false =
      (MagTool.firstPLoop app ampl o.arrivals t (none, none)).1.retroactiveLoop app ampl false
        (mags.filter (fun e => decide (e.1 ≠ T)))
        ⟨o, (MagTool.firstPLoop app ampl o.arrivals t (none, none)).1.registry⟩ false ∧
    ((∀ e ∈ mags, e.1 = T) → (t.updateOrigin app ampl false origin).1.heap = t.heap) := by
  have hheap := firstPLoop_heap app ampl o.arrivals t (none, none)
  generalize hr : MagTool.firstPLoop app ampl o.arrivals t (none, none) = r at hscan hcs hheap
  obtain ⟨t1, pp, oarr⟩ := r
  simp only at hscan hcs hheap
  subst hscan
  have ho1 : t1.heap[origin]? = some o := by rw [hheap]; exact ho
  have hctx : t1.ctx origin = some ⟨o, t1.registry⟩ := by
    unfold MagTool.ctx
    rw [ho1]
    rfl
  have key : ∀ update : Bool, ∃ X : OriginCtx,
      (t.updateOrigin app ampl update origin).1 = t1.store origin X ∧
      X.origin.stationMagnitudes =
        (t1.retroactiveLoop app ampl update mags ⟨o, t1.registry⟩ false).1.origin.stationMagnitudes ∧
      ((t1.retroactiveLoop app ampl update mags ⟨o, t1.registry⟩ false).2 = false →
        X = (t1.retroactiveLoop app ampl update mags ⟨o, t1.registry⟩ false).1) := by
    intro update
    unfold MagTool.updateOrigin
    simp only [ho, hb, Bool.false_eq_true, if_false, hr, hd, hdepth, hcs, hctx]
    by_cases hu : (t1.retroactiveLoop app ampl update mags ⟨o, t1.registry⟩ false).2 = true
    · simp only [if_pos hu]
      rcases hsum : t1.computeSummaryMagnitude app
          (t1.retroactiveLoop app ampl update mags ⟨o, t1.registry⟩ false).1 with _ | ⟨b, c1⟩
      · exact ⟨_, rfl, rfl, fun _ => rfl⟩
      · refine ⟨c1, rfl, computeSummaryMagnitude_stationMagnitudes _ _ _ _ _ hsum, ?_⟩
        intro h
        rw [h] at hu
        cases hu
    · simp only [if_neg hu]
      exact ⟨_, rfl, rfl, fun _ => rfl⟩
  have hstore : ∀ X : OriginCtx, (t1.store origin X).heap[origin]? = some X.origin := by
    intro X
    simp only [MagTool.store]
    rw [modifyAt_get?_eq, ho1]
    rfl
  have hfalse := retroactiveLoop_false_at app t1 ampl T i staMag mags ⟨o, t1.registry⟩ false
    hidx hs
  refine ⟨?_, ?_, hfalse.2, ?_⟩
  · intro e he
    obtain ⟨X, hX1, hX2, _⟩ := key true
    obtain ⟨s1, h1, h2, h3, h4, h5⟩ := retroactiveLoop_true_at app t1 ampl T i mags
      ⟨o, t1.registry⟩ false staMag hidx hs
    rw [he] at h5
    simp only at h5
    refine ⟨X.origin, s1, ?_, ?_, h2, h3, h4, h5.1, h5.2⟩
    · rw [hX1]
      exact hstore X
    · rw [hX2]
      exact h1
  · obtain ⟨X, hX1, hX2, _⟩ := key false
    refine ⟨X.origin, ?_, ?_⟩
    · rw [hX1]
      exact hstore X
    · rw [hX2]
      exact hfalse.1
  · intro hall
    obtain ⟨X, hX1, _, hX3⟩ := key false
    have hnil : mags.filter (fun e => decide (e.1 ≠ T)) = [] := by
      apply List.filter_eq_nil_iff.mpr
      intro e he
      simpa using hall e he
    have hloop : t1.retroactiveLoop app ampl false mags ⟨o, t1.registry⟩ false
        = (⟨o, t1.registry⟩, false) := by
      rw [hfalse.2, hnil]
      rfl
    rw [hloop] at hX3
    rw [hX1, hX3 rfl]
    simp only [MagTool.store]
    rw [modifyAt_self _ _ _ ho1, hheap]

/-- C28, witness: the origin `O5` carries the station magnitude `MLv` of value 5
derived from a manual amplitude created at t = 99; the amplitude `A5` (no
evaluation mode, no creation time, value 3) arrives for the same pick. With
`update` set the station magnitude gets the value 3 and the amplitude id `A5`;
without `update` it stays as it is and the origins of the engine are unchanged. -/
theorem updateOrigin_overwrite_witness :
    (∃ o1 s1, (overwriteTool.updateOrigin evalApp s5Amplitude true 0).1.heap[0]? = some o1 ∧
      o1.stationMagnitudes[0]? = some s1 ∧ s1.publicID = "O5#staMag.MLv#GE.A" ∧
      s1.magnitude.value = 3 ∧ s1.amplitudeID = "A5") ∧
    (∃ o0, (overwriteTool.updateOrigin evalApp s5Amplitude false 0).1.heap[0]? = some o0 ∧
      o0.stationMagnitudes[0]? = some priorStationMagnitude) ∧
    (overwriteTool.updateOrigin evalApp s5Amplitude false 0).1.heap = overwriteTool.heap ∧
    ((overwriteTool.feedAmplitude evalApp s5Amplitude true).1.heap.map
        (fun o => o.stationMagnitudes.map (fun s => (s.magnitude.value, s.amplitudeID)))
      = [[(3, "A5")]]) ∧
    ((overwriteTool.feedAmplitude evalApp s5Amplitude false).1.heap.map
        (fun o => (o.stationMagnitudes.map (fun s => (s.magnitude.value, s.amplitudeID)),
          o.magnitudes.length))
      = [([(5, "A_manual")], 0)]) := by
  have h := updateOrigin_overwrite evalApp overwriteTool s5Amplitude 0 overwriteOrigin
    { pickID := "P5", distance := some 1, weight := some 1 } 1 10 [("MLv", 3)] "MLv" 0
    priorStationMagnitude rfl (by decide!) (by decide!) rfl rfl (by decide!) (by decide!) rfl
  obtain ⟨h1, h2, _, h4⟩ := h
  obtain ⟨o1, s1, a1, a2, a3, _, _, a6, a7⟩ := h1 ("MLv", 3) (by decide!)
  refine ⟨⟨o1, s1, a1, a2, a3, a6, a7⟩, h2, h4 (by simp), ?_, ?_⟩ <;> decide!

/-- Without archive, origin then amplitude, with the return value: the amplitude
enters the index and the body of the update loop runs once, on the origin. -/
theorem feed_origin_then_amplitude_result (app : App) (hq : app.query = none) (s : MagTool)
    (origin : Nat) (o : Origin) (ampl : Amplitude) (update : Bool) (pick : Pick) (arr : Arrival)
    (pre post : List Arrival) (depth : ℚ) (m : PickStreamMap)
    (ho : s.heap[origin]? = some o) (hdepth : o.depth = some depth)
    (hmag : o.magnitudes = [])
    (hfresh : ∀ x ∈ s.objectCache, s.cachedPublicID x ≠ some o.publicID)
    (hampl : s.ampl = []) (hcached : s.findAmplitude ampl.publicID = none)
    (hbound : s.originsForPick ampl.pickID = some [])
    (hpick : s.findPick ampl.pickID = some pick)
    (harr : o.arrivals = pre ++ arr :: post) (harrid : arr.pickID = ampl.pickID)
    (hpre : ∀ a ∈ pre, a.pickID ≠ ampl.pickID) (hpost : ∀ a ∈ post, a.pickID ≠ ampl.pickID)
    (hsel : selectPicks app s.minimumArrivalWeight s.findPick o.arrivals [] = some m)
    (hb : ¬ app.isAgencyIDBlocked (objectAgencyID o.creationInfo) = true)
    (hr : ¬ o.evaluationStatus = some EvaluationStatus.REJECTED) :
    ∃ sO : MagTool, (s.feedOrigin app origin).1 = sO ∧ sO.heap = s.heap ∧
      sO.registry = s.registry ∧ sO.findPick = s.findPick ∧ s.sameSetup sO ∧
      (¬ app.isAgencyIDBlocked (objectAgencyID ampl.creationInfo) = true →
        ¬ (s.processors.find? (fun proc => decide (proc.amplitudeType = ampl.type))).isNone = true →
        ampl.pickID ≠ "" →
        ∃ T : MagTool, T.heap = s.heap ∧ T.registry = s.registry ∧ T.findPick = s.findPick ∧
          MagTool.sameSetup { s with ampl := s.ampl ++ [(ampl.pickID, ampl)] } T ∧
          sO.feedAmplitude app ampl update =
            (match T.updateOrigin app ampl update origin with
              | (s3, false) => (s3, none)
              | (s3, true) => (s3, some true))) := by
  have hne : ¬ o.arrivals.length = 0 := by rw [harr]; simp
  have hidx0 : ∀ id, s.amplitudesForPick id = [] := by
    intro id
    simp [MagTool.amplitudesForPick, hampl]
  have hcf : s.cachedPublicID (CachedObject.origin origin) = some o.publicID := by
    simp [MagTool.cachedPublicID, ho]
  have hfpX : (s.cacheFeed (CachedObject.origin origin)).findPick = s.findPick :=
    findPick_append_origin s _ origin (cacheFeed_fresh s _ (by rw [hcf]; exact hfresh))
  obtain ⟨s2, hs2, hfO, g1, g2, g3, g4⟩ :=
    feedOrigin_fresh app hq s origin o depth m ho hdepth hfresh hb hr hne hsel
  have hidx2 : ∀ id, s2.amplitudesForPick id = [] := by
    intro id
    rw [amplitudesForPick_congr g1]
    exact hidx0 id
  rw [processSelected_no_amplitudes app s2 depth m ⟨o, s.registry⟩ hidx2 hmag] at hfO
  have hheapO : (s2.store origin ⟨o, s.registry⟩).heap = s.heap := by
    simp only [MagTool.store, g3]
    exact modifyAt_self _ _ _ ho
  have hsame1 : s.sameSetup (s2.store origin ⟨o, s.registry⟩) :=
    sameSetup_trans g1 (store_sameSetup _ _ _)
  have hfpO : (s2.store origin ⟨o, s.registry⟩).findPick = s.findPick :=
    findPick_append_origin s _ origin g2
  refine ⟨s2.store origin ⟨o, s.registry⟩, by rw [hfO], hheapO, rfl, hfpO, hsame1, ?_⟩
  intro hbA hpA hpidA
  have horgs : (s2.store origin ⟨o, s.registry⟩).originsForPick ampl.pickID =
      some [origin] := by
    have h1 := arrivalLoop_orgs_first app hq origin pre post arr
      (s.cacheFeed (CachedObject.origin origin)) pick []
      (by rw [harrid]; exact hpre) (by rw [harrid]; exact hpost)
      (by rw [hfpX, harrid]; exact hpick) (by rw [harrid]; exact hbound)
    rw [← harr, ← hs2, harrid] at h1
    rcases h1 with h1 | h1
    · exact h1
    · have h2 := (processOrigin_noquery_arrivalLoop app hq
        (s.cacheFeed (CachedObject.origin origin)) origin o depth m ho hdepth
        (by rw [hfpX]; exact hsel)).1
      rw [h1] at h2
      cases h2
  have hfa : (s2.store origin ⟨o, s.registry⟩).findAmplitude ampl.publicID = none := by
    have : (s2.store origin ⟨o, s.registry⟩).findAmplitude = s.findAmplitude :=
      findAmplitude_append_origin s _ origin g2
    rw [this]
    exact hcached
  have hpA2 : ¬ ((s2.store origin ⟨o, s.registry⟩).processors.find?
      (fun proc => decide (proc.amplitudeType = ampl.type))).isNone = true := by
    have : (s2.store origin ⟨o, s.registry⟩).processors = s.processors :=
      g1.2.2.2.2.2.2.2.2.2.1
    rw [this]
    exact hpA
  refine ⟨{ s2.store origin ⟨o, s.registry⟩ with
      ampl := (s2.store origin ⟨o, s.registry⟩).ampl ++ [(ampl.pickID, ampl)] },
    hheapO, rfl, findPick_append_origin s _ origin g2,
    sameSetup_ampl_append hsame1 [(ampl.pickID, ampl)], ?_⟩
  rw [feedAmplitude_fresh app hq _ ampl update hbA hpA2 hpidA hfa (hidx2 _), horgs]
  simp only
  unfold MagTool.updateLoop
  rcases MagTool.updateOrigin app
      { s2.store origin ⟨o, s.registry⟩ with
        ampl := (s2.store origin ⟨o, s.registry⟩).ampl ++ [(ampl.pickID, ampl)] }
      ampl update origin with ⟨s3, _ | _⟩
  · rfl
  · rfl

/-! ### The late amplitude -/

theorem computeStationMagnitude_one (t : MagTool) (ampl : Amplitude) (d depth a v : ℚ)
    (proc : MagnitudeProcessor)
    (hprocs : t.processors.filter (fun proc => decide (proc.amplitudeType = ampl.type)) = [proc])
    (hsetup : proc.setup ampl.waveformID = true) (hvalue : ampl.amplitude = some a)
    (hcompute : proc.computeMagnitude ampl.waveformID a (ampl.period.getD 0) d depth = some v) :
    t.computeStationMagnitude ampl d depth = some (true, [(proc.type, v)]) := by
  unfold MagTool.computeStationMagnitude
  simp only [hprocs, stationMagnitudeLoop, hsetup, hvalue, hcompute, Bool.not_true,
    Bool.false_eq_true, if_false, List.nil_append]
  rfl

theorem retroactiveLoop_late (app : App) (t : MagTool) (ampl : Amplitude) (type : String)
    (value : ℚ) (registry : List String) (o : Origin)
    (hsm : o.stationMagnitudes = []) (hmag : o.magnitudes = [])
    (hc1 : app.createFails registry
      (app.objectID registry (stationMagnitudeID o ampl.waveformID type)) = false)
    (hc2 : app.createFails
      (app.objectID registry (stationMagnitudeID o ampl.waveformID type) :: registry)
      (app.objectID (app.objectID registry (stationMagnitudeID o ampl.waveformID type) :: registry)
        (magnitudeID o type)) = false) :
    t.retroactiveLoop app ampl false [(type, value)] ⟨o, registry⟩ false =
      ((t.computeMagnitude app (installedCtx app registry o ampl type value) type 0).2, true) := by
  unfold MagTool.retroactiveLoop
  rw [getStationMagnitude_nil app ⟨o, registry⟩ _ type value false hsm]
  simp only [hc1, Bool.false_eq_true, if_false]
  have hmag2 : ((⟨{ o with stationMagnitudes :=
        [app.newStationMagnitude
          (app.objectID registry (stationMagnitudeID o ampl.waveformID type))
          ampl.waveformID type value] },
      app.objectID registry (stationMagnitudeID o ampl.waveformID type) ::
        registry⟩ : OriginCtx).setAmplitudeID 0 ampl.publicID).origin.magnitudes = [] := hmag
  have htype : (match ((⟨{ o with stationMagnitudes :=
        [app.newStationMagnitude
          (app.objectID registry (stationMagnitudeID o ampl.waveformID type))
          ampl.waveformID type value] },
      app.objectID registry (stationMagnitudeID o ampl.waveformID type) ::
        registry⟩ : OriginCtx).setAmplitudeID 0 ampl.publicID).origin.stationMagnitudes[0]? with
      | some staMag => staMag.type
      | none => type) = type := rfl
  rw [htype, getMagnitude_nil app _ type hmag2]
  have hc2' : app.createFails
      ((⟨{ o with stationMagnitudes :=
        [app.newStationMagnitude
          (app.objectID registry (stationMagnitudeID o ampl.waveformID type))
          ampl.waveformID type value] },
      app.objectID registry (stationMagnitudeID o ampl.waveformID type) ::
        registry⟩ : OriginCtx).setAmplitudeID 0 ampl.publicID).registry
      (app.objectID ((⟨{ o with stationMagnitudes :=
        [app.newStationMagnitude
          (app.objectID registry (stationMagnitudeID o ampl.waveformID type))
          ampl.waveformID type value] },
      app.objectID registry (stationMagnitudeID o ampl.waveformID type) ::
        registry⟩ : OriginCtx).setAmplitudeID 0 ampl.publicID).registry
        (magnitudeID ((⟨{ o with stationMagnitudes :=
        [app.newStationMagnitude
          (app.objectID registry (stationMagnitudeID o ampl.waveformID type))
          ampl.waveformID type value] },
      app.objectID registry (stationMagnitudeID o ampl.waveformID type) ::
        registry⟩ : OriginCtx).setAmplitudeID 0 ampl.publicID).origin type)) = false := hc2
  rw [hc2']
  simp only [Bool.false_eq_true, if_false, MagTool.retroactiveLoop]
  rfl

/-- The Mw part of `computeMagnitude` leaves every network magnitude with a
station count and without evaluation status when that holds before. -/
theorem deriveMw_counted (app : App) (self : MagTool) (c : OriginCtx) (mtype : String)
    (value stdev : ℚ) (staCount : Nat)
    (h : ∀ m ∈ c.origin.magnitudes, m.stationCount ≠ none ∧ m.evaluationStatus = none) :
    ∀ m ∈ (self.deriveMw app c mtype value stdev staCount).2.origin.magnitudes,
      m.stationCount ≠ none ∧ m.evaluationStatus = none := by
  unfold MagTool.deriveMw
  cases hp : self.processors.find? (fun proc => decide (proc.amplitudeType = mtype)) with
  | none => exact h
  | some proc =>
    simp only
    cases he : proc.estimateMw value with
    | none => exact h
    | some r =>
      obtain ⟨Mw, stdError⟩ := r
      simp only
      unfold getMagnitudeWithValue
      have hspec := getMagnitude_spec app c proc.typeMw
      rcases hgm : getMagnitude app c proc.typeMw with ⟨_ | ⟨i, isNew⟩, c1⟩
      · rw [hgm] at hspec
        simp only at hspec ⊢
        rw [hspec]
        exact h
      · rw [hgm] at hspec
        simp only at hspec ⊢
        obtain ⟨_, _, _, _, _, _, _, h8⟩ := hspec
        intro m hm
        obtain ⟨j, hj⟩ := List.getElem?_of_mem hm
        simp only [OriginCtx.modifyMagnitude] at hj
        by_cases hij : i = j
        · subst hij
          rw [modifyAt_get?_eq, modifyAt_get?_eq] at hj
          cases hx : c1.origin.magnitudes[i]? with
          | none => rw [hx] at hj; cases hj
          | some x =>
            rw [hx] at hj
            simp only [Option.map_some', Option.some.injEq] at hj
            subst hj
            exact ⟨by simp, rfl⟩
        · rw [modifyAt_get?_ne _ _ _ _ hij, modifyAt_get?_ne _ _ _ _ hij] at hj
          rcases h8 with ⟨_, rfl, _⟩ | ⟨_, hi, _, hmags, _⟩
          · exact h m (List.getElem?_mem hj)
          · rw [hmags] at hj
            have hlt : j < (c.origin.magnitudes ++
                [app.newMagnitude (app.objectID c.registry (magnitudeID c.origin proc.typeMw))
                  proc.typeMw]).length := (List.getElem?_eq_some_iff.mp hj).1
            simp only [List.length_append, List.length_singleton] at hlt
            have hlt2 : j < c.origin.magnitudes.length := by omega
            rw [List.getElem?_append_left hlt2] at hj
            exact h m (List.getElem?_mem hj)

/-- After `computeMagnitude` aggregated a station magnitude into the new network
magnitude of `installedCtx`, every network magnitude of the origin has a station
count and no evaluation status. -/
theorem computeMagnitude_installed_counted (app : App) (t : MagTool) (registry : List String)
    (o : Origin) (ampl : Amplitude) (type : String) (value : ℚ) :
    ∀ m ∈ (t.computeMagnitude app (installedCtx app registry o ampl type value)
        type 0).2.origin.magnitudes,
      m.stationCount ≠ none ∧ m.evaluationStatus = none := by
  have hlen : (stationMagnitudeValues (installedCtx app registry o ampl type value).origin
      type).length ≠ 0 := by
    simp [stationMagnitudeValues, stationMagnitudesOfType, installedCtx, App.newStationMagnitude]
  unfold MagTool.computeMagnitude
  simp only [hlen, if_false]
  apply deriveMw_counted
  intro m hm
  simp only [MagTool.aggregate, OriginCtx.modifyMagnitude, installedCtx, modifyAt,
    List.mem_singleton] at hm
  subst hm
  exact ⟨by simp, rfl⟩

theorem computeSummaryMagnitude_ne_none (app : App) (self : MagTool) (c : OriginCtx)
    (h : ∀ m ∈ c.origin.magnitudes, m.stationCount ≠ none) :
    self.computeSummaryMagnitude app c ≠ none := by
  unfold MagTool.computeSummaryMagnitude
  split
  · simp
  · split
    · simp
    · cases hloop : self.summaryLoop c.origin.magnitudes ⟨0, 0, 0⟩ with
      | none =>
        obtain ⟨m, hm, hc⟩ := summaryLoop_none self _ _ hloop
        exact absurd hc (h m hm)
      | some acc =>
        simp only
        split
        · simp
        · split
          · simp
          · split <;> simp

/-- The summary step leaves the type and the contributions of every network
magnitude as they are, and a network magnitude of another type than the summary
type as it is. -/
theorem computeSummaryMagnitude_getElem? (app : App) (self : MagTool) (c c1 : OriginCtx)
    (b : Bool) (h : self.computeSummaryMagnitude app c = some (b, c1)) (j : Nat) (x : Magnitude)
    (hx : c.origin.magnitudes[j]? = some x) :
    ∃ y, c1.origin.magnitudes[j]? = some y ∧ y.type = x.type ∧
      y.contributions = x.contributions ∧ (x.type ≠ self.summaryMagnitudeType → y = x) := by
  unfold MagTool.computeSummaryMagnitude at h
  have hg := getMagnitude_getElem? app c self.summaryMagnitudeType j x hx
  have hspec := getMagnitude_spec app c self.summaryMagnitudeType
  split at h
  · cases h; exact ⟨x, hx, rfl, rfl, fun _ => rfl⟩
  · split at h
    · cases h; exact ⟨x, hx, rfl, rfl, fun _ => rfl⟩
    · split at h
      · cases h
      · split at h
        · cases h; exact ⟨x, hx, rfl, rfl, fun _ => rfl⟩
        · simp only at h
          split at h
          · rename_i hgm
            rw [hgm] at hg
            cases h; exact ⟨x, hg, rfl, rfl, fun _ => rfl⟩
          · rename_i i newInstance c2 hgm
            rw [hgm] at hg hspec
            simp only at hg hspec
            split at h
            · cases h; exact ⟨x, hg, rfl, rfl, fun _ => rfl⟩
            · cases h
              by_cases hij : i = j
              · subst hij
                refine ⟨_, modifyMagnitude_get? c2 i _ x hg, rfl, rfl, ?_⟩
                intro hne
                obtain ⟨mag, hmag, hty, _⟩ := hspec.2.2.2.2.2.2.1
                rw [hg] at hmag
                cases hmag
                exact absurd hty hne
              · refine ⟨x, ?_, rfl, rfl, fun _ => rfl⟩
                rw [modifyMagnitude_get?_ne c2 i j _ hij]
                exact hg

/-- C22 (late amplitude, amended). No archive. The engine `s` is the one after
`feed(Pick p)`: the pick of `A` is cached and bound to no origin, no amplitude
was fed and `A` is not cached. The origin `O` (agency not blocked, not rejected,
not yet cached) has its depth set, carries no station and no network magnitude,
its valid arrivals have a distance, exactly one arrival references `p`, it is
valid, and no other valid arrival has a cached pick on the network, station and
location of `A`. `A` (agency not blocked) was measured on the network, station
and location of `p`; one processor is registered for its type, its `setup`
succeeds and its `computeMagnitude` yields `v` for the magnitude type `T`; the
public ids of the new station magnitude and network magnitude are not in use.
Then `feed(O); feed(A, false)` returns true and leaves `O` with exactly one
station magnitude, of type `T` on the stream of `A` with value `v` and the
amplitude id of `A`, and with a network magnitude of type `T` whose one
contribution references that station magnitude with the weight of the averaging
step. When `T` is not the summary type, that network magnitude has the method
id and station count of the aggregation, no evaluation status and (unless the Mw
derivation rewrites it) the average as value; and when the summary is enabled
with a non-empty type and the network magnitude qualifies, `O` has a magnitude
of the summary type, unless the public id of the summary magnitude is in use. -/
theorem feedAmplitude_late (app : App) (hq : app.query = none) (s : MagTool) (origin : Nat)
    (o : Origin) (ampl : Amplitude) (pick : Pick) (arr : Arrival) (pre post : List Arrival)
    (d depth a v : ℚ) (proc : MagnitudeProcessor)
    (ho : s.heap[origin]? = some o) (hdepth : o.depth = some depth)
    (hsm : o.stationMagnitudes = []) (hmag : o.magnitudes = [])
    (hfresh : ∀ x ∈ s.objectCache, s.cachedPublicID x ≠ some o.publicID)
    (hampl : s.ampl = []) (hcached : s.findAmplitude ampl.publicID = none)
    (hbound : s.originsForPick ampl.pickID = some [])
    (hpick : s.findPick ampl.pickID = some pick)
    (harr : o.arrivals = pre ++ arr :: post) (harrid : arr.pickID = ampl.pickID)
    (hpre : ∀ x ∈ pre, x.pickID ≠ ampl.pickID) (hpost : ∀ x ∈ post, x.pickID ≠ ampl.pickID)
    (hvalid : app.validArrival arr s.minimumArrivalWeight = true)
    (hd : arr.distance = some d)
    (hdist : ∀ x ∈ o.arrivals, app.validArrival x s.minimumArrivalWeight = true →
      x.distance ≠ none)
    (hsta : sameStation ampl.waveformID pick.waveformID)
    (honly : ∀ x ∈ pre ++ post, app.validArrival x s.minimumArrivalWeight = true → ∀ p,
      s.findPick x.pickID = some p → ¬ sameStation ampl.waveformID p.waveformID)
    (hbO : app.isAgencyIDBlocked (objectAgencyID o.creationInfo) = false)
    (hr : ¬ o.evaluationStatus = some EvaluationStatus.REJECTED)
    (hbA : app.isAgencyIDBlocked (objectAgencyID ampl.creationInfo) = false)
    (hpid : ampl.pickID ≠ "")
    (hprocs : s.processors.filter (fun proc => decide (proc.amplitudeType = ampl.type)) = [proc])
    (hsetup : proc.setup ampl.waveformID = true) (hvalue : ampl.amplitude = some a)
    (hcompute : proc.computeMagnitude ampl.waveformID a (ampl.period.getD 0) d depth = some v)
    (hc1 : app.createFails s.registry
      (app.objectID s.registry (stationMagnitudeID o ampl.waveformID proc.type)) = false)
    (hc2 : app.createFails
      (app.objectID s.registry (stationMagnitudeID o ampl.waveformID proc.type) :: s.registry)
      (app.objectID
        (app.objectID s.registry (stationMagnitudeID o ampl.waveformID proc.type) :: s.registry)
        (magnitudeID o proc.type)) = false) :
    ∃ o1 staMag nm,
      ((s.feedOrigin app origin).1.feedAmplitude app ampl false).2 = some true ∧
      ((s.feedOrigin app origin).1.feedAmplitude app ampl false).1.heap[origin]? = some o1 ∧
      o1.stationMagnitudes = [staMag] ∧ staMag.type = proc.type ∧
      staMag.waveformID = ampl.waveformID ∧ staMag.magnitude.value = v ∧
      staMag.amplitudeID = ampl.publicID ∧
      o1.magnitudes[0]? = some nm ∧ nm.type = proc.type ∧
      nm.contributions =
        [{ stationMagnitudeID := staMag.publicID,
           weight := some ((computeAverage app (s.averageMethod proc.type) [v]).weights.getD 0 0) }] ∧
      (proc.type ≠ s.summaryMagnitudeType →
        nm.methodID = (computeAverage app (s.averageMethod proc.type) [v]).methodID ∧
        nm.stationCount = some
          (if (computeAverage app (s.averageMethod proc.type) [v]).weights.getD 0 0 > 0 then 1
            else 0) ∧
        nm.evaluationStatus = none ∧
        ((∀ p, s.processors.find? (fun p => decide (p.amplitudeType = proc.type)) = some p →
            p.typeMw ≠ proc.type) →
          nm.magnitude.value = (computeAverage app (s.averageMethod proc.type) [v]).value) ∧
        (s.summaryMagnitudeEnabled = true → s.summaryMagnitudeType ≠ "" →
          s.specQualifies nm = true →
          (∃ mag ∈ o1.magnitudes, mag.type = s.summaryMagnitudeType) ∨
          app.createFails ((s.feedOrigin app origin).1.feedAmplitude app ampl false).1.registry
            (app.objectID ((s.feedOrigin app origin).1.feedAmplitude app ampl false).1.registry
              (magnitudeID o s.summaryMagnitudeType)) = true)) := by
  obtain ⟨m, hsel⟩ := selectPicks_total app s.minimumArrivalWeight s.findPick o.arrivals [] hdist
  obtain ⟨sO, hsO, _, _, _, _, hrest⟩ := feed_origin_then_amplitude_result app hq s origin o
    ampl false pick arr pre post depth m ho hdepth hmag hfresh hampl hcached hbound hpick harr
    harrid hpre hpost hsel (by simp [hbO]) hr
  have hpA : ¬ (s.processors.find? (fun proc => decide (proc.amplitudeType = ampl.type))).isNone
      = true := by
    intro hnone
    have hall := List.find?_eq_none.mp (Option.isNone_iff_eq_none.mp hnone)
    have hmem : proc ∈ s.processors.filter (fun proc => decide (proc.amplitudeType = ampl.type)) := by
      rw [hprocs]; simp
    exact hall proc (List.mem_filter.mp hmem).1 (List.mem_filter.mp hmem).2
  obtain ⟨T, hheapT, hregT, hfpT, hsameT, hfeed⟩ := hrest (by simp [hbA]) hpA hpid
  rw [hsO, hfeed]
  have hmwT : T.minimumArrivalWeight = s.minimumArrivalWeight := hsameT.2.2.2.2.2.2.2.2.1
  have hprT : T.processors = s.processors := hsameT.2.2.2.2.2.2.2.2.2.1
  have hamT : T.magnitudeAverageMethods = s.magnitudeAverageMethods := hsameT.2.2.2.2.2.2.2.1
  have hscan := firstPLoop_first app hq T ampl pick arr pre post
    (by rw [hfpT]; exact hpick) harrid hpre hpost (by rw [hmwT]; exact hvalid) hsta
    (by
      intro x hx hv p hp hs
      rw [hmwT] at hv
      rw [hfpT] at hp
      exact absurd hs (honly x hx hv p hp))
  rw [← harr] at hscan
  have hoT : T.heap[origin]? = some o := by rw [hheapT]; exact ho
  have hctx : T.ctx origin = some ⟨o, s.registry⟩ := by
    unfold MagTool.ctx
    rw [hoT, hregT]
    rfl
  have hcs : T.computeStationMagnitude ampl d depth = some (true, [(proc.type, v)]) :=
    computeStationMagnitude_one T ampl d depth a v proc (by rw [hprT]; exact hprocs) hsetup
      hvalue hcompute
  have hloop := retroactiveLoop_late app T ampl proc.type v s.registry o hsm hmag hc1 hc2
  have hcounted := computeMagnitude_installed_counted app T s.registry o ampl proc.type v
  obtain ⟨r, hsum⟩ := Option.ne_none_iff_exists'.mp
    (computeSummaryMagnitude_ne_none app T
      (T.computeMagnitude app (installedCtx app s.registry o ampl proc.type v) proc.type 0).2
      (fun x hx => (hcounted x hx).1))
  obtain ⟨b, c1⟩ := r
  have hupd : T.updateOrigin app ampl false origin = (T.store origin c1, true) := by
    unfold MagTool.updateOrigin
    simp only [hoT, hbO, Bool.false_eq_true, if_false, hscan, hd, hdepth, hcs, hctx, hloop,
      if_true, hsum]
  rw [hupd]
  have hne : stationMagnitudesOfType (installedCtx app s.registry o ampl proc.type v).origin
      proc.type ≠ [] := by
    simp [stationMagnitudesOfType, installedCtx, App.newStationMagnitude]
  obtain ⟨nmA, k1, _, k3, k4, k5, k6, k7, k8⟩ := computeMagnitude_target app T
    (installedCtx app s.registry o ampl proc.type v) proc.type 0 _ hne rfl
  have hvals : stationMagnitudeValues (installedCtx app s.registry o ampl proc.type v).origin
      proc.type = [v] := by
    simp [stationMagnitudeValues, stationMagnitudesOfType, installedCtx, App.newStationMagnitude]
  have hofType : stationMagnitudesOfType (installedCtx app s.registry o ampl proc.type v).origin
      proc.type = (installedCtx app s.registry o ampl proc.type v).origin.stationMagnitudes := by
    simp [stationMagnitudesOfType, installedCtx, App.newStationMagnitude]
  have havgT : T.averageMethod proc.type = s.averageMethod proc.type := by
    unfold MagTool.averageMethod
    rw [hamT]
  rw [hvals, havgT] at k4 k5 k6 k8
  rw [hofType] at k5 k6
  obtain ⟨nm, j1, j2, j3, j4⟩ := computeSummaryMagnitude_getElem? app T _ c1 b hsum 0 nmA k1
  have hsmeq : c1.origin.stationMagnitudes =
      (installedCtx app s.registry o ampl proc.type v).origin.stationMagnitudes := by
    rw [computeSummaryMagnitude_stationMagnitudes app T _ c1 b hsum,
      computeMagnitude_stationMagnitudes]
  have hstore : (T.store origin c1).heap[origin]? = some c1.origin := by
    simp only [MagTool.store]
    rw [modifyAt_get?_eq, hoT]
    rfl
  refine ⟨c1.origin,
    { app.newStationMagnitude
        (app.objectID s.registry (stationMagnitudeID o ampl.waveformID proc.type))
        ampl.waveformID proc.type v with amplitudeID := ampl.publicID },
    nm, rfl, hstore, ?_, rfl, rfl, rfl, rfl, j1, ?_, ?_, ?_⟩
  · rw [hsmeq]
    rfl
  · rw [j2, k3]
    rfl
  · rw [j3, k5]
    simp [reconcileContributions, upsertContribution, installedCtx, App.newStationMagnitude]
  · intro hT
    have hnmA : nmA.type ≠ T.summaryMagnitudeType := by
      rw [k3, hsameT.2.1]
      exact hT
    have hnm : nm = nmA := j4 hnmA
    subst hnm
    refine ⟨k4, ?_, k7, ?_, ?_⟩
    · rw [k6]
      simp only [reconcileContributions, installedCtx]
      split <;> rfl
    · intro hall
      rw [k8 (by rw [hprT]; exact hall)]
    · intro hen hS hq1
      have hcases := computeSummaryMagnitude_cases app T
        (T.computeMagnitude app (installedCtx app s.registry o ampl proc.type v) proc.type 0).2
        (by rw [hsameT.1]; exact hen) (by rw [hsameT.2.1]; exact hS)
        (fun x hx _ => (hcounted x hx).2)
      rw [hsum] at hcases
      have hqual : T.specQualifies nm = true := by
        have : T.specQualifies = s.specQualifies := by
          funext x
          unfold MagTool.specQualifies MagTool.specSummaryWeight MagTool.specCoefficientA
            MagTool.specCoefficientB MagTool.specOverride
          rw [hsameT.2.1, hsameT.2.2.1, hsameT.2.2.2.1, hsameT.2.2.2.2.1, hsameT.2.2.2.2.2.1,
            hsameT.2.2.2.2.2.2.1]
        rw [this]
        exact hq1
      have hfilter : (T.computeMagnitude app (installedCtx app s.registry o ampl proc.type v)
          proc.type 0).2.origin.magnitudes.filter T.specQualifies ≠ [] := by
        intro hnil
        have := List.filter_eq_nil_iff.mp hnil nm (List.getElem?_mem k1)
        exact this hqual
      have hpub : (T.computeMagnitude app (installedCtx app s.registry o ampl proc.type v)
          proc.type 0).2.origin.publicID = o.publicID :=
        (computeMagnitude_grows app T (installedCtx app s.registry o ampl proc.type v)
          proc.type 0).1
      cases b with
      | true =>
        simp only at hcases
        obtain ⟨_, _, i, mag, hi, hget, _⟩ := hcases
        obtain ⟨x, hx, hpx, _⟩ := firstIndex_some _ _ _ hi
        rw [hget] at hx
        cases hx
        left
        exact ⟨mag, List.getElem?_mem hget, by simpa [hsameT.2.1] using hpx⟩
      | false =>
        simp only at hcases
        obtain ⟨hc, halt⟩ := hcases
        subst hc
        rcases halt with h1 | ⟨i, mag, hi, hget, _⟩ | ⟨_, hcf⟩
        · exact absurd h1 hfilter
        · obtain ⟨x, hx, hpx, _⟩ := firstIndex_some _ _ _ hi
          rw [hget] at hx
          cases hx
          left
          exact ⟨mag, List.getElem?_mem hget, by simpa [hsameT.2.1] using hpx⟩
        · right
          simp only [MagTool.store]
          unfold magnitudeID at hcf ⊢
          rw [hpub, hsameT.2.1] at hcf
          exact hcf

/-- C22 (amended), witness: scenario S4. The pick `P5` was fed; the origin `O5`
is fed without amplitudes, then the amplitude `A5` arrives with `update` unset.
The call returns true and `O5` ends with the station magnitude `MLv` 3 carrying
the amplitude id `A5`, the network magnitude `MLv` with its one contribution,
and the summary magnitude `M`. -/
theorem feedAmplitude_late_witness :
    (∃ o1 staMag nm,
      ((s4Tool.feedOrigin evalApp 0).1.feedAmplitude evalApp s5Amplitude false).2 = some true ∧
      ((s4Tool.feedOrigin evalApp 0).1.feedAmplitude evalApp s5Amplitude false).1.heap[0]?
        = some o1 ∧
      o1.stationMagnitudes = [staMag] ∧ staMag.type = "MLv" ∧
      staMag.waveformID = ⟨"GE", "A", "", "BHZ"⟩ ∧ staMag.magnitude.value = 3 ∧
      staMag.amplitudeID = "A5" ∧
      o1.magnitudes[0]? = some nm ∧ nm.type = "MLv" ∧
      nm.contributions.map (fun r => r.stationMagnitudeID) = [staMag.publicID]) ∧
    ((((s4Tool.feedOrigin evalApp 0).1.feedAmplitude evalApp s5Amplitude false).1.heap[0]?).map
      (fun o => (o.stationMagnitudes.map (fun m => (m.type, m.magnitude.value, m.amplitudeID)),
        o.magnitudes.map (fun m => (m.type, m.magnitude.value, m.stationCount)))) =
      some ([("MLv", 3, "A5")], [("MLv", 3, some 1), ("M", 3, some 1)])) := by
  refine ⟨?_, by decide!⟩
  obtain ⟨o1, staMag, nm, h1, h2, h3, h4, h5, h6, h7, h8, h9, h10, _⟩ :=
    feedAmplitude_late evalApp rfl s4Tool 0 freshOrigin s5Amplitude s5Pick
      { pickID := "P5", distance := some 1, weight := some 1 } [] [] 1 10 3 3 identityProcessor
      rfl rfl rfl rfl (by decide) rfl (by decide) (by decide) (by decide) rfl rfl (by simp)
      (by simp) (by decide!) rfl (by simp [freshOrigin]) ⟨rfl, rfl, rfl⟩ (by simp) rfl
      (by decide) rfl (by decide) (by simp [s4Tool, s5Amplitude, identityProcessor]) rfl rfl rfl
      (by decide) (by decide)
  exact ⟨o1, staMag, nm, h1, h2, h3, h4, h5, h6, h7, h8, h9, by rw [h10]; rfl⟩

/-- C22 (counterexample). In each run the pick `P5` is fed, then the origin
`O5` (depth set, one valid arrival referencing `P5`), then an amplitude for
`P5` on station `GE.A` with `update` unset; the processor of type `MLv` is
registered and yields the amplitude value 3; every call returns true.
(1) `O5` carries a network magnitude `MLv` with evaluation status (value 5,
station count 7): afterwards `O5` has the station magnitude `MLv` 3, while the
network magnitude `MLv` still has value 5, station count 7 and no contribution.
(2) The amplitude was measured on location code `00` while the pick has the
empty location code: afterwards `O5` has no station magnitude and no network
magnitude. (3) `O5` carries a station magnitude `MLv` of value 5 on the stream
of the amplitude: afterwards that station magnitude still has value 5 and its
former amplitude id, and `O5` has no network magnitude. -/
theorem feedAmplitude_late_not_aggregated :
    ((frozenStartTool.feedPick evalApp s5Pick).2 = true ∧
      ((frozenStartTool.feedPick evalApp s5Pick).1.feedOrigin evalApp 0).2 = some true ∧
      (((frozenStartTool.feedPick evalApp s5Pick).1.feedOrigin evalApp 0).1.feedAmplitude evalApp
        s5Amplitude false).2 = some true ∧
      (((frozenStartTool.feedPick evalApp s5Pick).1.feedOrigin evalApp 0).1.feedAmplitude evalApp
        s5Amplitude false).1.heap.map
        (fun o => o.stationMagnitudes.map (fun m => (m.type, m.magnitude.value, m.amplitudeID))) =
        [[("MLv", 3, "A5")]] ∧
      (((frozenStartTool.feedPick evalApp s5Pick).1.feedOrigin evalApp 0).1.feedAmplitude evalApp
        s5Amplitude false).1.heap.map
        (fun o => (o.magnitudes.filter (fun m => decide (m.type = "MLv"))).map
          (fun m => (m.magnitude.value, m.stationCount, m.contributions.length))) =
        [[(5, some 7, 0)]]) ∧
    ((startTool.feedPick evalApp s5Pick).2 = true ∧
      ((startTool.feedPick evalApp s5Pick).1.feedOrigin evalApp 0).2 = some true ∧
      (((startTool.feedPick evalApp s5Pick).1.feedOrigin evalApp 0).1.feedAmplitude evalApp
        locAmplitude false).2 = some true ∧
      (((startTool.feedPick evalApp s5Pick).1.feedOrigin evalApp 0).1.feedAmplitude evalApp
        locAmplitude false).1.heap.map
        (fun o => (o.stationMagnitudes.length, o.magnitudes.length)) = [(0, 0)]) ∧
    ((overwriteStartTool.feedPick evalApp s5Pick).2 = true ∧
      ((overwriteStartTool.feedPick evalApp s5Pick).1.feedOrigin evalApp 0).2 = some true ∧
      (((overwriteStartTool.feedPick evalApp s5Pick).1.feedOrigin evalApp 0).1.feedAmplitude
        evalApp s5Amplitude false).2 = some true ∧
      (((overwriteStartTool.feedPick evalApp s5Pick).1.feedOrigin evalApp 0).1.feedAmplitude
        evalApp s5Amplitude false).1.heap.map
        (fun o => (o.stationMagnitudes.map (fun m => (m.type, m.magnitude.value, m.amplitudeID)),
          o.magnitudes.length)) = [([("MLv", 5, "A_manual")], 0)]) := by
  refine ⟨⟨?_, ?_, ?_, ?_, ?_⟩, ⟨?_, ?_, ?_, ?_⟩, ⟨?_, ?_, ?_, ?_⟩⟩ <;> decide!

/-! ### The summary as a weighted mean -/

/-- The sums of the summary loop are the sums over its contributors, which all
have a positive weight and are network magnitudes of the origin. -/
theorem summaryLoop_contributors (self : MagTool) (mags : List Magnitude)
    (acc acc1 : SummaryAccumulator) (h : self.summaryLoop mags acc = some acc1) :
    ∃ l, self.summaryContributors mags = some l ∧
      (∀ e ∈ l, 0 < e.1 ∧ e.2 ∈ mags) ∧
      acc1.totalWeight = acc.totalWeight + (l.map Prod.fst).sum ∧
      acc1.value = acc.value + (l.map (fun e => e.1 * e.2.magnitude.value)).sum := by
  induction mags generalizing acc with
  | nil =>
    simp only [MagTool.summaryLoop, Option.some.injEq] at h
    subst h
    exact ⟨[], rfl, by simp, by simp, by simp⟩
  | cons m rest ih =>
    unfold MagTool.summaryLoop at h
    have hskip : ∀ a1, self.summaryLoop rest a1 = some acc1 → a1 = acc →
        self.summaryContributors (m :: rest) = self.summaryContributors rest →
        ∃ l, self.summaryContributors (m :: rest) = some l ∧
          (∀ e ∈ l, 0 < e.1 ∧ e.2 ∈ m :: rest) ∧
          acc1.totalWeight = acc.totalWeight + (l.map Prod.fst).sum ∧
          acc1.value = acc.value + (l.map (fun e => e.1 * e.2.magnitude.value)).sum := by
      intro a1 hl ha hc
      subst ha
      obtain ⟨l, h1, h2, h3, h4⟩ := ih a1 hl
      exact ⟨l, by rw [hc, h1], fun e he => ⟨(h2 e he).1, List.mem_cons_of_mem _ (h2 e he).2⟩,
        h3, h4⟩
    unfold MagTool.summaryStep at h
    by_cases h1 : m.type = self.summaryMagnitudeType
    · simp only [h1, if_true] at h
      exact hskip acc h rfl (by simp [MagTool.summaryContributors, h1])
    by_cases h2 : self.isTypeEnabledForSummaryMagnitude m.type = true
    swap
    · simp only [Bool.not_eq_true] at h2
      simp only [h1, if_false, h2, Bool.not_false, if_true] at h
      exact hskip acc h rfl (by simp [MagTool.summaryContributors, h1, h2])
    rcases Option.eq_none_or_eq_some m.stationCount with hn | ⟨n, hn⟩
    · simp [h1, h2, hn] at h
    by_cases h3 : n < self.summaryMagnitudeMinStationCount
    · simp only [h1, if_false, h2, Bool.not_true, Bool.false_eq_true, hn, h3, if_true] at h
      exact hskip acc h rfl (by simp [MagTool.summaryContributors, h1, h2, hn, h3])
    by_cases h4 : self.coefficientA m.type * (n : ℚ) + self.coefficientB m.type ≤ 0
    · simp only [h1, if_false, h2, Bool.not_true, Bool.false_eq_true, hn, h3, h4, if_true] at h
      exact hskip acc h rfl (by simp [MagTool.summaryContributors, h1, h2, hn, h3, h4])
    simp only [h1, if_false, h2, Bool.not_true, Bool.false_eq_true, hn, h3, h4] at h
    obtain ⟨l, k1, k2, k3, k4⟩ := ih _ h
    refine ⟨(self.coefficientA m.type * (n : ℚ) + self.coefficientB m.type, m) :: l, ?_, ?_, ?_, ?_⟩
    · simp [MagTool.summaryContributors, h1, h2, hn, h3, h4, k1]
    · intro e he
      rcases List.mem_cons.mp he with rfl | he
      · exact ⟨not_le.mp h4, List.mem_cons_self _ _⟩
      · exact ⟨(k2 e he).1, List.mem_cons_of_mem _ (k2 e he).2⟩
    · rw [k3]
      simp only [List.map_cons, List.sum_cons]
      ring
    · rw [k4]
      simp only [List.map_cons, List.sum_cons]
      ring

theorem sum_weights_pos {α : Type} (l : List (ℚ × α)) (hpos : ∀ e ∈ l, 0 < e.1) (hne : l ≠ []) :
    0 < (l.map Prod.fst).sum := by
  induction l with
  | nil => exact absurd rfl hne
  | cons e rest ih =>
    have he : 0 < e.1 := hpos e (List.mem_cons_self _ _)
    by_cases hr : rest = []
    · simp [hr, he]
    · have := ih (fun x hx => hpos x (List.mem_cons_of_mem _ hx)) hr
      simp only [List.map_cons, List.sum_cons]
      linarith

/-- Some term of a weighted sum with positive weights is not above the weighted
mean. -/
theorem exists_le_weighted {α : Type} (f : α → ℚ) (l : List (ℚ × α))
    (hpos : ∀ e ∈ l, 0 < e.1) (hne : l ≠ []) :
    ∃ e ∈ l, f e.2 * (l.map Prod.fst).sum ≤ (l.map (fun e => e.1 * f e.2)).sum := by
  induction l with
  | nil => exact absurd rfl hne
  | cons e rest ih =>
    have he : 0 < e.1 := hpos e (List.mem_cons_self _ _)
    by_cases hr : rest = []
    · subst hr
      exact ⟨e, List.mem_cons_self _ _, by simp [mul_comm]⟩
    · have hposr : ∀ x ∈ rest, 0 < x.1 := fun x hx => hpos x (List.mem_cons_of_mem _ hx)
      obtain ⟨x, hx, hle⟩ := ih hposr hr
      have hW := sum_weights_pos rest hposr hr
      simp only [List.map_cons, List.sum_cons]
      by_cases hc : f e.2 ≤ f x.2
      · refine ⟨e, List.mem_cons_self _ _, ?_⟩
        have : f e.2 * (rest.map Prod.fst).sum ≤ f x.2 * (rest.map Prod.fst).sum :=
          mul_le_mul_of_nonneg_right hc (le_of_lt hW)
        nlinarith
      · refine ⟨x, List.mem_cons_of_mem _ hx, ?_⟩
        have hlt : f x.2 ≤ f e.2 := le_of_lt (not_le.mp hc)
        have : f x.2 * e.1 ≤ f e.2 * e.1 := mul_le_mul_of_nonneg_right hlt (le_of_lt he)
        nlinarith

/-- Some term of a weighted sum with positive weights is not below the weighted
mean. -/
theorem exists_ge_weighted {α : Type} (f : α → ℚ) (l : List (ℚ × α))
    (hpos : ∀ e ∈ l, 0 < e.1) (hne : l ≠ []) :
    ∃ e ∈ l, (l.map (fun e => e.1 * f e.2)).sum ≤ f e.2 * (l.map Prod.fst).sum := by
  induction l with
  | nil => exact absurd rfl hne
  | cons e rest ih =>
    have he : 0 < e.1 := hpos e (List.mem_cons_self _ _)
    by_cases hr : rest = []
    · subst hr
      exact ⟨e, List.mem_cons_self _ _, by simp [mul_comm]⟩
    · have hposr : ∀ x ∈ rest, 0 < x.1 := fun x hx => hpos x (List.mem_cons_of_mem _ hx)
      obtain ⟨x, hx, hle⟩ := ih hposr hr
      have hW := sum_weights_pos rest hposr hr
      simp only [List.map_cons, List.sum_cons]
      by_cases hc : f x.2 ≤ f e.2
      · refine ⟨e, List.mem_cons_self _ _, ?_⟩
        have : f x.2 * (rest.map Prod.fst).sum ≤ f e.2 * (rest.map Prod.fst).sum :=
          mul_le_mul_of_nonneg_right hc (le_of_lt hW)
        nlinarith
      · refine ⟨x, List.mem_cons_of_mem _ hx, ?_⟩
        have hlt : f e.2 ≤ f x.2 := le_of_lt (not_le.mp hc)
        have : f e.2 * e.1 ≤ f x.2 * e.1 := mul_le_mul_of_nonneg_right hlt (le_of_lt he)
        nlinarith

/-- When `computeSummaryMagnitude` returns true, the total weight of the summary
loop is not 0 and a network magnitude of the summary type carries the quotient
of the two sums as value. -/
theorem computeSummaryMagnitude_written (app : App) (self : MagTool) (c c1 : OriginCtx)
    (acc : SummaryAccumulator)
    (h : self.summaryLoop c.origin.magnitudes ⟨0, 0, 0⟩ = some acc)
    (hr : self.computeSummaryMagnitude app c = some (true, c1)) :
    acc.totalWeight ≠ 0 ∧
    ∃ (i : Nat) (mag : Magnitude), c1.origin.magnitudes[i]? = some mag ∧ mag.type = self.summaryMagnitudeType ∧
      mag.magnitude.value = acc.value / acc.totalWeight := by
  unfold MagTool.computeSummaryMagnitude at hr
  by_cases hen : (!self.summaryMagnitudeEnabled) = true
  · rw [if_pos hen] at hr
    simp at hr
  rw [if_neg hen] at hr
  by_cases hS : self.summaryMagnitudeType = ""
  · rw [if_pos hS] at hr
    simp at hr
  rw [if_neg hS, h] at hr
  simp only at hr
  by_cases hz : acc.totalWeight = 0
  · rw [if_pos hz] at hr
    simp at hr
  rw [if_neg hz] at hr
  refine ⟨hz, ?_⟩
  have hspec := getMagnitude_spec app c self.summaryMagnitudeType
  rcases hgm : getMagnitude app c self.summaryMagnitudeType with ⟨_ | ⟨i, newInstance⟩, c2⟩
  · rw [hgm] at hr
    simp at hr
  · rw [hgm] at hr hspec
    simp only at hr hspec
    obtain ⟨mag, hmag, hty, _⟩ := hspec.2.2.2.2.2.2.1
    split at hr
    · simp at hr
    · simp only [Option.some.injEq, Prod.mk.injEq, true_and] at hr
      subst hr
      exact ⟨i, _, modifyMagnitude_get? c2 i _ mag hmag, hty, rfl⟩

/-! ### Double arithmetic -/

theorem log2Fuel_spec (fuel : Nat) : ∀ n : Nat, n ≤ fuel → 0 < n →
    2 ^ log2Fuel fuel n ≤ n ∧ n < 2 ^ (log2Fuel fuel n + 1) := by
  induction fuel with
  | zero => intro n h1 h2; omega
  | succ fuel ih =>
    intro n h1 h2
    unfold log2Fuel
    by_cases hn : n < 2
    · rw [if_pos hn]
      simp only [pow_zero, zero_add, pow_one]
      omega
    · rw [if_neg hn]
      obtain ⟨k1, k2⟩ := ih (n / 2) (by omega) (by omega)
      rw [pow_succ] at k2 ⊢
      rw [pow_succ (2 : Nat) (log2Fuel fuel (n / 2) + 1), pow_succ]
      constructor <;> omega

theorem floorLog2_spec (n : Nat) (h : 0 < n) :
    2 ^ floorLog2 n ≤ n ∧ n < 2 ^ (floorLog2 n + 1) :=
  log2Fuel_spec n n (le_refl n) h

/-- The power of two of the binary exponent is not above the number. -/
theorem binaryExponent_le (x : ℚ) (hx : 0 < x) : (2 : ℚ) ^ binaryExponent x ≤ x := by
  unfold binaryExponent
  simp only
  split
  · have hnum : 0 < x.num := Rat.num_pos.mpr hx
    have hp : 0 < x.num.natAbs := Int.natAbs_pos.mpr (ne_of_gt hnum)
    have hq : 0 < x.den := x.den_pos
    obtain ⟨p1, _⟩ := floorLog2_spec _ hp
    obtain ⟨_, q2⟩ := floorLog2_spec _ hq
    have hxe : x = (x.num.natAbs : ℚ) / (x.den : ℚ) := by
      have h1 : ((x.num.natAbs : ℤ) : ℚ) = (x.num : ℚ) := by
        rw [Int.natAbs_of_nonneg (le_of_lt hnum)]
      have h2 : ((x.num.natAbs : ℕ) : ℚ) = ((x.num.natAbs : ℤ) : ℚ) := (Int.cast_natCast _).symm
      rw [h2, h1]
      exact (Rat.num_div_den x).symm
    have e1 : (2 : ℚ) ^ ((floorLog2 x.num.natAbs : Int) - (floorLog2 x.den : Int) - 1) =
        (2 : ℚ) ^ (floorLog2 x.num.natAbs) / (2 : ℚ) ^ (floorLog2 x.den + 1) := by
      have : ((floorLog2 x.num.natAbs : Int) - (floorLog2 x.den : Int) - 1) =
          (floorLog2 x.num.natAbs : Int) - ((floorLog2 x.den + 1 : Nat) : Int) := by
        push_cast; ring
      rw [this, zpow_sub₀ (by norm_num : (2 : ℚ) ≠ 0), zpow_natCast, zpow_natCast]
    rw [e1]
    have p1q : (2 : ℚ) ^ (floorLog2 x.num.natAbs) ≤ (x.num.natAbs : ℚ) := by exact_mod_cast p1
    have q2q : (x.den : ℚ) ≤ (2 : ℚ) ^ (floorLog2 x.den + 1) := by exact_mod_cast le_of_lt q2
    have hqq : (0 : ℚ) < (x.den : ℚ) := by exact_mod_cast hq
    have hpp : (0 : ℚ) ≤ (x.num.natAbs : ℚ) := by positivity
    calc (2 : ℚ) ^ (floorLog2 x.num.natAbs) / (2 : ℚ) ^ (floorLog2 x.den + 1)
        ≤ (x.num.natAbs : ℚ) / (2 : ℚ) ^ (floorLog2 x.den + 1) := by
          apply div_le_div_of_nonneg_right p1q
          positivity
      _ ≤ (x.num.natAbs : ℚ) / (x.den : ℚ) := by
          apply div_le_div_of_nonneg_left hpp hqq q2q
      _ = x := hxe.symm
  · rename_i h
    exact not_lt.mp h

theorem floor_le_roundHalfEven (x : ℚ) : Int.floor x ≤ roundHalfEven x := by
  unfold roundHalfEven
  simp only
  split
  · exact le_refl _
  · split
    · omega
    · split <;> omega

theorem roundPositive_pos (x : ℚ) (hx : 0 < x) : 0 < roundPositive x := by
  unfold roundPositive
  simp only
  have hulp : (0 : ℚ) < (2 : ℚ) ^ (binaryExponent x - 52) := by positivity
  have hle : (2 : ℚ) ^ (binaryExponent x - 52) ≤ x :=
    le_trans (zpow_le_zpow_right₀ (by norm_num) (by omega)) (binaryExponent_le x hx)
  have h1 : (1 : ℚ) ≤ x / (2 : ℚ) ^ (binaryExponent x - 52) := by
    rw [le_div_iff₀ hulp, one_mul]
    exact hle
  have h2 : (1 : ℤ) ≤ Int.floor (x / (2 : ℚ) ^ (binaryExponent x - 52)) := by
    rw [Int.le_floor]
    exact_mod_cast h1
  have h3 : (0 : ℤ) < roundHalfEven (x / (2 : ℚ) ^ (binaryExponent x - 52)) :=
    lt_of_lt_of_le (by omega) (floor_le_roundHalfEven _)
  have h4 : (0 : ℚ) < (roundHalfEven (x / (2 : ℚ) ^ (binaryExponent x - 52)) : ℚ) := by
    exact_mod_cast h3
  exact mul_pos h4 hulp

/-- The number is below the next power of two above its binary exponent. -/
theorem lt_binaryExponent (x : ℚ) (hx : 0 < x) : x < (2 : ℚ) ^ (binaryExponent x + 1) := by
  unfold binaryExponent
  simp only
  split
  · rename_i h
    rw [sub_add_cancel]
    exact h
  · have hnum : 0 < x.num := Rat.num_pos.mpr hx
    have hp : 0 < x.num.natAbs := Int.natAbs_pos.mpr (ne_of_gt hnum)
    have hq : 0 < x.den := x.den_pos
    obtain ⟨_, p2⟩ := floorLog2_spec _ hp
    obtain ⟨q1, _⟩ := floorLog2_spec _ hq
    have hxe : x = (x.num.natAbs : ℚ) / (x.den : ℚ) := by
      have h1 : ((x.num.natAbs : ℤ) : ℚ) = (x.num : ℚ) := by
        rw [Int.natAbs_of_nonneg (le_of_lt hnum)]
      have h2 : ((x.num.natAbs : ℕ) : ℚ) = ((x.num.natAbs : ℤ) : ℚ) := (Int.cast_natCast _).symm
      rw [h2, h1]
      exact (Rat.num_div_den x).symm
    have e1 : (2 : ℚ) ^ ((floorLog2 x.num.natAbs : Int) - (floorLog2 x.den : Int) + 1) =
        (2 : ℚ) ^ (floorLog2 x.num.natAbs + 1) / (2 : ℚ) ^ (floorLog2 x.den) := by
      have : ((floorLog2 x.num.natAbs : Int) - (floorLog2 x.den : Int) + 1) =
          ((floorLog2 x.num.natAbs + 1 : Nat) : Int) - ((floorLog2 x.den : Nat) : Int) := by
        push_cast; ring
      rw [this, zpow_sub₀ (by norm_num : (2 : ℚ) ≠ 0), zpow_natCast, zpow_natCast]
    rw [e1]
    have p2q : (x.num.natAbs : ℚ) < (2 : ℚ) ^ (floorLog2 x.num.natAbs + 1) := by exact_mod_cast p2
    have q1q : (2 : ℚ) ^ (floorLog2 x.den) ≤ (x.den : ℚ) := by exact_mod_cast q1
    have hqq : (0 : ℚ) < (x.den : ℚ) := by exact_mod_cast hq
    have h2pos : (0 : ℚ) < (2 : ℚ) ^ (floorLog2 x.den) := by positivity
    calc x = (x.num.natAbs : ℚ) / (x.den : ℚ) := hxe
      _ < (2 : ℚ) ^ (floorLog2 x.num.natAbs + 1) / (x.den : ℚ) := by
          apply div_lt_div_of_pos_right p2q hqq
      _ ≤ (2 : ℚ) ^ (floorLog2 x.num.natAbs + 1) / (2 : ℚ) ^ (floorLog2 x.den) := by
          apply div_le_div_of_nonneg_left (by positivity) h2pos q1q

/-- Rounding to the nearest integer moves a number by at most one half. -/
theorem roundHalfEven_close (x : ℚ) : |(roundHalfEven x : ℚ) - x| ≤ 1 / 2 := by
  have h1 : (Int.floor x : ℚ) ≤ x := Int.floor_le x
  have h2 : x < (Int.floor x : ℚ) + 1 := Int.lt_floor_add_one x
  unfold roundHalfEven
  simp only
  rw [abs_le]
  split
  · rename_i h
    constructor <;> linarith
  · rename_i h
    split
    · push_cast
      constructor <;> linarith
    · rename_i h3
      have h4 : x - (Int.floor x : ℚ) = 1 / 2 := le_antisymm (not_lt.mp h3) (not_lt.mp h)
      split
      · constructor <;> linarith
      · push_cast
        constructor <;> linarith

/-- The rounding of a positive number is a multiple of the unit in the last
place of the number, with a factor of at most 53 bits, and is away from the
number by at most half that unit. -/
theorem roundPositive_spec (x : ℚ) (hx : 0 < x) :
    ∃ k : Int, roundPositive x = (k : ℚ) * (2 : ℚ) ^ (binaryExponent x - 52) ∧
      2 ^ 52 ≤ k ∧ k ≤ 2 ^ 53 ∧
      |roundPositive x - x| ≤ (2 : ℚ) ^ (binaryExponent x - 52) / 2 := by
  have hulp : (0 : ℚ) < (2 : ℚ) ^ (binaryExponent x - 52) := by positivity
  have hlo : (2 : ℚ) ^ (52 : ℤ) ≤ x / (2 : ℚ) ^ (binaryExponent x - 52) := by
    rw [le_div_iff₀ hulp, ← zpow_add₀ (by norm_num : (2 : ℚ) ≠ 0)]
    have : (52 : ℤ) + (binaryExponent x - 52) = binaryExponent x := by ring
    rw [this]
    exact binaryExponent_le x hx
  have hhi : x / (2 : ℚ) ^ (binaryExponent x - 52) < (2 : ℚ) ^ (53 : ℤ) := by
    rw [div_lt_iff₀ hulp, ← zpow_add₀ (by norm_num : (2 : ℚ) ≠ 0)]
    have : (53 : ℤ) + (binaryExponent x - 52) = binaryExponent x + 1 := by ring
    rw [this]
    exact lt_binaryExponent x hx
  have hc := roundHalfEven_close (x / (2 : ℚ) ^ (binaryExponent x - 52))
  rw [abs_le] at hc
  refine ⟨roundHalfEven (x / (2 : ℚ) ^ (binaryExponent x - 52)), rfl, ?_, ?_, ?_⟩
  · have : ((2 ^ 52 : ℤ) : ℚ) - 1 < (roundHalfEven (x / (2 : ℚ) ^ (binaryExponent x - 52)) : ℚ) := by
      have h52 : ((2 ^ 52 : ℤ) : ℚ) = (2 : ℚ) ^ (52 : ℤ) := by norm_num
      rw [h52]
      linarith [hc.1]
    have h3 : (2 ^ 52 : ℤ) - 1 < roundHalfEven (x / (2 : ℚ) ^ (binaryExponent x - 52)) := by
      exact_mod_cast this
    omega
  · have : (roundHalfEven (x / (2 : ℚ) ^ (binaryExponent x - 52)) : ℚ) < ((2 ^ 53 : ℤ) : ℚ) + 1 := by
      have h53 : ((2 ^ 53 : ℤ) : ℚ) = (2 : ℚ) ^ (53 : ℤ) := by norm_num
      rw [h53]
      linarith [hc.2]
    have h3 : roundHalfEven (x / (2 : ℚ) ^ (binaryExponent x - 52)) < (2 ^ 53 : ℤ) + 1 := by
      exact_mod_cast this
    omega
  · unfold roundPositive
    simp only
    have hx2 : x = x / (2 : ℚ) ^ (binaryExponent x - 52) * (2 : ℚ) ^ (binaryExponent x - 52) := by
      field_simp
    have : (roundHalfEven (x / (2 : ℚ) ^ (binaryExponent x - 52)) : ℚ) *
        (2 : ℚ) ^ (binaryExponent x - 52) - x =
        ((roundHalfEven (x / (2 : ℚ) ^ (binaryExponent x - 52)) : ℚ) -
          x / (2 : ℚ) ^ (binaryExponent x - 52)) * (2 : ℚ) ^ (binaryExponent x - 52) := by
      rw [sub_mul, ← hx2]
    rw [this, abs_mul, abs_of_pos hulp]
    have := roundHalfEven_close (x / (2 : ℚ) ^ (binaryExponent x - 52))
    calc |(roundHalfEven (x / (2 : ℚ) ^ (binaryExponent x - 52)) : ℚ) -
          x / (2 : ℚ) ^ (binaryExponent x - 52)| * (2 : ℚ) ^ (binaryExponent x - 52)
        ≤ 1 / 2 * (2 : ℚ) ^ (binaryExponent x - 52) :=
          mul_le_mul_of_nonneg_right this (le_of_lt hulp)
      _ = (2 : ℚ) ^ (binaryExponent x - 52) / 2 := by ring

/-- Rounding keeps a positive number positive. -/
theorem roundDouble_pos (x : ℚ) (hx : 0 < x) : 0 < roundDouble x := by
  unfold roundDouble
  rw [if_neg (ne_of_gt hx), if_neg (not_lt.mpr (le_of_lt hx))]
  exact roundPositive_pos x hx

/-- The rounding function on the decimal constants 0.4, 0.6 and 1.7 and on the
binary fraction 3.5: the values are those of the binary64 numbers
`0x3FD999999999999A`, `0x3FE3333333333333` and `0x3FFB333333333333`, and 3.5 is
not changed. -/
theorem roundDouble_values :
    roundDouble (2/5) = 3602879701896397 / 2 ^ 53 ∧
    roundDouble (3/5) = 5404319552844595 / 2 ^ 53 ∧
    roundDouble (17/10) = 7656119366529843 / 2 ^ 52 ∧
    roundDouble (7/2) = 7/2 ∧
    roundDouble (-(2/5)) = -(3602879701896397 / 2 ^ 53) := by
  refine ⟨?_, ?_, ?_, ?_, ?_⟩ <;> decide!

/-- One iteration of the summary loop in double arithmetic keeps the total
weight non-negative. -/
theorem summaryStepDouble_totalWeight (self : MagTool) (acc acc1 : SummaryAccumulator)
    (m : Magnitude) (h : self.summaryStepDouble acc m = some acc1)
    (hacc : 0 ≤ acc.totalWeight) : 0 ≤ acc1.totalWeight := by
  unfold MagTool.summaryStepDouble at h
  split at h
  · cases h; exact hacc
  split at h
  · cases h; exact hacc
  split at h
  · cases h
  split at h
  · cases h; exact hacc
  simp only at h
  split at h
  · cases h; exact hacc
  rename_i hw
  cases h
  simp only
  exact le_of_lt (roundDouble_pos _ (add_pos_of_nonneg_of_pos hacc (not_le.mp hw)))

/-- The summary loop in double arithmetic keeps the total weight non-negative. -/
theorem summaryLoopDouble_totalWeight (self : MagTool) (mags : List Magnitude)
    (acc acc1 : SummaryAccumulator) (h : self.summaryLoopDouble mags acc = some acc1)
    (hacc : 0 ≤ acc.totalWeight) : 0 ≤ acc1.totalWeight := by
  induction mags generalizing acc with
  | nil =>
    simp only [MagTool.summaryLoopDouble, Option.some.injEq] at h
    subst h
    exact hacc
  | cons m rest ih =>
    unfold MagTool.summaryLoopDouble at h
    cases hs : self.summaryStepDouble acc m with
    | none => rw [hs] at h; cases h
    | some a1 =>
      rw [hs] at h
      exact ih a1 h (summaryStepDouble_totalWeight self acc a1 m hs hacc)

/-- C31 (counterexample). The configuration is the one of the constructor
(summary type `M`, coefficients 0.4 and -1 for `Mw(mB)`); the origin has the
single network magnitude `Mw(mB)` with value 3.5 and station count 4. In exact
arithmetic it is the only contributor, with weight 0.6. In double arithmetic
the weight is `0.4 * 4 - 1 = 0.6000000000000001`, the product with 3.5 is
rounded to `2.1000000000000005`, and the quotient of the two sums is rounded to
`3.5 + 2^-51 = 3.5000000000000004`: the summary value is greater than the value
of the only contributor. -/
theorem summaryValueDouble_exceeds_contributor :
    roundingOrigin.magnitudes.map (fun m => (m.type, m.stationCount, m.magnitude.value)) =
      [("Mw(mB)", some 4, 7/2)] ∧
    (({} : MagTool).summaryContributors roundingOrigin.magnitudes).map
      (fun l => l.map (fun e => (e.1, e.2.magnitude.value))) = some [(3/5, 7/2)] ∧
    ({} : MagTool).summaryLoopDouble roundingOrigin.magnitudes ⟨0, 0, 0⟩ =
      some ⟨4728779608739022 / 2 ^ 51, 1351079888211149 / 2 ^ 51, 4⟩ ∧
    ({} : MagTool).summaryValueDouble roundingOrigin = some (some (7/2 + 1 / 2 ^ 51)) ∧
    (7/2 : ℚ) < 7/2 + 1 / 2 ^ 51 := by
  refine ⟨?_, ?_, ?_, ?_, ?_⟩ <;> decide!

/-- C31 (amended: the summary is a convex combination in exact arithmetic, and
the total weight is positive also in double arithmetic). Let the summary loop
run over the network magnitudes of the origin without exception and leave, in
exact arithmetic, the sums `acc.value` and `acc.totalWeight`. The magnitudes
that entered the sums, each with its weight `a*n+b`, are network magnitudes of
the origin and every weight is greater than 0; `acc.totalWeight` is the sum of
the weights and `acc.value` the sum of weight times value; `acc.totalWeight` is
0 exactly when nothing entered the sums, and otherwise it is greater than 0, so
the division `value / totalWeight`, reached only for a total weight other than
0, is not by zero. In that case some contributor has a value not above the
quotient and some contributor a value not below it (the quotient lies between
the minimum and the maximum of their values), and with a single contributor the
quotient is its value. Whenever `computeSummaryMagnitude` returns true, the
total weight is not 0 and the quotient is the value of a network magnitude of
the summary type on the resulting origin. In double arithmetic the total weight
the loop leaves is never negative and is greater than 0 whenever it is not 0,
and every summary value that is computed is the rounded quotient of the two
sums with a total weight greater than 0. -/
theorem computeSummaryMagnitude_convex (app : App) (self : MagTool) (c : OriginCtx)
    (acc : SummaryAccumulator)
    (h : self.summaryLoop c.origin.magnitudes ⟨0, 0, 0⟩ = some acc) :
    (∃ l, self.summaryContributors c.origin.magnitudes = some l ∧
      (∀ e ∈ l, 0 < e.1 ∧ e.2 ∈ c.origin.magnitudes) ∧
      acc.totalWeight = (l.map Prod.fst).sum ∧
      acc.value = (l.map (fun e => e.1 * e.2.magnitude.value)).sum ∧
      (acc.totalWeight = 0 ↔ l = []) ∧
      (acc.totalWeight ≠ 0 →
        0 < acc.totalWeight ∧
        (∃ e ∈ l, e.2.magnitude.value ≤ acc.value / acc.totalWeight) ∧
        (∃ e ∈ l, acc.value / acc.totalWeight ≤ e.2.magnitude.value) ∧
        (∀ e, l = [e] → acc.value / acc.totalWeight = e.2.magnitude.value)) ∧
      (∀ c1, self.computeSummaryMagnitude app c = some (true, c1) →
        acc.totalWeight ≠ 0 ∧
        ∃ (i : Nat) (mag : Magnitude), c1.origin.magnitudes[i]? = some mag ∧ mag.type = self.summaryMagnitudeType ∧
          mag.magnitude.value = acc.value / acc.totalWeight)) ∧
    (∀ accd, self.summaryLoopDouble c.origin.magnitudes ⟨0, 0, 0⟩ = some accd →
      0 ≤ accd.totalWeight ∧
      (accd.totalWeight ≠ 0 → 0 < accd.totalWeight) ∧
      (∀ v, self.summaryValueDouble c.origin = some (some v) →
        0 < accd.totalWeight ∧ v = roundDouble (accd.value / accd.totalWeight))) := by
  refine ⟨?_, ?_⟩
  swap
  · intro accd hd
    have hnn : 0 ≤ accd.totalWeight :=
      summaryLoopDouble_totalWeight self _ _ _ hd (le_refl _)
    refine ⟨hnn, fun hne => lt_of_le_of_ne hnn (Ne.symm hne), ?_⟩
    intro v hv
    unfold MagTool.summaryValueDouble at hv
    rw [hd] at hv
    simp only at hv
    split at hv
    · cases hv
    split at hv
    · cases hv
    split at hv
    · cases hv
    rename_i hne
    simp only [Option.some.injEq] at hv
    exact ⟨lt_of_le_of_ne hnn (Ne.symm hne), hv.symm⟩
  obtain ⟨l, h1, h2, h3, h4⟩ := summaryLoop_contributors self _ _ _ h
  simp only [zero_add] at h3 h4
  have hpos : ∀ e ∈ l, 0 < e.1 := fun e he => (h2 e he).1
  have hiff : acc.totalWeight = 0 ↔ l = [] := by
    constructor
    · intro hz
      by_contra hne
      have := sum_weights_pos l hpos hne
      rw [← h3, hz] at this
      exact lt_irrefl _ this
    · intro hl
      rw [h3, hl]
      rfl
  refine ⟨l, h1, h2, h3, h4, hiff, ?_, ?_⟩
  · intro hz
    have hne : l ≠ [] := fun hl => hz (hiff.mpr hl)
    have hW : 0 < acc.totalWeight := by
      rw [h3]
      exact sum_weights_pos l hpos hne
    refine ⟨hW, ?_, ?_, ?_⟩
    · obtain ⟨e, he, hle⟩ := exists_le_weighted (fun m : Magnitude => m.magnitude.value) l hpos hne
      refine ⟨e, he, ?_⟩
      rw [le_div_iff₀ hW, h3, h4]
      exact hle
    · obtain ⟨e, he, hle⟩ := exists_ge_weighted (fun m : Magnitude => m.magnitude.value) l hpos hne
      refine ⟨e, he, ?_⟩
      rw [div_le_iff₀ hW, h3, h4]
      exact hle
    · intro e hl
      subst hl
      have he : 0 < e.1 := hpos e (List.mem_singleton_self _)
      rw [h3, h4]
      simp only [List.map_cons, List.map_nil, List.sum_cons, List.sum_nil, add_zero]
      field_simp
  · intro c1 hr
    exact computeSummaryMagnitude_written app self c c1 acc h hr

/-- C31, witness: scenario S6. The network magnitudes `MLv` (value 3, weight 1)
and `Mw(mB)` (value 5.5, weight 0.6) enter the sums 6.3 and 1.6; the quotient
lies between 3 and 5.5 and is the value written to the summary magnitude. In
double arithmetic the total weight `1.6` is greater than 0. -/
theorem computeSummaryMagnitude_convex_witness :
    (∃ l, s6Tool.summaryContributors s6Origin.magnitudes = some l ∧
      l.map (fun e => (e.1, e.2.type, e.2.magnitude.value)) =
        [(1, "MLv", 3), (3/5, "Mw(mB)", 11/2)] ∧
      (0 : ℚ) < 8/5 ∧
      (∃ e ∈ l, e.2.magnitude.value ≤ (63/10 : ℚ) / (8/5)) ∧
      (∃ e ∈ l, (63/10 : ℚ) / (8/5) ≤ e.2.magnitude.value) ∧
      (∀ c1, s6Tool.computeSummaryMagnitude evalApp ⟨s6Origin, []⟩ = some (true, c1) →
        ∃ (i : Nat) (mag : Magnitude), c1.origin.magnitudes[i]? = some mag ∧ mag.type = "M" ∧
          mag.magnitude.value = (63/10 : ℚ) / (8/5))) ∧
    (0 : ℚ) < 3602879701896397 / 2 ^ 51 := by
  obtain ⟨⟨l, h1, _, _, _, _, h6, h7⟩, hdouble⟩ := computeSummaryMagnitude_convex evalApp s6Tool
    ⟨s6Origin, []⟩ ⟨63/10, 8/5, 10⟩ (by decide!)
  refine ⟨?_, (hdouble ⟨1773292353277133 / 2 ^ 48, 3602879701896397 / 2 ^ 51, 10⟩
    (by decide!)).2.1 (by decide!)⟩
  obtain ⟨k1, k2, k3, _⟩ := h6 (by norm_num)
  refine ⟨l, h1, ?_, k1, k2, k3, fun c1 hc => (h7 c1 hc).2⟩
  have hv : (s6Tool.summaryContributors s6Origin.magnitudes).map
      (fun l => l.map (fun e => (e.1, e.2.type, e.2.magnitude.value))) =
      some [(1, "MLv", 3), (3/5, "Mw(mB)", 11/2)] := by
    decide!
  rw [h1] at hv
  simpa using hv

/-! ### Feeding an origin again, with an archive -/

theorem cacheKeeps_refl (ids : List String) (oid : String) (a : MagTool) :
    a.cacheKeeps ids oid a :=
  ⟨rfl, rfl, fun _ _ h => h, rfl, fun _ h => h⟩

theorem cacheKeeps_trans {ids : List String} {oid : String} {a b c : MagTool}
    (h1 : a.cacheKeeps ids oid b) (h2 : b.cacheKeeps ids oid c) : a.cacheKeeps ids oid c :=
  ⟨h2.1.trans h1.1, h2.2.1.trans h1.2.1, fun id hid h => h2.2.2.1 id hid (h1.2.2.1 id hid h),
    h2.2.2.2.1.trans h1.2.2.2.1, fun k h => h2.2.2.2.2 k (h1.2.2.2.2 k h)⟩

/-- Entering an object that is not a pick, under a public id other than `id`,
leaves the lookup of the pick `id`. -/
theorem findPick_cacheFeed_other (t : MagTool) (obj : CachedObject) (id : String)
    (hobj : ∀ p, obj ≠ CachedObject.pick p) (hid : t.cachedPublicID obj ≠ some id) :
    (t.cacheFeed obj).findPick id = t.findPick id := by
  unfold MagTool.findPick MagTool.cacheFeed
  simp only [List.findSome?_append]
  rw [findSome?_filter_of_none]
  · cases obj with
    | pick p => exact absurd rfl (hobj p)
    | amplitude a => simp
    | origin ptr => simp
  · intro x _ hx
    cases x with
    | pick q =>
      simp only [ne_eq, decide_not, Bool.not_eq_eq_eq_not, Bool.not_false,
        decide_eq_true_eq] at hx
      simp only
      rw [if_neg]
      intro hq
      apply hid
      rw [← hx]
      simp only [MagTool.cachedPublicID, hq]
    | amplitude a => rfl
    | origin ptr => rfl

/-- Entering an object that is not an origin, under a public id other than
`oid`, leaves the registered origin of `oid`. -/
theorem findOrigin_cacheFeed_other (t : MagTool) (obj : CachedObject) (oid : String)
    (hobj : ∀ ptr, obj ≠ CachedObject.origin ptr) (hid : t.cachedPublicID obj ≠ some oid) :
    (t.cacheFeed obj).findOrigin oid = t.findOrigin oid := by
  unfold MagTool.findOrigin MagTool.cacheFeed
  simp only [List.findSome?_append]
  rw [findSome?_filter_of_none]
  · cases obj with
    | pick p => simp
    | amplitude a => simp
    | origin ptr => exact absurd rfl (hobj ptr)
  · intro x _ hx
    cases x with
    | pick q => rfl
    | amplitude a => rfl
    | origin ptr =>
      simp only [ne_eq, decide_not, Bool.not_eq_eq_eq_not, Bool.not_false,
        decide_eq_true_eq] at hx
      simp only
      rw [if_neg]
      intro hq
      apply hid
      rw [← hx]
      simpa only [MagTool.cachedPublicID] using hq

theorem cacheKeeps_cacheFeed_pick (ids : List String) (oid : String) (t : MagTool) (p : Pick)
    (hne : p.publicID ≠ oid) : t.cacheKeeps ids oid (t.cacheFeed (CachedObject.pick p)) := by
  refine ⟨rfl, rfl, ?_, ?_, fun _ h => h⟩
  · intro id _ h
    rw [findPick_cacheFeed_pick]
    split
    · rfl
    · exact h
  · apply findOrigin_cacheFeed_other
    · intro ptr h; cases h
    · simp only [MagTool.cachedPublicID, ne_eq, Option.some.injEq]
      exact hne

theorem cacheKeeps_cacheFeed_amplitude (ids : List String) (oid : String) (t : MagTool)
    (a : Amplitude) (hne : a.publicID ≠ oid) (hids : ∀ id ∈ ids, a.publicID ≠ id) :
    t.cacheKeeps ids oid (t.cacheFeed (CachedObject.amplitude a)) := by
  refine ⟨rfl, rfl, ?_, ?_, fun _ h => h⟩
  · intro id hid h
    rw [findPick_cacheFeed_other]
    · exact h
    · intro p h; cases h
    · simp only [MagTool.cachedPublicID, ne_eq, Option.some.injEq]
      exact hids id hid
  · apply findOrigin_cacheFeed_other
    · intro ptr h; cases h
    · simp only [MagTool.cachedPublicID, ne_eq, Option.some.injEq]
      exact hne

theorem cacheKeeps_getPick (app : App) (harch : archivePickIds app) (ids : List String)
    (oid : String) (t : MagTool) (id : String) (hne : app.query ≠ none → id ≠ oid) :
    t.cacheKeeps ids oid (t.getPick app id).1 := by
  unfold MagTool.getPick
  split
  · exact cacheKeeps_refl _ _ _
  · split
    · exact cacheKeeps_refl _ _ _
    · rename_i q hq
      split
      · exact cacheKeeps_refl _ _ _
      · rename_i p hp
        apply cacheKeeps_cacheFeed_pick
        rw [harch q hq id p hp]
        exact hne (by rw [hq]; exact fun h => Option.noConfusion h)

theorem cacheKeeps_getAmplitude (app : App) (ids : List String) (oid : String) (t : MagTool)
    (x : String)
    (hamp : ∀ q, app.query = some q → ∀ a, q.getAmplitude x = some a →
      a.publicID ≠ oid ∧ ∀ id ∈ ids, a.publicID ≠ id) :
    t.cacheKeeps ids oid (t.getAmplitude app x).1 := by
  unfold MagTool.getAmplitude
  split
  · exact cacheKeeps_refl _ _ _
  · split
    · exact cacheKeeps_refl _ _ _
    · rename_i q hq
      split
      · exact cacheKeeps_refl _ _ _
      · rename_i a ha
        exact cacheKeeps_cacheFeed_amplitude ids oid t a (hamp q hq a ha).1 (hamp q hq a ha).2

theorem cacheKeeps_orgs (ids : List String) (oid : String) (t : MagTool)
    (orgs : List (String × List Nat)) : t.cacheKeeps ids oid { t with orgs := orgs } :=
  ⟨rfl, rfl, fun _ _ h => h, rfl, fun _ h => h⟩

theorem cacheKeeps_createBinding (ids : List String) (oid : String) (t : MagTool)
    (pickID : String) : t.cacheKeeps ids oid (t.createBinding pickID) := by
  unfold MagTool.createBinding
  split
  · exact cacheKeeps_refl _ _ _
  · exact cacheKeeps_orgs _ _ _ _

theorem cacheKeeps_bind (ids : List String) (oid : String) (t : MagTool)
    (pickID : String) (origin : Nat) : t.cacheKeeps ids oid (t.bind pickID origin) := by
  unfold MagTool.bind
  split
  · exact cacheKeeps_orgs _ _ _ _
  · exact cacheKeeps_refl _ _ _

theorem cacheKeeps_feedPick (app : App) (ids : List String) (oid : String) (t : MagTool)
    (p : Pick) (hne : p.publicID ≠ oid) : t.cacheKeeps ids oid (t.feedPick app p).1 := by
  unfold MagTool.feedPick
  split
  · exact cacheKeeps_refl _ _ _
  · exact cacheKeeps_trans (cacheKeeps_cacheFeed_pick ids oid t p hne)
      (cacheKeeps_createBinding _ _ _ _)

/-- A pick that is fed and not blocked is cached. -/
theorem feedPick_findPick (app : App) (t : MagTool) (p : Pick)
    (hb : app.isAgencyIDBlocked (objectAgencyID p.creationInfo) = false) :
    ((t.feedPick app p).1.findPick p.publicID).isSome = true := by
  unfold MagTool.feedPick
  rw [hb]
  simp only [Bool.false_eq_true, if_false]
  have : ((t.cacheFeed (CachedObject.pick p)).createBinding p.publicID).findPick =
      (t.cacheFeed (CachedObject.pick p)).findPick := by
    apply findPick_congr
    unfold MagTool.createBinding
    split <;> rfl
  rw [this, findPick_cacheFeed_pick]
  simp

theorem cacheKeeps_ampl_append (ids : List String) (oid : String) (t : MagTool)
    (e : String × Amplitude) : t.cacheKeeps ids oid { t with ampl := t.ampl ++ [e] } := by
  refine ⟨rfl, rfl, fun _ _ h => h, rfl, ?_⟩
  intro k h
  simp only [List.any_append, Bool.or_eq_true]
  exact Or.inl h

theorem cacheKeeps__feed (app : App) (harch : archivePickIds app) (ids : List String)
    (oid : String) (t : MagTool) (a : Amplitude) (update : Bool) (hne : a.pickID ≠ oid)
    (hamp : ∀ q, app.query = some q → ∀ b, q.getAmplitude a.publicID = some b →
      b.publicID ≠ oid ∧ ∀ id ∈ ids, b.publicID ≠ id) :
    t.cacheKeeps ids oid (t._feed app a update).1 := by
  unfold MagTool._feed
  simp only
  split
  · exact cacheKeeps_refl _ _ _
  · have hg := cacheKeeps_getAmplitude app ids oid t a.publicID hamp
    rcases hr : t.getAmplitude app a.publicID with ⟨t1, cached⟩
    rw [hr] at hg
    simp only at hg ⊢
    split
    · exact hg
    · exact cacheKeeps_trans hg (cacheKeeps_trans (cacheKeeps_ampl_append _ _ _ _)
        (cacheKeeps_getPick app harch ids oid _ a.pickID (fun _ => hne)))

/-- An amplitude with a pick id that is stored has its pick id in the amplitude
index afterwards. -/
theorem _feed_key (app : App) (t : MagTool) (a : Amplitude) (update : Bool)
    (hp : a.pickID ≠ "") :
    (t._feed app a update).1.ampl.any (fun e => decide (e.1 = a.pickID)) = true := by
  unfold MagTool._feed
  simp only [if_neg hp]
  rcases hr : t.getAmplitude app a.publicID with ⟨t1, cached⟩
  simp only
  split
  · rename_i hdup
    unfold MagTool.amplitudesForPick at hdup
    simp only [List.any_eq_true, List.mem_map, List.mem_filter, decide_eq_true_eq] at hdup ⊢
    obtain ⟨x, ⟨e, ⟨he, hk⟩, _⟩, _⟩ := hdup
    exact ⟨e, he, hk⟩
  · rw [getPick_ampl]
    simp

theorem mem_setInsert (l : List String) (key x : String) :
    x ∈ setInsert l key ↔ x = key ∨ x ∈ l := by
  induction l with
  | nil => simp [setInsert]
  | cons k rest ih =>
    unfold setInsert
    split
    · simp
    · split
      · rename_i hk
        subst hk
        simp only [List.mem_cons]
        tauto
      · simp only [List.mem_cons, ih]
        tauto

/-- The missing picks are the pick ids of the valid arrivals whose pick is
neither cached nor known to the amplitude index. -/
theorem mem_missingPicks (app : App) (t : MagTool) (arrivals : List Arrival) (id : String) :
    id ∈ t.missingPicks app arrivals ↔
      ∃ arr ∈ arrivals, app.validArrival arr t.minimumArrivalWeight = true ∧ arr.pickID = id ∧
        (t.findPick id).isSome = false ∧ t.ampl.any (fun e => decide (e.1 = id)) = false := by
  unfold MagTool.missingPicks
  have hgen : ∀ (l : List Arrival) (init : List String),
      id ∈ l.foldl (fun missing arr =>
        if !app.validArrival arr t.minimumArrivalWeight then missing
        else if (t.findPick arr.pickID).isSome then missing
        else if t.ampl.any (fun e => decide (e.1 = arr.pickID)) then missing
        else setInsert missing arr.pickID) init ↔
      id ∈ init ∨ ∃ arr ∈ l, app.validArrival arr t.minimumArrivalWeight = true ∧
        arr.pickID = id ∧ (t.findPick id).isSome = false ∧
        t.ampl.any (fun e => decide (e.1 = id)) = false := by
    intro l
    induction l with
    | nil => intro init; simp
    | cons arr rest ih =>
      intro init
      simp only [List.foldl_cons]
      rw [ih]
      by_cases hv : app.validArrival arr t.minimumArrivalWeight = true
      · by_cases hf : (t.findPick arr.pickID).isSome = true
        · simp only [hv, Bool.not_true, Bool.false_eq_true, if_false, hf, if_true,
            List.mem_cons, exists_eq_or_imp, true_and]
          constructor
          · rintro (h | h)
            · exact Or.inl h
            · exact Or.inr (Or.inr h)
          · rintro (h | ⟨he, h1, _⟩ | h)
            · exact Or.inl h
            · rw [← he, hf] at h1
              cases h1
            · exact Or.inr h
        · by_cases ha : t.ampl.any (fun e => decide (e.1 = arr.pickID)) = true
          · simp only [hv, Bool.not_true, Bool.false_eq_true, if_false, hf, ha, if_true,
              List.mem_cons, exists_eq_or_imp, true_and]
            constructor
            · rintro (h | h)
              · exact Or.inl h
              · exact Or.inr (Or.inr h)
            · rintro (h | ⟨he, _, h2⟩ | h)
              · exact Or.inl h
              · rw [← he, ha] at h2
                cases h2
              · exact Or.inr h
          · simp only [hv, Bool.not_true, Bool.false_eq_true, if_false, hf, ha,
              List.mem_cons, exists_eq_or_imp, true_and, mem_setInsert]
            simp only [Bool.not_eq_true] at hf ha
            constructor
            · rintro ((h | h) | h)
              · subst h
                exact Or.inr (Or.inl ⟨rfl, hf, ha⟩)
              · exact Or.inl h
              · exact Or.inr (Or.inr h)
            · rintro (h | ⟨he, _, _⟩ | h)
              · exact Or.inl (Or.inr h)
              · exact Or.inl (Or.inl he.symm)
              · exact Or.inr h
      · simp only [Bool.not_eq_true] at hv
        simp only [hv, Bool.not_false, if_true, List.mem_cons, exists_eq_or_imp,
          Bool.false_eq_true, false_and, false_or]
  rw [hgen]
  simp

theorem missingPicks_subset (app : App) (t : MagTool) (arrivals : List Arrival) (id : String)
    (h : id ∈ t.missingPicks app arrivals) : id ∈ arrivals.map (fun arr => arr.pickID) := by
  obtain ⟨arr, hmem, _, he, _⟩ := (mem_missingPicks app t arrivals id).mp h
  exact List.mem_map.mpr ⟨arr, hmem, he⟩

/-- The loop over the picks of the archive in the retrieval of missing picks. -/
theorem foldPicks_cacheKeeps (app : App) (ids : List String) (oid : String)
    (hself : ∀ id ∈ ids, id ≠ oid) (missing : List String) (hsub : ∀ id ∈ missing, id ∈ ids)
    (l : List Pick) (s : MagTool) :
    s.cacheKeeps ids oid (l.foldl (fun (s : MagTool) pick =>
        if decide (pick.publicID ∈ missing) then (s.feedPick app pick).1 else s) s) ∧
    ∀ p ∈ l, p.publicID ∈ missing →
      app.isAgencyIDBlocked (objectAgencyID p.creationInfo) = false →
      ((l.foldl (fun (s : MagTool) pick =>
        if decide (pick.publicID ∈ missing) then (s.feedPick app pick).1 else s) s).findPick
          p.publicID).isSome = true := by
  induction l generalizing s with
  | nil => exact ⟨cacheKeeps_refl _ _ _, fun p hp => absurd hp (List.not_mem_nil _)⟩
  | cons p0 rest ih =>
    simp only [List.foldl_cons]
    by_cases hm : p0.publicID ∈ missing
    · simp only [hm, decide_True, if_true]
      obtain ⟨k1, k2⟩ := ih (s.feedPick app p0).1
      have k0 := cacheKeeps_feedPick app ids oid s p0 (hself _ (hsub _ hm))
      refine ⟨cacheKeeps_trans k0 k1, ?_⟩
      intro p hp hpm hb
      rcases List.mem_cons.mp hp with he | hr
      · subst he
        exact k1.2.2.1 _ (hsub _ hm) (feedPick_findPick app s p hb)
      · exact k2 p hr hpm hb
    · simp only [hm, decide_False, Bool.false_eq_true, if_false]
      obtain ⟨k1, k2⟩ := ih s
      refine ⟨k1, ?_⟩
      intro p hp hpm hb
      rcases List.mem_cons.mp hp with he | hr
      · subst he
        exact absurd hpm hm
      · exact k2 p hr hpm hb

/-- The loop over the amplitudes of the archive in the retrieval of missing
picks. -/
theorem foldAmplitudes_cacheKeeps (app : App) (harch : archivePickIds app) (ids : List String)
    (oid : String) (hself : ∀ id ∈ ids, id ≠ oid)
    (hamp : ∀ q, app.query = some q → ∀ (x : String) (b : Amplitude), q.getAmplitude x = some b →
      b.publicID ≠ oid ∧ ∀ id ∈ ids, b.publicID ≠ id)
    (missing : List String) (hsub : ∀ id ∈ missing, id ∈ ids)
    (l : List Amplitude) (s : MagTool) :
    s.cacheKeeps ids oid (l.foldl (fun (s : MagTool) ampl =>
        if decide (ampl.pickID ∈ missing) then (s._feed app ampl false).1 else s) s) ∧
    ∀ a ∈ l, a.pickID ∈ missing → a.pickID ≠ "" →
      (l.foldl (fun (s : MagTool) ampl =>
        if decide (ampl.pickID ∈ missing) then (s._feed app ampl false).1 else s) s).ampl.any
          (fun e => decide (e.1 = a.pickID)) = true := by
  induction l generalizing s with
  | nil => exact ⟨cacheKeeps_refl _ _ _, fun p hp => absurd hp (List.not_mem_nil _)⟩
  | cons a0 rest ih =>
    simp only [List.foldl_cons]
    by_cases hm : a0.pickID ∈ missing
    · simp only [hm, decide_True, if_true]
      obtain ⟨k1, k2⟩ := ih (s._feed app a0 false).1
      have k0 := cacheKeeps__feed app harch ids oid s a0 false (hself _ (hsub _ hm))
        (fun q hq b hb => hamp q hq _ b hb)
      refine ⟨cacheKeeps_trans k0 k1, ?_⟩
      intro a ha ham hne
      rcases List.mem_cons.mp ha with he | hr
      · subst he
        exact k1.2.2.2.2 _ (_feed_key app s a false hne)
      · exact k2 a hr ham hne
    · simp only [hm, decide_False, Bool.false_eq_true, if_false]
      obtain ⟨k1, k2⟩ := ih s
      refine ⟨k1, ?_⟩
      intro a ha ham hne
      rcases List.mem_cons.mp ha with he | hr
      · subst he
        exact absurd ham hm
      · exact k2 a hr ham hne

/-- The retrieval of missing picks keeps the cache and the amplitude index as
far as the processing of the origin reads them; afterwards every unblocked
pick of the archive that was missing is cached and every pick id of an
amplitude of the archive that was missing is known to the amplitude index. -/
theorem retrieve_cacheKeeps (app : App) (harch : archivePickIds app) (t : MagTool) (origin : Nat)
    (o : Origin) (ho : t.heap[origin]? = some o) (hd : distinctPublicIDs app o) :
    t.cacheKeeps (o.arrivals.map (fun arr => arr.pickID)) o.publicID
      (t.retrieveMissingPicksAndArrivalsFromDB app origin) ∧
    ∀ q, app.query = some q →
      (∀ p ∈ q.getPicks o.publicID, p.publicID ∈ t.missingPicks app o.arrivals →
        app.isAgencyIDBlocked (objectAgencyID p.creationInfo) = false →
        ((t.retrieveMissingPicksAndArrivalsFromDB app origin).findPick p.publicID).isSome = true) ∧
      (∀ a ∈ q.getAmplitudesForOrigin o.publicID, a.pickID ∈ t.missingPicks app o.arrivals →
        a.pickID ≠ "" →
        (t.retrieveMissingPicksAndArrivalsFromDB app origin).ampl.any
          (fun e => decide (e.1 = a.pickID)) = true) := by
  cases hq : app.query with
  | none =>
    rw [retrieveMissing_noquery app t origin hq]
    exact ⟨cacheKeeps_refl _ _ _, fun q h => by cases h⟩
  | some q =>
    obtain ⟨hself, hamp⟩ := hd q hq
    have hself1 : ∀ id ∈ o.arrivals.map (fun arr => arr.pickID), id ≠ o.publicID := by
      intro id hid
      obtain ⟨arr, harr, he⟩ := List.mem_map.mp hid
      rw [← he]
      exact hself arr harr
    have hamp1 : ∀ q1, app.query = some q1 → ∀ (x : String) (b : Amplitude),
        q1.getAmplitude x = some b →
        b.publicID ≠ o.publicID ∧ ∀ id ∈ o.arrivals.map (fun arr => arr.pickID), b.publicID ≠ id := by
      intro q1 hq1 x b hb
      rw [hq] at hq1
      cases hq1
      refine ⟨(hamp x b hb).1, ?_⟩
      intro id hid
      obtain ⟨arr, harr, he⟩ := List.mem_map.mp hid
      rw [← he]
      exact (hamp x b hb).2 arr harr
    have hsub := missingPicks_subset app t o.arrivals
    obtain ⟨p1, p2⟩ := foldPicks_cacheKeeps app _ o.publicID hself1
      (t.missingPicks app o.arrivals) hsub (q.getPicks o.publicID) t
    obtain ⟨a1, a2⟩ := foldAmplitudes_cacheKeeps app harch _ o.publicID hself1 hamp1
      (t.missingPicks app o.arrivals) hsub (q.getAmplitudesForOrigin o.publicID)
      ((q.getPicks o.publicID).foldl (fun (s : MagTool) pick =>
        if decide (pick.publicID ∈ t.missingPicks app o.arrivals) then (s.feedPick app pick).1
        else s) t)
    by_cases hlen : (t.missingPicks app o.arrivals).length = 0
    · have hnil : t.missingPicks app o.arrivals = [] := List.length_eq_zero.mp hlen
      have hret : t.retrieveMissingPicksAndArrivalsFromDB app origin = t := by
        unfold MagTool.retrieveMissingPicksAndArrivalsFromDB
        simp only [ho, hlen, if_true]
      rw [hret]
      refine ⟨cacheKeeps_refl _ _ _, ?_⟩
      intro q1 _
      rw [hnil]
      exact ⟨fun p _ hp => absurd hp (List.not_mem_nil _),
        fun a _ ha => absurd ha (List.not_mem_nil _)⟩
    · have hret : t.retrieveMissingPicksAndArrivalsFromDB app origin =
          (q.getAmplitudesForOrigin o.publicID).foldl (fun (s : MagTool) ampl =>
            if decide (ampl.pickID ∈ t.missingPicks app o.arrivals) then (s._feed app ampl false).1
            else s)
          ((q.getPicks o.publicID).foldl (fun (s : MagTool) pick =>
            if decide (pick.publicID ∈ t.missingPicks app o.arrivals) then (s.feedPick app pick).1
            else s) t) := by
        unfold MagTool.retrieveMissingPicksAndArrivalsFromDB
        simp only [ho, hlen, if_false, hq]
      rw [hret]
      refine ⟨cacheKeeps_trans p1 a1, ?_⟩
      intro q1 hq1
      cases hq1
      refine ⟨?_, a2⟩
      intro p hp hpm hb
      exact a1.2.2.1 _ (hsub _ hpm) (p2 p hp hpm hb)


theorem getPick_sameSetup (app : App) (t : MagTool) (id : String) :
    t.sameSetup (t.getPick app id).1 := by
  unfold MagTool.getPick
  split
  · exact sameSetup_refl _
  · split
    · exact sameSetup_refl _
    · split
      · exact sameSetup_refl _
      · exact cacheFeed_sameSetup _ _

/-- One iteration of the arrival loop keeps the setup, and keeps the cache and
the amplitude index as far as the processing of the origin reads them. -/
theorem arrivalStep_keeps (app : App) (harch : archivePickIds app) (ids : List String)
    (oid : String) (t : MagTool) (origin : Nat) (arr : Arrival) (m : PickStreamMap)
    (hne : app.query ≠ none → arr.pickID ≠ oid) :
    t.cacheKeeps ids oid (t.arrivalStep app origin arr m).1 ∧
      t.sameSetup (t.arrivalStep app origin arr m).1 := by
  have hk := cacheKeeps_getPick app harch ids oid t arr.pickID hne
  have hs := getPick_sameSetup app t arr.pickID
  unfold MagTool.arrivalStep
  rcases hr : t.getPick app arr.pickID with ⟨t1, _ | pick⟩
  · rw [hr] at hk hs
    exact ⟨hk, hs⟩
  · rw [hr] at hk hs
    simp only at hk hs ⊢
    have hk2 := cacheKeeps_trans hk (cacheKeeps_bind ids oid t1 arr.pickID origin)
    have hs2 := sameSetup_trans hs (bind_sameSetup t1 arr.pickID origin)
    split
    · exact ⟨hk2, hs2⟩
    · split
      · exact ⟨hk2, hs2⟩
      · cases arr.distance with
        | none => exact ⟨hk2, hs2⟩
        | some d => exact ⟨hk2, hs2⟩

/-- The arrival loop keeps the setup, the lookup of every pick, and the cache
and the amplitude index as far as the processing of the origin reads them. -/
theorem arrivalLoop_keeps (app : App) (harch : archivePickIds app) (ids : List String)
    (oid : String) (origin : Nat) (arrivals : List Arrival) (t : MagTool) (m : PickStreamMap)
    (hne : app.query ≠ none → ∀ arr ∈ arrivals, arr.pickID ≠ oid) :
    t.cacheKeeps ids oid (MagTool.arrivalLoop app origin arrivals t m).1 ∧
      t.sameSetup (MagTool.arrivalLoop app origin arrivals t m).1 ∧
      ∀ id1, (MagTool.arrivalLoop app origin arrivals t m).1.lookupPick app id1 =
        t.lookupPick app id1 := by
  induction arrivals generalizing t m with
  | nil => exact ⟨cacheKeeps_refl _ _ _, sameSetup_refl _, fun _ => rfl⟩
  | cons arr rest ih =>
    obtain ⟨k1, k2⟩ := arrivalStep_keeps app harch ids oid t origin arr m
      (fun hq => hne hq arr (List.mem_cons_self _ _))
    obtain ⟨_, l2, _⟩ := arrivalStep_lookup app harch t origin arr m
    unfold MagTool.arrivalLoop
    rcases hstep : t.arrivalStep app origin arr m with ⟨t1, _ | m1⟩
    · rw [hstep] at k1 k2 l2
      exact ⟨k1, k2, l2⟩
    · rw [hstep] at k1 k2 l2
      simp only at k1 k2 l2 ⊢
      obtain ⟨i1, i2, i3⟩ := ih t1 m1 (fun hq a ha => hne hq a (List.mem_cons_of_mem _ ha))
      exact ⟨cacheKeeps_trans k1 i1, sameSetup_trans k2 i2, fun id1 => (i3 id1).trans (l2 id1)⟩

/-- The selection of the picks reads the lookup only at the pick ids of the
arrivals. -/
theorem selectPicks_congr (app : App) (minWeight : ℚ) (find find1 : String → Option Pick)
    (arrivals : List Arrival) (m : PickStreamMap)
    (h : ∀ arr ∈ arrivals, find1 arr.pickID = find arr.pickID) :
    selectPicks app minWeight find1 arrivals m = selectPicks app minWeight find arrivals m := by
  induction arrivals generalizing m with
  | nil => rfl
  | cons arr rest ih =>
    unfold selectPicks
    have hstep : selectStep app minWeight find1 arr m = selectStep app minWeight find arr m := by
      unfold selectStep
      rw [h arr (List.mem_cons_self _ _)]
    rw [hstep]
    cases selectStep app minWeight find arr m with
    | none => rfl
    | some m1 => exact ih m1 (fun a ha => h a (List.mem_cons_of_mem _ ha))

/-- The lookup of a pick reads the cache only at the id of the pick. -/
theorem lookupPick_congr (app : App) (a b : MagTool) (id : String)
    (h : b.findPick id = a.findPick id) : b.lookupPick app id = a.lookupPick app id := by
  unfold MagTool.lookupPick MagTool.getPick
  rw [h]
  cases a.findPick id with
  | some p => rfl
  | none =>
    simp only
    cases app.query with
    | none => rfl
    | some q =>
      simp only
      cases q.getPick id <;> rfl

/-- The retrieval of missing picks changes nothing when every missing pick that
the archive holds is blocked and every amplitude the archive holds for a
missing pick has an empty pick id. -/
theorem retrieve_eq_self (app : App) (t : MagTool) (origin : Nat) (o : Origin)
    (ho : t.heap[origin]? = some o)
    (h : ∀ q, app.query = some q →
      (∀ p ∈ q.getPicks o.publicID, p.publicID ∈ t.missingPicks app o.arrivals →
        app.isAgencyIDBlocked (objectAgencyID p.creationInfo) = true) ∧
      (∀ a ∈ q.getAmplitudesForOrigin o.publicID, a.pickID ∈ t.missingPicks app o.arrivals →
        a.pickID = "")) :
    t.retrieveMissingPicksAndArrivalsFromDB app origin = t := by
  unfold MagTool.retrieveMissingPicksAndArrivalsFromDB
  simp only [ho]
  split
  · rfl
  · cases hq : app.query with
    | none => rfl
    | some q =>
      simp only
      obtain ⟨h1, h2⟩ := h q hq
      have hp : ∀ (l : List Pick) (s : MagTool), (∀ p ∈ l, p ∈ q.getPicks o.publicID) →
          l.foldl (fun (s : MagTool) pick =>
            if decide (pick.publicID ∈ t.missingPicks app o.arrivals) then
              (s.feedPick app pick).1 else s) s = s := by
        intro l
        induction l with
        | nil => intro s _; rfl
        | cons p rest ih =>
          intro s hl
          simp only [List.foldl_cons]
          have hstep : (if decide (p.publicID ∈ t.missingPicks app o.arrivals) then
              (s.feedPick app p).1 else s) = s := by
            split
            · rename_i hm
              have hb := h1 p (hl p (List.mem_cons_self _ _)) (by simpa using hm)
              unfold MagTool.feedPick
              rw [hb]
              rfl
            · rfl
          rw [hstep]
          exact ih s (fun x hx => hl x (List.mem_cons_of_mem _ hx))
      have ha : ∀ (l : List Amplitude) (s : MagTool),
          (∀ a ∈ l, a ∈ q.getAmplitudesForOrigin o.publicID) →
          l.foldl (fun (s : MagTool) ampl =>
            if decide (ampl.pickID ∈ t.missingPicks app o.arrivals) then
              (s._feed app ampl false).1 else s) s = s := by
        intro l
        induction l with
        | nil => intro s _; rfl
        | cons a rest ih =>
          intro s hl
          simp only [List.foldl_cons]
          have hstep : (if decide (a.pickID ∈ t.missingPicks app o.arrivals) then
              (s._feed app a false).1 else s) = s := by
            split
            · rename_i hm
              have he := h2 a (hl a (List.mem_cons_self _ _)) (by simpa using hm)
              unfold MagTool._feed
              simp only [he, if_true]
            · rfl
          rw [hstep]
          exact ih s (fun x hx => hl x (List.mem_cons_of_mem _ hx))
      rw [hp _ _ (fun _ h => h), ha _ _ (fun _ h => h)]

/-- With the arrival loop returning a map, `processOrigin` processes the
selected picks with that map and writes the origin back; the flag of its
summary step is the one of that processing. -/
theorem processOriginSummary_arrivalLoop (app : App) (s : MagTool) (origin : Nat) (o : Origin)
    (depth : ℚ) (s2 : MagTool) (m : PickStreamMap)
    (ho : s.heap[origin]? = some o) (hd : o.depth = some depth)
    (hloop : MagTool.arrivalLoop app origin o.arrivals
      (s.retrieveMissingPicksAndArrivalsFromDB app origin) [] = (s2, some m)) :
    s.processOriginSummary app origin =
      s2.processSelectedSummary app depth m ⟨o, s2.registry⟩ := by
  have h1 := retrieveMissingPicksAndArrivalsFromDB_heap app s origin
  have a4 := arrivalLoop_heap app origin o.arrivals
    (s.retrieveMissingPicksAndArrivalsFromDB app origin) []
  rw [hloop] at a4
  simp only at a4
  unfold MagTool.processOriginSummary
  simp only [h1, ho, hd, hloop]
  have hctx : s2.ctx origin = some ⟨o, s2.registry⟩ := by
    unfold MagTool.ctx
    rw [a4, h1, ho]
    rfl
  simp only [hctx]


theorem length_le_of_getElem? {α : Type} (l l1 : List α)
    (h : ∀ (j : Nat) (x : α), l[j]? = some x → ∃ y, l1[j]? = some y) : l.length ≤ l1.length := by
  by_contra hlt
  have hlt1 : l1.length < l.length := Nat.lt_of_not_le hlt
  obtain ⟨y, hy⟩ := h l1.length (l.get ⟨l1.length, hlt1⟩) (List.getElem?_eq_getElem hlt1)
  have := (List.getElem?_eq_some_iff.mp hy).1
  exact Nat.lt_irrefl _ this

theorem modifyMagnitude_length (c : OriginCtx) (i : Nat) (f : Magnitude → Magnitude) :
    (c.modifyMagnitude i f).origin.magnitudes.length = c.origin.magnitudes.length := by
  simp only [OriginCtx.modifyMagnitude]
  exact modifyAt_length f _ i

theorem getMagnitude_length (app : App) (c : OriginCtx) (type : String) :
    c.origin.magnitudes.length ≤ (getMagnitude app c type).2.origin.magnitudes.length :=
  length_le_of_getElem? _ _ (fun j x hx => ⟨x, getMagnitude_getElem? app c type j x hx⟩)

theorem computeMagnitude_length (app : App) (self : MagTool) (c : OriginCtx) (mtype : String)
    (netMag : Nat) :
    c.origin.magnitudes.length ≤
      (self.computeMagnitude app c mtype netMag).2.origin.magnitudes.length := by
  unfold MagTool.computeMagnitude
  simp only
  split
  · exact le_refl _
  · have h1 : (self.aggregate app c mtype netMag).origin.magnitudes.length =
        c.origin.magnitudes.length := by
      unfold MagTool.aggregate
      exact modifyMagnitude_length c netMag _
    rw [← h1]
    refine length_le_of_getElem? _ _ (fun j x hx => ?_)
    obtain ⟨y, hy, _⟩ := deriveMw_getElem? app self (self.aggregate app c mtype netMag) mtype
      (computeAverage app (self.averageMethod mtype) (stationMagnitudeValues c.origin mtype)).value
      (computeAverage app (self.averageMethod mtype) (stationMagnitudeValues c.origin mtype)).stdev
      (self.reconciled app c mtype netMag).2 j x hx
    exact ⟨y, hy⟩

theorem networkMagnitudeStep_length (app : App) (self : MagTool) (c : OriginCtx)
    (mtype : String) :
    c.origin.magnitudes.length ≤ (self.networkMagnitudeStep app c mtype).origin.magnitudes.length := by
  unfold MagTool.networkMagnitudeStep
  have hg := getMagnitude_length app c mtype
  rcases hr : getMagnitude app c mtype with ⟨_ | ⟨netMag, isNew⟩, c1⟩
  · rw [hr] at hg
    exact hg
  · rw [hr] at hg
    simp only at hg ⊢
    have hc := computeMagnitude_length app self c1 mtype netMag
    split
    · exact le_trans hg hc
    · rw [modifyMagnitude_length]
      exact le_trans hg hc

theorem foldl_networkMagnitudeStep_length (app : App) (self : MagTool) (magTypes : List String)
    (c : OriginCtx) :
    c.origin.magnitudes.length ≤
      (magTypes.foldl (self.networkMagnitudeStep app) c).origin.magnitudes.length := by
  induction magTypes generalizing c with
  | nil => exact le_refl _
  | cons t rest ih =>
    simp only [List.foldl_cons]
    exact le_trans (networkMagnitudeStep_length app self c t) (ih _)

/-- The processing of the selected picks removes no network magnitude. -/
theorem processSelected_length (app : App) (self : MagTool) (depth : ℚ)
    (pickStreamMap : PickStreamMap) (c : OriginCtx) :
    c.origin.magnitudes.length ≤
      (self.processSelected app depth pickStreamMap c).1.origin.magnitudes.length := by
  unfold MagTool.processSelected
  have hp := pickStreamLoop_magnitudes app self depth pickStreamMap c []
  rcases hr : self.pickStreamLoop app depth pickStreamMap c [] with ⟨c1, _ | magTypes⟩
  · rw [hr] at hp
    simp only at hp ⊢
    rw [hp]
  · rw [hr] at hp
    simp only at hp ⊢
    have h2 := foldl_networkMagnitudeStep_length app self magTypes c1
    rw [hp] at h2
    rcases hs : self.computeSummaryMagnitude app
      (magTypes.foldl (self.networkMagnitudeStep app) c1) with _ | ⟨b, c3⟩
    · exact h2
    · simp only
      refine le_trans h2 (length_le_of_getElem? _ _ (fun j x hx => ?_))
      obtain ⟨y, hy, _⟩ := computeSummaryMagnitude_getElem? app self _ c3 b hs j x hx
      exact ⟨y, hy⟩


/-- A run of `processOrigin` that returns true leaves the origin in a state on
which a further run, from any engine state with the same setup, origins and
registry and the same cached picks for the arrivals of the origin, returns true
again, changes no origin and gets no update from the summary step. -/
theorem processOrigin_again_archive (app : App) (hrefl : ∀ w, app.equivalent w w = true)
    (harch : archivePickIds app) (s t : MagTool) (origin : Nat) (o : Origin)
    (ho : s.heap[origin]? = some o) (hd : distinctPublicIDs app o)
    (h : s.processOrigin app origin = (t, some true)) :
    ∃ o1 reg, t.heap = modifyAt (fun _ => o1) s.heap origin ∧
      OriginCtx.grows ⟨o, reg⟩ ⟨o1, t.registry⟩ ∧
      o.magnitudes.length ≤ o1.magnitudes.length ∧
      t.findOrigin o.publicID = s.findOrigin o.publicID ∧
      ∀ sY : MagTool, t.sameSetup sY → sY.heap = t.heap → sY.registry = t.registry →
        (∀ arr ∈ o.arrivals, sY.findPick arr.pickID = t.findPick arr.pickID) →
        ∃ s2, sY.processOrigin app origin = (s2, some true) ∧ s2.heap = t.heap ∧
          sY.processOriginSummary app origin = some false := by
  have hR := retrieveMissingPicksAndArrivalsFromDB_heap app s origin
  obtain ⟨kR, kfed⟩ := retrieve_cacheKeeps app harch s origin o ho hd
  have hne : app.query ≠ none → ∀ arr ∈ o.arrivals, arr.pickID ≠ o.publicID := by
    intro hq
    cases hq1 : app.query with
    | none => exact absurd hq1 hq
    | some q => exact (hd q hq1).1
  cases hdep : o.depth with
  | none =>
    unfold MagTool.processOrigin at h
    simp only [hR, ho, hdep] at h
    simp at h
  | some depth =>
    obtain ⟨kA, sA_same, kAl⟩ := arrivalLoop_keeps app harch
      (o.arrivals.map (fun arr => arr.pickID)) o.publicID origin o.arrivals
      (s.retrieveMissingPicksAndArrivalsFromDB app origin) [] hne
    have hsel := arrivalLoop_lookup app harch origin o.arrivals
      (s.retrieveMissingPicksAndArrivalsFromDB app origin) []
    have a4 := arrivalLoop_heap app origin o.arrivals
      (s.retrieveMissingPicksAndArrivalsFromDB app origin) []
    rcases hloop : MagTool.arrivalLoop app origin o.arrivals
        (s.retrieveMissingPicksAndArrivalsFromDB app origin) [] with ⟨sA, _ | m⟩
    · unfold MagTool.processOrigin at h
      simp only [hR, ho, hdep, hloop] at h
      simp at h
    · rw [hloop] at kA sA_same kAl hsel a4
      simp only at kA sA_same kAl hsel a4
      rw [processOrigin_arrivalLoop app s origin o depth sA m ho hdep hloop] at h
      rcases hps : sA.processSelected app depth m ⟨o, sA.registry⟩ with ⟨c1, flag⟩
      rw [hps] at h
      simp only [Prod.mk.injEq] at h
      obtain ⟨h1, h2⟩ := h
      subst h2
      have hheapA : sA.heap = s.heap := a4.trans hR
      have hheap : t.heap = modifyAt (fun _ => c1.origin) s.heap origin := by
        rw [← h1]
        simp only [MagTool.store, hheapA]
      have hreg : t.registry = c1.registry := by
        rw [← h1]
        rfl
      have hcache : t.objectCache = sA.objectCache := by
        rw [← h1]
        rfl
      have hsameAt : sA.sameSetup t := by
        rw [← h1]
        exact store_sameSetup _ _ _
      have hgrow := (processSelected_again app hrefl sA sA (sameSetup_refl _) depth m _ c1 hps).1
      have hlen : o.magnitudes.length ≤ c1.origin.magnitudes.length := by
        have := processSelected_length app sA depth m ⟨o, sA.registry⟩
        rw [hps] at this
        exact this
      have hids := heap_ids_modifyAt s.heap origin o c1.origin ho hgrow.1
      rw [← hheap] at hids
      have hfo : t.findOrigin o.publicID = s.findOrigin o.publicID := by
        have e1 : t.findOrigin = sA.findOrigin :=
          findOrigin_congr hcache (by intro ptr; rw [hids, hheapA])
        rw [e1, kA.2.2.2.1, kR.2.2.2.1]
      refine ⟨c1.origin, sA.registry, hheap, ?_, hlen, hfo, ?_⟩
      · rw [hreg]
        exact hgrow
      intro sY y1 y3 y4 y5
      have hoY : sY.heap[origin]? = some c1.origin := by
        rw [y3, hheap, modifyAt_get?_eq, ho]
        rfl
      have hdY : c1.origin.depth = some depth := hgrow.2.1.trans hdep
      have harrY : c1.origin.arrivals = o.arrivals := hgrow.2.2.2.2.1
      have hidY : c1.origin.publicID = o.publicID := hgrow.1
      have hfindt : t.findPick = sA.findPick := findPick_congr hcache
      have hminA : sA.minimumArrivalWeight = s.minimumArrivalWeight :=
        kA.2.1.trans kR.2.1
      have hminY : sY.minimumArrivalWeight = s.minimumArrivalWeight := by
        rw [y1.2.2.2.2.2.2.2.2.1, hsameAt.2.2.2.2.2.2.2.2.1]
        exact hminA
      have hamplY : sY.ampl = sA.ampl := by
        rw [y1.2.2.2.2.2.2.2.2.2.2, hsameAt.2.2.2.2.2.2.2.2.2.2]
      -- what the first retrieval left is still there
      have hpickR : ∀ arr ∈ o.arrivals,
          ((s.retrieveMissingPicksAndArrivalsFromDB app origin).findPick arr.pickID).isSome = true →
          (sY.findPick arr.pickID).isSome = true := by
        intro arr harr hsome
        rw [y5 arr harr, hfindt]
        exact kA.2.2.1 _ (List.mem_map.mpr ⟨arr, harr, rfl⟩) hsome
      have hamplR : ∀ k : String,
          (s.retrieveMissingPicksAndArrivalsFromDB app origin).ampl.any
            (fun e => decide (e.1 = k)) = true →
          sY.ampl.any (fun e => decide (e.1 = k)) = true := by
        intro k hk
        rw [hamplY]
        exact kA.2.2.2.2 k hk
      -- a pick missing at the second run was missing at the first run
      have hmiss : ∀ id, id ∈ sY.missingPicks app o.arrivals →
          id ∈ s.missingPicks app o.arrivals ∧ ∃ arr ∈ o.arrivals, arr.pickID = id ∧
            (sY.findPick id).isSome = false ∧
            sY.ampl.any (fun e => decide (e.1 = id)) = false := by
        intro id hid
        obtain ⟨arr, harr, hv, he, hf, ha⟩ := (mem_missingPicks app sY o.arrivals id).mp hid
        refine ⟨(mem_missingPicks app s o.arrivals id).mpr ⟨arr, harr, ?_, he, ?_, ?_⟩,
          arr, harr, he, hf, ha⟩
        · rw [← hminY]
          exact hv
        · cases hc : (s.findPick id).isSome with
          | false => rfl
          | true =>
            have := hpickR arr harr
              (kR.2.2.1 _ (List.mem_map.mpr ⟨arr, harr, rfl⟩) (by rw [he]; exact hc))
            rw [he, hf] at this
            cases this
        · cases hc : s.ampl.any (fun e => decide (e.1 = id)) with
          | false => rfl
          | true =>
            have := hamplR id (kR.2.2.2.2 id hc)
            rw [ha] at this
            cases this
      have hretY : sY.retrieveMissingPicksAndArrivalsFromDB app origin = sY := by
        apply retrieve_eq_self app sY origin c1.origin hoY
        intro q hq
        rw [harrY, hidY]
        obtain ⟨f1, f2⟩ := kfed q hq
        constructor
        · intro p hp hpm
          obtain ⟨hm1, arr, harr, he, hf, _⟩ := hmiss _ hpm
          cases hb : app.isAgencyIDBlocked (objectAgencyID p.creationInfo) with
          | true => rfl
          | false =>
            have := hpickR arr harr (by rw [he]; exact f1 p hp hm1 hb)
            rw [he, hf] at this
            cases this
        · intro a ha hpm
          obtain ⟨hm1, arr, harr, he, _, hfa⟩ := hmiss _ hpm
          by_contra hne1
          have := hamplR _ (f2 a ha hm1 hne1)
          rw [hfa] at this
          cases this
      -- the second arrival loop selects the same picks
      have hselY := arrivalLoop_lookup app harch origin o.arrivals sY []
      have hlook : ∀ arr ∈ o.arrivals, sY.lookupPick app arr.pickID =
          (s.retrieveMissingPicksAndArrivalsFromDB app origin).lookupPick app arr.pickID := by
        intro arr harr
        rw [lookupPick_congr app t sY arr.pickID (y5 arr harr),
          lookupPick_congr app sA t arr.pickID (by rw [hfindt]), kAl]
      rw [hminY, selectPicks_congr app _ _ _ o.arrivals [] hlook, ← kR.2.1, ← hsel] at hselY
      obtain ⟨_, sY_same, _⟩ := arrivalLoop_keeps app harch
        (o.arrivals.map (fun arr => arr.pickID)) o.publicID origin o.arrivals sY [] hne
      have b4 := arrivalLoop_heap app origin o.arrivals sY []
      have b5 := arrivalLoop_registry app origin o.arrivals sY []
      rcases hloopY : MagTool.arrivalLoop app origin o.arrivals sY [] with ⟨sY2, r⟩
      rw [hloopY] at hselY sY_same b4 b5
      simp only at hselY sY_same b4 b5
      subst hselY
      have hloopY1 : MagTool.arrivalLoop app origin c1.origin.arrivals
          (sY.retrieveMissingPicksAndArrivalsFromDB app origin) [] = (sY2, some m) := by
        rw [hretY, harrY]
        exact hloopY
      have hc1 : (⟨c1.origin, sY2.registry⟩ : OriginCtx) = c1 := by
        rw [b5, y4, hreg]
      have hs22 : sA.sameSetup sY2 :=
        sameSetup_trans hsameAt (sameSetup_trans y1 sY_same)
      obtain ⟨_, g2, g3⟩ := processSelected_again app hrefl sA sY2 hs22 depth m _ c1 hps
      refine ⟨sY2.store origin c1, ?_, ?_, ?_⟩
      · rw [processOrigin_arrivalLoop app sY origin c1.origin depth sY2 m hoY hdY hloopY1, hc1, g2]
      · simp only [MagTool.store, b4]
        rw [modifyAt_self _ _ _ hoY]
        exact y3
      · rw [processOriginSummary_arrivalLoop app sY origin c1.origin depth sY2 m hoY hdY hloopY1,
          hc1, g3]



/-- What the completion of an origin from the archive leaves and loads. -/
theorem completeOrigin_some (app : App) (q : DatabaseQuery) (hq : app.query = some q)
    (o oc : Origin) (h : app.completeOrigin o = some oc) :
    oc.publicID = o.publicID ∧ oc.creationInfo = o.creationInfo ∧
    oc.evaluationStatus = o.evaluationStatus ∧ oc.arrivals.length ≠ 0 ∧
    oc.magnitudes = (if o.magnitudes.length = 0 then
      (q.loadMagnitudes o.publicID).map q.loadMagnitude else o.magnitudes) ∧
    oc.stationMagnitudes = (if o.stationMagnitudes.length = 0 then
      q.loadStationMagnitudes o.publicID else o.stationMagnitudes) := by
  unfold App.completeOrigin at h
  simp only [hq] at h
  by_cases ha : o.arrivals.length = 0
  · simp only [ha, if_true] at h
    by_cases ha1 : (q.loadArrivals o.publicID).length = 0
    · simp only [ha1, if_true] at h
      cases h
    · simp only [ha1, if_false, Option.some.injEq] at h
      subst h
      refine ⟨?_, ?_, ?_, ?_, ?_, ?_⟩ <;> by_cases hm : o.magnitudes.length = 0 <;>
        by_cases hs : o.stationMagnitudes.length = 0 <;>
        simp only [hm, hs, if_true, if_false] <;> first | rfl | exact ha1
  · simp only [ha, if_false, Option.some.injEq] at h
    subst h
    refine ⟨?_, ?_, ?_, ?_, ?_, ?_⟩ <;> by_cases hm : o.magnitudes.length = 0 <;>
      by_cases hs : o.stationMagnitudes.length = 0 <;>
      simp only [hm, hs, if_true, if_false] <;> first | rfl | exact ha

/-- The completion of an origin changes nothing on an origin that was completed
and has lost none of its children since. -/
theorem completeOrigin_again (app : App) (q : DatabaseQuery) (hq : app.query = some q)
    (o oc o1 : Origin) (h : app.completeOrigin o = some oc)
    (hid : o1.publicID = oc.publicID) (harr : o1.arrivals = oc.arrivals)
    (hm : o1.magnitudes.length = 0 → oc.magnitudes.length = 0)
    (hs : o1.stationMagnitudes.length = 0 → oc.stationMagnitudes.length = 0) :
    app.completeOrigin o1 = some o1 := by
  obtain ⟨c1, _, _, c4, c5, c6⟩ := completeOrigin_some app q hq o oc h
  have ha1 : ¬ o1.arrivals.length = 0 := by rw [harr]; exact c4
  have hm1 : o1.magnitudes.length = 0 →
      (q.loadMagnitudes o1.publicID).map q.loadMagnitude = o1.magnitudes := by
    intro h0
    have h1 := hm h0
    rw [List.length_eq_zero.mp h0, hid, c1]
    by_cases hom : o.magnitudes.length = 0
    · rw [if_pos hom] at c5
      rw [← c5]
      exact List.length_eq_zero.mp h1
    · rw [if_neg hom] at c5
      rw [c5] at h1
      exact absurd h1 hom
  have hs1 : o1.stationMagnitudes.length = 0 →
      q.loadStationMagnitudes o1.publicID = o1.stationMagnitudes := by
    intro h0
    have h1 := hs h0
    rw [List.length_eq_zero.mp h0, hid, c1]
    by_cases hos : o.stationMagnitudes.length = 0
    · rw [if_pos hos] at c6
      rw [← c6]
      exact List.length_eq_zero.mp h1
    · rw [if_neg hos] at c6
      rw [c6] at h1
      exact absurd h1 hos
  unfold App.completeOrigin
  simp only [hq, if_neg ha1]
  by_cases hm0 : o1.magnitudes.length = 0 <;> by_cases hs0 : o1.stationMagnitudes.length = 0
  · simp only [hm0, hs0, if_true, hm1 hm0, hs1 hs0]
  · simp only [hm0, hs0, if_true, if_false, hm1 hm0]
  · simp only [hm0, hs0, if_true, if_false, hs1 hs0]
  · simp only [hm0, hs0, if_false]

theorem findOrigin_some (s : MagTool) (id : String) (ptr : Nat)
    (h : s.findOrigin id = some ptr) : ∃ o, s.heap[ptr]? = some o ∧ o.publicID = id := by
  unfold MagTool.findOrigin at h
  obtain ⟨x, _, hx⟩ := List.exists_of_findSome?_eq_some h
  cases x with
  | pick p => cases hx
  | amplitude a => cases hx
  | origin ptr1 =>
    simp only at hx
    split at hx
    · rename_i hc
      cases hx
      cases ho : s.heap[ptr]? with
      | none => rw [ho] at hc; cases hc
      | some o =>
        rw [ho] at hc
        simp only [Option.map_some', Option.some.injEq] at hc
        exact ⟨o, rfl, hc⟩
    · cases hx

theorem distinctPublicIDs_congr (app : App) (o o1 : Origin) (h1 : o1.arrivals = o.arrivals)
    (h2 : o1.publicID = o.publicID) (h : distinctPublicIDs app o1) : distinctPublicIDs app o := by
  intro q hq
  have := h q hq
  rw [h1, h2] at this
  exact this

/-- A run of `processOrigin` that returns true leaves at the address of the
origin an origin with the same public id and the same arrivals. -/
theorem processOrigin_origin (app : App) (hrefl : ∀ w, app.equivalent w w = true)
    (s t : MagTool) (origin : Nat) (o : Origin) (ho : s.heap[origin]? = some o)
    (h : s.processOrigin app origin = (t, some true)) :
    ∃ o1, t.heap[origin]? = some o1 ∧ o1.arrivals = o.arrivals ∧ o1.publicID = o.publicID := by
  have hR := retrieveMissingPicksAndArrivalsFromDB_heap app s origin
  cases hdep : o.depth with
  | none =>
    unfold MagTool.processOrigin at h
    simp only [hR, ho, hdep] at h
    simp at h
  | some depth =>
    have a4 := arrivalLoop_heap app origin o.arrivals
      (s.retrieveMissingPicksAndArrivalsFromDB app origin) []
    rcases hloop : MagTool.arrivalLoop app origin o.arrivals
        (s.retrieveMissingPicksAndArrivalsFromDB app origin) [] with ⟨sA, _ | m⟩
    · unfold MagTool.processOrigin at h
      simp only [hR, ho, hdep, hloop] at h
      simp at h
    · rw [hloop] at a4
      simp only at a4
      rw [processOrigin_arrivalLoop app s origin o depth sA m ho hdep hloop] at h
      rcases hps : sA.processSelected app depth m ⟨o, sA.registry⟩ with ⟨c1, flag⟩
      rw [hps] at h
      simp only [Prod.mk.injEq] at h
      obtain ⟨h1, h2⟩ := h
      subst h2
      have hgrow := (processSelected_again app hrefl sA sA (sameSetup_refl _) depth m _ c1 hps).1
      refine ⟨c1.origin, ?_, hgrow.2.2.2.2.1, hgrow.1⟩
      rw [← h1]
      simp only [MagTool.store, a4, hR]
      rw [modifyAt_get?_eq, ho]
      rfl

theorem feedOrigin_first_archive (app : App) (s : MagTool) (origin : Nat)
    (o oc : Origin) (ho : s.heap[origin]? = some o)
    (hb : ¬ app.isAgencyIDBlocked (objectAgencyID o.creationInfo) = true)
    (hf : s.findOrigin o.publicID = none ∨ s.findOrigin o.publicID = some origin)
    (hr : ¬ o.evaluationStatus = some EvaluationStatus.REJECTED)
    (hco : app.completeOrigin o = some oc) :
    s.feedOrigin app origin =
        (({ s with heap := modifyAt (fun _ => oc) s.heap origin } : MagTool).cacheFeed
          (CachedObject.origin origin)).processOrigin app origin ∧
      s.feedOriginSummary app origin =
        (({ s with heap := modifyAt (fun _ => oc) s.heap origin } : MagTool).cacheFeed
          (CachedObject.origin origin)).processOriginSummary app origin := by
  unfold MagTool.feedOrigin MagTool.feedOriginSummary
  simp only [ho, if_neg hb, hco, if_neg hr]
  rcases hf with hf | hf
  · simp only [hf, and_self]
  · simp only [hf, ne_eq, not_true_eq_false, if_false, and_self]

/-- With an archive: a second `feed(Origin*)` of an origin whose first feed
returned true returns true again, leaves every origin object as it is, and its
summary step reports no update. -/
theorem feedOrigin_again_archive (app : App) (q : DatabaseQuery) (hq : app.query = some q)
    (hrefl : ∀ w, app.equivalent w w = true) (harch : archivePickIds app)
    (s s1 : MagTool) (origin : Nat)
    (h : s.feedOrigin app origin = (s1, some true))
    (hids : ∀ (ptr : Nat) (o1 : Origin), s1.heap[ptr]? = some o1 → distinctPublicIDs app o1) :
    ∃ s2, s1.feedOrigin app origin = (s2, some true) ∧ s2.heap = s1.heap ∧
      s1.feedOriginSummary app origin = some false := by
  cases ho : s.heap[origin]? with
  | none =>
    unfold MagTool.feedOrigin at h
    simp [ho] at h
  | some o =>
    by_cases hb : app.isAgencyIDBlocked (objectAgencyID o.creationInfo) = true
    · unfold MagTool.feedOrigin at h
      simp [ho, hb] at h
    by_cases hdup : ∃ registered, s.findOrigin o.publicID = some registered ∧ registered ≠ origin
    · obtain ⟨registered, hf, hne⟩ := hdup
      rw [(feedOrigin_duplicate app s origin registered o ho hb hf hne).1] at h
      obtain ⟨oR, hoR, hidR⟩ := findOrigin_some s o.publicID registered hf
      obtain ⟨oR1, hoR1, harr1, hid1⟩ := processOrigin_origin app hrefl s s1 registered oR hoR h
      have hdR : distinctPublicIDs app oR :=
        distinctPublicIDs_congr app oR oR1 harr1 hid1 (hids registered oR1 hoR1)
      obtain ⟨o1, reg, hheap, hgrow, _, hfo, hagain⟩ :=
        processOrigin_again_archive app hrefl harch s s1 registered oR hoR hdR h
      have ho1 : s1.heap[origin]? = some o := by
        rw [hheap, modifyAt_get?_ne _ _ _ _ hne, ho]
      have hf1 : s1.findOrigin o.publicID = some registered := by
        rw [← hidR, hfo, hidR]
        exact hf
      obtain ⟨s2, g1, g2, g3⟩ := hagain s1 (sameSetup_refl _) rfl rfl (fun _ _ => rfl)
      obtain ⟨d1, d2⟩ := feedOrigin_duplicate app s1 origin registered o ho1 hb hf1 hne
      exact ⟨s2, d1.trans g1, g2, d2.trans g3⟩
    · have hf : s.findOrigin o.publicID = none ∨ s.findOrigin o.publicID = some origin := by
        cases hfo : s.findOrigin o.publicID with
        | none => exact Or.inl rfl
        | some registered =>
          right
          by_cases he : registered = origin
          · rw [he]
          · exact absurd ⟨registered, hfo, he⟩ hdup
      by_cases hr : o.evaluationStatus = some EvaluationStatus.REJECTED
      · unfold MagTool.feedOrigin at h
        rcases hf with hf | hf <;> simp [ho, hb, hf, hr] at h
      cases hco : app.completeOrigin o with
      | none =>
        unfold MagTool.feedOrigin at h
        rcases hf with hf | hf <;> simp [ho, hb, hf, hr, hco] at h
      | some oc =>
        rw [(feedOrigin_first_archive app s origin o oc ho hb hf hr hco).1] at h
        obtain ⟨c1, c2, c3, c4, _, _⟩ := completeOrigin_some app q hq o oc hco
        have hoH : ({ s with heap := modifyAt (fun _ => oc) s.heap origin } : MagTool).heap[origin]?
            = some oc := by
          simp only
          rw [modifyAt_get?_eq, ho]
          rfl
        have ho0 : (({ s with heap := modifyAt (fun _ => oc) s.heap origin } : MagTool).cacheFeed
            (CachedObject.origin origin)).heap[origin]? = some oc := hoH
        obtain ⟨o1, ho1, harr1, hid1⟩ := processOrigin_origin app hrefl _ s1 origin oc ho0 h
        have hdc : distinctPublicIDs app oc :=
          distinctPublicIDs_congr app oc o1 harr1 hid1 (hids origin o1 ho1)
        obtain ⟨o1x, reg, hheap, hgrow, hlen, hfo, hagain⟩ :=
          processOrigin_again_archive app hrefl harch _ s1 origin oc ho0 hdc h
        have ho1x : s1.heap[origin]? = some o1x := by
          rw [hheap, modifyAt_get?_eq, ho0]
          rfl
        have hox : o1x = o1 := by
          rw [ho1] at ho1x
          exact (Option.some.inj ho1x).symm
        subst hox
        obtain ⟨_, _, hev, hci, _, ⟨extra, hkeys⟩, _⟩ := hgrow
        simp only at hev hci hkeys
        have hf1 : s1.findOrigin o1x.publicID = some origin := by
          rw [hid1, hfo]
          exact findOrigin_cacheFeed _ origin oc hoH
        have hb1 : ¬ app.isAgencyIDBlocked (objectAgencyID o1x.creationInfo) = true := by
          rw [hci, c2]; exact hb
        have hr1 : ¬ o1x.evaluationStatus = some EvaluationStatus.REJECTED := by
          rw [hev, c3]; exact hr
        have hsta : o1x.stationMagnitudes.length = 0 → oc.stationMagnitudes.length = 0 := by
          intro h0
          have hl := congrArg List.length hkeys
          simp only [List.length_map, List.length_append] at hl
          omega
        have hco1 : app.completeOrigin o1x = some o1x :=
          completeOrigin_again app q hq o oc o1x hco hid1 harr1 (fun h0 => by omega) hsta
        have hself : modifyAt (fun _ => o1x) s1.heap origin = s1.heap :=
          modifyAt_self _ _ _ ho1
        have hsY : ({ s1 with heap := modifyAt (fun _ => o1x) s1.heap origin } : MagTool) = s1 := by
          rw [hself]
        have hpick : ∀ arr ∈ oc.arrivals,
            (s1.cacheFeed (CachedObject.origin origin)).findPick arr.pickID =
              s1.findPick arr.pickID := by
          intro arr harr
          apply findPick_cacheFeed_other
          · intro p hp; cases hp
          · simp only [MagTool.cachedPublicID, ho1, Option.map_some', ne_eq, Option.some.injEq]
            rw [hid1]
            exact fun he => (hdc q hq).1 arr harr he.symm
        obtain ⟨s2, g1, g2, g3⟩ := hagain (s1.cacheFeed (CachedObject.origin origin))
          (cacheFeed_sameSetup _ _) rfl rfl hpick
        obtain ⟨d1, d2⟩ := feedOrigin_first_archive app s1 origin o1x o1x ho1 hb1 (Or.inr hf1)
          hr1 hco1
        rw [hsY] at d1 d2
        exact ⟨s2, d1.trans g1, g2, d2.trans g3⟩


/-- C4 (upsert idempotence). The stream comparison `equivalent` is reflexive and
the archive, if there is one, returns for a public id a pick with that id.
Whenever `feed(Origin*)` returns true from any engine state, and public ids
identify one object on the origins the engine then holds (no arrival names as
its pick the public id of its origin or of an amplitude of the archive, and no
amplitude of the archive has the public id of the origin), a second
`feed(Origin*)` of the same origin object, with nothing fed in between and the
archive as it was, returns true, leaves every origin object of the engine
exactly as the first feed left it (so every station magnitude and every network
magnitude keeps its value), and the call of `computeSummaryMagnitude` it makes
returns false. -/
theorem feedOrigin_idempotent (app : App)
    (hrefl : ∀ w, app.equivalent w w = true) (harch : archivePickIds app)
    (s s1 : MagTool) (origin : Nat)
    (h : s.feedOrigin app origin = (s1, some true))
    (hids : ∀ (ptr : Nat) (o1 : Origin), s1.heap[ptr]? = some o1 → distinctPublicIDs app o1) :
    ∃ s2, s1.feedOrigin app origin = (s2, some true) ∧ s2.heap = s1.heap ∧
      s1.feedOriginSummary app origin = some false := by
  cases hq : app.query with
  | none => exact feedOrigin_again app hq hrefl s s1 origin h
  | some q => exact feedOrigin_again_archive app q hq hrefl harch s s1 origin h hids

/-- C4, witness: an archive holds the pick `P6` and an amplitude on it for the
origin `O7`, whose second arrival names `P6`; the engine holds the pick and the
amplitude of the first arrival. The first feed of `O7` reads the pick and the
amplitude from the archive, computes two station magnitudes, the network
magnitude `MLv` 4 and the summary magnitude and returns true; the second feed
returns true, changes no origin and its summary step reports no update. -/
theorem feedOrigin_idempotent_witness :
    (archiveTool.feedOrigin (archiveApp laterArchive) 0).2 = some true ∧
    ((archiveTool.feedOrigin (archiveApp laterArchive) 0).1.heap[0]?).map
      (fun o => (o.stationMagnitudes.map (fun m => (m.type, m.magnitude.value)),
        o.magnitudes.map (fun m => (m.type, m.magnitude.value, m.stationCount)))) =
      some ([("MLv", 3), ("MLv", 5)], [("MLv", 4, some 2), ("M", 4, some 2)]) ∧
    ∃ s2, (archiveTool.feedOrigin (archiveApp laterArchive) 0).1.feedOrigin
        (archiveApp laterArchive) 0 = (s2, some true) ∧
      s2.heap = (archiveTool.feedOrigin (archiveApp laterArchive) 0).1.heap ∧
      (archiveTool.feedOrigin (archiveApp laterArchive) 0).1.feedOriginSummary
        (archiveApp laterArchive) 0 = some false := by
  refine ⟨by decide!, by decide!, ?_⟩
  apply feedOrigin_idempotent (archiveApp laterArchive) (by intro w; simp [archiveApp, evalApp])
    ?_ archiveTool (archiveTool.feedOrigin (archiveApp laterArchive) 0).1 0
    (Prod.ext rfl (by decide!)) ?_
  · intro q hq id p hp
    simp only [archiveApp, Option.some.injEq] at hq
    subst hq
    simp only [laterArchive] at hp
    split at hp
    · rename_i hid
      cases hp
      rw [hid]
      rfl
    · cases hp
  · intro ptr o1 ho1
    have hheap : (archiveTool.feedOrigin (archiveApp laterArchive) 0).1.heap.map
        (fun o => (o.publicID, o.arrivals.map (fun arr => arr.pickID))) =
        [("O7", ["P5", "P6"])] := by decide!
    have hmem : (o1.publicID, o1.arrivals.map (fun arr => arr.pickID)) ∈
        (archiveTool.feedOrigin (archiveApp laterArchive) 0).1.heap.map
          (fun o => (o.publicID, o.arrivals.map (fun arr => arr.pickID))) :=
      List.mem_map.mpr ⟨o1, List.getElem?_mem ho1, rfl⟩
    rw [hheap] at hmem
    simp only [List.mem_singleton, Prod.mk.injEq] at hmem
    obtain ⟨hid, harr⟩ := hmem
    have hpick : ∀ arr ∈ o1.arrivals, arr.pickID = "P5" ∨ arr.pickID = "P6" := by
      intro arr ha
      have : arr.pickID ∈ o1.arrivals.map (fun arr => arr.pickID) :=
        List.mem_map.mpr ⟨arr, ha, rfl⟩
      rw [harr] at this
      simpa using this
    intro q hq
    simp only [archiveApp, Option.some.injEq] at hq
    subst hq
    refine ⟨?_, ?_⟩
    · intro arr ha
      rw [hid]
      rcases hpick arr ha with h | h <;> rw [h] <;> decide
    · intro x a hx
      simp only [laterArchive] at hx
      split at hx
      · cases hx
        rw [hid]
        refine ⟨by decide, ?_⟩
        intro arr ha
        rcases hpick arr ha with h | h <;> rw [h] <;> decide
      · cases hx

end Magnitudes
